import Mathlib

/-!
Box-drawing glyph rasteriser of kitty (`kitty/decorations.c`)

A shallow embedding of the procedural glyph rasteriser and of the decoration
functions (underlines, strikethrough, missing glyph, cursors) of the same file,
and of the properties stated about them.

Modelling conventions

* Memory is a function from addresses to bytes (`Mem`).  A canvas owns the
  `width * height` bytes starting at its `mask` address, row-major; pixel
  `(x, y)` lives at `mask + y * width + x`.
* `uint` values are natural numbers.  Arithmetic on them is exact, i.e. cell
  sizes are taken in the range where the 32-bit operations of the source do
  not wrap.  The two branch-free helpers whose mechanism *is* the wrap-around
  are kept in their word-level form (`minus_wrapping`, `plus`).
* Expressions the source assigns to an `int` are computed in `Int` exactly.  Where
  the source passes a possibly negative `int` as a `uint` the conversion wraps
  (`to_uint`), subtractions written without `minus` wrap (`wsub`), and
  `get_holes` converts its `uint` position back to `int` (`to_int`).
* Memory is flat: an access outside the canvas is an access to the byte at that
  address.  The temporary buffer of `mirror_horizontally` is a separate zeroed memory.
* `double` values are rationals (exact arithmetic).  The transcendental
  functions of the C library and the configuration read through `OPT(...)`
  are carried in an explicit environment (`Options`).
* A function that can divide by zero returns an `Option`: `none` stands for the
  division by zero (`distribute_dots`, `add_dotted_underline`).  `shade_checked` and
  `thickness_checked` are `shade` and `thickness` with their integer divisions and their
  table read checked in the same way.
* Counted `for` loops are `forLoop lo hi body`; `while` loops carry an iteration
  bound.
-/

namespace Kitty


/-! ## Memory and loops -/

/-- One byte per address. -/
abbrev Mem := Nat → Nat

/-- C `memset(base + off, byte, n)`. -/
def memset (m : Mem) (off byte n : Nat) : Mem :=
  fun a => if off ≤ a ∧ a < off + n then byte else m a

/-- Single byte store `base[a] = v`. -/
def store (m : Mem) (a v : Nat) : Mem :=
  fun i => if i = a then v else m i

/-- The first `n` iterations of a loop whose counter starts at `lo`. -/
def loopN {σ : Type} (body : Nat → σ → σ) (lo : Nat) : Nat → σ → σ
  | 0, s => s
  | n + 1, s => body (lo + n) (loopN body lo n s)

/-- C loop `for (i = lo; i < hi; i++) body`. -/
def forLoop {σ : Type} (lo hi : Nat) (body : Nat → σ → σ) (s : σ) : σ :=
  loopN body lo (hi - lo) s

/-! ## Configuration and canvas -/

/-- Values the source reads from outside the file: the `box_drawing_scale`
table of the global options (entry `i` in points; an index at or beyond
`box_drawing_scale_size` stands for whatever lies behind the array), the
supersampling constant, the C library functions used on doubles and the two cursor
thicknesses (`OPT(cursor_beam_thickness)`, `OPT(cursor_underline_thickness)`, in points). -/
structure Options where
  box_drawing_scale : Nat → ℚ
  box_drawing_scale_size : Nat
  SUPERSAMPLE_FACTOR : Nat
  cos : ℚ → ℚ
  sin : ℚ → ℚ
  pow : ℚ → ℚ → ℚ
  M_PI : ℚ
  cursor_beam_thickness : ℚ := 3 / 2
  cursor_underline_thickness : ℚ := 2

/-- Half-open pixel interval `[start, end)`. -/
structure Range where
  start : Nat
  end_ : Nat
  deriving DecidableEq

/-- Per-column vertical bounds used by `fill_region`. -/
structure Limit where
  upper : ℚ
  lower : ℚ

/-- The `Canvas` struct.  `mask` is the address of the first pixel.  The two
scratch arrays are given by their contents, their element count and their
capacity; `y_limits_null` tells whether `y_limits` is still the null pointer. -/
structure Canvas where
  mask : Nat
  width : Nat
  height : Nat
  supersample_factor : Nat
  dpi_x : ℚ
  dpi_y : ℚ
  holes : Nat → Range
  holes_count : Nat
  holes_capacity : Nat
  y_limits : Nat → Limit
  y_limits_null : Bool
  y_limits_count : Nat
  y_limits_capacity : Nat

/-- Address of pixel `(x, y)` of a canvas. -/
def Canvas.addr (self : Canvas) (x y : Nat) : Nat :=
  self.mask + y * self.width + x

/-- Value of pixel `(x, y)` of a canvas in memory `m`. -/
def Canvas.pixel (self : Canvas) (m : Mem) (x y : Nat) : Nat :=
  m (self.addr x y)

/-- Source `fill_canvas`. -/
def fill_canvas (self : Canvas) (byte : Nat) (m : Mem) : Mem :=
  memset m self.mask byte (self.width * self.height)

/-- Source `thickness`: line weight in pixels for a level. -/
def thickness (o : Options) (self : Canvas) (level : Nat) (horizontal : Bool) : Nat :=
  let level := min level o.box_drawing_scale_size
  let pts := o.box_drawing_scale level
  let dpi := if horizontal then self.dpi_x else self.dpi_y
  self.supersample_factor * Int.toNat ⌈pts * dpi / 72⌉

/-- Source `minus`, as documented there: saturating subtraction
`(a > b ? a - b : 0)`. -/
def minus (a b : Nat) : Nat :=
  if a > b then a - b else 0

/-- Source `minus`, body as written: the 32-bit subtraction `res = a - b`, then
`res &= -(res <= a)`, where the mask `-(res <= a)` is `0xFFFFFFFF` when the comparison holds
and `0` otherwise. -/
def minus_wrapping (a b : Nat) : Nat :=
  let res := (a + (4294967296 - b % 4294967296)) % 4294967296
  let mask := (4294967296 - (if res ≤ a then 1 else 0)) % 4294967296
  res &&& mask

/-- Source `plus`: 8-bit addition, all bits set when it wrapped around
(`res |= -(res < a)`). -/
def plus (a b : Nat) : Nat :=
  let res := (a + b) % 256
  res ||| (if res < a then 255 else 0)

/-! ## Downsampling -/

/-- Source `average_intensity`. -/
def average_intensity (src : Canvas) (m : Mem) (dest_x dest_y : Nat) : Nat :=
  let src_x := dest_x * src.supersample_factor
  let src_y := dest_y * src.supersample_factor
  let total := forLoop src_y (src_y + src.supersample_factor) (fun y total =>
    let offset := src.width * y
    forLoop src_x (src_x + src.supersample_factor) (fun x total =>
      total + m (src.mask + (offset + x))) total) 0
  (total / (src.supersample_factor * src.supersample_factor)) % 256

/-- Source `downsample`. -/
def downsample (src dest : Canvas) (m : Mem) : Mem :=
  forLoop 0 dest.height (fun y m =>
    let offset := dest.width * y
    forLoop 0 dest.width (fun x m =>
      store m (dest.mask + (offset + x))
        (plus (m (dest.mask + (offset + x))) (average_intensity src m x y))) m) m

/-- The sum `S` of the `f × f` source pixels with columns `f·x .. f·x+f-1` and
rows `f·y .. f·y+f-1` (the block of destination pixel `(x, y)`). -/
def block_sum (src : Canvas) (m : Mem) (dest_x dest_y : Nat) : Nat :=
  ∑ j in Finset.range src.supersample_factor, ∑ i in Finset.range src.supersample_factor,
    m (src.addr (src.supersample_factor * dest_x + i) (src.supersample_factor * dest_y + j))

/-- A canvas as set up by a designated initialiser: the given fields, scratch
arrays null and empty. -/
def Canvas.init (mask width height supersample_factor : Nat) (dpi_x dpi_y : ℚ) : Canvas :=
  { mask := mask, width := width, height := height, supersample_factor := supersample_factor,
    dpi_x := dpi_x, dpi_y := dpi_y,
    holes := fun _ => ⟨0, 0⟩, holes_count := 0, holes_capacity := 0,
    y_limits := fun _ => ⟨0, 0⟩, y_limits_null := true, y_limits_count := 0,
    y_limits_capacity := 0 }

/-! ## Integer conversions and small helpers -/

/-- Unsigned 32-bit subtraction `a - b` written without `minus`: it wraps around. -/
def wsub (a b : Nat) : Nat :=
  (a + (4294967296 - b % 4294967296)) % 4294967296

/-- Conversion of an `int` to `uint` (negative values wrap around). -/
def to_uint (v : Int) : Nat := (v % 4294967296).toNat

/-- Conversion of a `uint` to `int` (values from `2^31` on become negative). -/
def to_int (n : Nat) : Int :=
  if n % 4294967296 < 2147483648 then ((n % 4294967296 : Nat) : Int)
  else ((n % 4294967296 : Nat) : Int) - 4294967296

/-- Conversion of a `double` to an integer type: truncation toward zero. -/
def trunc (q : ℚ) : Int := if 0 ≤ q then ⌊q⌋ else ⌈q⌉

/-- C `fabs`. -/
def fabs (q : ℚ) : ℚ := if 0 ≤ q then q else -q

/-- C `round` on doubles: to nearest, halves away from zero. -/
def round_half_away (q : ℚ) : Int := if 0 ≤ q then ⌊q + 1 / 2⌋ else ⌈q - 1 / 2⌉

/-- The `Edge` bit flags (`LEFT_EDGE`, `TOP_EDGE`, `RIGHT_EDGE`, `BOTTOM_EDGE`) as the
set of edges whose bit is set.  A `Corner` is a value with two bits set. -/
structure Edge where
  left : Bool
  top : Bool
  right : Bool
  bottom : Bool
  deriving DecidableEq

def NO_EDGE : Edge := ⟨false, false, false, false⟩
def LEFT_EDGE : Edge := ⟨true, false, false, false⟩
def TOP_EDGE : Edge := ⟨false, true, false, false⟩
def RIGHT_EDGE : Edge := ⟨false, false, true, false⟩
def BOTTOM_EDGE : Edge := ⟨false, false, false, true⟩

/-- Bitwise or of edge flags. -/
def Edge.or (a b : Edge) : Edge :=
  ⟨a.left || b.left, a.top || b.top, a.right || b.right, a.bottom || b.bottom⟩

def TOP_LEFT : Edge := LEFT_EDGE.or TOP_EDGE
def TOP_RIGHT : Edge := TOP_EDGE.or RIGHT_EDGE
def BOTTOM_LEFT : Edge := BOTTOM_EDGE.or LEFT_EDGE
def BOTTOM_RIGHT : Edge := BOTTOM_EDGE.or RIGHT_EDGE

/-- Source `Point`: a pair of 32-bit signed coordinates. -/
structure Point where
  x : Int
  y : Int
  deriving DecidableEq

/-! ## Straight lines of the box-drawing block -/

/-- Source `draw_hline`: a horizontal line between `[x1, x2)` centred at `y`. -/
def draw_hline (o : Options) (self : Canvas) (x1 x2 y level : Nat) (m : Mem) : Mem :=
  let sz := thickness o self level false
  let start := minus y (sz / 2)
  forLoop start (min (start + sz) self.height) (fun y m =>
    memset m (self.mask + (y * self.width + x1)) 255 (minus x2 x1)) m

/-- Source `draw_vline`: a vertical line between `[y1, y2)` centred at `x`. -/
def draw_vline (o : Options) (self : Canvas) (y1 y2 x level : Nat) (m : Mem) : Mem :=
  let sz := thickness o self level true
  let start := minus x (sz / 2)
  let end_ := min (start + sz) self.width
  let xsz := minus end_ start
  forLoop y1 y2 (fun y m =>
    memset m (self.mask + (y * self.width + start)) 255 xsz) m

/-- Source `half_width`. -/
def half_width (self : Canvas) : Nat :=
  self.supersample_factor * (self.width / 2 / self.supersample_factor)

/-- Source `half_height`. -/
def half_height (self : Canvas) : Nat :=
  self.supersample_factor * (self.height / 2 / self.supersample_factor)

/-- Source `half_hline`. -/
def half_hline (o : Options) (self : Canvas) (level : Nat) (right_half : Bool) (extend_by : Nat)
    (m : Mem) : Mem :=
  let x1 := if right_half then minus (half_width self) extend_by else 0
  let x2 := if right_half then self.width else half_width self + extend_by
  draw_hline o self x1 x2 (half_height self) level m

/-- Source `half_vline`. -/
def half_vline (o : Options) (self : Canvas) (level : Nat) (bottom_half : Bool) (extend_by : Nat)
    (m : Mem) : Mem :=
  let y1 := if bottom_half then minus (half_height self) extend_by else 0
  let y2 := if bottom_half then self.height else half_height self + extend_by
  draw_vline o self y1 y2 (half_width self) level m

/-- Source `hline`. -/
def hline (o : Options) (self : Canvas) (level : Nat) (m : Mem) : Mem :=
  half_hline o self level true 0 (half_hline o self level false 0 m)

/-- Source `vline`. -/
def vline (o : Options) (self : Canvas) (level : Nat) (m : Mem) : Mem :=
  half_vline o self level true 0 (half_vline o self level false 0 m)

/-- Source `half_dhline`; returns the two line positions as a `Point`. -/
def half_dhline (o : Options) (self : Canvas) (level : Nat) (right_half : Bool) (which : Edge)
    (m : Mem) : Point × Mem :=
  let x1 := if right_half then self.width / 2 else 0
  let x2 := if right_half then self.width else self.width / 2
  let gap := thickness o self (level + 1) false
  let ans : Point := ⟨(((self.height / 2 : Nat) : Int) - (gap : Int)), ((self.height / 2 + gap : Nat) : Int)⟩
  let m := if which.top then draw_hline o self x1 x2 (to_uint ans.x) level m else m
  let m := if which.bottom then draw_hline o self x1 x2 (to_uint ans.y) level m else m
  (ans, m)

/-- Source `half_dvline`; returns the two line positions as a `Point`. -/
def half_dvline (o : Options) (self : Canvas) (level : Nat) (bottom_half : Bool) (which : Edge)
    (m : Mem) : Point × Mem :=
  let y1 := if bottom_half then self.height / 2 else 0
  let y2 := if bottom_half then self.height else self.height / 2
  let gap := thickness o self (level + 1) true
  let ans : Point := ⟨(((self.width / 2 : Nat) : Int) - (gap : Int)), ((self.width / 2 + gap : Nat) : Int)⟩
  let m := if which.left then draw_vline o self y1 y2 (to_uint ans.x) level m else m
  let m := if which.right then draw_vline o self y1 y2 (to_uint ans.y) level m else m
  (ans, m)

/-- Source `dhline`. -/
def dhline (o : Options) (self : Canvas) (level : Nat) (which : Edge) (m : Mem) : Point × Mem :=
  half_dhline o self level true which (half_dhline o self level false which m).2

/-- Source `dvline`. -/
def dvline (o : Options) (self : Canvas) (level : Nat) (which : Edge) (m : Mem) : Point × Mem :=
  half_dvline o self level true which (half_dvline o self level false which m).2

/-! ## Scratch arrays, holes and region fill -/

/-- Source macro `ensure_space_for`: the capacity after making room for `num`
elements (`initial_cap` is the canvas width for both scratch arrays). -/
def ensure_space_for (capacity num initial_cap : Nat) : Nat :=
  if capacity < num then max initial_cap (max (2 * capacity) num) else capacity

/-- Source `append_hole`. -/
def append_hole (self : Canvas) (hole : Range) : Canvas :=
  { self with
    holes_capacity := ensure_space_for self.holes_capacity (self.holes_count + 1) self.width
    holes := fun i => if i = self.holes_count then hole else self.holes i
    holes_count := self.holes_count + 1 }

/-- Source `append_limit`. -/
def append_limit (self : Canvas) (upper lower : ℚ) : Canvas :=
  { self with
    y_limits_capacity := ensure_space_for self.y_limits_capacity (self.y_limits_count + 1) self.width
    y_limits_null := false
    y_limits := fun i => if i = self.y_limits_count then ⟨upper, lower⟩ else self.y_limits i
    y_limits_count := self.y_limits_count + 1 }

/-- The constant `hole_factor`. -/
def hole_factor : Nat := 8

/-- The `while (pos < (int)sz)` loop of `get_holes`; `fuel` bounds the number of
iterations (each one advances `pos` by at least one pixel). -/
def get_holes_loop (sz hole_sz individual_block_size : Nat) : Nat → Int → Canvas → Canvas
  | 0, _, self => self
  | fuel + 1, pos, self =>
    if pos < to_int sz then
      let left := if pos > 0 then to_uint pos else 0
      let right := min sz (to_uint (pos + (hole_sz : Int)))
      let self := if right > left then append_hole self ⟨left, right⟩ else self
      get_holes_loop sz hole_sz individual_block_size fuel
        (to_int (right + individual_block_size)) self
    else self

/-- Source `get_holes`. -/
def get_holes (self : Canvas) (sz hole_sz num : Nat) : Canvas :=
  let all_holes_use := (num + 1) * hole_sz
  let individual_block_size := max 1 (minus sz all_holes_use / (num + 1))
  let half_hole_sz := hole_sz / 2
  let pos : Int := to_int (wsub 0 half_hole_sz)
  get_holes_loop sz hole_sz individual_block_size (sz + 1) pos self

/-- Source `add_hholes`. -/
def add_hholes (o : Options) (self : Canvas) (level num : Nat) (m : Mem) : Canvas × Mem :=
  let line_sz := thickness o self level true
  let hole_sz := self.width / hole_factor
  let start := minus (self.height / 2) (line_sz / 2)
  let self := get_holes self self.width hole_sz num
  (self, forLoop 0 (start + line_sz) (fun y m =>
    let offset := y * self.width
    forLoop 0 self.holes_count (fun i m =>
      memset m (self.mask + (offset + (self.holes i).start)) 0
        ((self.holes i).end_ - (self.holes i).start)) m) m)

/-- Source `add_vholes`. -/
def add_vholes (o : Options) (self : Canvas) (level num : Nat) (m : Mem) : Canvas × Mem :=
  let line_sz := thickness o self level false
  let hole_sz := self.height / hole_factor
  let start := minus (self.width / 2) (line_sz / 2)
  let self := get_holes self self.height hole_sz num
  (self, forLoop 0 self.holes_count (fun i m =>
    forLoop (self.holes i).start (self.holes i).end_ (fun y m =>
      let offset := y * self.width
      memset m (self.mask + (offset + start)) 0 line_sz) m) m)

/-- Source `hholes`. -/
def hholes (o : Options) (self : Canvas) (level num : Nat) (m : Mem) : Canvas × Mem :=
  add_hholes o self level num (hline o self level m)

/-- Source `vholes`. -/
def vholes (o : Options) (self : Canvas) (level num : Nat) (m : Mem) : Canvas × Mem :=
  add_vholes o self level num (vline o self level m)

/-- Source `StraightLine`. -/
structure StraightLine where
  m : ℚ
  c : ℚ

/-- Source `line_from_points`. -/
def line_from_points (x1 y1 x2 y2 : ℚ) : StraightLine :=
  let m := (y2 - y1) / (x2 - x1)
  ⟨m, y1 - m * x1⟩

/-- Source `line_y`. -/
def line_y (l : StraightLine) (x : Int) : ℚ :=
  l.m * x + l.c

/-- Source macro `calc_limits`: allocate `y_limits` for `width` columns if it is
still null, then set the limits of every column. -/
def calc_limits (self : Canvas) (lower_y upper_y : Nat → ℚ) : Canvas :=
  let self := if self.y_limits_null then
      { self with y_limits_count := self.width, y_limits_null := false }
    else self
  { self with y_limits := fun x => if x < self.width then ⟨upper_y x, lower_y x⟩ else self.y_limits x }

/-- Source `fill_region`. -/
def fill_region (self : Canvas) (inverted : Bool) (m : Mem) : Mem :=
  let full := if inverted then 0 else 255
  let empty := if inverted then 255 else 0
  forLoop 0 self.height (fun y m =>
    let offset := y * self.width
    forLoop 0 (min self.width self.y_limits_count) (fun x m =>
      store m (self.mask + (offset + x))
        (if (self.y_limits x).lower ≤ (y : ℚ) ∧ (y : ℚ) ≤ (self.y_limits x).upper then full else empty))
      m) m

/-- Source `triangle`. -/
def triangle (self : Canvas) (left inverted : Bool) (m : Mem) : Canvas × Mem :=
  let ay1 : Int := 0
  let by1 : Int := ((self.height : Int) - (1 : Int))
  let y2 : Int := ((self.height / 2 : Nat) : Int)
  let x1 : Int := if left then 0 else ((self.width : Int) - (1 : Int))
  let x2 : Int := if left then ((self.width : Int) - (1 : Int)) else 0
  let uppery := line_from_points x1 ay1 x2 y2
  let lowery := line_from_points x1 by1 x2 y2
  let self := calc_limits self (fun x => line_y uppery ((x : Int))) (fun x => line_y lowery ((x : Int)))
  (self, fill_region self inverted m)

/-- Source `thick_line`. -/
def thick_line (self : Canvas) (thickness_in_pixels : Nat) (p1 p2 : Point) (m : Mem) : Mem :=
  let q1 := if p1.x > p2.x then p2 else p1
  let q2 := if p1.x > p2.x then p1 else p2
  let l := line_from_points q1.x q1.y q2.x q2.y
  let delta : Int := (thickness_in_pixels : Int) / 2
  let extra : Int := (thickness_in_pixels : Int) % 2
  forLoop (if q1.x > 0 then q1.x.toNat else 0) (min ((self.width : Int)) (q2.x + 1)).toNat (fun x m =>
    let y_p := trunc (line_y l x)
    forLoop (max 0 (y_p - delta)).toNat (min (y_p + delta + extra) ((self.height : Int))).toNat
      (fun y m => store m (self.mask + (x + y * self.width)) 255) m) m

/-! ## Frames, diagonal lines and curves -/

/-- The local macro `line` of `frame`: rows `[y1, min(y2, height))`, columns from `x1`. -/
def frame_line (self : Canvas) (x1 x2 y1 y2 : Nat) (m : Mem) : Mem :=
  forLoop y1 (min y2 self.height) (fun y m =>
    memset m (self.mask + (y * self.width + x1)) 255 (minus (min x2 self.width) x1)) m

/-- Source `frame`. -/
def frame (o : Options) (self : Canvas) (level : Nat) (edges : Edge) (m : Mem) : Mem :=
  let h := thickness o self level true
  let v := thickness o self level false
  let m := if edges.top then frame_line self 0 self.width 0 (h + 1) m else m
  let m := if edges.bottom then
      frame_line self 0 self.width (wsub (wsub self.height h) 1) self.height m else m
  let m := if edges.left then frame_line self 0 (v + 1) 0 self.height m else m
  if edges.right then frame_line self (wsub (wsub self.width v) 1) self.width 0 self.height m else m

/-- Source `Segment`. -/
inductive Segment where
  | LEFT | MIDDLE | RIGHT
  deriving DecidableEq

/-- Source `progress_bar`. -/
def progress_bar (o : Options) (self : Canvas) (which : Segment) (filled : Bool) (m : Mem) : Mem :=
  let edges := TOP_EDGE.or BOTTOM_EDGE
  let m := match which with
    | Segment.LEFT => frame o self 1 (LEFT_EDGE.or edges) m
    | Segment.MIDDLE => frame o self 1 edges m
    | Segment.RIGHT => frame o self 1 (RIGHT_EDGE.or edges) m
  if !filled then m else
    let h := thickness o self 1 true
    let v := thickness o self 1 false
    let gap_factor := 3
    let y1 := gap_factor * h
    let y2 := minus self.height (gap_factor * h)
    let x1 := match which with
      | Segment.LEFT => gap_factor * v
      | _ => 0
    let x2 := match which with
      | Segment.LEFT => self.width
      | Segment.MIDDLE => self.width
      | Segment.RIGHT => minus self.width (gap_factor * v)
    forLoop y1 y2 (fun y m =>
      memset m (self.mask + (y * self.width + x1)) 255 (minus (min x2 self.width) x1)) m

/-- Source `half_cross_line`. -/
def half_cross_line (o : Options) (self : Canvas) (level : Nat) (corner : Edge) (m : Mem) : Mem :=
  let my := minus self.height 1 / 2
  let w1 := ((minus self.width 1 : Nat) : Int)
  let p1 : Point :=
    if corner = TOP_LEFT then ⟨0, 0⟩
    else if corner = BOTTOM_LEFT then ⟨w1, (my : Int)⟩
    else if corner = TOP_RIGHT then ⟨w1, 0⟩
    else if corner = BOTTOM_RIGHT then ⟨0, (my : Int)⟩
    else ⟨0, 0⟩
  let p2 : Point :=
    if corner = TOP_LEFT then ⟨w1, (my : Int)⟩
    else if corner = BOTTOM_LEFT then ⟨0, ((self.height : Int) - (1 : Int))⟩
    else if corner = TOP_RIGHT then ⟨0, (my : Int)⟩
    else if corner = BOTTOM_RIGHT then ⟨w1, ((minus self.height 1 : Nat) : Int)⟩
    else ⟨0, 0⟩
  thick_line self (thickness o self level true) p1 p2 m

/-- Source `cross_line`. -/
def cross_line (o : Options) (self : Canvas) (level : Nat) (left : Bool) (m : Mem) : Mem :=
  let w := minus self.width 1
  let h := minus self.height 1
  let p1 : Point := if left then ⟨0, 0⟩ else ⟨(w : Int), 0⟩
  let p2 : Point := if left then ⟨(w : Int), (h : Int)⟩ else ⟨0, (h : Int)⟩
  thick_line self (thickness o self level true) p1 p2 m

/-- Source `CubicBezier`. -/
structure CubicBezier where
  start : Point
  c1 : Point
  c2 : Point
  end_ : Point

/-- Source `bezier_x`. -/
def bezier_x (cb : CubicBezier) (t : ℚ) : ℚ :=
  let tm1 := 1 - t
  let tm1_3 := tm1 * tm1 * tm1
  let t_3 := t * t * t
  tm1_3 * cb.start.x + 3 * t * tm1 * (tm1 * cb.c1.x + t * cb.c2.x) + t_3 * cb.end_.x

/-- Source `bezier_y`. -/
def bezier_y (cb : CubicBezier) (t : ℚ) : ℚ :=
  let tm1 := 1 - t
  let tm1_3 := tm1 * tm1 * tm1
  let t_3 := t * t * t
  tm1_3 * cb.start.y + 3 * t * tm1 * (tm1 * cb.c1.y + t * cb.c2.y) + t_3 * cb.end_.y

/-- The `while (true)` loop of `find_bezier_for_D`, with an iteration bound. -/
def find_bezier_for_D_loop (width height : Int) : Nat → Int → Int → Int
  | 0, _, last_cx => last_cx
  | fuel + 1, cx, last_cx =>
    let cb : CubicBezier := ⟨⟨0, 0⟩, ⟨cx, 0⟩, ⟨cx, height - 1⟩, ⟨0, height - 1⟩⟩
    if bezier_x cb (1 / 2) > width - 1 then last_cx
    else find_bezier_for_D_loop width height fuel (cx + 1) cx

/-- Source `find_bezier_for_D`. -/
def find_bezier_for_D (width height : Int) : Int :=
  find_bezier_for_D_loop width height (width.toNat + 2) (width - 1) (width - 1)

/-- Iteration bound used for the bisection loop of `find_t_for_x`. -/
def find_t_fuel : Nat := 20000000

/-- The `while (true)` loop of `find_t_for_x`, with an iteration bound. -/
def find_t_for_x_loop (cb : CubicBezier) (x : Int) : Nat → ℚ → ℚ → ℚ
  | 0, start_t, _ => start_t
  | fuel + 1, start_t, increment =>
    let q := bezier_x cb (start_t + increment)
    if fabs (q - x) < 1 / 10 then start_t + increment
    else if q > x then
      let increment := increment / 2
      if increment < 1 / 1000000 then start_t
      else find_t_for_x_loop cb x fuel start_t increment
    else
      let start_t := start_t + increment
      let increment := 1 / 2 - start_t
      if increment ≤ 0 then start_t
      else find_t_for_x_loop cb x fuel start_t increment

/-- Source `find_t_for_x`. -/
def find_t_for_x (cb : CubicBezier) (x : Int) (start_t : ℚ) : ℚ :=
  if fabs (bezier_x cb start_t - x) < 1 / 10 then start_t
  else
    let increment := 1 / 2 - start_t
    if increment ≤ 0 then start_t
    else find_t_for_x_loop cb x find_t_fuel start_t increment

/-- The `for` loop of `get_bezier_limits` (it can `break`): `n` columns remain, the next is `x`. -/
def get_bezier_limits_loop (cb : CubicBezier) (start_x : Int) : Nat → Int → ℚ → Canvas → Canvas
  | 0, _, _, self => self
  | n + 1, x, last_t, self =>
    let last_t := if x > start_x then find_t_for_x cb x last_t else last_t
    let upper := bezier_y cb last_t
    let lower := bezier_y cb (1 - last_t)
    if fabs (upper - lower) ≤ 2 then self
    else get_bezier_limits_loop cb start_x n (x + 1) last_t (append_limit self lower upper)

/-- Source `get_bezier_limits`. -/
def get_bezier_limits (self : Canvas) (cb : CubicBezier) : Canvas :=
  let start_x := trunc (bezier_x cb 0)
  let max_x := trunc (bezier_x cb (1 / 2))
  get_bezier_limits_loop cb start_x (max_x + 1 - start_x).toNat start_x 0 self

/-- Source macro `mirror_horizontally(expr)`: run `expr` with the canvas pointed at a
fresh zeroed buffer, then copy that buffer, flipped left to right, over the canvas. -/
def mirror_horizontally (self : Canvas) (expr : Canvas → Mem → Canvas × Mem) (m : Mem) :
    Canvas × Mem :=
  let r := expr { self with mask := 0 } (fun _ => 0)
  let self := { r.1 with mask := self.mask }
  (self, forLoop 0 self.height (fun y m =>
    let offset := y * self.width
    forLoop 0 self.width (fun src_x m =>
      let dest_x := self.width - 1 - src_x
      store m (self.mask + (offset + dest_x)) (r.2 (offset + src_x))) m) m)

/-- Source `filled_D`. -/
def filled_D (self : Canvas) (left : Bool) (m : Mem) : Canvas × Mem :=
  let c1x := find_bezier_for_D ((self.width : Int)) ((self.height : Int))
  let hm1 := ((self.height : Int) - (1 : Int))
  let cb : CubicBezier := ⟨⟨0, 0⟩, ⟨c1x, 0⟩, ⟨c1x, hm1⟩, ⟨0, hm1⟩⟩
  let self := get_bezier_limits self cb
  if left then (self, fill_region self false m)
  else mirror_horizontally self (fun c mb => (c, fill_region c false mb)) m

/-! ## Sampled curves -/

/-- Source macro `draw_parametrized_curve`: walk `t` over `8·height + 1` samples and stamp a
square of the line thickness at every sample point not seen before. -/
def draw_parametrized_curve (o : Options) (self : Canvas) (level : Nat) (xfunc yfunc : ℚ → ℚ)
    (m : Mem) : Mem :=
  let th := ((thickness o self level true : Nat) : Int)
  let delta : Int := th / 2
  let extra : Int := th % 2
  let num_samples := self.height * 8
  (forLoop 0 (num_samples + 1) (fun i (s : List Point × Mem) =>
    let t : ℚ := (i : ℚ) / (num_samples : ℚ)
    let p : Point := ⟨trunc (xfunc t), trunc (yfunc t)⟩
    if p ∈ s.1 then s
    else
      (p :: s.1,
        forLoop (max 0 (p.y - delta)).toNat (min (p.y + delta + extra) ((self.height : Int))).toNat
          (fun y m =>
            let offset := y * self.width
            let start := to_uint (max 0 (p.x - delta))
            memset m (self.mask + (offset + start)) 255
              (minus (to_uint (min (p.x + delta + extra) ((self.width : Int)))) start)) s.2))
    ([], m)).2

/-- Source `rounded_separator`. -/
def rounded_separator (o : Options) (self : Canvas) (level : Nat) (left : Bool) (m : Mem) :
    Canvas × Mem :=
  let gap := thickness o self level true
  let c1x := find_bezier_for_D (((minus self.width gap : Nat) : Int)) ((self.height : Int))
  let hm1 := ((self.height : Int) - (1 : Int))
  let cb : CubicBezier := ⟨⟨0, 0⟩, ⟨c1x, 0⟩, ⟨c1x, hm1⟩, ⟨0, hm1⟩⟩
  if left then (self, draw_parametrized_curve o self level (bezier_x cb) (bezier_y cb) m)
  else mirror_horizontally self
    (fun c mb => (c, draw_parametrized_curve o c level (bezier_x cb) (bezier_y cb) mb)) m

/-- Source `corner_triangle`. -/
def corner_triangle (self : Canvas) (corner : Edge) (m : Mem) : Canvas × Mem :=
  let w := minus self.width 1
  let h := minus self.height 1
  let top : Bool := corner = TOP_RIGHT || corner = TOP_LEFT
  let diag := if corner = TOP_RIGHT ∨ corner = BOTTOM_LEFT then line_from_points 0 0 w h
    else line_from_points w 0 0 h
  let self := forLoop 0 self.width (fun x self =>
    if top then append_limit self (line_y diag ((x : Int))) 0
    else append_limit self h (line_y diag ((x : Int)))) self
  (self, fill_region self false m)

/-- Source `Circle`. -/
structure Circle where
  origin : Point
  radius : ℚ
  start : ℚ
  end_ : ℚ
  amt : ℚ

/-- Source `circle`. -/
def circle (o : Options) (origin : Point) (radius start_at end_at : ℚ) : Circle :=
  let conv := o.M_PI / 180
  ⟨origin, radius, start_at * conv, end_at * conv, end_at * conv - start_at * conv⟩

/-- Source `circle_x`. -/
def circle_x (o : Options) (c : Circle) (t : ℚ) : ℚ :=
  c.origin.x + c.radius * o.cos (c.start + c.amt * t)

/-- Source `circle_y`. -/
def circle_y (o : Options) (c : Circle) (t : ℚ) : ℚ :=
  c.origin.y + c.radius * o.sin (c.start + c.amt * t)

/-- Source `spinner`. -/
def spinner (o : Options) (self : Canvas) (level : Nat) (start_degrees end_degrees : ℚ)
    (m : Mem) : Mem :=
  let w := self.width / 2
  let h := self.height / 2
  let radius := minus (min w h) (thickness o self level true / 2)
  let c := circle o ⟨(w : Int), (h : Int)⟩ radius start_degrees end_degrees
  draw_parametrized_curve o self level (circle_x o c) (circle_y o c) m

/-- Source `draw_circle`. -/
def draw_circle (self : Canvas) (scale gap : ℚ) (invert : Bool) (m : Mem) : Mem :=
  let w := self.width / 2
  let h := self.height / 2
  let radius : ℚ := trunc (scale * (min w h : Nat) - gap / 2)
  let fill := if invert then 0 else 255
  let limit := radius * radius
  forLoop 0 self.height (fun y m =>
    forLoop 0 self.width (fun x m =>
      let xw : ℚ := (x : ℚ) - w
      let yh : ℚ := (y : ℚ) - h
      if xw * xw + yh * yh ≤ limit then store m (self.mask + (y * self.width + x)) fill else m) m) m

/-- Source `draw_fish_eye`. -/
def draw_fish_eye (o : Options) (self : Canvas) (level : Nat) (m : Mem) : Mem :=
  let w := self.width / 2
  let h := self.height / 2
  let line_width := thickness o self level true / 2
  let radius := minus (min w h) line_width
  let c := circle o ⟨(w : Int), (h : Int)⟩ radius 0 360
  let m := draw_parametrized_curve o self level (circle_x o c) (circle_y o c) m
  let gap := minus radius (radius / 10)
  draw_circle self 1 gap false m

/-- Source `inner_corner`. -/
def inner_corner (o : Options) (self : Canvas) (level : Nat) (corner : Edge) (m : Mem) : Mem :=
  let hgap := thickness o self (level + 1) true
  let vgap := thickness o self (level + 1) false
  let vthick := thickness o self level true / 2
  let x1 := if corner.left then 0 else minus (self.width / 2 + hgap) vthick
  let x2 := if corner.left then minus (self.width / 2 + vthick + 1) hgap else self.width
  let xd : Int := if corner.left then -1 else 1
  let y1 := if corner.top then 0 else self.height / 2 + vgap
  let y2 := if corner.top then minus (self.height / 2) vgap else self.height
  let yd : Int := if corner.top then -1 else 1
  let m := draw_hline o self x1 x2 (to_uint ((self.height / 2 : Nat) + yd * (vgap : Int))) level m
  draw_vline o self y1 y2 (to_uint ((self.width / 2 : Nat) + xd * (hgap : Int))) level m

/-! ## Eighth blocks -/

/-- The widening steps `d(3); d(4); d(2); d(5); d(6); d(1); d(7); d(0);` of `eight_range`:
each one widens a bar by a pixel and stops as soon as `extra` is used up. -/
def eight_range_widen : List Nat → Nat → List Nat → List Nat
  | [], _, thicknesses => thicknesses
  | i :: rest, extra, thicknesses =>
    let thicknesses := thicknesses.set i (thicknesses.getD i 0 + 1)
    let extra := extra - 1
    if extra = 0 then thicknesses else eight_range_widen rest extra thicknesses

/-- Source `eight_range`. -/
def eight_range (size which : Nat) : Range :=
  let thickness := max 1 (size / 8)
  let block := thickness * 8
  if block = size then ⟨thickness * which, thickness * (which + 1)⟩
  else if block > size then
    let start := min (which * thickness) (minus size thickness)
    ⟨start, start + thickness⟩
  else
    let extra := minus size block
    let thicknesses := List.replicate 8 thickness
    let thicknesses := if extra ≠ 0 then
        eight_range_widen [3, 4, 2, 5, 6, 1, 7, 0] extra thicknesses
      else thicknesses
    let pos := forLoop 0 which (fun i pos => pos + thicknesses.getD i 0) 0
    ⟨pos, pos + thicknesses.getD which 0⟩

/-- Source `eight_bar`. -/
def eight_bar (self : Canvas) (which : Nat) (horizontal : Bool) (m : Mem) : Mem :=
  let x_range : Range := if horizontal then ⟨0, self.width⟩ else eight_range self.width which
  let y_range : Range := if horizontal then eight_range self.height which else ⟨0, self.height⟩
  forLoop y_range.start y_range.end_ (fun y m =>
    let offset := y * self.width
    memset m (self.mask + (offset + x_range.start)) 255 (minus x_range.end_ x_range.start)) m

/-- Source `eight_block`: the variadic list of bars, up to the `-1` terminator. -/
def eight_block (self : Canvas) (horizontal : Bool) (bars : List Nat) (m : Mem) : Mem :=
  bars.foldl (fun m which => eight_bar self which horizontal m) m

/-! ## The stamp of a sampled curve -/

/-- The stamp of `draw_parametrized_curve` at sample point `p`: the row loop of the macro with
its `memset`; `delta` and `extra` are the quotient and the remainder of the thickness by 2. -/
def stamp_point (self : Canvas) (delta extra : Int) (p : Point) (m : Mem) : Mem :=
  forLoop (max 0 (p.y - delta)).toNat (min (p.y + delta + extra) ((self.height : Int))).toNat
    (fun y m =>
      let offset := y * self.width
      let start := to_uint (max 0 (p.x - delta))
      memset m (self.mask + (offset + start)) 255
        (minus (to_uint (min (p.x + delta + extra) ((self.width : Int)))) start)) m

/-- Sample point `i` of `draw_parametrized_curve`, at `t = i / num_samples`. -/
def sample_point (self : Canvas) (xfunc yfunc : ℚ → ℚ) (i : Nat) : Point :=
  let t : ℚ := (i : ℚ) / ((self.height * 8 : Nat) : ℚ)
  ⟨trunc (xfunc t), trunc (yfunc t)⟩

/-- Source macro `draw_parametrized_curve` with its set `seen` kept: the points seen and the
memory after the loop. -/
def draw_parametrized_curve_state (o : Options) (self : Canvas) (level : Nat)
    (xfunc yfunc : ℚ → ℚ) (m : Mem) : List Point × Mem :=
  let th := ((thickness o self level true : Nat) : Int)
  let delta : Int := th / 2
  let extra : Int := th % 2
  let num_samples := self.height * 8
  forLoop 0 (num_samples + 1) (fun i (s : List Point × Mem) =>
    let p := sample_point self xfunc yfunc i
    if p ∈ s.1 then s else (p :: s.1, stamp_point self delta extra p s.2)) ([], m)

/-- The curve drawn as the specification describes the alternative: every sample is stamped,
without the set of seen points. -/
def spec_curve_without_dedup (o : Options) (self : Canvas) (level : Nat)
    (xfunc yfunc : ℚ → ℚ) (m : Mem) : Mem :=
  let th := ((thickness o self level true : Nat) : Int)
  let delta : Int := th / 2
  let extra : Int := th % 2
  let num_samples := self.height * 8
  forLoop 0 (num_samples + 1) (fun i m =>
    stamp_point self delta extra (sample_point self xfunc yfunc i) m) m

/-- The bytes a stamp at `p` overwrites: the `memset` ranges of its rows. -/
def stamp_region (self : Canvas) (delta extra : Int) (p : Point) (a : Nat) : Prop :=
  ∃ y, (max 0 (p.y - delta)).toNat ≤ y ∧
    y < (min (p.y + delta + extra) ((self.height : Int))).toNat ∧
    self.mask + (y * self.width + to_uint (max 0 (p.x - delta))) ≤ a ∧
    a < self.mask + (y * self.width + to_uint (max 0 (p.x - delta)))
      + minus (to_uint (min (p.x + delta + extra) ((self.width : Int))))
          (to_uint (max 0 (p.x - delta)))

/-! ## Shading, quadrants and mosaics -/

/-- Source `Shade`. -/
structure Shade where
  light : Bool := false
  invert : Bool := false
  fill_blank : Bool := false
  which_half : Edge := NO_EDGE
  xnum : Nat := 0
  ynum : Nat := 0

/-- Source macro `is_odd`. -/
def is_odd (x : Nat) : Bool := x % 2 = 1

/-- Pixel value `shade` uses on an extra (seam) row or column next to square index `i`. -/
def shade_seam_value (s : Shade) (i : Nat) : Nat :=
  if s.light then
    if s.invert then (if is_odd i then 255 else 70)
    else (if is_odd i then 0 else 70)
  else (if is_odd i = s.invert then 120 else 30)

/-- Body of the column loop of `shade` for grid square `(r, c)`; `old_ey`, `ey`, `extra_row`
come from the row loop, the state `(ex, drawn_cols)` is carried by the column loop. -/
def shade_cell (self : Canvas) (s : Shade) (square_width square_height : Nat)
    (square_width_extension : ℚ) (r old_ey ey : Nat) (extra_row : Bool) (c : Nat)
    (st : (Nat × Nat) × Mem) : (Nat × Nat) × Mem :=
  let old_ex := st.1.1
  let drawn_cols := st.1.2
  let ex := Int.toNat ⌈(drawn_cols : ℚ) * square_width_extension⌉
  let extra_col : Bool := ex ≠ old_ex
  let m := st.2
  let m := if extra_row then
      let y := r * square_height + old_ey
      let offset := self.width * y
      forLoop 0 square_width (fun xc m =>
        let x := c * square_width + xc + ex
        store m (self.mask + (offset + x)) (shade_seam_value s c)) m
    else m
  let m := if extra_col then
      let x := c * square_width + old_ex
      forLoop 0 square_height (fun yr m =>
        let y := r * square_height + yr + ey
        let offset := self.width * y
        store m (self.mask + (offset + x)) (shade_seam_value s r)) m
    else m
  let m := if extra_row && extra_col then
      let x := c * square_width + old_ex
      let y := r * square_height + old_ey
      let offset := self.width * y
      store m (self.mask + (offset + x)) 50
    else m
  let is_blank : Bool := xor s.invert (is_odd r != is_odd c || (s.light && is_odd r))
  let m := if !is_blank then
      forLoop 0 square_height (fun yr m =>
        let y := r * square_height + yr + ey
        let offset := self.width * y
        forLoop 0 square_width (fun xc m =>
          let x := c * square_width + xc + ex
          store m (self.mask + (offset + x)) 255) m) m
    else m
  ((ex, drawn_cols + 1), m)

/-- Source `shade`. -/
def shade (self : Canvas) (s : Shade) (m : Mem) : Mem :=
  let square_width := max 1 (self.width / s.xnum)
  let square_height := max 1 (if s.ynum ≠ 0 then self.height / s.ynum else square_width)
  let number_of_rows := self.height / square_height
  let number_of_cols := self.width / square_width
  let number_of_cols :=
    if number_of_cols > 1 ∧ is_odd number_of_cols ≠ is_odd s.xnum then number_of_cols - 1
    else number_of_cols
  let number_of_rows :=
    if number_of_rows > 1 ∧ is_odd number_of_rows ≠ is_odd s.ynum then number_of_rows - 1
    else number_of_rows
  let excess_cols := minus self.width (square_width * number_of_cols)
  let square_width_extension : ℚ := (excess_cols : ℚ) / (number_of_cols : ℚ)
  let excess_rows := minus self.height (square_height * number_of_rows)
  let square_height_extension : ℚ := (excess_rows : ℚ) / (number_of_rows : ℚ)
  let rows : Range :=
    if s.which_half = TOP_EDGE then ⟨0, number_of_rows / 2⟩
    else if s.which_half = BOTTOM_EDGE then ⟨number_of_rows / 2, number_of_rows⟩
    else ⟨0, number_of_rows⟩
  let cols : Range :=
    if s.which_half = LEFT_EDGE then ⟨0, number_of_cols / 2⟩
    else if s.which_half = RIGHT_EDGE then ⟨number_of_cols / 2, number_of_cols⟩
    else ⟨0, number_of_cols⟩
  let square_height_extension :=
    if s.which_half = TOP_EDGE ∨ s.which_half = BOTTOM_EDGE then square_height_extension * 2
    else square_height_extension
  let square_width_extension :=
    if s.which_half = LEFT_EDGE ∨ s.which_half = RIGHT_EDGE then square_width_extension * 2
    else square_width_extension
  let m := (forLoop rows.start rows.end_ (fun r (st : (Nat × Nat) × Mem) =>
    let old_ey := st.1.1
    let drawn_rows := st.1.2
    let ey := Int.toNat ⌈(drawn_rows : ℚ) * square_height_extension⌉
    let extra_row : Bool := ey ≠ old_ey
    let m := (forLoop cols.start cols.end_
      (shade_cell self s square_width square_height square_width_extension r old_ey ey extra_row)
      ((0, 0), st.2)).2
    ((ey, drawn_rows + 1), m)) ((0, 0), m)).2
  if !s.fill_blank then m
  else
    let rows : Range :=
      if s.which_half = BOTTOM_EDGE then ⟨0, self.height / 2⟩
      else if s.which_half = TOP_EDGE then ⟨minus (self.height / 2) 1, self.height⟩
      else ⟨0, self.height⟩
    let cols : Range :=
      if s.which_half = RIGHT_EDGE then ⟨0, self.width / 2⟩
      else if s.which_half = LEFT_EDGE then ⟨minus (self.width / 2) 1, self.width⟩
      else ⟨0, self.width⟩
    forLoop rows.start rows.end_ (fun r m =>
      memset m (self.mask + (r * self.width + cols.start)) 255 (cols.end_ - cols.start)) m

/-- Source `apply_mask`; `mask` is the address of the mask bytes. -/
def apply_mask (self : Canvas) (mask : Nat) (m : Mem) : Mem :=
  forLoop 0 self.height (fun y m =>
    let offset := y * self.width
    forLoop 0 self.width (fun x m =>
      let p := offset + x
      store m (self.mask + p)
        ((round_half_away (((m (mask + p) : Nat) : ℚ) / 255 * ((m (self.mask + p) : Nat) : ℚ))).toNat
          % 256)) m) m

/-- C `memcpy(dst, src, n)` for non-overlapping blocks. -/
def memcpy (m : Mem) (dst src n : Nat) : Mem :=
  fun a => if dst ≤ a ∧ a < dst + n then m (src + (a - dst)) else m a

/-- Source `cross_shade`. -/
def cross_shade (self : Canvas) (rotate : Bool) (m : Mem) : Mem :=
  let num_of_lines := 7
  let line_thickness := max self.supersample_factor (self.width / num_of_lines)
  let delta := 2 * line_thickness
  let y1 : Nat := if rotate then self.height else 0
  let y2 : Nat := if rotate then 0 else self.height
  forLoop 0 ((self.width + delta - 1) / delta) (fun k m =>
    let x := k * delta
    let m := thick_line self line_thickness ⟨((0 + x : Nat) : Int), (y1 : Int)⟩
      ⟨((self.width + x : Nat) : Int), (y2 : Int)⟩ m
    thick_line self line_thickness ⟨((0 : Int) - (x : Int)), (y1 : Int)⟩
      ⟨((self.width : Int) - (x : Int)), (y2 : Int)⟩ m) m

/-- Source `quad`. -/
def quad (self : Canvas) (which : Edge) (m : Mem) : Mem :=
  let x := if which.left then 0 else 1
  let y := if which.top then 0 else 1
  let num_cols := self.width / 2
  let left := x * num_cols
  let right := if x ≠ 0 then self.width else num_cols
  let num_rows := self.height / 2
  let top := y * num_rows
  let bottom := if y ≠ 0 then self.height else num_rows
  forLoop top bottom (fun r m =>
    let off := r * self.width
    memset m (self.mask + (off + left)) 255 (right - left)) m

/-- Source `quads`: the variadic list of corners, up to the `0` terminator. -/
def quads (self : Canvas) (corners : List Edge) (m : Mem) : Mem :=
  corners.foldl (fun m which => quad self which m) m

/-- Source `smooth_mosaic`. -/
def smooth_mosaic (self : Canvas) (lower : Bool) (ax ay bx by_ : ℚ) (m : Mem) : Mem :=
  let l := line_from_points (ax * (minus self.width 1 : Nat)) (ay * (minus self.height 1 : Nat))
    (bx * (minus self.width 1 : Nat)) (by_ * (minus self.height 1 : Nat))
  forLoop 0 self.height (fun y m =>
    let offset := y * self.width
    forLoop 0 self.width (fun x m =>
      let edge := line_y l ((x : Int))
      if (lower ∧ (y : ℚ) ≥ edge) ∨ (¬ lower ∧ (y : ℚ) ≤ edge) then
        store m (self.mask + (offset + x)) 255
      else m) m) m

/-! ## Checked division in `shade` -/

/-- Source `thickness` with the read of the scale table checked: `none` when the index
`min(level, arraysz(OPT(box_drawing_scale)))` is not below the number of entries of the table,
the value of `thickness` otherwise. -/
def thickness_checked (o : Options) (self : Canvas) (level : Nat) (horizontal : Bool) :
    Option Nat :=
  let level := min level o.box_drawing_scale_size
  if level < o.box_drawing_scale_size then
    let pts := o.box_drawing_scale level
    let dpi := if horizontal then self.dpi_x else self.dpi_y
    some (self.supersample_factor * Int.toNat ⌈pts * dpi / 72⌉)
  else none

/-! ## Half triangles, mid lines, fading lines, rounded corners -/

/-- The local macro `set_limits` of `half_triangle`. -/
def set_limits (self : Canvas) (startx endx : Nat) (a b : Nat → ℚ) : Canvas :=
  { self with y_limits := fun x => if startx ≤ x ∧ x < endx then ⟨b x, a x⟩ else self.y_limits x }

/-- Source `half_triangle`. -/
def half_triangle (self : Canvas) (which : Edge) (inverted : Bool) (m : Mem) : Canvas × Mem :=
  let mid_x := self.width / 2
  let mid_y := self.height / 2
  let w1 := minus self.width 1
  let h1 := minus self.height 1
  let self := append_limit self 0 0
  let self :=
    if which = LEFT_EDGE then
      let u := line_from_points 0 0 mid_x mid_y
      let l := line_from_points 0 h1 mid_x mid_y
      set_limits self 0 self.width (fun x => line_y u ((x : Int))) (fun x => line_y l ((x : Int)))
    else if which = TOP_EDGE then
      let l := line_from_points 0 0 mid_x mid_y
      let self := set_limits self 0 mid_x (fun _ => 0) (fun x => line_y l ((x : Int)))
      let l := line_from_points mid_x mid_y w1 0
      set_limits self mid_x self.width (fun _ => 0) (fun x => line_y l ((x : Int)))
    else if which = RIGHT_EDGE then
      let u := line_from_points mid_x mid_y w1 0
      let l := line_from_points mid_x mid_y w1 h1
      set_limits self 0 self.width (fun x => line_y u ((x : Int))) (fun x => line_y l ((x : Int)))
    else if which = BOTTOM_EDGE then
      let l := line_from_points 0 h1 mid_x mid_y
      let self := set_limits self 0 mid_x (fun x => line_y l ((x : Int))) (fun _ => h1)
      let l := line_from_points mid_x mid_y w1 h1
      set_limits self mid_x self.width (fun x => line_y l ((x : Int))) (fun _ => h1)
    else self
  let self := { self with y_limits_count := self.width }
  (self, fill_region self inverted m)

/-- Source `mid_lines`: the variadic list of corners, up to the `0` terminator. -/
def mid_lines (o : Options) (self : Canvas) (level : Nat) (corners : List Edge) (m : Mem) : Mem :=
  let mid_x := self.width / 2
  let mid_y := self.height / 2
  let th := thickness o self level true
  let l : Point := ⟨0, (mid_y : Int)⟩
  let t : Point := ⟨(mid_x : Int), 0⟩
  let r : Point := ⟨((minus self.width 1 : Nat) : Int), (mid_y : Int)⟩
  let b : Point := ⟨(mid_x : Int), ((minus self.height 1 : Nat) : Int)⟩
  corners.foldl (fun m which =>
    let p1 := if which = TOP_LEFT then l else if which = TOP_RIGHT then r
      else if which = BOTTOM_LEFT then l else if which = BOTTOM_RIGHT then r else ⟨0, 0⟩
    let p2 := if which = TOP_LEFT then t else if which = TOP_RIGHT then t
      else if which = BOTTOM_LEFT then b else if which = BOTTOM_RIGHT then b else ⟨0, 0⟩
    thick_line self th p1 p2 m) m

/-- The loop of `get_fading_lines`: segment `i` and the running position `d1`. -/
def get_fading_lines_loop (step num : Nat) (dir : Int) : Nat → Nat → Nat → List Point
  | 0, _, _ => []
  | n + 1, i, d1 =>
    let sz := step * (num - i) / (num + 1)
    let sz := if step > 2 ∧ sz ≥ step - 1 then step - 2 else sz
    let d2 : Int := ((d1 : Int) + dir * (sz : Int))
    let d2 : Int := if d2 < 0 then 0 else d2
    let p : Point := if d1 ≤ to_uint d2 then ⟨(d1 : Int), d2⟩ else ⟨d2, (d1 : Int)⟩
    p :: get_fading_lines_loop step num dir n (i + 1) (to_uint ((d1 : Int) + (step : Int) * dir))

/-- Source `get_fading_lines`. -/
def get_fading_lines (total_length num : Nat) (fade : Edge) : List Point :=
  let step := total_length / num
  let rev : Bool := fade = LEFT_EDGE || fade = TOP_EDGE
  let dir : Int := if rev then -1 else 1
  let d1 : Nat := if rev then total_length else 0
  get_fading_lines_loop step num dir num 0 d1

/-- Source `fading_hline`. -/
def fading_hline (o : Options) (self : Canvas) (level num : Nat) (fade : Edge) (m : Mem) : Mem :=
  let y := self.height / 2
  let pts := get_fading_lines self.width num fade
  forLoop 0 num (fun i m =>
    let x1 := to_uint (pts.getD i ⟨0, 0⟩).x
    let x2 := to_uint (pts.getD i ⟨0, 0⟩).y
    draw_hline o self x1 x2 y level m) m

/-- Source `fading_vline`. -/
def fading_vline (o : Options) (self : Canvas) (level num : Nat) (fade : Edge) (m : Mem) : Mem :=
  let x := self.width / 2
  let pts := get_fading_lines self.height num fade
  forLoop 0 num (fun i m =>
    let y1 := to_uint (pts.getD i ⟨0, 0⟩).x
    let y2 := to_uint (pts.getD i ⟨0, 0⟩).y
    draw_vline o self y1 y2 x level m) m

/-- Source `Rectircle` (the two equations are selected by `left` and `top`). -/
structure Rectircle where
  a : Nat
  b : Nat
  yexp : ℚ
  xexp : ℚ
  adjust_x : ℚ
  cell_width : Nat
  left : Bool
  top : Bool

/-- Source `rectircle_lower_quadrant_y`. -/
def rectircle_lower_quadrant_y (r : Rectircle) (t : ℚ) : ℚ := r.b * t

/-- Source `rectircle_upper_quadrant_y`. -/
def rectircle_upper_quadrant_y (r : Rectircle) (t : ℚ) : ℚ := r.b * (2 - t)

/-- Source `rectircle_left_quadrant_x`. -/
def rectircle_left_quadrant_x (o : Options) (r : Rectircle) (t : ℚ) : ℚ :=
  let xterm := 1 - o.pow t r.yexp
  ((⌊(r.cell_width : ℚ) - fabs (r.a * o.pow xterm r.xexp) - r.adjust_x⌋ : Int) : ℚ)

/-- Source `rectircle_right_quadrant_x`. -/
def rectircle_right_quadrant_x (o : Options) (r : Rectircle) (t : ℚ) : ℚ :=
  let xterm := 1 - o.pow t r.yexp
  ((⌈fabs (r.a * o.pow xterm r.xexp)⌉ : Int) : ℚ)

/-- Source `rectcircle`. -/
def rectcircle (self : Canvas) (which : Edge) : Rectircle :=
  let radius : ℚ := (self.width : ℚ) / 2
  let cell_width_is_odd := (self.width / self.supersample_factor) % 2
  { a := half_width self, b := half_height self,
    yexp := (self.height : ℚ) / radius,
    xexp := radius / (self.width : ℚ),
    cell_width := self.width,
    adjust_x := ((cell_width_is_odd * self.supersample_factor : Nat) : ℚ),
    left := which.left, top := which.top }

/-- The `x` equation selected by `rectcircle`. -/
def Rectircle.x (o : Options) (r : Rectircle) (t : ℚ) : ℚ :=
  if r.left then rectircle_left_quadrant_x o r t else rectircle_right_quadrant_x o r t

/-- The `y` equation selected by `rectcircle`. -/
def Rectircle.y (r : Rectircle) (t : ℚ) : ℚ :=
  if r.top then rectircle_upper_quadrant_y r t else rectircle_lower_quadrant_y r t

/-- Source `rounded_corner`. -/
def rounded_corner (o : Options) (self : Canvas) (level : Nat) (which : Edge) (m : Mem) : Mem :=
  let r := rectcircle self which
  draw_parametrized_curve o self level (r.x o) r.y m

/-- Source `commit`. -/
def commit (o : Options) (self : Canvas) (lines : Edge) (solid : Bool) (m : Mem) : Mem :=
  let level := 1
  let scale : ℚ := 9 / 10
  let hw := half_width self
  let hh := half_height self
  let m := if lines.right then draw_hline o self hw self.width hh level m else m
  let m := if lines.left then draw_hline o self 0 hw hh level m else m
  let m := if lines.top then draw_vline o self 0 hh hw level m else m
  let m := if lines.bottom then draw_vline o self hh self.height hw level m else m
  let m := draw_circle self scale 0 false m
  if !solid then draw_circle self scale (thickness o self level true) true m else m

/-- Thin line level `t`. -/
def t_level : Nat := 1

/-- Fat line level `f`. -/
def f_level : Nat := 3

/-- Source `corner`. -/
def corner (o : Options) (self : Canvas) (hlevel vlevel : Nat) (which : Edge) (m : Mem) : Mem :=
  let m := half_hline o self hlevel which.right (thickness o self vlevel true / 2) m
  half_vline o self vlevel which.bottom 0 m

/-- The table `level_map` of `cross`. -/
def level_map : List (Nat × Nat × Nat × Nat) :=
  [(1, 1, 1, 1), (3, 1, 1, 1), (1, 3, 1, 1), (3, 3, 1, 1), (1, 1, 3, 1), (1, 1, 1, 3), (1, 1, 3, 3),
   (3, 1, 3, 1), (1, 3, 3, 1), (3, 1, 1, 3), (1, 3, 1, 3), (3, 3, 3, 1), (3, 3, 1, 3), (3, 1, 3, 3),
   (1, 3, 3, 3), (3, 3, 3, 3)]

/-- Source `cross`. -/
def cross (o : Options) (self : Canvas) (which : Nat) (m : Mem) : Mem :=
  let lv := level_map.getD which (0, 0, 0, 0)
  let m := half_hline o self lv.1 false 0 m
  let m := half_hline o self lv.2.1 true 0 m
  let m := half_vline o self lv.2.2.1 false 0 m
  half_vline o self lv.2.2.2 true 0 m

/-! ## Decorations: underlines, strikethrough, missing glyph, cursors -/

/-- Source `FontCellMetrics` (`data-types.h`). -/
structure FontCellMetrics where
  cell_width : Nat
  cell_height : Nat
  baseline : Nat
  underline_position : Nat
  underline_thickness : Nat
  strikethrough_position : Nat
  strikethrough_thickness : Nat

/-- Modelled from the spec: the declaration of `DecorationGeometry` (header `decorations.h`)
is not among the sources; the spec gives it as `{top, height}`, the vertical pixel band a
line decoration occupies. -/
structure DecorationGeometry where
  top : Nat
  height : Nat
  deriving DecidableEq

/-- The `for` loop of the macro `STRAIGHT_UNDERLINE_LOOP`, also written out in
`add_strikethrough`: it runs while thickness is left and `y < cell_height`; each round
uses up one unit of thickness, moves to the next row and counts one more row in
`ans.height`.  Arguments: thickness left, `y`, `ans.height`. -/
def straight_underline_loop (cell_height : Nat) (body : Nat → Mem → Mem) :
    Nat → Nat → Nat → Mem → Nat × Mem
  | 0, _, height, m => (height, m)
  | thickness + 1, y, height, m =>
    if y < cell_height then
      straight_underline_loop cell_height body thickness (y + 1) (height + 1) (body y m)
    else (height, m)

/-- Source macro `STRAIGHT_UNDERLINE_LOOP` around the loop body `body`. -/
def STRAIGHT_UNDERLINE_LOOP (fcm : FontCellMetrics) (body : Nat → Mem → Mem) (m : Mem) :
    DecorationGeometry × Mem :=
  let half := fcm.underline_thickness / 2
  let top := if half > fcm.underline_position then 0 else fcm.underline_position - half
  let r := straight_underline_loop fcm.cell_height body fcm.underline_thickness top 0 m
  (⟨top, r.1⟩, r.2)

/-- Source `add_straight_underline`. -/
def add_straight_underline (buf : Nat) (fcm : FontCellMetrics) (m : Mem) :
    DecorationGeometry × Mem :=
  STRAIGHT_UNDERLINE_LOOP fcm (fun y m => memset m (buf + fcm.cell_width * y) 255 fcm.cell_width) m

/-- Source `add_strikethrough`. -/
def add_strikethrough (buf : Nat) (fcm : FontCellMetrics) (m : Mem) : DecorationGeometry × Mem :=
  let half := fcm.strikethrough_thickness / 2
  let top := if half > fcm.strikethrough_position then 0 else fcm.strikethrough_position - half
  let r := straight_underline_loop fcm.cell_height
    (fun y m => memset m (buf + fcm.cell_width * y) 255 fcm.cell_width)
    fcm.strikethrough_thickness top 0 m
  (⟨top, r.1⟩, r.2)

/-- Source `add_missing_glyph`. -/
def add_missing_glyph (buf : Nat) (fcm : FontCellMetrics) (m : Mem) : DecorationGeometry × Mem :=
  let height := fcm.cell_height
  let thickness := min fcm.underline_thickness fcm.strikethrough_thickness
  let thickness := min thickness fcm.cell_width
  (⟨0, height⟩, forLoop 0 height (fun y m =>
    let line := buf + fcm.cell_width * y
    if y < thickness ∨ y ≥ wsub height thickness then memset m line 255 fcm.cell_width
    else
      let m := memset m line 255 thickness
      memset m (line + fcm.cell_width - thickness) 255 thickness) m)

/-- The part of `add_double_underline` from `int deficit = ...` to the clamping of `top`
and `bottom`: it moves the two rows apart when they are less than two rows apart.  The
subtractions are those of `unsigned`: they wrap. -/
def double_underline_adjust (top bottom cell_height : Nat) : Nat × Nat :=
  let deficit : Int := to_int (wsub 2 (wsub bottom top))
  let tb : Nat × Nat :=
    if deficit > 0 then
      if bottom + to_uint deficit < cell_height then (top, bottom + to_uint deficit)
      else if bottom < wsub cell_height 1 then
        (if deficit > 1 then wsub top (to_uint (deficit - 1)) else top, bottom + 1)
      else (wsub top (to_uint deficit), bottom)
    else (top, bottom)
  let top := max 0 (min tb.1 (wsub cell_height 1))
  let bottom := max 0 (min tb.2 (wsub cell_height 1))
  (top, bottom)

/-- The rows `top` and `bottom` computed by `add_double_underline` (everything before its
two `memset`s). -/
def double_underline_rows (fcm : FontCellMetrics) : Nat × Nat :=
  let a := if fcm.underline_position > fcm.underline_thickness then
      fcm.underline_position - fcm.underline_thickness else 0
  let a := min a (wsub fcm.cell_height 1)
  let b := min fcm.underline_position (wsub fcm.cell_height 1)
  let top := min a b
  let bottom := max a b
  double_underline_adjust top bottom fcm.cell_height

/-- Source `add_double_underline`. -/
def add_double_underline (buf : Nat) (fcm : FontCellMetrics) (m : Mem) :
    DecorationGeometry × Mem :=
  let top := (double_underline_rows fcm).1
  let bottom := (double_underline_rows fcm).2
  let m := memset m (buf + fcm.cell_width * top) 255 fcm.cell_width
  let m := memset m (buf + fcm.cell_width * bottom) 255 fcm.cell_width
  (⟨top, wsub (bottom + 1) top⟩, m)

/-- The `while (extra > 0)` loop of `distribute_dots`: one more pixel for the gap at `idx`,
going round the gaps.  Arguments: `extra`, `idx`, the array `gaps`. -/
def distribute_extra (num_of_dots : Nat) : Nat → Nat → (Nat → Nat) → (Nat → Nat)
  | 0, _, gaps => gaps
  | extra + 1, idx, gaps =>
    distribute_extra num_of_dots extra ((idx + 1) % num_of_dots)
      (fun i => if i = idx then gaps i + 1 else gaps i)

/-- Source `distribute_dots`; returns `dot_size` and the arrays `summed_gaps` and `gaps`.
The result is `none` when the division `available_space / (2u * num_of_dots)` is a division
by zero; past it `num_of_dots` is not zero, so the remainder in the loop is defined. -/
def distribute_dots (available_space num_of_dots : Nat) :
    Option (Nat × (Nat → Nat) × (Nat → Nat)) :=
  if 2 * num_of_dots = 0 then none
  else
    let dot_size := max 1 (available_space / (2 * num_of_dots))
    let extra := 2 * num_of_dots * dot_size
    let extra := if available_space > extra then available_space - extra else 0
    let gaps : Nat → Nat := forLoop 0 num_of_dots
      (fun i gaps k => if k = i then dot_size else gaps k) (fun _ => 0)
    let gaps := if extra > 0 then distribute_extra num_of_dots extra 0 gaps else gaps
    let gaps : Nat → Nat := fun k => if k = 0 then gaps 0 / 2 else gaps k
    let summed_gaps : Nat → Nat := forLoop 0 num_of_dots
      (fun i summed_gaps k =>
        if k = i then forLoop 0 (i + 1) (fun g acc => acc + gaps g) 0 else summed_gaps k)
      (fun _ => 0)
    some (dot_size, summed_gaps, gaps)

/-- Source `add_dotted_underline`.  The result is `none` when the function divides by zero:
in `cell_width / (2 * underline_thickness)` or inside `distribute_dots`. -/
def add_dotted_underline (buf : Nat) (fcm : FontCellMetrics) (m : Mem) :
    Option (DecorationGeometry × Mem) :=
  if 2 * fcm.underline_thickness = 0 then none
  else
    let num_of_dots := fcm.cell_width / (2 * fcm.underline_thickness)
    match distribute_dots fcm.cell_width num_of_dots with
    | none => none
    | some (size, spacing, _) =>
      some (STRAIGHT_UNDERLINE_LOOP fcm (fun y m =>
        let offset := buf + fcm.cell_width * y
        forLoop 0 num_of_dots (fun j m =>
          let s := spacing j
          memset m (offset + j * size + s) 255 size) m) m)

/-- Source `add_dashed_underline`. -/
def add_dashed_underline (buf : Nat) (fcm : FontCellMetrics) (m : Mem) :
    DecorationGeometry × Mem :=
  let quarter_width := fcm.cell_width / 4
  let dash_width := fcm.cell_width - 3 * quarter_width
  let second_dash_start := 3 * quarter_width
  STRAIGHT_UNDERLINE_LOOP fcm (fun y m =>
    let offset := buf + fcm.cell_width * y
    let m := memset m offset 255 dash_width
    memset m (offset + second_dash_start) 255 dash_width) m

/-- The conversion `(unsigned)(round(v))` of `vert` and `horz`.  C defines it for values
in the range of `unsigned` only; the model gives `0` to negative values. -/
def round_to_unsigned (v : ℚ) : Nat := (round_half_away v).toNat

/-- Source `vert`. -/
def vert (ans : Nat) (is_left_edge : Bool) (width_pt dpi_x : ℚ) (fcm : FontCellMetrics)
    (m : Mem) : Mem :=
  let width := max 1 (min (round_to_unsigned (width_pt * dpi_x / 72)) fcm.cell_width)
  let left := if is_left_edge then 0
    else (if fcm.cell_width > width then fcm.cell_width - width else 0)
  forLoop 0 fcm.cell_height (fun y m =>
    let offset := y * fcm.cell_width + left
    forLoop offset (offset + width) (fun x m => store m (ans + x) 255) m) m

/-- Source `horz`; returns `top`. -/
def horz (ans : Nat) (is_top_edge : Bool) (height_pt dpi_y : ℚ) (fcm : FontCellMetrics)
    (m : Mem) : Nat × Mem :=
  let height := max 1 (min (round_to_unsigned (height_pt * dpi_y / 72)) fcm.cell_height)
  let top := if is_top_edge then 0
    else (if fcm.cell_height > height then fcm.cell_height - height else 0)
  (top, forLoop top (top + height) (fun y m =>
    let offset := y * fcm.cell_width
    forLoop 0 fcm.cell_width (fun x m => store m (ans + (offset + x)) 255) m) m)

/-- Source `add_beam_cursor`. -/
def add_beam_cursor (o : Options) (buf : Nat) (fcm : FontCellMetrics) (dpi_x : ℚ) (m : Mem) :
    DecorationGeometry × Mem :=
  (⟨0, fcm.cell_height⟩, vert buf true o.cursor_beam_thickness dpi_x fcm m)

/-- Source `add_hollow_cursor`. -/
def add_hollow_cursor (buf : Nat) (fcm : FontCellMetrics) (dpi_x dpi_y : ℚ) (m : Mem) :
    DecorationGeometry × Mem :=
  let m := vert buf true 1 dpi_x fcm m
  let m := vert buf false 1 dpi_x fcm m
  let m := (horz buf true 1 dpi_y fcm m).2
  let m := (horz buf false 1 dpi_y fcm m).2
  (⟨0, fcm.cell_height⟩, m)

/-! ## Dispatch -/

/-- One call `func(c, args...)` in the body of a `case` of `render_box_char`. -/
inductive Shape where
  | fill_canvas (byte : Nat)
  | hline (level : Nat)
  | vline (level : Nat)
  | hholes (level num : Nat)
  | vholes (level num : Nat)
  | half_hline (level : Nat) (right_half : Bool) (extend_by : Nat)
  | half_vline (level : Nat) (bottom_half : Bool) (extend_by : Nat)
  | triangle (left inverted : Bool)
  | half_cross_line (level : Nat) (corner : Edge)
  | filled_D (left : Bool)
  | rounded_separator (level : Nat) (left : Bool)
  | cross_line (level : Nat) (left : Bool)
  | corner_triangle (corner : Edge)
  | progress_bar (which : Segment) (filled : Bool)
  | spinner (level : Nat) (start_degrees end_degrees : ℚ)
  | draw_circle (scale gap : ℚ) (invert : Bool)
  | draw_fish_eye (level : Nat)
  | dhline (level : Nat) (which : Edge)
  | dvline (level : Nat) (which : Edge)
  | half_dhline (level : Nat) (right_half : Bool) (which : Edge)
  | half_dvline (level : Nat) (bottom_half : Bool) (which : Edge)
  | inner_corner (level : Nat) (corner : Edge)
  | eight_bar (which : Nat) (horizontal : Bool)
  | eight_block (horizontal : Bool) (bars : List Nat)
  | shade (s : Shade)
  | cross_shade (rotate : Bool)
  | quad (which : Edge)
  | quads (corners : List Edge)
  | smooth_mosaic (lower : Bool) (ax ay bx by_ : ℚ)
  | half_triangle (which : Edge) (inverted : Bool)
  | mid_lines (level : Nat) (corners : List Edge)
  | fading_hline (level num : Nat) (fade : Edge)
  | fading_vline (level num : Nat) (fade : Edge)
  | rounded_corner (level : Nat) (which : Edge)
  | commit (lines : Edge) (solid : Bool)
  | corner (hlevel vlevel : Nat) (which : Edge)
  | cross (which : Nat)

/-- The body of one `case` of the switch of `render_box_char`: calls made
directly on the normal canvas (macros `C`, `CC` and the plain cases), calls made on the
supersampled canvas and then downsampled (macros `S`, `SS`), or the masked corner shade
(macro `M`). -/
inductive Glyph where
  | direct (calls : List Shape)
  | supersampled (calls : List Shape)
  | masked (corner : Edge)

/-- Run one call on canvas `c`. -/
def run_shape (o : Options) (c : Canvas) (m : Mem) : Shape → Canvas × Mem
  | Shape.fill_canvas byte => (c, fill_canvas c byte m)
  | Shape.hline level => (c, hline o c level m)
  | Shape.vline level => (c, vline o c level m)
  | Shape.hholes level num => hholes o c level num m
  | Shape.vholes level num => vholes o c level num m
  | Shape.half_hline level right_half extend_by => (c, half_hline o c level right_half extend_by m)
  | Shape.half_vline level bottom_half extend_by => (c, half_vline o c level bottom_half extend_by m)
  | Shape.triangle left inverted => triangle c left inverted m
  | Shape.half_cross_line level corner => (c, half_cross_line o c level corner m)
  | Shape.filled_D left => filled_D c left m
  | Shape.rounded_separator level left => rounded_separator o c level left m
  | Shape.cross_line level left => (c, cross_line o c level left m)
  | Shape.corner_triangle corner => corner_triangle c corner m
  | Shape.progress_bar which filled => (c, progress_bar o c which filled m)
  | Shape.spinner level s e => (c, spinner o c level s e m)
  | Shape.draw_circle scale gap invert => (c, draw_circle c scale gap invert m)
  | Shape.draw_fish_eye level => (c, draw_fish_eye o c level m)
  | Shape.dhline level which => (c, (dhline o c level which m).2)
  | Shape.dvline level which => (c, (dvline o c level which m).2)
  | Shape.half_dhline level right_half which => (c, (half_dhline o c level right_half which m).2)
  | Shape.half_dvline level bottom_half which => (c, (half_dvline o c level bottom_half which m).2)
  | Shape.inner_corner level corner => (c, inner_corner o c level corner m)
  | Shape.eight_bar which horizontal => (c, eight_bar c which horizontal m)
  | Shape.eight_block horizontal bars => (c, eight_block c horizontal bars m)
  | Shape.shade s => (c, shade c s m)
  | Shape.cross_shade rotate => (c, cross_shade c rotate m)
  | Shape.quad which => (c, quad c which m)
  | Shape.quads corners => (c, quads c corners m)
  | Shape.smooth_mosaic lower ax ay bx by_ => (c, smooth_mosaic c lower ax ay bx by_ m)
  | Shape.half_triangle which inverted => half_triangle c which inverted m
  | Shape.mid_lines level corners => (c, mid_lines o c level corners m)
  | Shape.fading_hline level num fade => (c, fading_hline o c level num fade m)
  | Shape.fading_vline level num fade => (c, fading_vline o c level num fade m)
  | Shape.rounded_corner level which => (c, rounded_corner o c level which m)
  | Shape.commit lines solid => (c, commit o c lines solid m)
  | Shape.corner hlevel vlevel which => (c, corner o c hlevel vlevel which m)
  | Shape.cross which => (c, cross o c which m)

/-- Run the calls of a `case` body in order on canvas `c`. -/
def run_shapes (o : Options) : List Shape → Canvas → Mem → Canvas × Mem
  | [], c, m => (c, m)
  | s :: rest, c, m => run_shapes o rest (run_shape o c m s).1 (run_shape o c m s).2

/-- The `case` labels of the switch of `render_box_char` with their bodies, in source order
(the ranges of the macros `P`, `Q` and of the `case ... ` range are written out). -/
def glyph_table : List (Nat × Glyph) :=
  [
  (0x2588, Glyph.direct [Shape.fill_canvas 255]),
  (0x2500, Glyph.direct [Shape.hline 1]),
  (0x2501, Glyph.direct [Shape.hline 3]),
  (0x2502, Glyph.direct [Shape.vline 1]),
  (0x2503, Glyph.direct [Shape.vline 3]),
  (0x254C, Glyph.direct [Shape.hholes 1 1]),
  (0x254D, Glyph.direct [Shape.hholes 3 1]),
  (0x2504, Glyph.direct [Shape.hholes 1 2]),
  (0x2505, Glyph.direct [Shape.hholes 3 2]),
  (0x2508, Glyph.direct [Shape.hholes 1 3]),
  (0x2509, Glyph.direct [Shape.hholes 3 3]),
  (0x254E, Glyph.direct [Shape.vholes 1 1]),
  (0x254F, Glyph.direct [Shape.vholes 3 1]),
  (0x2506, Glyph.direct [Shape.vholes 1 2]),
  (0x2507, Glyph.direct [Shape.vholes 3 2]),
  (0x250A, Glyph.direct [Shape.vholes 1 3]),
  (0x250B, Glyph.direct [Shape.vholes 3 3]),
  (0x2574, Glyph.direct [Shape.half_hline 1 false 0]),
  (0x2575, Glyph.direct [Shape.half_vline 1 false 0]),
  (0x2576, Glyph.direct [Shape.half_hline 1 true 0]),
  (0x2577, Glyph.direct [Shape.half_vline 1 true 0]),
  (0x2578, Glyph.direct [Shape.half_hline 3 false 0]),
  (0x2579, Glyph.direct [Shape.half_vline 3 false 0]),
  (0x257A, Glyph.direct [Shape.half_hline 3 true 0]),
  (0x257B, Glyph.direct [Shape.half_vline 3 true 0]),
  (0x257E, Glyph.direct [Shape.half_hline 3 false 0, Shape.half_hline 1 true 0]),
  (0x257C, Glyph.direct [Shape.half_hline 1 false 0, Shape.half_hline 3 true 0]),
  (0x257F, Glyph.direct [Shape.half_vline 3 false 0, Shape.half_vline 1 true 0]),
  (0x257D, Glyph.direct [Shape.half_vline 1 false 0, Shape.half_vline 3 true 0]),
  (0xE0B0, Glyph.supersampled [Shape.triangle true false]),
  (0xE0D7, Glyph.supersampled [Shape.triangle true true]),
  (0xE0B1, Glyph.supersampled [Shape.half_cross_line 1 TOP_LEFT, Shape.half_cross_line 1 BOTTOM_LEFT]),
  (0xE0B2, Glyph.supersampled [Shape.triangle false false]),
  (0xE0D6, Glyph.supersampled [Shape.triangle false true]),
  (0xE0B3, Glyph.supersampled [Shape.half_cross_line 1 TOP_RIGHT, Shape.half_cross_line 1 BOTTOM_RIGHT]),
  (0xE0B4, Glyph.supersampled [Shape.filled_D true]),
  (0x25D7, Glyph.supersampled [Shape.filled_D true]),
  (0xE0B6, Glyph.supersampled [Shape.filled_D false]),
  (0x25D6, Glyph.supersampled [Shape.filled_D false]),
  (0xE0B5, Glyph.supersampled [Shape.rounded_separator 1 true]),
  (0xE0B7, Glyph.supersampled [Shape.rounded_separator 1 false]),
  (0xE0B9, Glyph.supersampled [Shape.cross_line 1 true]),
  (0xE0BF, Glyph.supersampled [Shape.cross_line 1 true]),
  (0x2572, Glyph.supersampled [Shape.cross_line 1 true]),
  (0xE0BB, Glyph.supersampled [Shape.cross_line 1 false]),
  (0xE0BD, Glyph.supersampled [Shape.cross_line 1 false]),
  (0x2571, Glyph.supersampled [Shape.cross_line 1 false]),
  (0x2573, Glyph.supersampled [Shape.cross_line 1 false, Shape.cross_line 1 true]),
  (0xE0B8, Glyph.supersampled [Shape.corner_triangle BOTTOM_LEFT]),
  (0x25E3, Glyph.supersampled [Shape.corner_triangle BOTTOM_LEFT]),
  (0xE0BA, Glyph.supersampled [Shape.corner_triangle BOTTOM_RIGHT]),
  (0x25E2, Glyph.supersampled [Shape.corner_triangle BOTTOM_RIGHT]),
  (0xE0BC, Glyph.supersampled [Shape.corner_triangle TOP_LEFT]),
  (0x25E4, Glyph.supersampled [Shape.corner_triangle TOP_LEFT]),
  (0xE0BE, Glyph.supersampled [Shape.corner_triangle TOP_RIGHT]),
  (0x25E5, Glyph.supersampled [Shape.corner_triangle TOP_RIGHT]),
  (0xEE00, Glyph.direct [Shape.progress_bar Segment.LEFT false]),
  (0xEE01, Glyph.direct [Shape.progress_bar Segment.MIDDLE false]),
  (0xEE02, Glyph.direct [Shape.progress_bar Segment.RIGHT false]),
  (0xEE03, Glyph.direct [Shape.progress_bar Segment.LEFT true]),
  (0xEE04, Glyph.direct [Shape.progress_bar Segment.MIDDLE true]),
  (0xEE05, Glyph.direct [Shape.progress_bar Segment.RIGHT true]),
  (0xEE06, Glyph.supersampled [Shape.spinner 1 235 305]),
  (0xEE07, Glyph.supersampled [Shape.spinner 1 270 390]),
  (0xEE08, Glyph.supersampled [Shape.spinner 1 315 470]),
  (0xEE09, Glyph.supersampled [Shape.spinner 1 360 540]),
  (0xEE0A, Glyph.supersampled [Shape.spinner 1 80 220]),
  (0xEE0B, Glyph.supersampled [Shape.spinner 1 170 270]),
  (0x25CB, Glyph.supersampled [Shape.spinner 0 0 360]),
  (0x25DC, Glyph.supersampled [Shape.spinner 1 180 270]),
  (0x25DD, Glyph.supersampled [Shape.spinner 1 270 360]),
  (0x25DE, Glyph.supersampled [Shape.spinner 1 360 450]),
  (0x25DF, Glyph.supersampled [Shape.spinner 1 450 540]),
  (0x25E0, Glyph.supersampled [Shape.spinner 1 180 360]),
  (0x25E1, Glyph.supersampled [Shape.spinner 1 0 180]),
  (0x25CF, Glyph.supersampled [Shape.draw_circle 1 0 false]),
  (0x25C9, Glyph.supersampled [Shape.draw_fish_eye 0]),
  (0x2550, Glyph.direct [Shape.dhline 1 (TOP_EDGE.or BOTTOM_EDGE)]),
  (0x2551, Glyph.direct [Shape.dvline 1 (LEFT_EDGE.or RIGHT_EDGE)]),
  (0x255E, Glyph.direct [Shape.vline 1, Shape.half_dhline 1 true (TOP_EDGE.or BOTTOM_EDGE)]),
  (0x2561, Glyph.direct [Shape.vline 1, Shape.half_dhline 1 false (TOP_EDGE.or BOTTOM_EDGE)]),
  (0x2565, Glyph.direct [Shape.hline 1, Shape.half_dvline 1 true (LEFT_EDGE.or RIGHT_EDGE)]),
  (0x2568, Glyph.direct [Shape.hline 1, Shape.half_dvline 1 false (LEFT_EDGE.or RIGHT_EDGE)]),
  (0x256A, Glyph.direct [Shape.vline 1, Shape.dhline 1 (TOP_EDGE.or BOTTOM_EDGE)]),
  (0x256B, Glyph.direct [Shape.hline 1, Shape.dvline 1 (LEFT_EDGE.or RIGHT_EDGE)]),
  (0x256C, Glyph.direct [Shape.inner_corner 1 TOP_LEFT, Shape.inner_corner 1 TOP_RIGHT, Shape.inner_corner 1 BOTTOM_LEFT, Shape.inner_corner 1 BOTTOM_RIGHT]),
  (0x2560, Glyph.direct [Shape.inner_corner 1 TOP_RIGHT, Shape.inner_corner 1 BOTTOM_RIGHT, Shape.dvline 1 LEFT_EDGE]),
  (0x2563, Glyph.direct [Shape.inner_corner 1 TOP_LEFT, Shape.inner_corner 1 BOTTOM_LEFT, Shape.dvline 1 RIGHT_EDGE]),
  (0x2566, Glyph.direct [Shape.inner_corner 1 BOTTOM_LEFT, Shape.inner_corner 1 BOTTOM_RIGHT, Shape.dhline 1 TOP_EDGE]),
  (0x2569, Glyph.direct [Shape.inner_corner 1 TOP_LEFT, Shape.inner_corner 1 TOP_RIGHT, Shape.dhline 1 BOTTOM_EDGE]),
  (0x2594, Glyph.direct [Shape.eight_block true [0]]),
  (0x2580, Glyph.direct [Shape.eight_block true [0, 1, 2, 3]]),
  (0x2581, Glyph.direct [Shape.eight_block true [7]]),
  (0x2582, Glyph.direct [Shape.eight_block true [6, 7]]),
  (0x2583, Glyph.direct [Shape.eight_block true [5, 6, 7]]),
  (0x2584, Glyph.direct [Shape.eight_block true [4, 5, 6, 7]]),
  (0x2585, Glyph.direct [Shape.eight_block true [3, 4, 5, 6, 7]]),
  (0x2586, Glyph.direct [Shape.eight_block true [2, 3, 4, 5, 6, 7]]),
  (0x2587, Glyph.direct [Shape.eight_block true [1, 2, 3, 4, 5, 6, 7]]),
  (0x2589, Glyph.direct [Shape.eight_block false [0, 1, 2, 3, 4, 5, 6]]),
  (0x258A, Glyph.direct [Shape.eight_block false [0, 1, 2, 3, 4, 5]]),
  (0x258B, Glyph.direct [Shape.eight_block false [0, 1, 2, 3, 4]]),
  (0x258C, Glyph.direct [Shape.eight_block false [0, 1, 2, 3]]),
  (0x258D, Glyph.direct [Shape.eight_block false [0, 1, 2]]),
  (0x258E, Glyph.direct [Shape.eight_block false [0, 1]]),
  (0x258F, Glyph.direct [Shape.eight_block false [0]]),
  (0x2595, Glyph.direct [Shape.eight_block false [7]]),
  (0x2590, Glyph.direct [Shape.eight_block false [4, 5, 6, 7]]),
  (0x2591, Glyph.direct [Shape.shade { xnum := 12, light := true }]),
  (0x2592, Glyph.direct [Shape.shade { xnum := 12 }]),
  (0x2593, Glyph.direct [Shape.shade { xnum := 12, light := true, invert := true }]),
  (0x1FB8C, Glyph.direct [Shape.shade { xnum := 12, which_half := LEFT_EDGE }]),
  (0x1FB8D, Glyph.direct [Shape.shade { xnum := 12, which_half := RIGHT_EDGE }]),
  (0x1FB8E, Glyph.direct [Shape.shade { xnum := 12, which_half := TOP_EDGE }]),
  (0x1FB8F, Glyph.direct [Shape.shade { xnum := 12, which_half := BOTTOM_EDGE }]),
  (0x1FB90, Glyph.direct [Shape.shade { xnum := 12, invert := true }]),
  (0x1FB91, Glyph.direct [Shape.shade { xnum := 12, invert := true, fill_blank := true, which_half := BOTTOM_EDGE }]),
  (0x1FB92, Glyph.direct [Shape.shade { xnum := 12, invert := true, fill_blank := true, which_half := TOP_EDGE }]),
  (0x1FB93, Glyph.direct [Shape.shade { xnum := 12, invert := true, fill_blank := true, which_half := RIGHT_EDGE }]),
  (0x1FB94, Glyph.direct [Shape.shade { xnum := 12, invert := true, fill_blank := true, which_half := LEFT_EDGE }]),
  (0x1FB95, Glyph.direct [Shape.shade { xnum := 4, ynum := 4 }]),
  (0x1FB96, Glyph.direct [Shape.shade { xnum := 4, ynum := 4, invert := true }]),
  (0x1FB97, Glyph.direct [Shape.shade { xnum := 1, ynum := 4, invert := true }]),
  (0x1FB9C, Glyph.masked TOP_LEFT),
  (0x1FB9D, Glyph.masked TOP_RIGHT),
  (0x1FB9E, Glyph.masked BOTTOM_RIGHT),
  (0x1FB9F, Glyph.masked BOTTOM_LEFT),
  (0x1FB98, Glyph.supersampled [Shape.cross_shade false]),
  (0x1FB99, Glyph.supersampled [Shape.cross_shade true]),
  (0x2596, Glyph.direct [Shape.quad BOTTOM_LEFT]),
  (0x2597, Glyph.direct [Shape.quad BOTTOM_RIGHT]),
  (0x2598, Glyph.direct [Shape.quad TOP_LEFT]),
  (0x259D, Glyph.direct [Shape.quad TOP_RIGHT]),
  (0x2599, Glyph.direct [Shape.quads [TOP_LEFT, BOTTOM_LEFT, BOTTOM_RIGHT]]),
  (0x259A, Glyph.direct [Shape.quads [TOP_LEFT, BOTTOM_RIGHT]]),
  (0x259B, Glyph.direct [Shape.quads [TOP_LEFT, TOP_RIGHT, BOTTOM_LEFT]]),
  (0x259C, Glyph.direct [Shape.quads [TOP_LEFT, TOP_RIGHT, BOTTOM_RIGHT]]),
  (0x259E, Glyph.direct [Shape.quads [TOP_RIGHT, BOTTOM_LEFT]]),
  (0x259F, Glyph.direct [Shape.quads [TOP_RIGHT, BOTTOM_LEFT, BOTTOM_RIGHT]]),
  (0x1FB3C, Glyph.supersampled [Shape.smooth_mosaic true 0 (2 / 3) (1 / 2) 1]),
  (0x1FB3D, Glyph.supersampled [Shape.smooth_mosaic true 0 (2 / 3) 1 1]),
  (0x1FB3E, Glyph.supersampled [Shape.smooth_mosaic true 0 (1 / 3) (1 / 2) 1]),
  (0x1FB3F, Glyph.supersampled [Shape.smooth_mosaic true 0 (1 / 3) 1 1]),
  (0x1FB40, Glyph.supersampled [Shape.smooth_mosaic true 0 0 (1 / 2) 1]),
  (0x1FB41, Glyph.supersampled [Shape.smooth_mosaic true 0 (1 / 3) (1 / 2) 0]),
  (0x1FB42, Glyph.supersampled [Shape.smooth_mosaic true 0 (1 / 3) 1 0]),
  (0x1FB43, Glyph.supersampled [Shape.smooth_mosaic true 0 (2 / 3) (1 / 2) 0]),
  (0x1FB44, Glyph.supersampled [Shape.smooth_mosaic true 0 (2 / 3) 1 0]),
  (0x1FB45, Glyph.supersampled [Shape.smooth_mosaic true 0 1 (1 / 2) 0]),
  (0x1FB46, Glyph.supersampled [Shape.smooth_mosaic true 0 (2 / 3) 1 (1 / 3)]),
  (0x1FB47, Glyph.supersampled [Shape.smooth_mosaic true (1 / 2) 1 1 (2 / 3)]),
  (0x1FB48, Glyph.supersampled [Shape.smooth_mosaic true 0 1 1 (2 / 3)]),
  (0x1FB49, Glyph.supersampled [Shape.smooth_mosaic true (1 / 2) 1 1 (1 / 3)]),
  (0x1FB4A, Glyph.supersampled [Shape.smooth_mosaic true 0 1 1 (1 / 3)]),
  (0x1FB4B, Glyph.supersampled [Shape.smooth_mosaic true (1 / 2) 1 1 0]),
  (0x1FB4C, Glyph.supersampled [Shape.smooth_mosaic true (1 / 2) 0 1 (1 / 3)]),
  (0x1FB4D, Glyph.supersampled [Shape.smooth_mosaic true 0 0 1 (1 / 3)]),
  (0x1FB4E, Glyph.supersampled [Shape.smooth_mosaic true (1 / 2) 0 1 (2 / 3)]),
  (0x1FB4F, Glyph.supersampled [Shape.smooth_mosaic true 0 0 1 (2 / 3)]),
  (0x1FB50, Glyph.supersampled [Shape.smooth_mosaic true (1 / 2) 0 1 1]),
  (0x1FB51, Glyph.supersampled [Shape.smooth_mosaic true 0 (1 / 3) 1 (2 / 3)]),
  (0x1FB52, Glyph.supersampled [Shape.smooth_mosaic false 0 (2 / 3) (1 / 2) 1]),
  (0x1FB53, Glyph.supersampled [Shape.smooth_mosaic false 0 (2 / 3) 1 1]),
  (0x1FB54, Glyph.supersampled [Shape.smooth_mosaic false 0 (1 / 3) (1 / 2) 1]),
  (0x1FB55, Glyph.supersampled [Shape.smooth_mosaic false 0 (1 / 3) 1 1]),
  (0x1FB56, Glyph.supersampled [Shape.smooth_mosaic false 0 0 (1 / 2) 1]),
  (0x1FB57, Glyph.supersampled [Shape.smooth_mosaic false 0 (1 / 3) (1 / 2) 0]),
  (0x1FB58, Glyph.supersampled [Shape.smooth_mosaic false 0 (1 / 3) 1 0]),
  (0x1FB59, Glyph.supersampled [Shape.smooth_mosaic false 0 (2 / 3) (1 / 2) 0]),
  (0x1FB5A, Glyph.supersampled [Shape.smooth_mosaic false 0 (2 / 3) 1 0]),
  (0x1FB5B, Glyph.supersampled [Shape.smooth_mosaic false 0 1 (1 / 2) 0]),
  (0x1FB5C, Glyph.supersampled [Shape.smooth_mosaic false 0 (2 / 3) 1 (1 / 3)]),
  (0x1FB5D, Glyph.supersampled [Shape.smooth_mosaic false (1 / 2) 1 1 (2 / 3)]),
  (0x1FB5E, Glyph.supersampled [Shape.smooth_mosaic false 0 1 1 (2 / 3)]),
  (0x1FB5F, Glyph.supersampled [Shape.smooth_mosaic false (1 / 2) 1 1 (1 / 3)]),
  (0x1FB60, Glyph.supersampled [Shape.smooth_mosaic false 0 1 1 (1 / 3)]),
  (0x1FB61, Glyph.supersampled [Shape.smooth_mosaic false (1 / 2) 1 1 0]),
  (0x1FB62, Glyph.supersampled [Shape.smooth_mosaic false (1 / 2) 0 1 (1 / 3)]),
  (0x1FB63, Glyph.supersampled [Shape.smooth_mosaic false 0 0 1 (1 / 3)]),
  (0x1FB64, Glyph.supersampled [Shape.smooth_mosaic false (1 / 2) 0 1 (2 / 3)]),
  (0x1FB65, Glyph.supersampled [Shape.smooth_mosaic false 0 0 1 (2 / 3)]),
  (0x1FB66, Glyph.supersampled [Shape.smooth_mosaic false (1 / 2) 0 1 1]),
  (0x1FB67, Glyph.supersampled [Shape.smooth_mosaic false 0 (1 / 3) 1 (2 / 3)]),
  (0x1FB68, Glyph.supersampled [Shape.half_triangle LEFT_EDGE true]),
  (0x1FB69, Glyph.supersampled [Shape.half_triangle TOP_EDGE true]),
  (0x1FB6A, Glyph.supersampled [Shape.half_triangle RIGHT_EDGE true]),
  (0x1FB6B, Glyph.supersampled [Shape.half_triangle BOTTOM_EDGE true]),
  (0x1FB6C, Glyph.supersampled [Shape.half_triangle LEFT_EDGE false]),
  (0x1FB9B, Glyph.supersampled [Shape.half_triangle LEFT_EDGE false, Shape.half_triangle RIGHT_EDGE false]),
  (0x1FB6D, Glyph.supersampled [Shape.half_triangle TOP_EDGE false]),
  (0x1FB6E, Glyph.supersampled [Shape.half_triangle RIGHT_EDGE false]),
  (0x1FB6F, Glyph.supersampled [Shape.half_triangle BOTTOM_EDGE false]),
  (0x1FB9A, Glyph.supersampled [Shape.half_triangle BOTTOM_EDGE false, Shape.half_triangle TOP_EDGE false]),
  (0x1FB7C, Glyph.direct [Shape.eight_bar 0 false, Shape.eight_bar 7 true]),
  (0x1FB7D, Glyph.direct [Shape.eight_bar 0 false, Shape.eight_bar 0 true]),
  (0x1FB7E, Glyph.direct [Shape.eight_bar 7 false, Shape.eight_bar 0 true]),
  (0x1FB7F, Glyph.direct [Shape.eight_bar 7 false, Shape.eight_bar 7 true]),
  (0x1FB80, Glyph.direct [Shape.eight_bar 0 true, Shape.eight_bar 7 true]),
  (0x1FB81, Glyph.direct [Shape.eight_bar 0 true, Shape.eight_bar 2 true, Shape.eight_bar 4 true, Shape.eight_bar 7 true]),
  (0x1FB82, Glyph.direct [Shape.eight_block true [0, 1]]),
  (0x1FB83, Glyph.direct [Shape.eight_block true [0, 1, 2]]),
  (0x1FB84, Glyph.direct [Shape.eight_block true [0, 1, 2, 3, 4]]),
  (0x1FB85, Glyph.direct [Shape.eight_block true [0, 1, 2, 3, 4, 5]]),
  (0x1FB86, Glyph.direct [Shape.eight_block true [0, 1, 2, 3, 4, 5, 6]]),
  (0x1FB87, Glyph.direct [Shape.eight_block false [6, 7]]),
  (0x1FB88, Glyph.direct [Shape.eight_block false [5, 6, 7]]),
  (0x1FB89, Glyph.direct [Shape.eight_block false [3, 4, 5, 6, 7]]),
  (0x1FB8A, Glyph.direct [Shape.eight_block false [2, 3, 4, 5, 6, 7]]),
  (0x1FB8B, Glyph.direct [Shape.eight_block false [1, 2, 3, 4, 5, 6, 7]]),
  (0x1FBA0, Glyph.supersampled [Shape.mid_lines 1 [TOP_LEFT]]),
  (0x1FBA1, Glyph.supersampled [Shape.mid_lines 1 [TOP_RIGHT]]),
  (0x1FBA2, Glyph.supersampled [Shape.mid_lines 1 [BOTTOM_LEFT]]),
  (0x1FBA3, Glyph.supersampled [Shape.mid_lines 1 [BOTTOM_RIGHT]]),
  (0x1FBA4, Glyph.supersampled [Shape.mid_lines 1 [TOP_LEFT, BOTTOM_LEFT]]),
  (0x1FBA5, Glyph.supersampled [Shape.mid_lines 1 [TOP_RIGHT, BOTTOM_RIGHT]]),
  (0x1FBA6, Glyph.supersampled [Shape.mid_lines 1 [BOTTOM_RIGHT, BOTTOM_LEFT]]),
  (0x1FBA7, Glyph.supersampled [Shape.mid_lines 1 [TOP_RIGHT, TOP_LEFT]]),
  (0x1FBA8, Glyph.supersampled [Shape.mid_lines 1 [BOTTOM_RIGHT, TOP_LEFT]]),
  (0x1FBA9, Glyph.supersampled [Shape.mid_lines 1 [BOTTOM_LEFT, TOP_RIGHT]]),
  (0x1FBAA, Glyph.supersampled [Shape.mid_lines 1 [BOTTOM_LEFT, TOP_RIGHT, BOTTOM_RIGHT]]),
  (0x1FBAB, Glyph.supersampled [Shape.mid_lines 1 [BOTTOM_LEFT, TOP_LEFT, BOTTOM_RIGHT]]),
  (0x1FBAC, Glyph.supersampled [Shape.mid_lines 1 [TOP_RIGHT, TOP_LEFT, BOTTOM_RIGHT]]),
  (0x1FBAD, Glyph.supersampled [Shape.mid_lines 1 [TOP_RIGHT, TOP_LEFT, BOTTOM_LEFT]]),
  (0x1FBAE, Glyph.supersampled [Shape.mid_lines 1 [TOP_RIGHT, BOTTOM_RIGHT, TOP_LEFT, BOTTOM_LEFT]]),
  (0xF5D0, Glyph.direct [Shape.hline 1]),
  (0xF5D1, Glyph.direct [Shape.vline 1]),
  (0xF5D2, Glyph.direct [Shape.fading_hline 1 4 RIGHT_EDGE]),
  (0xF5D3, Glyph.direct [Shape.fading_hline 1 4 LEFT_EDGE]),
  (0xF5D4, Glyph.direct [Shape.fading_vline 1 5 BOTTOM_EDGE]),
  (0xF5D5, Glyph.direct [Shape.fading_vline 1 5 TOP_EDGE]),
  (0xF5D6, Glyph.supersampled [Shape.rounded_corner 1 TOP_LEFT]),
  (0xF5D7, Glyph.supersampled [Shape.rounded_corner 1 TOP_RIGHT]),
  (0xF5D8, Glyph.supersampled [Shape.rounded_corner 1 BOTTOM_LEFT]),
  (0xF5D9, Glyph.supersampled [Shape.rounded_corner 1 BOTTOM_RIGHT]),
  (0xF5DA, Glyph.supersampled [Shape.vline 1, Shape.rounded_corner 1 BOTTOM_LEFT]),
  (0xF5DB, Glyph.supersampled [Shape.vline 1, Shape.rounded_corner 1 TOP_LEFT]),
  (0xF5DC, Glyph.supersampled [Shape.rounded_corner 1 BOTTOM_LEFT, Shape.rounded_corner 1 TOP_LEFT]),
  (0xF5DD, Glyph.supersampled [Shape.vline 1, Shape.rounded_corner 1 BOTTOM_RIGHT]),
  (0xF5DE, Glyph.supersampled [Shape.vline 1, Shape.rounded_corner 1 TOP_RIGHT]),
  (0xF5DF, Glyph.supersampled [Shape.rounded_corner 1 TOP_RIGHT, Shape.rounded_corner 1 BOTTOM_RIGHT]),
  (0xF5E0, Glyph.supersampled [Shape.hline 1, Shape.rounded_corner 1 TOP_RIGHT]),
  (0xF5E1, Glyph.supersampled [Shape.hline 1, Shape.rounded_corner 1 TOP_LEFT]),
  (0xF5E2, Glyph.supersampled [Shape.rounded_corner 1 TOP_LEFT, Shape.rounded_corner 1 TOP_RIGHT]),
  (0xF5E3, Glyph.supersampled [Shape.hline 1, Shape.rounded_corner 1 BOTTOM_RIGHT]),
  (0xF5E4, Glyph.supersampled [Shape.hline 1, Shape.rounded_corner 1 BOTTOM_LEFT]),
  (0xF5E5, Glyph.supersampled [Shape.rounded_corner 1 BOTTOM_LEFT, Shape.rounded_corner 1 BOTTOM_RIGHT]),
  (0xF5E6, Glyph.supersampled [Shape.vline 1, Shape.rounded_corner 1 BOTTOM_LEFT, Shape.rounded_corner 1 BOTTOM_RIGHT]),
  (0xF5E7, Glyph.supersampled [Shape.vline 1, Shape.rounded_corner 1 TOP_LEFT, Shape.rounded_corner 1 TOP_RIGHT]),
  (0xF5E8, Glyph.supersampled [Shape.hline 1, Shape.rounded_corner 1 TOP_RIGHT, Shape.rounded_corner 1 BOTTOM_RIGHT]),
  (0xF5E9, Glyph.supersampled [Shape.hline 1, Shape.rounded_corner 1 BOTTOM_LEFT, Shape.rounded_corner 1 TOP_LEFT]),
  (0xF5EA, Glyph.supersampled [Shape.vline 1, Shape.rounded_corner 1 TOP_LEFT, Shape.rounded_corner 1 BOTTOM_RIGHT]),
  (0xF5EB, Glyph.supersampled [Shape.vline 1, Shape.rounded_corner 1 TOP_RIGHT, Shape.rounded_corner 1 BOTTOM_LEFT]),
  (0xF5EC, Glyph.supersampled [Shape.hline 1, Shape.rounded_corner 1 TOP_LEFT, Shape.rounded_corner 1 BOTTOM_RIGHT]),
  (0xF5ED, Glyph.supersampled [Shape.hline 1, Shape.rounded_corner 1 TOP_RIGHT, Shape.rounded_corner 1 BOTTOM_LEFT]),
  (0xF5EE, Glyph.supersampled [Shape.commit NO_EDGE true]),
  (0xF5EF, Glyph.supersampled [Shape.commit NO_EDGE false]),
  (0xF5F0, Glyph.supersampled [Shape.commit RIGHT_EDGE true]),
  (0xF5F1, Glyph.supersampled [Shape.commit RIGHT_EDGE false]),
  (0xF5F2, Glyph.supersampled [Shape.commit LEFT_EDGE true]),
  (0xF5F3, Glyph.supersampled [Shape.commit LEFT_EDGE false]),
  (0xF5F4, Glyph.supersampled [Shape.commit (LEFT_EDGE.or RIGHT_EDGE) true]),
  (0xF5F5, Glyph.supersampled [Shape.commit (LEFT_EDGE.or RIGHT_EDGE) false]),
  (0xF5F6, Glyph.supersampled [Shape.commit BOTTOM_EDGE true]),
  (0xF5F7, Glyph.supersampled [Shape.commit BOTTOM_EDGE false]),
  (0xF5F8, Glyph.supersampled [Shape.commit TOP_EDGE true]),
  (0xF5F9, Glyph.supersampled [Shape.commit TOP_EDGE false]),
  (0xF5FA, Glyph.supersampled [Shape.commit (BOTTOM_EDGE.or TOP_EDGE) true]),
  (0xF5FB, Glyph.supersampled [Shape.commit (BOTTOM_EDGE.or TOP_EDGE) false]),
  (0xF5FC, Glyph.supersampled [Shape.commit (RIGHT_EDGE.or BOTTOM_EDGE) true]),
  (0xF5FD, Glyph.supersampled [Shape.commit (RIGHT_EDGE.or BOTTOM_EDGE) false]),
  (0xF5FE, Glyph.supersampled [Shape.commit (LEFT_EDGE.or BOTTOM_EDGE) true]),
  (0xF5FF, Glyph.supersampled [Shape.commit (LEFT_EDGE.or BOTTOM_EDGE) false]),
  (0xF600, Glyph.supersampled [Shape.commit (RIGHT_EDGE.or TOP_EDGE) true]),
  (0xF601, Glyph.supersampled [Shape.commit (RIGHT_EDGE.or TOP_EDGE) false]),
  (0xF602, Glyph.supersampled [Shape.commit (LEFT_EDGE.or TOP_EDGE) true]),
  (0xF603, Glyph.supersampled [Shape.commit (LEFT_EDGE.or TOP_EDGE) false]),
  (0xF604, Glyph.supersampled [Shape.commit ((TOP_EDGE.or BOTTOM_EDGE).or RIGHT_EDGE) true]),
  (0xF605, Glyph.supersampled [Shape.commit ((TOP_EDGE.or BOTTOM_EDGE).or RIGHT_EDGE) false]),
  (0xF606, Glyph.supersampled [Shape.commit ((TOP_EDGE.or BOTTOM_EDGE).or LEFT_EDGE) true]),
  (0xF607, Glyph.supersampled [Shape.commit ((TOP_EDGE.or BOTTOM_EDGE).or LEFT_EDGE) false]),
  (0xF608, Glyph.supersampled [Shape.commit ((LEFT_EDGE.or RIGHT_EDGE).or BOTTOM_EDGE) true]),
  (0xF609, Glyph.supersampled [Shape.commit ((LEFT_EDGE.or RIGHT_EDGE).or BOTTOM_EDGE) false]),
  (0xF60A, Glyph.supersampled [Shape.commit ((LEFT_EDGE.or RIGHT_EDGE).or TOP_EDGE) true]),
  (0xF60B, Glyph.supersampled [Shape.commit ((LEFT_EDGE.or RIGHT_EDGE).or TOP_EDGE) false]),
  (0xF60C, Glyph.supersampled [Shape.commit (((LEFT_EDGE.or RIGHT_EDGE).or TOP_EDGE).or BOTTOM_EDGE) true]),
  (0xF60D, Glyph.supersampled [Shape.commit (((LEFT_EDGE.or RIGHT_EDGE).or TOP_EDGE).or BOTTOM_EDGE) false]),
  (0x250C, Glyph.direct [Shape.corner t_level t_level BOTTOM_RIGHT]),
  (0x250D, Glyph.direct [Shape.corner f_level t_level BOTTOM_RIGHT]),
  (0x250E, Glyph.direct [Shape.corner t_level f_level BOTTOM_RIGHT]),
  (0x250F, Glyph.direct [Shape.corner f_level f_level BOTTOM_RIGHT]),
  (0x2510, Glyph.direct [Shape.corner t_level t_level BOTTOM_LEFT]),
  (0x2511, Glyph.direct [Shape.corner f_level t_level BOTTOM_LEFT]),
  (0x2512, Glyph.direct [Shape.corner t_level f_level BOTTOM_LEFT]),
  (0x2513, Glyph.direct [Shape.corner f_level f_level BOTTOM_LEFT]),
  (0x2514, Glyph.direct [Shape.corner t_level t_level TOP_RIGHT]),
  (0x2515, Glyph.direct [Shape.corner f_level t_level TOP_RIGHT]),
  (0x2516, Glyph.direct [Shape.corner t_level f_level TOP_RIGHT]),
  (0x2517, Glyph.direct [Shape.corner f_level f_level TOP_RIGHT]),
  (0x2518, Glyph.direct [Shape.corner t_level t_level TOP_LEFT]),
  (0x2519, Glyph.direct [Shape.corner f_level t_level TOP_LEFT]),
  (0x251A, Glyph.direct [Shape.corner t_level f_level TOP_LEFT]),
  (0x251B, Glyph.direct [Shape.corner f_level f_level TOP_LEFT]),
  (0x256D, Glyph.supersampled [Shape.rounded_corner 1 TOP_LEFT]),
  (0x256E, Glyph.supersampled [Shape.rounded_corner 1 TOP_RIGHT]),
  (0x2570, Glyph.supersampled [Shape.rounded_corner 1 BOTTOM_LEFT]),
  (0x256F, Glyph.supersampled [Shape.rounded_corner 1 BOTTOM_RIGHT]),
  (0x253C, Glyph.direct [Shape.cross 0]),
  (0x253D, Glyph.direct [Shape.cross 1]),
  (0x253E, Glyph.direct [Shape.cross 2]),
  (0x253F, Glyph.direct [Shape.cross 3]),
  (0x2540, Glyph.direct [Shape.cross 4]),
  (0x2541, Glyph.direct [Shape.cross 5]),
  (0x2542, Glyph.direct [Shape.cross 6]),
  (0x2543, Glyph.direct [Shape.cross 7]),
  (0x2544, Glyph.direct [Shape.cross 8]),
  (0x2545, Glyph.direct [Shape.cross 9]),
  (0x2546, Glyph.direct [Shape.cross 10]),
  (0x2547, Glyph.direct [Shape.cross 11]),
  (0x2548, Glyph.direct [Shape.cross 12]),
  (0x2549, Glyph.direct [Shape.cross 13]),
  (0x254A, Glyph.direct [Shape.cross 14]),
  (0x254B, Glyph.direct [Shape.cross 15])
  ]

/-- The `case` selected by a code point; `none` is the `default:` label. -/
def lookup (ch : Nat) : Option Glyph :=
  glyph_table.lookup ch

/-- Source `render_box_char`; `buf` is the address of the caller's buffer. -/
def render_box_char (o : Options) (ch : Nat) (buf width height : Nat) (dpi_x dpi_y : ℚ)
    (m : Mem) : Mem :=
  let canvas := Canvas.init buf width height 1 dpi_x dpi_y
  let ss : Canvas := { canvas with
    mask := buf + width * height
    supersample_factor := o.SUPERSAMPLE_FACTOR
    width := width * o.SUPERSAMPLE_FACTOR
    height := height * o.SUPERSAMPLE_FACTOR }
  let m := fill_canvas canvas 0 m
  match lookup ch with
  | none => m
  | some (Glyph.direct calls) => (run_shapes o calls canvas m).2
  | some (Glyph.supersampled calls) =>
    let m := fill_canvas ss 0 m
    let r := run_shapes o calls ss m
    downsample r.1 canvas r.2
  | some (Glyph.masked corner) =>
    let m := fill_canvas ss 0 m
    let r := corner_triangle ss corner m
    let m := downsample r.1 canvas r.2
    let m := memcpy m ss.mask canvas.mask (canvas.width * canvas.height)
    let m := fill_canvas canvas 0 m
    let m := shade canvas { xnum := 12 } m
    apply_mask canvas ss.mask m

/-- A concrete environment for evaluating examples: the default `box_drawing_scale`
table `0.001, 1, 1.5, 2` of kitty, supersampling factor 4.  The C library functions are
only used by the curved glyphs; here they are placeholders. -/
def sample_options : Options :=
  { box_drawing_scale := fun i => [1 / 1000, 1, 3 / 2, 2].getD i 0
    box_drawing_scale_size := 4
    SUPERSAMPLE_FACTOR := 4
    cos := fun _ => 0
    sin := fun _ => 0
    pow := fun _ _ => 0
    M_PI := 355 / 113 }

/-! ## Notions used to state the properties -/

/-- The code points of the Box Drawing block that have no `case`: the T-junctions
U+251C–U+253B, the mixed single/double corners and double corners U+2552–U+255D, and the
mixed T-junctions U+255F, U+2562, U+2564, U+2567. -/
def box_drawing_unhandled (ch : Nat) : Bool :=
  (0x251C ≤ ch && ch ≤ 0x253B) || (0x2552 ≤ ch && ch ≤ 0x255D) ||
    ch == 0x255F || ch == 0x2562 || ch == 0x2564 || ch == 0x2567

/-- C5 as the spec words it: rendering U+2500 on a 10 × 20 cell at 96/96 DPI gives a
full-width band of `round(scale[1] × 96 / 72)` rows of 255 around row 10, and 0 everywhere
else. -/
def spec_hline_band (o : Options) (m : Mem) : Prop :=
  ∃ top, top ≤ 10 ∧
    ∀ x y, x < 10 → y < 20 →
      (Canvas.init 0 10 20 1 96 96).pixel (render_box_char o 0x2500 0 10 20 96 96 m) x y
        = if top ≤ y ∧ y < top + (round_half_away (o.box_drawing_scale 1 * 96 / 72)).toNat
          then 255 else 0

/-- Number of filled (non-zero) pixels of a canvas. -/
def filled_count (c : Canvas) (m : Mem) : Nat :=
  ∑ y in Finset.range c.height, ∑ x in Finset.range c.width,
    if c.pixel m x y = 0 then 0 else 1

/-- Upper boundary line of `triangle`. -/
def triangle_upper (c : Canvas) (left : Bool) (x : Nat) : ℚ :=
  line_y (line_from_points
    (((if left then 0 else (c.width : Int) - 1 : Int)) : ℚ) ((0 : Int) : ℚ)
    (((if left then (c.width : Int) - 1 else 0 : Int)) : ℚ) (((c.height / 2 : Nat) : Int) : ℚ))
    (x : Int)

/-- Lower boundary line of `triangle`. -/
def triangle_lower (c : Canvas) (left : Bool) (x : Nat) : ℚ :=
  line_y (line_from_points
    (((if left then 0 else (c.width : Int) - 1 : Int)) : ℚ) (((c.height : Int) - 1 : Int) : ℚ)
    (((if left then (c.width : Int) - 1 else 0 : Int)) : ℚ) (((c.height / 2 : Nat) : Int) : ℚ))
    (x : Int)

/-- The supersampled canvas set up by `render_box_char`. -/
def ss_canvas (o : Options) (buf w h : Nat) (dpi_x dpi_y : ℚ) : Canvas :=
  { Canvas.init buf w h 1 dpi_x dpi_y with
    mask := buf + w * h
    supersample_factor := o.SUPERSAMPLE_FACTOR
    width := w * o.SUPERSAMPLE_FACTOR
    height := h * o.SUPERSAMPLE_FACTOR }


/-- Memory `m` overwritten on the set of addresses `S` with the bytes `v`. -/
def paint (S : Nat → Bool) (v : Nat → Nat) (m : Mem) : Mem :=
  fun a => if S a then v a else m a

/-- A memory transformer that never reads: it overwrites a fixed set of addresses with
fixed bytes, whatever the memory it is applied to. -/
def WriteOnly (f : Mem → Mem) : Prop :=
  ∃ S v, ∀ m, f m = paint S v m

/-- A step returning a value (for instance the updated canvas) next to the memory: the value
does not depend on the memory and the memory is only written. -/
def WriteOnlyS {σ : Type} (f : Mem → σ × Mem) : Prop :=
  ∃ s S v, ∀ m, f m = (s, paint S v m)

/-- Two canvases that describe the same pixel rectangle: same buffer, size and
supersampling factor (the scratch arrays may differ). -/
def same_geometry (a b : Canvas) : Prop :=
  a.mask = b.mask ∧ a.width = b.width ∧ a.height = b.height ∧
    a.supersample_factor = b.supersample_factor

/-- First column of dot `j` in a row drawn by `add_dotted_underline`: the offset
`j * size + spacing[j]` of its `memset`, with `size` and `spacing` as `distribute_dots`
returns them for `num_of_dots` dots. -/
def dot_start (cell_width num_of_dots j : Nat) : Nat :=
  match distribute_dots cell_width num_of_dots with
  | some (size, spacing, _) => j * size + spacing j
  | none => 0

/-- Number of dots the claim about the dotted underline names:
`floor(cell_width / (2 × underline_thickness))`. -/
def spec_num_of_dots (fcm : FontCellMetrics) : Nat :=
  fcm.cell_width / (2 * fcm.underline_thickness)

/-- Width of a dot the claim about the dotted underline names: `floor(cell_width / (2 n))`
for `n` dots. -/
def spec_dot_size (fcm : FontCellMetrics) : Nat :=
  fcm.cell_width / (2 * spec_num_of_dots fcm)

/-- Number of bars with index below `k` among the first `e` bars of the order
`3, 4, 2, 5, 6, 1, 7, 0` in which `eight_range` hands out the remainder pixels. -/
def widened_before (e k : Nat) : Nat :=
  (([3, 4, 2, 5, 6, 1, 7, 0].take e).filter (fun i => decide (i < k))).length

/-! ## Further specification vocabulary -/

/-- Both scratch lists of a canvas hold no more entries than their capacities. -/
@[reducible] def scratch_within_capacity (c : Canvas) : Prop :=
  c.holes_count ≤ c.holes_capacity ∧ c.y_limits_count ≤ c.y_limits_capacity

/-! ## Holes and filled segments of a dashed line -/

/-- Number of filled segments that the holes of a canvas, taken in increasing order, leave on
a line of `sz` pixels: the stretch before the first hole, the stretches between consecutive
holes and the stretch after the last one, counting the non-empty ones. -/
def filled_segments (c : Canvas) (sz : Nat) : Nat :=
  if c.holes_count = 0 then (if 0 < sz then 1 else 0)
  else (if 0 < (c.holes 0).start then 1 else 0)
    + ((List.range (c.holes_count - 1)).filter
        (fun i => decide ((c.holes i).end_ < (c.holes (i + 1)).start))).length
    + (if (c.holes (c.holes_count - 1)).end_ < sz then 1 else 0)

/-- The partition of a line of `sz` pixels into `num + 1` gaps (the holes) and `num` filled
segments. -/
@[reducible] def spec_holes_partition (c : Canvas) (sz num : Nat) : Prop :=
  c.holes_count = num + 1 ∧ filled_segments c sz = num

/-! ## Ordered holes -/

/-- The holes of index `n0` and above are non-empty, end within the line of `sz` pixels and
at least one pixel before position `p`, and each of them starts at least one pixel after the
previous one ends. -/
def holes_ordered (c : Canvas) (n0 sz p : Nat) : Prop :=
  (∀ i, n0 ≤ i → i < c.holes_count →
    (c.holes i).start < (c.holes i).end_ ∧ (c.holes i).end_ ≤ sz ∧ (c.holes i).end_ + 1 ≤ p) ∧
  (∀ i, n0 ≤ i → i + 1 < c.holes_count → (c.holes i).end_ + 1 ≤ (c.holes (i + 1)).start)

/-! ## Outcome of the bisection `find_t_for_x` -/

/-- A bound on the rounds the loop of `find_t_for_x` still runs from `start_t` with step
`increment`: 20 rounds for every millionth left before `t = 1/2`, plus the halvings the step
can still take before it falls below one millionth. -/
def find_t_rounds (start_t increment : ℚ) : Nat :=
  20 * ⌊1000000 * (1 / 2 - start_t)⌋₊ + Nat.log 2 ⌊1000000 * increment⌋₊

/-- What `find_t_for_x` may return for a search started at `start_t`: a parameter `t` in
`[start_t, 1/2]` that is within the tolerance of 0.1, or is the limit `1/2` of the search, or
is the point where the bisection gave up (a step `increment` whose half is below `1e-6`, the
curve at `t + increment` lying right of the target and out of tolerance). -/
def find_t_outcome (cb : CubicBezier) (x : Int) (start_t t : ℚ) : Prop :=
  start_t ≤ t ∧ t ≤ 1 / 2 ∧
  (fabs (bezier_x cb t - x) < 1 / 10 ∨ t = 1 / 2 ∨
    ∃ increment : ℚ, 0 < increment ∧ increment / 2 < 1 / 1000000 ∧
      bezier_x cb (t + increment) > x ∧ ¬ fabs (bezier_x cb (t + increment) - x) < 1 / 10)

set_option maxRecDepth 100000

/-! ## Loop and memory lemmas -/

theorem loopN_succ {σ : Type} (body : Nat → σ → σ) (lo n : Nat) (s : σ) :
    loopN body lo (n + 1) s = body (lo + n) (loopN body lo n s) := rfl

theorem forLoop_empty {σ : Type} (lo hi : Nat) (body : Nat → σ → σ) (s : σ) (h : hi ≤ lo) :
    forLoop lo hi body s = s := by
  unfold forLoop
  rw [Nat.sub_eq_zero_of_le h]
  rfl

/-- A loop whose iteration `i` rewrites exactly the addresses `W i` (pairwise
disjoint), each to a value `G a` that only depends on memory not yet touched
by the loop, rewrites the union of the `W i` to `G` and nothing else. -/
theorem loopN_region (body : Nat → Mem → Mem) (W : Nat → Set Nat) (G : Nat → Nat)
    (m0 : Mem) (lo n : Nat)
    (hdisj : ∀ i j, i < j → j < n → ∀ a, a ∈ W (lo + i) → a ∉ W (lo + j))
    (hbody : ∀ i m, i < n → (∀ a, (∀ j, j < i → a ∉ W (lo + j)) → m a = m0 a) →
      (∀ a, a ∈ W (lo + i) → body (lo + i) m a = G a) ∧
      (∀ a, a ∉ W (lo + i) → body (lo + i) m a = m a)) :
    (∀ i, i < n → ∀ a, a ∈ W (lo + i) → loopN body lo n m0 a = G a) ∧
    (∀ a, (∀ i, i < n → a ∉ W (lo + i)) → loopN body lo n m0 a = m0 a) := by
  induction n with
  | zero =>
    refine ⟨fun i hi => absurd hi (Nat.not_lt_zero i), fun a _ => rfl⟩
  | succ n ih =>
    have ih1 := ih (fun i j hij hj => hdisj i j hij (Nat.lt_succ_of_lt hj))
      (fun i m hi hm => hbody i m (Nat.lt_succ_of_lt hi) hm)
    obtain ⟨ihA, ihB⟩ := ih1
    have hb := hbody n (loopN body lo n m0) (Nat.lt_succ_self n) ihB
    obtain ⟨hbA, hbB⟩ := hb
    constructor
    · intro i hi a ha
      rw [loopN_succ]
      rcases Nat.lt_succ_iff_lt_or_eq.mp hi with h | h
      · have hna : a ∉ W (lo + n) := hdisj i n h (Nat.lt_succ_self n) a ha
        rw [hbB a hna]
        exact ihA i h a ha
      · subst h
        exact hbA a ha
    · intro a ha
      rw [loopN_succ]
      rw [hbB a (ha n (Nat.lt_succ_self n))]
      exact ihB a (fun i hi => ha i (Nat.lt_succ_of_lt hi))

/-- An accumulating loop computes a finite sum. -/
theorem loopN_sum (g : Nat → Nat) (lo n t0 : Nat) :
    loopN (fun x total => total + g x) lo n t0 = t0 + ∑ i in Finset.range n, g (lo + i) := by
  induction n with
  | zero => simp [loopN]
  | succ n ih =>
    rw [loopN_succ, ih, Finset.sum_range_succ]
    omega

theorem forLoop_sum (g : Nat → Nat) (lo n t0 : Nat) :
    forLoop lo (lo + n) (fun x total => total + g x) t0
      = t0 + ∑ i in Finset.range n, g (lo + i) := by
  unfold forLoop
  rw [Nat.add_sub_cancel_left]
  exact loopN_sum g lo n t0


/-- A loop of `memset`s with one byte value paints the union of the written intervals. -/
theorem loopN_memset (off len : Nat → Nat) (v : Nat) (m : Mem) (lo n a : Nat) :
    ((∃ i, i < n ∧ off (lo + i) ≤ a ∧ a < off (lo + i) + len (lo + i)) →
      loopN (fun i m => memset m (off i) v (len i)) lo n m a = v) ∧
    ((¬ ∃ i, i < n ∧ off (lo + i) ≤ a ∧ a < off (lo + i) + len (lo + i)) →
      loopN (fun i m => memset m (off i) v (len i)) lo n m a = m a) := by
  induction n with
  | zero =>
    constructor
    · rintro ⟨i, hi, _⟩
      exact absurd hi (Nat.not_lt_zero i)
    · intro _
      rfl
  | succ n ih =>
    rw [loopN_succ]
    unfold memset
    by_cases h : off (lo + n) ≤ a ∧ a < off (lo + n) + len (lo + n)
    · rw [if_pos h]
      exact ⟨fun _ => rfl, fun hne => absurd ⟨n, Nat.lt_succ_self n, h⟩ hne⟩
    · rw [if_neg h]
      constructor
      · rintro ⟨i, hi, hh⟩
        apply ih.1
        rcases Nat.lt_succ_iff_lt_or_eq.mp hi with h3 | h3
        · exact ⟨i, h3, hh⟩
        · subst h3
          exact absurd hh h
      · intro hne
        apply ih.2
        rintro ⟨i, hi, hh⟩
        exact hne ⟨i, Nat.lt_succ_of_lt hi, hh⟩

theorem forLoop_memset (off len : Nat → Nat) (v : Nat) (m : Mem) (lo hi a : Nat) :
    ((∃ i, lo ≤ i ∧ i < hi ∧ off i ≤ a ∧ a < off i + len i) →
      forLoop lo hi (fun i m => memset m (off i) v (len i)) m a = v) ∧
    ((¬ ∃ i, lo ≤ i ∧ i < hi ∧ off i ≤ a ∧ a < off i + len i) →
      forLoop lo hi (fun i m => memset m (off i) v (len i)) m a = m a) := by
  unfold forLoop
  have key : (∃ i, i < hi - lo ∧ off (lo + i) ≤ a ∧ a < off (lo + i) + len (lo + i))
      ↔ (∃ i, lo ≤ i ∧ i < hi ∧ off i ≤ a ∧ a < off i + len i) := by
    constructor
    · rintro ⟨i, hi, hh⟩
      exact ⟨lo + i, by omega, by omega, hh⟩
    · rintro ⟨i, h1, h2, hh⟩
      refine ⟨i - lo, by omega, ?_⟩
      rw [show lo + (i - lo) = i by omega]
      exact hh
  have := loopN_memset off len v m lo (hi - lo) a
  rw [key] at this
  exact this

/-- Two pixels of a row-major canvas with the same address have the same coordinates. -/
theorem pixel_addr_inj (w x y x2 y2 : Nat) (hx : x < w) (hx2 : x2 < w)
    (h : y * w + x = y2 * w + x2) : y = y2 ∧ x = x2 := by
  have key : ∀ a b p q : Nat, p < w → a < b → a * w + p < b * w + q := by
    intro a b p q hp hab
    have : (a + 1) * w ≤ b * w := Nat.mul_le_mul_right _ hab
    have h2 : (a + 1) * w = a * w + w := by ring
    omega
  rcases Nat.lt_trichotomy y y2 with h1 | h1 | h1
  · have := key y y2 x x2 hx h1
    omega
  · subst h1
    exact ⟨rfl, by omega⟩
  · have := key y2 y x2 x hx2 h1
    omega

/-- A loop over rows `[lo, hi)` that sets `len` bytes from column `x1` in each row, the
run staying inside the row, paints the rectangle `[x1, x1 + len) × [lo, hi)`. -/
theorem rows_memset_pixel (mask w x1 len v lo hi : Nat) (m : Mem) (x y : Nat)
    (hx : x < w) (hlen : len = 0 ∨ x1 + len ≤ w) :
    forLoop lo hi (fun y m => memset m (mask + (y * w + x1)) v len) m (mask + (y * w + x))
      = if (lo ≤ y ∧ y < hi) ∧ (x1 ≤ x ∧ x < x1 + len) then v else m (mask + (y * w + x)) := by
  have hm := forLoop_memset (fun y => mask + (y * w + x1)) (fun _ => len) v m lo hi
    (mask + (y * w + x))
  by_cases h : (lo ≤ y ∧ y < hi) ∧ (x1 ≤ x ∧ x < x1 + len)
  · rw [if_pos h]
    exact hm.1 ⟨y, h.1.1, h.1.2, by omega, by omega⟩
  · rw [if_neg h]
    apply hm.2
    rintro ⟨i, h1, h2, h3, h4⟩
    apply h
    rcases hlen with h0 | h0
    · omega
    · have e : i * w + (mask + (y * w + x) - mask - i * w) = y * w + x := by omega
      have hlt : mask + (y * w + x) - mask - i * w < w := by omega
      obtain ⟨rfl, hxx⟩ := pixel_addr_inj w _ i x y hlt hx e
      exact ⟨⟨h1, h2⟩, by omega, by omega⟩

/-- A loop of single-byte stores to pairwise distinct addresses, the stored values not
depending on memory. -/
theorem loopN_store (addr v : Nat → Nat) (m : Mem) (n : Nat)
    (hinj : ∀ i j, i < j → j < n → addr i ≠ addr j) :
    (∀ i, i < n → loopN (fun x m => store m (addr x) (v x)) 0 n m (addr i) = v i) ∧
    (∀ a, (∀ i, i < n → a ≠ addr i) → loopN (fun x m => store m (addr x) (v x)) 0 n m a = m a) := by
  induction n with
  | zero =>
    exact ⟨fun i hi => absurd hi (Nat.not_lt_zero i), fun a _ => rfl⟩
  | succ n ih =>
    obtain ⟨ih1, ih2⟩ := ih (fun i j hij hj => hinj i j hij (Nat.lt_succ_of_lt hj))
    constructor
    · intro i hi
      rw [loopN_succ, Nat.zero_add]
      unfold store
      rcases Nat.lt_succ_iff_lt_or_eq.mp hi with h | h
      · rw [if_neg (hinj i n h (Nat.lt_succ_self n))]
        exact ih1 i h
      · subst h
        rw [if_pos rfl]
    · intro a ha
      rw [loopN_succ, Nat.zero_add]
      unfold store
      rw [if_neg (ha n (Nat.lt_succ_self n))]
      exact ih2 a (fun i hi => ha i (Nat.lt_succ_of_lt hi))

/-- Two nested loops (rows `y < h`, then `x < n`) storing `val x y` at column `col x` of
row `y` of a row-major canvas: exactly those pixels are rewritten. -/
theorem grid_store (mask w n : Nat) (col : Nat → Nat) (val : Nat → Nat → Nat) (m : Mem) (h : Nat)
    (hcol : ∀ x, x < n → col x < w)
    (hinj : ∀ i j, i < j → j < n → col i ≠ col j) :
    (∀ x y, x < n → y < h →
      loopN (fun y m => forLoop 0 n (fun x m => store m (mask + (y * w + col x)) (val x y)) m)
        0 h m (mask + (y * w + col x)) = val x y) ∧
    (∀ a, (∀ x y, x < n → y < h → a ≠ mask + (y * w + col x)) →
      loopN (fun y m => forLoop 0 n (fun x m => store m (mask + (y * w + col x)) (val x y)) m)
        0 h m a = m a) := by
  induction h with
  | zero =>
    exact ⟨fun x y _ hy => absurd hy (Nat.not_lt_zero y), fun a _ => rfl⟩
  | succ h ih =>
    obtain ⟨ih1, ih2⟩ := ih
    have hrow := fun (m0 : Mem) => loopN_store (fun x => mask + (h * w + col x)) (fun x => val x h)
      m0 n (by
        intro i j hij hj
        have := hinj i j hij hj
        show mask + (h * w + col i) ≠ mask + (h * w + col j)
        omega)
    constructor
    · intro x y hx hy
      rw [loopN_succ, Nat.zero_add]
      simp only [forLoop, Nat.sub_zero]
      rcases Nat.lt_succ_iff_lt_or_eq.mp hy with hlt | heq
      · rw [(hrow _).2 _ (by
          intro i hi heq
          have e : y * w + col x = h * w + col i := by omega
          have := (pixel_addr_inj w (col x) y (col i) h (hcol x hx) (hcol i hi) e).1
          omega)]
        exact ih1 x y hx hlt
      · subst heq
        exact (hrow _).1 x hx
    · intro a ha
      rw [loopN_succ, Nat.zero_add]
      simp only [forLoop, Nat.sub_zero]
      rw [(hrow _).2 a (fun i hi => ha i h hi (Nat.lt_succ_self h))]
      exact ih2 a (fun x y hx hy => ha x y hx (Nat.lt_succ_of_lt hy))

/-! ## The dispatch switch (C1, C4) -/

/-- C1: for every code point without a `case` in the switch (`lookup ch = none`, the
`default:` label), every cell width, height and DPI and whatever the buffer held,
`render_box_char` returns and every byte of the normal-resolution region (the first
`width × height` bytes of the buffer) is 0. -/
theorem C1_unmapped_blank (o : Options) (ch buf w h : Nat) (dpi_x dpi_y : ℚ) (m : Mem)
    (hch : lookup ch = none) :
    ∀ i, i < w * h → render_box_char o ch buf w h dpi_x dpi_y m (buf + i) = 0 := by
  intro i hi
  unfold render_box_char
  simp only [hch]
  unfold fill_canvas memset Canvas.init
  simp only
  rw [if_pos ⟨by omega, by omega⟩]

/-- Witness for C1: the private-use code point U+E000 has no case; byte 5 of a 3 × 4 cell. -/
theorem C1_unmapped_blank_witness :
    lookup 0xE000 = none ∧
    render_box_char sample_options 0xE000 0 3 4 96 96 (fun _ => 77) (0 + 5) = 0 :=
  ⟨by rfl, C1_unmapped_blank sample_options 0xE000 0 3 4 96 96 (fun _ => 77) (by rfl) 5
    (by decide)⟩

theorem box_drawing_block_cases :
    ∀ k, k < 128 → ((lookup (0x2500 + k)).isSome = !box_drawing_unhandled (0x2500 + k)) := by
  decide

/-- C4 (as stated) fails: the T-junction U+251C and the double corner U+2554 are in the
Box Drawing block but have no `case`, so they take the blank fallback. -/
theorem C4_counterexample :
    ¬ (∀ ch, 0x2500 ≤ ch → ch ≤ 0x257F → (lookup ch).isSome = true) := by
  intro h
  have := h 0x251C (by decide) (by decide)
  revert this
  decide

/-- C4 (amended): a code point of the Box Drawing block U+2500–U+257F dispatches to a
shape routine exactly when it is not one of the 48 code points U+251C–U+253B,
U+2552–U+255D, U+255F, U+2562, U+2564, U+2567; those have no case and take the
unknown-character (blank) fallback. -/
theorem C4_box_drawing_dispatch (ch : Nat) (h1 : 0x2500 ≤ ch) (h2 : ch ≤ 0x257F) :
    (box_drawing_unhandled ch = false → (lookup ch).isSome = true) ∧
    (box_drawing_unhandled ch = true → lookup ch = none) := by
  have hk := box_drawing_block_cases (ch - 0x2500) (by omega)
  rw [show 0x2500 + (ch - 0x2500) = ch by omega] at hk
  constructor
  · intro hu
    rw [hk, hu]
    rfl
  · intro hu
    rw [hu] at hk
    cases hl : lookup ch with
    | none => rfl
    | some g =>
      rw [hl] at hk
      simp at hk

/-- Witness for C4: the light cross U+253C is dispatched. -/
theorem C4_box_drawing_dispatch_witness :
    0x2500 ≤ 0x253C ∧ 0x253C ≤ 0x257F ∧ (lookup 0x253C).isSome = true :=
  ⟨by decide, by decide,
    (C4_box_drawing_dispatch 0x253C (by decide) (by decide)).1 (by decide)⟩

/-! ## Downsampling (C3) -/

theorem lor_255 (r : Nat) (h : r < 256) : r ||| 255 = 255 := by
  revert r
  decide

/-- On bytes, the branch-free `plus` is saturating addition. -/
theorem plus_eq_min (a b : Nat) (ha : a < 256) (hb : b < 256) :
    plus a b = min 255 (a + b) := by
  unfold plus
  by_cases h : a + b < 256
  · have h1 : (a + b) % 256 = a + b := Nat.mod_eq_of_lt h
    simp only [h1]
    have h2 : ¬ (a + b < a) := by omega
    simp only [h2, if_false, Nat.or_zero]
    omega
  · have h1 : (a + b) % 256 = a + b - 256 := by
      rw [Nat.mod_eq_sub_mod (by omega)]
      exact Nat.mod_eq_of_lt (by omega)
    simp only [h1]
    have h2 : a + b - 256 < a := by omega
    simp only [h2, if_true]
    rw [lor_255 _ (by omega)]
    omega

theorem average_intensity_eq (src : Canvas) (m : Mem) (x y : Nat) :
    average_intensity src m x y
      = (block_sum src m x y / (src.supersample_factor * src.supersample_factor)) % 256 := by
  unfold average_intensity block_sum
  have hinner : (fun (yy total : Nat) =>
      forLoop (x * src.supersample_factor) (x * src.supersample_factor + src.supersample_factor)
        (fun xx total => total + m (src.mask + (src.width * yy + xx))) total)
      = (fun (yy total : Nat) => total + ∑ i in Finset.range src.supersample_factor,
          m (src.mask + (src.width * yy + (x * src.supersample_factor + i)))) := by
    funext yy total
    exact forLoop_sum (fun xx => m (src.mask + (src.width * yy + xx))) _ _ _
  simp only [hinner]
  rw [forLoop_sum (fun yy => ∑ i in Finset.range src.supersample_factor,
          m (src.mask + (src.width * yy + (x * src.supersample_factor + i))))]
  simp only [Nat.zero_add, Canvas.addr]
  congr 2
  apply Finset.sum_congr rfl
  intro j _
  apply Finset.sum_congr rfl
  intro i _
  congr 1
  rw [Nat.mul_comm src.width, Nat.mul_comm x, Nat.mul_comm y]
  omega

theorem dest_addr_row_lt (w h x y : Nat) (hx : x < w) (hy : y < h) : w * y + x < w * h := by
  calc w * y + x < w * y + w := by omega
    _ = w * (y + 1) := by ring
    _ ≤ w * h := Nat.mul_le_mul_left _ hy

theorem row_disjoint (w x x2 y y2 : Nat) (hx : x < w) (hy : y < y2) : w * y + x ≠ w * y2 + x2 := by
  have : w * y + x < w * y2 := by
    calc w * y + x < w * y + w := by omega
      _ = w * (y + 1) := by ring
      _ ≤ w * y2 := Nat.mul_le_mul_left _ hy
  omega

/-- Addresses of the block of destination pixel `(x, y)` lie inside the source canvas. -/
theorem block_addr_in_region (src : Canvas) (x y w h i j : Nat)
    (hw : src.width = src.supersample_factor * w) (hh : src.height = src.supersample_factor * h)
    (hx : x < w) (hy : y < h) (hi : i < src.supersample_factor) (hj : j < src.supersample_factor) :
    src.mask ≤ src.addr (src.supersample_factor * x + i) (src.supersample_factor * y + j) ∧
    src.addr (src.supersample_factor * x + i) (src.supersample_factor * y + j)
      < src.mask + src.width * src.height := by
  unfold Canvas.addr
  have h1 : src.supersample_factor * x + i < src.width := by
    rw [hw]
    calc src.supersample_factor * x + i < src.supersample_factor * x + src.supersample_factor := by omega
      _ = src.supersample_factor * (x + 1) := by ring
      _ ≤ src.supersample_factor * w := Nat.mul_le_mul_left _ hx
  have h2 : src.supersample_factor * y + j < src.height := by
    rw [hh]
    calc src.supersample_factor * y + j < src.supersample_factor * y + src.supersample_factor := by omega
      _ = src.supersample_factor * (y + 1) := by ring
      _ ≤ src.supersample_factor * h := Nat.mul_le_mul_left _ hy
  have h3 := dest_addr_row_lt src.width src.height _ _ h1 h2
  have h4 : (src.supersample_factor * y + j) * src.width
      = src.width * (src.supersample_factor * y + j) := Nat.mul_comm _ _
  constructor <;> omega

theorem block_sum_le (src : Canvas) (m : Mem) (x y : Nat)
    (hm : ∀ i j, i < src.supersample_factor → j < src.supersample_factor →
      m (src.addr (src.supersample_factor * x + i) (src.supersample_factor * y + j)) < 256) :
    block_sum src m x y ≤ 255 * (src.supersample_factor * src.supersample_factor) := by
  unfold block_sum
  have h1 : ∀ j ∈ Finset.range src.supersample_factor,
      (∑ i in Finset.range src.supersample_factor,
        m (src.addr (src.supersample_factor * x + i) (src.supersample_factor * y + j)))
      ≤ 255 * src.supersample_factor := by
    intro j hj
    rw [Finset.mem_range] at hj
    have := Finset.sum_le_card_nsmul (Finset.range src.supersample_factor)
      (fun i => m (src.addr (src.supersample_factor * x + i) (src.supersample_factor * y + j)))
      255 (fun i hi => Nat.le_of_lt_succ (hm i j (Finset.mem_range.mp hi) hj))
    simpa [Nat.mul_comm] using this
  have h2 := Finset.sum_le_card_nsmul (Finset.range src.supersample_factor) _ _ h1
  have h3 : (Finset.range src.supersample_factor).card • (255 * src.supersample_factor)
      = 255 * (src.supersample_factor * src.supersample_factor) := by
    simp only [Finset.card_range, smul_eq_mul]
    ring
  rw [h3] at h2
  exact h2

theorem average_intensity_eq_div (src : Canvas) (m : Mem) (x y : Nat)
    (hf : 1 ≤ src.supersample_factor)
    (hm : ∀ i j, i < src.supersample_factor → j < src.supersample_factor →
      m (src.addr (src.supersample_factor * x + i) (src.supersample_factor * y + j)) < 256) :
    average_intensity src m x y
      = block_sum src m x y / (src.supersample_factor * src.supersample_factor) := by
  rw [average_intensity_eq]
  apply Nat.mod_eq_of_lt
  have hpos : 0 < src.supersample_factor * src.supersample_factor := Nat.mul_pos hf hf
  have := block_sum_le src m x y hm
  have h2 : block_sum src m x y / (src.supersample_factor * src.supersample_factor) ≤ 255 := by
    apply Nat.div_le_of_le_mul
    rw [Nat.mul_comm]
    exact this
  omega

/-- The sum `block_sum` only depends on the bytes of the source canvas. -/
theorem block_sum_congr (src : Canvas) (m m2 : Mem) (x y w : Nat)
    (hw : src.width = src.supersample_factor * w) (hx : x < w)
    (hh : ∀ a, src.mask ≤ a → a < src.mask + src.width * (src.supersample_factor * (y + 1)) → m a = m2 a) :
    block_sum src m x y = block_sum src m2 x y := by
  unfold block_sum
  apply Finset.sum_congr rfl
  intro j hj
  apply Finset.sum_congr rfl
  intro i hi
  rw [Finset.mem_range] at hi hj
  apply hh
  · unfold Canvas.addr; omega
  · unfold Canvas.addr
    have h1 : src.supersample_factor * x + i < src.width := by
      rw [hw]
      calc src.supersample_factor * x + i < src.supersample_factor * x + src.supersample_factor := by omega
        _ = src.supersample_factor * (x + 1) := by ring
        _ ≤ src.supersample_factor * w := Nat.mul_le_mul_left _ hx
    have h2 : (src.supersample_factor * y + j + 1) * src.width
        ≤ src.width * (src.supersample_factor * (y + 1)) := by
      rw [Nat.mul_comm]
      apply Nat.mul_le_mul_left
      have : src.supersample_factor * (y + 1) = src.supersample_factor * y + src.supersample_factor := by ring
      omega
    have h3 : (src.supersample_factor * y + j + 1) * src.width
        = (src.supersample_factor * y + j) * src.width + src.width := by ring
    omega

/-- Pointwise description of `downsample`. -/
theorem downsample_spec (src dest : Canvas) (m : Mem)
    (hf : 1 ≤ src.supersample_factor)
    (hw : src.width = src.supersample_factor * dest.width)
    (hh : src.height = src.supersample_factor * dest.height)
    (hsep : dest.mask + dest.width * dest.height ≤ src.mask ∨
      src.mask + src.width * src.height ≤ dest.mask)
    (hmd : ∀ a, dest.mask ≤ a → a < dest.mask + dest.width * dest.height → m a < 256)
    (hms : ∀ a, src.mask ≤ a → a < src.mask + src.width * src.height → m a < 256) :
    (∀ x y, x < dest.width → y < dest.height →
      downsample src dest m (dest.mask + (dest.width * y + x))
        = min 255 (m (dest.mask + (dest.width * y + x)) + block_sum src m x y /
            (src.supersample_factor * src.supersample_factor))) ∧
    (∀ a, (a < dest.mask ∨ dest.mask + dest.width * dest.height ≤ a) →
      downsample src dest m a = m a) := by
  -- value written for the pixel at address `a`
  obtain ⟨G, hG⟩ : ∃ G : Nat → Nat, ∀ a, G a =
    min 255 (m a + block_sum src m ((a - dest.mask) % dest.width) ((a - dest.mask) / dest.width) /
      (src.supersample_factor * src.supersample_factor)) := ⟨_, fun _ => rfl⟩
  obtain ⟨W, hW⟩ : ∃ W : Nat → Set Nat, ∀ y a, a ∈ W y ↔
    ∃ x, x < dest.width ∧ a = dest.mask + (dest.width * y + x) := ⟨fun y => {a | _}, fun _ _ => Iff.rfl⟩
  have hsrc_outside : ∀ a, src.mask ≤ a → a < src.mask + src.width * src.height →
      ∀ x y, x < dest.width → y < dest.height → a ≠ dest.mask + (dest.width * y + x) := by
    intro a h1 h2 x y hx hy heq
    have := dest_addr_row_lt dest.width dest.height x y hx hy
    omega
  have key := loopN_region
    (fun y m => forLoop 0 dest.width (fun x m =>
      store m (dest.mask + (dest.width * y + x))
        (plus (m (dest.mask + (dest.width * y + x))) (average_intensity src m x y))) m)
    W G m 0 dest.height
    (by
      intro i j hij hj a ha hb
      obtain ⟨x, hx, rfl⟩ := (hW _ _).mp ha
      obtain ⟨x2, _, h2⟩ := (hW _ _).mp hb
      have := row_disjoint dest.width x x2 (0 + i) (0 + j) hx (by omega)
      omega)
    (by
      intro y m1 hy hm1
      simp only [Nat.zero_add] at hm1 ⊢
      have inner := loopN_region
        (fun x m => store m (dest.mask + (dest.width * y + x))
          (plus (m (dest.mask + (dest.width * y + x))) (average_intensity src m x y)))
        (fun x => {a | a = dest.mask + (dest.width * y + x)}) G m1 0 dest.width
        (by
          intro i j hij _ a ha hb
          simp only [Set.mem_setOf_eq] at ha hb
          omega)
        (by
          intro x m2 hx hm2
          simp only [Nat.zero_add, Set.mem_setOf_eq] at hm2 ⊢
          have hagree : ∀ a, (∀ y2 x2, y2 < dest.height → x2 < dest.width →
              a = dest.mask + (dest.width * y2 + x2) → y2 = y ∧ x ≤ x2) → m2 a = m a := by
            intro a ha
            rw [hm2 a (by
              intro j hj heq
              have := ha y j hy (by omega) heq
              omega)]
            apply hm1
            intro j hj hmem
            obtain ⟨x2, hx2, heq⟩ := (hW _ _).mp hmem
            have := ha j x2 (by omega) hx2 heq
            omega
          constructor
          · intro a ha
            subst ha
            simp only [store, if_true]
            have h1 : m2 (dest.mask + (dest.width * y + x)) = m (dest.mask + (dest.width * y + x)) := by
              apply hagree
              intro y2 x2 hy2 hx2 heq
              have hyy : y2 = y := by
                by_contra hne
                rcases Nat.lt_or_gt_of_ne hne with h | h
                · exact row_disjoint dest.width x2 x y2 y hx2 h (by omega)
                · exact row_disjoint dest.width x x2 y y2 hx h (by omega)
              subst hyy
              exact ⟨rfl, by omega⟩
            have h2 : average_intensity src m2 x y = average_intensity src m x y := by
              rw [average_intensity_eq, average_intensity_eq]
              rw [block_sum_congr src m2 m x y dest.width hw hx]
              intro a ha1 ha2
              apply hagree
              intro y2 x2 hy2 hx2 heq
              exfalso
              refine hsrc_outside a ha1 ?_ x2 y2 hx2 hy2 heq
              have : src.width * (src.supersample_factor * (y + 1)) ≤ src.width * src.height := by
                rw [hh]
                exact Nat.mul_le_mul_left _ (Nat.mul_le_mul_left _ hy)
              omega
            have hblk : ∀ i j, i < src.supersample_factor → j < src.supersample_factor →
                m (src.addr (src.supersample_factor * x + i) (src.supersample_factor * y + j))
                  < 256 := by
              intro i j hi hj
              have := block_addr_in_region src x y dest.width dest.height i j hw hh hx hy hi hj
              exact hms _ this.1 this.2
            rw [h1, h2, average_intensity_eq_div src m x y hf hblk]
            have hb : block_sum src m x y / (src.supersample_factor * src.supersample_factor) < 256 := by
              have := average_intensity_eq src m x y
              rw [average_intensity_eq_div src m x y hf hblk] at this
              rw [this]
              exact Nat.mod_lt _ (by norm_num)
            have hdb : m (dest.mask + (dest.width * y + x)) < 256 := by
              have := dest_addr_row_lt dest.width dest.height x y hx hy
              exact hmd _ (by omega) (by omega)
            rw [plus_eq_min _ _ hdb hb, hG]
            have e1 : (dest.mask + (dest.width * y + x) - dest.mask) % dest.width = x := by
              rw [Nat.add_sub_cancel_left, Nat.mul_add_mod]
              exact Nat.mod_eq_of_lt hx
            have e2 : (dest.mask + (dest.width * y + x) - dest.mask) / dest.width = y := by
              rw [Nat.add_sub_cancel_left, Nat.mul_add_div (Nat.zero_lt_of_lt hx) y x, Nat.div_eq_of_lt hx]
              rfl
            rw [e1, e2]
          · intro a ha
            simp only [store, if_neg ha])
      obtain ⟨innerA, innerB⟩ := inner
      simp only [Nat.zero_add, Set.mem_setOf_eq] at innerA innerB
      constructor
      · intro a ha
        obtain ⟨x, hx, rfl⟩ := (hW _ _).mp ha
        exact innerA x hx _ rfl
      · intro a ha
        apply innerB
        intro x hx heq
        exact ha ((hW _ _).mpr ⟨x, hx, heq⟩))
  obtain ⟨keyA, keyB⟩ := key
  simp only [Nat.zero_add] at keyA keyB
  constructor
  · intro x y hx hy
    have := keyA y hy (dest.mask + (dest.width * y + x)) ((hW _ _).mpr ⟨x, hx, rfl⟩)
    rw [show downsample src dest m (dest.mask + (dest.width * y + x))
      = G (dest.mask + (dest.width * y + x)) from this, hG]
    have e1 : (dest.mask + (dest.width * y + x) - dest.mask) % dest.width = x := by
      rw [Nat.add_sub_cancel_left, Nat.mul_add_mod]
      exact Nat.mod_eq_of_lt hx
    have e2 : (dest.mask + (dest.width * y + x) - dest.mask) / dest.width = y := by
      rw [Nat.add_sub_cancel_left, Nat.mul_add_div (Nat.zero_lt_of_lt hx) y x, Nat.div_eq_of_lt hx]
      rfl
    rw [e1, e2]
  · intro a ha
    show loopN _ 0 (dest.height - 0) m a = m a
    apply keyB
    intro y hy hmem
    obtain ⟨x, hx, heq⟩ := (hW _ _).mp hmem
    have := dest_addr_row_lt dest.width dest.height x y hx hy
    omega

/-- C3: for every supersample factor `f ≥ 1`, destination canvas of size `w × h`
and source canvas of size `(f·w) × (f·h)` (the two canvases not overlapping in
memory, all bytes below 256), `downsample` sets each destination pixel `(x, y)`
to `min(255, old(x,y) + ⌊S / f²⌋)` where `S` is the sum of the `f × f` source
block of that pixel, and leaves the source unchanged. -/
theorem C3_downsample (src dest : Canvas) (m : Mem) (f : Nat)
    (hf : 1 ≤ f) (hsf : src.supersample_factor = f)
    (hw : src.width = f * dest.width) (hh : src.height = f * dest.height)
    (hsep : dest.mask + dest.width * dest.height ≤ src.mask ∨
      src.mask + src.width * src.height ≤ dest.mask)
    (hm : ∀ a, m a < 256) :
    (∀ x y, x < dest.width → y < dest.height →
      dest.pixel (downsample src dest m) x y
        = min 255 (dest.pixel m x y + block_sum src m x y / (f * f))) ∧
    (∀ x y, x < src.width → y < src.height →
      src.pixel (downsample src dest m) x y = src.pixel m x y) := by
  subst hsf
  obtain ⟨hA, hB⟩ := downsample_spec src dest m hf hw hh hsep (fun a _ _ => hm a)
    (fun a _ _ => hm a)
  constructor
  · intro x y hx hy
    have := hA x y hx hy
    simp only [Canvas.pixel, Canvas.addr]
    rw [show dest.mask + y * dest.width + x = dest.mask + (dest.width * y + x) by
      rw [Nat.mul_comm, Nat.add_assoc]]
    exact this
  · intro x y hx hy
    simp only [Canvas.pixel, Canvas.addr]
    apply hB
    have h1 := dest_addr_row_lt src.width src.height x y hx hy
    have h2 : y * src.width = src.width * y := Nat.mul_comm _ _
    omega

/-- Witness for C3: a 2×2 source block 100,100,100,100 averaged onto a pixel holding 10. -/
theorem C3_downsample_witness :
    (Canvas.init 0 1 1 1 96 96).pixel
      (downsample (Canvas.init 1 2 2 2 96 96) (Canvas.init 0 1 1 1 96 96)
        (fun a => if a = 0 then 10 else 100)) 0 0 = 110 := by
  have h := (C3_downsample (Canvas.init 1 2 2 2 96 96) (Canvas.init 0 1 1 1 96 96)
    (fun a => if a = 0 then 10 else 100) 2 (by decide) rfl rfl rfl (Or.inl (by decide))
    (by intro a; by_cases h : a = 0 <;> simp [h])).1 0 0 (by decide) (by decide)
  rw [h]
  simp [Canvas.pixel, Canvas.addr, Canvas.init, block_sum, Finset.sum_range_succ]

/-! ## Straight lines: pixel characterisation -/

/-- Pixels of a canvas just cleared by `fill_canvas`. -/
theorem fill_canvas_pixel (c : Canvas) (byte : Nat) (m : Mem) (x y : Nat)
    (hx : x < c.width) (hy : y < c.height) :
    fill_canvas c byte m (c.mask + (y * c.width + x)) = byte := by
  unfold fill_canvas memset
  have h1 : y * c.width + x < c.width * c.height := by
    have := dest_addr_row_lt c.width c.height x y hx hy
    rw [Nat.mul_comm y]
    exact this
  rw [if_pos ⟨by omega, by omega⟩]

theorem half_width_le (c : Canvas) : half_width c ≤ c.width := by
  unfold half_width
  calc c.supersample_factor * (c.width / 2 / c.supersample_factor)
      ≤ c.width / 2 := Nat.mul_div_le _ _
    _ ≤ c.width := Nat.div_le_self _ _

theorem half_height_le (c : Canvas) : half_height c ≤ c.height := by
  unfold half_height
  calc c.supersample_factor * (c.height / 2 / c.supersample_factor)
      ≤ c.height / 2 := Nat.mul_div_le _ _
    _ ≤ c.height := Nat.div_le_self _ _

theorem ite_two_halves (B R L : Prop) [Decidable B] [Decidable R] [Decidable L] (h : R ∨ L)
    (v d : Nat) :
    (if B ∧ R then v else if B ∧ L then v else d) = if B then v else d := by
  by_cases hb : B
  · rw [if_pos hb]
    by_cases hr : R
    · rw [if_pos ⟨hb, hr⟩]
    · rw [if_neg (fun hh => hr hh.2)]
      rcases h with h | h
      · exact absurd h hr
      · rw [if_pos ⟨hb, h⟩]
  · rw [if_neg hb, if_neg (fun hh => hb hh.1), if_neg (fun hh => hb hh.1)]

/-- Pixels after `draw_hline` when the line ends inside the row. -/
theorem draw_hline_pixel (o : Options) (c : Canvas) (x1 x2 yc level : Nat) (m : Mem) (x y : Nat)
    (hx : x < c.width) (hx2 : x2 ≤ c.width) :
    draw_hline o c x1 x2 yc level m (c.mask + (y * c.width + x))
      = if (minus yc (thickness o c level false / 2) ≤ y ∧
            y < min (minus yc (thickness o c level false / 2) + thickness o c level false) c.height)
          ∧ (x1 ≤ x ∧ x < x2)
        then 255 else m (c.mask + (y * c.width + x)) := by
  unfold draw_hline
  rw [rows_memset_pixel c.mask c.width x1 (minus x2 x1) 255 _ _ m x y hx
    (by unfold minus; split_ifs <;> omega)]
  have hiff : (x1 ≤ x ∧ x < x1 + minus x2 x1) ↔ (x1 ≤ x ∧ x < x2) := by
    unfold minus
    split_ifs <;> omega
  simp only [hiff]

/-- Pixels after `draw_vline`. -/
theorem draw_vline_pixel (o : Options) (c : Canvas) (y1 y2 xc level : Nat) (m : Mem) (x y : Nat)
    (hx : x < c.width) :
    draw_vline o c y1 y2 xc level m (c.mask + (y * c.width + x))
      = if (y1 ≤ y ∧ y < y2) ∧
          (minus xc (thickness o c level true / 2) ≤ x ∧
            x < min (minus xc (thickness o c level true / 2) + thickness o c level true) c.width)
        then 255 else m (c.mask + (y * c.width + x)) := by
  unfold draw_vline
  rw [rows_memset_pixel c.mask c.width _ _ 255 _ _ m x y hx
    (by unfold minus; split_ifs <;> omega)]
  have hiff : ∀ s e : Nat, e ≤ c.width → ((s ≤ x ∧ x < s + minus e s) ↔ (s ≤ x ∧ x < e)) := by
    intro s e _
    unfold minus
    split_ifs <;> omega
  simp only [hiff _ _ (Nat.min_le_right _ _)]

/-- Pixels after `half_hline` without extension. -/
theorem half_hline_pixel (o : Options) (c : Canvas) (level : Nat) (right_half : Bool) (m : Mem)
    (x y : Nat) (hx : x < c.width) :
    half_hline o c level right_half 0 m (c.mask + (y * c.width + x))
      = if (minus (half_height c) (thickness o c level false / 2) ≤ y ∧
            y < min (minus (half_height c) (thickness o c level false / 2)
              + thickness o c level false) c.height)
          ∧ (if right_half then half_width c ≤ x else x < half_width c)
        then 255 else m (c.mask + (y * c.width + x)) := by
  unfold half_hline
  have hw := half_width_le c
  cases right_half with
  | false =>
    simp only [Bool.false_eq_true, if_false, Nat.add_zero]
    rw [draw_hline_pixel o c 0 (half_width c) (half_height c) level m x y hx hw]
    simp only [Nat.zero_le, true_and]
  | true =>
    simp only [if_true]
    rw [draw_hline_pixel o c _ c.width (half_height c) level m x y hx (Nat.le_refl _)]
    have : minus (half_width c) 0 = half_width c := by
      unfold minus
      split_ifs <;> omega
    rw [this]
    simp only [hx, and_true]

/-- Pixels after `hline`: a full-width band. -/
theorem hline_pixel (o : Options) (c : Canvas) (level : Nat) (m : Mem) (x y : Nat)
    (hx : x < c.width) :
    hline o c level m (c.mask + (y * c.width + x))
      = if minus (half_height c) (thickness o c level false / 2) ≤ y ∧
            y < min (minus (half_height c) (thickness o c level false / 2)
              + thickness o c level false) c.height
        then 255 else m (c.mask + (y * c.width + x)) := by
  unfold hline
  rw [half_hline_pixel o c level true _ x y hx, half_hline_pixel o c level false m x y hx]
  simp only [if_true, Bool.false_eq_true, if_false]
  exact ite_two_halves _ _ _ (le_or_lt _ _) _ _

/-- Pixels after `half_vline` without extension. -/
theorem half_vline_pixel (o : Options) (c : Canvas) (level : Nat) (bottom_half : Bool) (m : Mem)
    (x y : Nat) (hx : x < c.width) (hy : y < c.height) :
    half_vline o c level bottom_half 0 m (c.mask + (y * c.width + x))
      = if (if bottom_half then half_height c ≤ y else y < half_height c)
          ∧ (minus (half_width c) (thickness o c level true / 2) ≤ x ∧
            x < min (minus (half_width c) (thickness o c level true / 2)
              + thickness o c level true) c.width)
        then 255 else m (c.mask + (y * c.width + x)) := by
  unfold half_vline
  cases bottom_half with
  | false =>
    simp only [Bool.false_eq_true, if_false, Nat.add_zero]
    rw [draw_vline_pixel o c 0 (half_height c) (half_width c) level m x y hx]
    simp only [Nat.zero_le, true_and]
  | true =>
    simp only [if_true]
    rw [draw_vline_pixel o c _ c.height (half_width c) level m x y hx]
    have : minus (half_height c) 0 = half_height c := by
      unfold minus
      split_ifs <;> omega
    rw [this]
    simp only [hy, and_true]

/-- Pixels after `vline`: a full-height band. -/
theorem vline_pixel (o : Options) (c : Canvas) (level : Nat) (m : Mem) (x y : Nat)
    (hx : x < c.width) (hy : y < c.height) :
    vline o c level m (c.mask + (y * c.width + x))
      = if minus (half_width c) (thickness o c level true / 2) ≤ x ∧
            x < min (minus (half_width c) (thickness o c level true / 2)
              + thickness o c level true) c.width
        then 255 else m (c.mask + (y * c.width + x)) := by
  unfold vline
  rw [half_vline_pixel o c level true _ x y hx hy, half_vline_pixel o c level false m x y hx hy]
  simp only [if_true, Bool.false_eq_true, if_false]
  have := ite_two_halves
    (minus (half_width c) (thickness o c level true / 2) ≤ x ∧
      x < min (minus (half_width c) (thickness o c level true / 2)
        + thickness o c level true) c.width)
    (half_height c ≤ y) (y < half_height c) (le_or_lt _ _) 255 (m (c.mask + (y * c.width + x)))
  rw [← this]
  simp only [and_comm]

/-! ## Straight-line glyphs (C5, C6, C10) -/

/-- A `case` whose body runs directly on the normal canvas. -/
theorem render_direct (o : Options) (ch buf w h : Nat) (dpi_x dpi_y : ℚ) (m : Mem)
    (calls : List Shape) (hl : lookup ch = some (Glyph.direct calls)) :
    render_box_char o ch buf w h dpi_x dpi_y m
      = (run_shapes o calls (Canvas.init buf w h 1 dpi_x dpi_y)
          (fill_canvas (Canvas.init buf w h 1 dpi_x dpi_y) 0 m)).2 := by
  unfold render_box_char
  simp only [hl]

theorem lookup_hline : lookup 0x2500 = some (Glyph.direct [Shape.hline 1]) := by rfl
theorem lookup_vline : lookup 0x2502 = some (Glyph.direct [Shape.vline 1]) := by rfl
theorem lookup_left_half : lookup 0x2574 = some (Glyph.direct [Shape.half_hline 1 false 0]) := by
  rfl
theorem lookup_right_half : lookup 0x2576 = some (Glyph.direct [Shape.half_hline 1 true 0]) := by
  rfl
theorem lookup_cross : lookup 0x253C = some (Glyph.direct [Shape.cross 0]) := by rfl

/-- The light cross is the horizontal line followed by the vertical line. -/
theorem cross_zero (o : Options) (c : Canvas) (m : Mem) :
    cross o c 0 m = vline o c 1 (hline o c 1 m) := by
  rfl

/-- Pixels of the rendered horizontal line U+2500. -/
theorem render_hline_pixel (o : Options) (buf w h : Nat) (dpi_x dpi_y : ℚ) (m : Mem) (x y : Nat)
    (hx : x < w) (hy : y < h) :
    render_box_char o 0x2500 buf w h dpi_x dpi_y m (buf + (y * w + x))
      = if minus (half_height (Canvas.init buf w h 1 dpi_x dpi_y))
              (thickness o (Canvas.init buf w h 1 dpi_x dpi_y) 1 false / 2) ≤ y ∧
            y < min (minus (half_height (Canvas.init buf w h 1 dpi_x dpi_y))
              (thickness o (Canvas.init buf w h 1 dpi_x dpi_y) 1 false / 2)
              + thickness o (Canvas.init buf w h 1 dpi_x dpi_y) 1 false) h
        then 255 else 0 := by
  rw [render_direct o _ buf w h dpi_x dpi_y m _ lookup_hline]
  simp only [run_shapes, run_shape]
  have h1 := hline_pixel o (Canvas.init buf w h 1 dpi_x dpi_y) 1
    (fill_canvas (Canvas.init buf w h 1 dpi_x dpi_y) 0 m) x y hx
  have h2 := fill_canvas_pixel (Canvas.init buf w h 1 dpi_x dpi_y) 0 m x y hx hy
  rw [h2] at h1
  exact h1

/-- Pixels of the rendered vertical line U+2502. -/
theorem render_vline_pixel (o : Options) (buf w h : Nat) (dpi_x dpi_y : ℚ) (m : Mem) (x y : Nat)
    (hx : x < w) (hy : y < h) :
    render_box_char o 0x2502 buf w h dpi_x dpi_y m (buf + (y * w + x))
      = if minus (half_width (Canvas.init buf w h 1 dpi_x dpi_y))
              (thickness o (Canvas.init buf w h 1 dpi_x dpi_y) 1 true / 2) ≤ x ∧
            x < min (minus (half_width (Canvas.init buf w h 1 dpi_x dpi_y))
              (thickness o (Canvas.init buf w h 1 dpi_x dpi_y) 1 true / 2)
              + thickness o (Canvas.init buf w h 1 dpi_x dpi_y) 1 true) w
        then 255 else 0 := by
  rw [render_direct o _ buf w h dpi_x dpi_y m _ lookup_vline]
  simp only [run_shapes, run_shape]
  have h1 := vline_pixel o (Canvas.init buf w h 1 dpi_x dpi_y) 1
    (fill_canvas (Canvas.init buf w h 1 dpi_x dpi_y) 0 m) x y hx hy
  have h2 := fill_canvas_pixel (Canvas.init buf w h 1 dpi_x dpi_y) 0 m x y hx hy
  rw [h2] at h1
  exact h1

/-- Line weight of level 1 on the 10 × 20 cell at 96 DPI. -/
theorem thickness_level_one (o : Options) (hsz : 1 < o.box_drawing_scale_size) :
    thickness o (Canvas.init 0 10 20 1 96 96) 1 false
      = Int.toNat ⌈o.box_drawing_scale 1 * 96 / 72⌉ := by
  unfold thickness
  have : min 1 o.box_drawing_scale_size = 1 := Nat.min_eq_left (Nat.le_of_lt hsz)
  simp only [this, Canvas.init, Bool.false_eq_true, if_false, Nat.one_mul]

/-- Pixels of U+2500 on the 10 × 20 cell at 96 DPI in terms of the line weight `t`. -/
theorem render_hline_10x20 (o : Options) (m : Mem) (x y : Nat) (hx : x < 10) (hy : y < 20) :
    (Canvas.init 0 10 20 1 96 96).pixel (render_box_char o 0x2500 0 10 20 96 96 m) x y
      = if 10 - thickness o (Canvas.init 0 10 20 1 96 96) 1 false / 2 ≤ y ∧
            y < min (10 - thickness o (Canvas.init 0 10 20 1 96 96) 1 false / 2
              + thickness o (Canvas.init 0 10 20 1 96 96) 1 false) 20
        then 255 else 0 := by
  have h := render_hline_pixel o 0 10 20 96 96 m x y hx hy
  have hh : half_height (Canvas.init 0 10 20 1 96 96) = 10 := by decide
  rw [hh] at h
  have hminus : ∀ b, minus 10 b = 10 - b := by
    intro b
    unfold minus
    split_ifs <;> omega
  rw [hminus] at h
  simp only [Canvas.pixel, Canvas.addr, Canvas.init] at h ⊢
  rw [Nat.add_assoc]
  exact h

/-- C5 (as stated) fails for the default scale table (`scale[1] = 1`): the band has
`ceil(96/72) = 2` rows (rows 9 and 10), not `round(96/72) = 1` row. -/
theorem C5_counterexample : ¬ spec_hline_band sample_options (fun _ => 0) := by
  rintro ⟨top, _, h⟩
  have hr : (round_half_away (sample_options.box_drawing_scale 1 * 96 / 72)).toNat = 1 := by
    decide!
  rw [hr] at h
  have h9 := h 0 9 (by decide) (by decide)
  have h10 := h 0 10 (by decide) (by decide)
  have e9 : (Canvas.init 0 10 20 1 96 96).pixel
      (render_box_char sample_options 0x2500 0 10 20 96 96 (fun _ => 0)) 0 9 = 255 := by
    decide!
  have e10 : (Canvas.init 0 10 20 1 96 96).pixel
      (render_box_char sample_options 0x2500 0 10 20 96 96 (fun _ => 0)) 0 10 = 255 := by
    decide!
  rw [e9] at h9
  rw [e10] at h10
  by_cases c9 : top ≤ 9 ∧ 9 < top + 1
  · by_cases c10 : top ≤ 10 ∧ 10 < top + 1
    · omega
    · rw [if_neg c10] at h10
      exact absurd h10 (by decide)
  · rw [if_neg c9] at h9
    exact absurd h9 (by decide)

/-- C5 (amended): rendering U+2500 (level 1) on a 10 × 20 cell at 96/96 DPI, with
`t = ceil(scale[1] × 96 / 72)` the line weight in pixels, fills exactly the full-width
band of rows `10 - ⌊t/2⌋ ≤ y < min(20, 10 - ⌊t/2⌋ + t)` with 255 and leaves every other
pixel 0. -/
theorem C5_hline_band (o : Options) (m : Mem) (hsz : 1 < o.box_drawing_scale_size)
    (x y : Nat) (hx : x < 10) (hy : y < 20) :
    (Canvas.init 0 10 20 1 96 96).pixel (render_box_char o 0x2500 0 10 20 96 96 m) x y
      = if 10 - Int.toNat ⌈o.box_drawing_scale 1 * 96 / 72⌉ / 2 ≤ y ∧
            y < min (10 - Int.toNat ⌈o.box_drawing_scale 1 * 96 / 72⌉ / 2
              + Int.toNat ⌈o.box_drawing_scale 1 * 96 / 72⌉) 20
        then 255 else 0 := by
  rw [render_hline_10x20 o m x y hx hy, thickness_level_one o hsz]

/-- Witness for C5 with the default scale table: pixel `(3, 9)` is inside the band. -/
theorem C5_hline_band_witness :
    1 < sample_options.box_drawing_scale_size ∧
    (Canvas.init 0 10 20 1 96 96).pixel
      (render_box_char sample_options 0x2500 0 10 20 96 96 (fun _ => 0)) 3 9
      = if 10 - Int.toNat ⌈sample_options.box_drawing_scale 1 * 96 / 72⌉ / 2 ≤ 9 ∧
            9 < min (10 - Int.toNat ⌈sample_options.box_drawing_scale 1 * 96 / 72⌉ / 2
              + Int.toNat ⌈sample_options.box_drawing_scale 1 * 96 / 72⌉) 20
        then 255 else 0 :=
  ⟨by decide, C5_hline_band sample_options (fun _ => 0) (by decide) 3 9 (by decide) (by decide)⟩

/-- On a table that is non-decreasing on its valid indices, `thickness` is non-decreasing
in the level (for a non-negative DPI). -/
theorem thickness_mono (o : Options) (c : Canvas) (a b : Nat) (horizontal : Bool)
    (hmono : ∀ i j, i ≤ j → j < o.box_drawing_scale_size →
      o.box_drawing_scale i ≤ o.box_drawing_scale j)
    (hab : a ≤ b) (hb : b < o.box_drawing_scale_size)
    (hdx : 0 ≤ c.dpi_x) (hdy : 0 ≤ c.dpi_y) :
    thickness o c a horizontal ≤ thickness o c b horizontal := by
  unfold thickness
  have ha : min a o.box_drawing_scale_size = a := Nat.min_eq_left (by omega)
  have hb2 : min b o.box_drawing_scale_size = b := Nat.min_eq_left (by omega)
  simp only [ha, hb2]
  apply Nat.mul_le_mul_left
  apply Int.toNat_le_toNat
  apply Int.ceil_mono
  have hd : (0 : ℚ) ≤ (if horizontal = true then c.dpi_x else c.dpi_y) := by
    split_ifs
    · exact hdx
    · exact hdy
  apply div_le_div_of_nonneg_right _ (by norm_num)
  exact mul_le_mul_of_nonneg_right (hmono a b hab hb) hd

/-- A thicker centred band contains the thinner one. -/
theorem band_mono (centre sa sb limit y : Nat) (hs : sa ≤ sb)
    (h : minus centre (sa / 2) ≤ y ∧ y < min (minus centre (sa / 2) + sa) limit) :
    minus centre (sb / 2) ≤ y ∧ y < min (minus centre (sb / 2) + sb) limit := by
  unfold minus at h ⊢
  split_ifs at h ⊢ <;> omega

/-- Pointwise domination of masks gives domination of the filled-pixel counts. -/
theorem filled_count_mono (c : Canvas) (m1 m2 : Mem)
    (h : ∀ x y, x < c.width → y < c.height → c.pixel m1 x y ≠ 0 → c.pixel m2 x y ≠ 0) :
    filled_count c m1 ≤ filled_count c m2 := by
  unfold filled_count
  apply Finset.sum_le_sum
  intro y hy
  apply Finset.sum_le_sum
  intro x hx
  rw [Finset.mem_range] at hx hy
  by_cases h1 : c.pixel m1 x y = 0
  · rw [if_pos h1]
    exact Nat.zero_le _
  · rw [if_neg h1, if_neg (h x y hx hy h1)]

/-- C6: for a fixed canvas (cell width, height, DPI ≥ 0) and a line-weight table that is
non-decreasing on its valid levels, if level `a ≤ b` (both valid levels) then `hline a`
fills no more pixels of a blank canvas than `hline b`, and likewise for `vline`. -/
theorem C6_thickness_monotone (o : Options) (c : Canvas) (a b : Nat) (m0 : Mem)
    (hblank : ∀ x y, x < c.width → y < c.height → c.pixel m0 x y = 0)
    (hmono : ∀ i j, i ≤ j → j < o.box_drawing_scale_size →
      o.box_drawing_scale i ≤ o.box_drawing_scale j)
    (hab : a ≤ b) (hb : b < o.box_drawing_scale_size)
    (hdx : 0 ≤ c.dpi_x) (hdy : 0 ≤ c.dpi_y) :
    filled_count c (hline o c a m0) ≤ filled_count c (hline o c b m0) ∧
    filled_count c (vline o c a m0) ≤ filled_count c (vline o c b m0) := by
  constructor
  · apply filled_count_mono
    intro x y hx hy
    have h0 := hblank x y hx hy
    simp only [Canvas.pixel, Canvas.addr] at h0 ⊢
    rw [Nat.add_assoc] at h0 ⊢
    rw [hline_pixel o c a m0 x y hx, hline_pixel o c b m0 x y hx, h0]
    intro h1
    by_cases hc : minus (half_height c) (thickness o c a false / 2) ≤ y ∧
        y < min (minus (half_height c) (thickness o c a false / 2) + thickness o c a false) c.height
    · rw [if_pos (band_mono _ _ _ _ _ (thickness_mono o c a b false hmono hab hb hdx hdy) hc)]
      decide
    · rw [if_neg hc] at h1
      exact absurd rfl h1
  · apply filled_count_mono
    intro x y hx hy
    have h0 := hblank x y hx hy
    simp only [Canvas.pixel, Canvas.addr] at h0 ⊢
    rw [Nat.add_assoc] at h0 ⊢
    rw [vline_pixel o c a m0 x y hx hy, vline_pixel o c b m0 x y hx hy, h0]
    intro h1
    by_cases hc : minus (half_width c) (thickness o c a true / 2) ≤ x ∧
        x < min (minus (half_width c) (thickness o c a true / 2) + thickness o c a true) c.width
    · rw [if_pos (band_mono _ _ _ _ _ (thickness_mono o c a b true hmono hab hb hdx hdy) hc)]
      decide
    · rw [if_neg hc] at h1
      exact absurd rfl h1

theorem sample_scale_mono : ∀ i j, i ≤ j → j < sample_options.box_drawing_scale_size →
    sample_options.box_drawing_scale i ≤ sample_options.box_drawing_scale j := by
  intro i j hij hj
  have hj4 : j < 4 := hj
  interval_cases j <;> interval_cases i <;> simp [sample_options] <;> norm_num

/-- Witness for C6: levels 1 and 3 of the default table on a blank 10 × 20 canvas at 96 DPI. -/
theorem C6_thickness_monotone_witness :
    (1 ≤ 3 ∧ 3 < sample_options.box_drawing_scale_size) ∧
    filled_count (Canvas.init 0 10 20 1 96 96)
        (hline sample_options (Canvas.init 0 10 20 1 96 96) 1 (fun _ => 0))
      ≤ filled_count (Canvas.init 0 10 20 1 96 96)
        (hline sample_options (Canvas.init 0 10 20 1 96 96) 3 (fun _ => 0)) ∧
    filled_count (Canvas.init 0 10 20 1 96 96)
        (vline sample_options (Canvas.init 0 10 20 1 96 96) 1 (fun _ => 0))
      ≤ filled_count (Canvas.init 0 10 20 1 96 96)
        (vline sample_options (Canvas.init 0 10 20 1 96 96) 3 (fun _ => 0)) :=
  ⟨⟨by decide, by decide⟩,
    C6_thickness_monotone sample_options (Canvas.init 0 10 20 1 96 96) 1 3 (fun _ => 0)
      (fun _ _ _ _ => rfl) sample_scale_mono (by decide) (by decide)
      (by simp [Canvas.init]) (by simp [Canvas.init])⟩

theorem max_ite_255 (P Q : Prop) [Decidable P] [Decidable Q] :
    (if Q then 255 else if P then 255 else 0)
      = max (if P then 255 else 0) (if Q then (255 : Nat) else 0) := by
  by_cases hp : P <;> by_cases hq : Q <;> simp [hp, hq]

/-- C10: for every cell width, height and DPI, the mask rendered for the light cross
U+253C is the pixelwise maximum (union) of the masks rendered for U+2500 and U+2502, and
the mask for U+2500 is the union of the masks of the half lines U+2574 and U+2576. -/
theorem C10_cross_is_union (o : Options) (buf w h : Nat) (dpi_x dpi_y : ℚ) (m : Mem)
    (x y : Nat) (hx : x < w) (hy : y < h) :
    (Canvas.init buf w h 1 dpi_x dpi_y).pixel
        (render_box_char o 0x253C buf w h dpi_x dpi_y m) x y
      = max ((Canvas.init buf w h 1 dpi_x dpi_y).pixel
              (render_box_char o 0x2500 buf w h dpi_x dpi_y m) x y)
            ((Canvas.init buf w h 1 dpi_x dpi_y).pixel
              (render_box_char o 0x2502 buf w h dpi_x dpi_y m) x y) ∧
    (Canvas.init buf w h 1 dpi_x dpi_y).pixel
        (render_box_char o 0x2500 buf w h dpi_x dpi_y m) x y
      = max ((Canvas.init buf w h 1 dpi_x dpi_y).pixel
              (render_box_char o 0x2574 buf w h dpi_x dpi_y m) x y)
            ((Canvas.init buf w h 1 dpi_x dpi_y).pixel
              (render_box_char o 0x2576 buf w h dpi_x dpi_y m) x y) := by
  have hfill := fill_canvas_pixel (Canvas.init buf w h 1 dpi_x dpi_y) 0 m x y hx hy
  have hcross : render_box_char o 0x253C buf w h dpi_x dpi_y m (buf + (y * w + x))
      = if minus (half_width (Canvas.init buf w h 1 dpi_x dpi_y))
              (thickness o (Canvas.init buf w h 1 dpi_x dpi_y) 1 true / 2) ≤ x ∧
            x < min (minus (half_width (Canvas.init buf w h 1 dpi_x dpi_y))
              (thickness o (Canvas.init buf w h 1 dpi_x dpi_y) 1 true / 2)
              + thickness o (Canvas.init buf w h 1 dpi_x dpi_y) 1 true) w
        then 255
        else if minus (half_height (Canvas.init buf w h 1 dpi_x dpi_y))
              (thickness o (Canvas.init buf w h 1 dpi_x dpi_y) 1 false / 2) ≤ y ∧
            y < min (minus (half_height (Canvas.init buf w h 1 dpi_x dpi_y))
              (thickness o (Canvas.init buf w h 1 dpi_x dpi_y) 1 false / 2)
              + thickness o (Canvas.init buf w h 1 dpi_x dpi_y) 1 false) h
        then 255 else 0 := by
    rw [render_direct o _ buf w h dpi_x dpi_y m _ lookup_cross]
    simp only [run_shapes, run_shape, cross_zero]
    have h1 := vline_pixel o (Canvas.init buf w h 1 dpi_x dpi_y) 1
      (hline o (Canvas.init buf w h 1 dpi_x dpi_y) 1
        (fill_canvas (Canvas.init buf w h 1 dpi_x dpi_y) 0 m)) x y hx hy
    have h2 := hline_pixel o (Canvas.init buf w h 1 dpi_x dpi_y) 1
      (fill_canvas (Canvas.init buf w h 1 dpi_x dpi_y) 0 m) x y hx
    rw [h2, hfill] at h1
    exact h1
  have hhalf : ∀ (ch : Nat) (right_half : Bool),
      lookup ch = some (Glyph.direct [Shape.half_hline 1 right_half 0]) →
      render_box_char o ch buf w h dpi_x dpi_y m (buf + (y * w + x))
        = if (minus (half_height (Canvas.init buf w h 1 dpi_x dpi_y))
                (thickness o (Canvas.init buf w h 1 dpi_x dpi_y) 1 false / 2) ≤ y ∧
              y < min (minus (half_height (Canvas.init buf w h 1 dpi_x dpi_y))
                (thickness o (Canvas.init buf w h 1 dpi_x dpi_y) 1 false / 2)
                + thickness o (Canvas.init buf w h 1 dpi_x dpi_y) 1 false) h)
            ∧ (if right_half then half_width (Canvas.init buf w h 1 dpi_x dpi_y) ≤ x
                else x < half_width (Canvas.init buf w h 1 dpi_x dpi_y))
          then 255 else 0 := by
    intro ch right_half hl
    rw [render_direct o _ buf w h dpi_x dpi_y m _ hl]
    simp only [run_shapes, run_shape]
    have h1 := half_hline_pixel o (Canvas.init buf w h 1 dpi_x dpi_y) 1 right_half
      (fill_canvas (Canvas.init buf w h 1 dpi_x dpi_y) 0 m) x y hx
    rw [hfill] at h1
    exact h1
  have hH := render_hline_pixel o buf w h dpi_x dpi_y m x y hx hy
  have hV := render_vline_pixel o buf w h dpi_x dpi_y m x y hx hy
  have hL := hhalf 0x2574 false lookup_left_half
  have hR := hhalf 0x2576 true lookup_right_half
  have haddr : (Canvas.init buf w h 1 dpi_x dpi_y).addr x y = buf + (y * w + x) := by
    simp only [Canvas.addr, Canvas.init, Nat.add_assoc]
  simp only [Canvas.pixel, haddr]
  constructor
  · rw [hcross, hH, hV]
    exact max_ite_255 _ _
  · rw [hH, hL, hR]
    simp only [if_true, Bool.false_eq_true, if_false]
    rw [← max_ite_255]
    rw [ite_two_halves _ _ _ (le_or_lt _ _)]

/-- Witness for C10 on a 10 × 20 cell at 96 DPI, pixel `(5, 10)`. -/
theorem C10_cross_is_union_witness :
    (Canvas.init 0 10 20 1 96 96).pixel
        (render_box_char sample_options 0x253C 0 10 20 96 96 (fun _ => 0)) 5 10
      = max ((Canvas.init 0 10 20 1 96 96).pixel
              (render_box_char sample_options 0x2500 0 10 20 96 96 (fun _ => 0)) 5 10)
            ((Canvas.init 0 10 20 1 96 96).pixel
              (render_box_char sample_options 0x2502 0 10 20 96 96 (fun _ => 0)) 5 10) :=
  (C10_cross_is_union sample_options 0 10 20 96 96 (fun _ => 0) 5 10 (by decide) (by decide)).1

/-! ## Region fill, triangles and the filled D (C8, C9) -/

/-- Value `fill_region` writes at pixel `(x, y)`. -/
theorem fill_region_spec (c : Canvas) (inverted : Bool) (m : Mem) :
    (∀ x y, x < min c.width c.y_limits_count → y < c.height →
      fill_region c inverted m (c.mask + (y * c.width + x))
        = if (c.y_limits x).lower ≤ (y : ℚ) ∧ (y : ℚ) ≤ (c.y_limits x).upper
          then (if inverted then 0 else 255) else (if inverted then 255 else 0)) ∧
    (∀ a, (∀ x y, x < min c.width c.y_limits_count → y < c.height →
        a ≠ c.mask + (y * c.width + x)) →
      fill_region c inverted m a = m a) := by
  have h := grid_store c.mask c.width (min c.width c.y_limits_count) (fun x => x)
    (fun x y => if (c.y_limits x).lower ≤ (y : ℚ) ∧ (y : ℚ) ≤ (c.y_limits x).upper
      then (if inverted then 0 else 255) else (if inverted then 255 else 0))
    m c.height (fun x hx => lt_of_lt_of_le hx (Nat.min_le_left _ _))
    (fun i j hij _ => Nat.ne_of_lt hij)
  exact h

/-- Integer to rational cast of a column reflected in a canvas of width `w`. -/
theorem cast_reflect (w x : Nat) (hx : x < w) :
    (((w - 1 - x : Nat) : Int) : ℚ) = (w : ℚ) - 1 - (x : ℚ) := by
  have h1 : ((w - 1 - x : Nat) : Int) = (w : Int) - 1 - (x : Int) := by omega
  rw [h1]
  push_cast
  ring

/-- The boundary lines of the right-pointing and left-pointing triangles are reflections
of each other (exact arithmetic). -/
theorem triangle_line_reflect (w x : Nat) (hx : x < w) (y1 y2 : Int) :
    line_y (line_from_points (((w : Int) - 1 : Int) : ℚ) (y1 : ℚ) ((0 : Int) : ℚ) (y2 : ℚ))
        ((w - 1 - x : Nat) : Int)
      = line_y (line_from_points ((0 : Int) : ℚ) (y1 : ℚ) (((w : Int) - 1 : Int) : ℚ) (y2 : ℚ))
        ((x : Nat) : Int) := by
  unfold line_y line_from_points
  simp only
  rw [cast_reflect w x hx]
  push_cast
  have hneg : ((y2 : ℚ) - y1) / (0 - ((w : ℚ) - 1)) = -(((y2 : ℚ) - y1) / ((w : ℚ) - 1 - 0)) := by
    rw [zero_sub, sub_zero, div_neg]
  rw [hneg]
  ring

/-- Pixels after `triangle` on a canvas whose `y_limits` array is not yet allocated: every
pixel of the canvas is rewritten. -/
theorem triangle_spec (c : Canvas) (left inverted : Bool) (m : Mem) (hnull : c.y_limits_null = true) :
    (∀ x y, x < c.width → y < c.height →
      (triangle c left inverted m).2 (c.mask + (y * c.width + x))
        = if triangle_upper c left x ≤ (y : ℚ) ∧ (y : ℚ) ≤ triangle_lower c left x
          then (if inverted then 0 else 255) else (if inverted then 255 else 0)) ∧
    (∀ a, (∀ x y, x < c.width → y < c.height → a ≠ c.mask + (y * c.width + x)) →
      (triangle c left inverted m).2 a = m a) := by
  unfold triangle
  simp only
  obtain ⟨hA, hB⟩ := fill_region_spec
    (calc_limits c
      (fun x => line_y (line_from_points
        (((if left then 0 else (c.width : Int) - 1 : Int)) : ℚ) ((0 : Int) : ℚ)
        (((if left then (c.width : Int) - 1 else 0 : Int)) : ℚ)
        (((c.height / 2 : Nat) : Int) : ℚ)) (x : Int))
      (fun x => line_y (line_from_points
        (((if left then 0 else (c.width : Int) - 1 : Int)) : ℚ) (((c.height : Int) - 1 : Int) : ℚ)
        (((if left then (c.width : Int) - 1 else 0 : Int)) : ℚ)
        (((c.height / 2 : Nat) : Int) : ℚ)) (x : Int)))
    inverted m
  simp only [calc_limits, hnull, if_true, Nat.min_self] at hA hB ⊢
  constructor
  · intro x y hx hy
    have := hA x y hx hy
    simp only [hx, if_true] at this
    simp only [triangle_upper, triangle_lower]
    exact this
  · intro a ha
    exact hB a ha

theorem triangle_upper_reflect (c : Canvas) (x : Nat) (hx : x < c.width) :
    triangle_upper c false (c.width - 1 - x) = triangle_upper c true x := by
  unfold triangle_upper
  simp only [Bool.false_eq_true, if_false, if_true]
  exact triangle_line_reflect c.width x hx 0 ((c.height / 2 : Nat) : Int)

theorem triangle_lower_reflect (c : Canvas) (x : Nat) (hx : x < c.width) :
    triangle_lower c false (c.width - 1 - x) = triangle_lower c true x := by
  unfold triangle_lower
  simp only [Bool.false_eq_true, if_false, if_true]
  exact triangle_line_reflect c.width x hx ((c.height : Int) - 1) ((c.height / 2 : Nat) : Int)

/-- The masks of the two triangles are horizontal reflections of each other. -/
theorem triangle_reflect (c : Canvas) (inverted : Bool) (m1 m2 : Mem)
    (hnull : c.y_limits_null = true) (x y : Nat) (hx : x < c.width) (hy : y < c.height) :
    (triangle c true inverted m1).2 (c.mask + (y * c.width + x))
      = (triangle c false inverted m2).2 (c.mask + (y * c.width + (c.width - 1 - x))) := by
  rw [(triangle_spec c true inverted m1 hnull).1 x y hx hy,
    (triangle_spec c false inverted m2 hnull).1 (c.width - 1 - x) y (by omega) hy,
    triangle_upper_reflect c x hx, triangle_lower_reflect c x hx]

/-- Every byte `triangle` leaves in the canvas is 0 or 255. -/
theorem triangle_byte (c : Canvas) (left inverted : Bool) (m : Mem)
    (hnull : c.y_limits_null = true) (x y : Nat) (hx : x < c.width) (hy : y < c.height) :
    (triangle c left inverted m).2 (c.mask + (y * c.width + x)) < 256 := by
  rw [(triangle_spec c left inverted m hnull).1 x y hx hy]
  split_ifs <;> decide

/-- Every address of a canvas is the address of one of its pixels. -/
theorem region_is_pixel (mask w h a : Nat) (h1 : mask ≤ a) (h2 : a < mask + w * h) :
    ∃ x y, x < w ∧ y < h ∧ a = mask + (y * w + x) := by
  have hw : 0 < w := by
    rcases Nat.eq_zero_or_pos w with h0 | h0
    · subst h0
      simp at h2
      omega
    · exact h0
  refine ⟨(a - mask) % w, (a - mask) / w, Nat.mod_lt _ hw, ?_, ?_⟩
  · apply Nat.div_lt_of_lt_mul
    omega
  · have := Nat.div_add_mod (a - mask) w
    rw [Nat.mul_comm] at this
    omega

/-- A `case` whose body runs on the supersampled canvas and is then downsampled. -/
theorem render_supersampled (o : Options) (ch buf w h : Nat) (dpi_x dpi_y : ℚ) (m : Mem)
    (calls : List Shape) (hl : lookup ch = some (Glyph.supersampled calls)) :
    render_box_char o ch buf w h dpi_x dpi_y m
      = downsample
          (run_shapes o calls (ss_canvas o buf w h dpi_x dpi_y)
            (fill_canvas (ss_canvas o buf w h dpi_x dpi_y) 0
              (fill_canvas (Canvas.init buf w h 1 dpi_x dpi_y) 0 m))).1
          (Canvas.init buf w h 1 dpi_x dpi_y)
          (run_shapes o calls (ss_canvas o buf w h dpi_x dpi_y)
            (fill_canvas (ss_canvas o buf w h dpi_x dpi_y) 0
              (fill_canvas (Canvas.init buf w h 1 dpi_x dpi_y) 0 m))).2 := by
  unfold render_box_char
  simp only [hl]
  rfl

/-- Mirrored source canvases have mirrored block sums. -/
theorem block_sum_reflect (src : Canvas) (mL mR : Mem) (w h x y : Nat)
    (hw : src.width = src.supersample_factor * w) (hh : src.height = src.supersample_factor * h)
    (hx : x < w) (hy : y < h)
    (href : ∀ X Y, X < src.width → Y < src.height →
      mL (src.mask + (Y * src.width + X)) = mR (src.mask + (Y * src.width + (src.width - 1 - X)))) :
    block_sum src mL x y = block_sum src mR (w - 1 - x) y := by
  unfold block_sum
  apply Finset.sum_congr rfl
  intro j hj
  rw [Finset.mem_range] at hj
  rw [← Finset.sum_range_reflect
    (fun i => mR (src.addr (src.supersample_factor * (w - 1 - x) + i)
      (src.supersample_factor * y + j)))]
  apply Finset.sum_congr rfl
  intro i hi
  rw [Finset.mem_range] at hi
  have hX : src.supersample_factor * x + i < src.width := by
    rw [hw]
    calc src.supersample_factor * x + i < src.supersample_factor * x + src.supersample_factor := by omega
      _ = src.supersample_factor * (x + 1) := by ring
      _ ≤ src.supersample_factor * w := Nat.mul_le_mul_left _ hx
  have hY : src.supersample_factor * y + j < src.height := by
    rw [hh]
    calc src.supersample_factor * y + j < src.supersample_factor * y + src.supersample_factor := by omega
      _ = src.supersample_factor * (y + 1) := by ring
      _ ≤ src.supersample_factor * h := Nat.mul_le_mul_left _ hy
  have := href _ _ hX hY
  simp only [Canvas.addr, Nat.add_assoc]
  rw [this]
  congr 3
  rw [hw]
  have e1 : src.supersample_factor * w
      = src.supersample_factor * (w - 1 - x) + src.supersample_factor * x
        + src.supersample_factor := by
    have : w = (w - 1 - x) + x + 1 := by omega
    calc src.supersample_factor * w
        = src.supersample_factor * ((w - 1 - x) + x + 1) := by rw [← this]
      _ = _ := by ring
  omega

/-- The routine `downsample` reads the source canvas only through its mask address, width and factor. -/
theorem downsample_src_congr (src src2 dest : Canvas) (m : Mem)
    (h1 : src2.mask = src.mask) (h2 : src2.width = src.width)
    (h3 : src2.supersample_factor = src.supersample_factor) :
    downsample src2 dest m = downsample src dest m := by
  unfold downsample average_intensity
  rw [h1, h2, h3]

/-- Pixels of a rendered triangle glyph: the floor of the block average of the
supersampled triangle. -/
theorem render_triangle_pixel (o : Options) (hF : 1 ≤ o.SUPERSAMPLE_FACTOR) (ch : Nat)
    (left inverted : Bool)
    (hl : lookup ch = some (Glyph.supersampled [Shape.triangle left inverted]))
    (buf w h : Nat) (dpi_x dpi_y : ℚ) (m : Mem) (x y : Nat) (hx : x < w) (hy : y < h) :
    render_box_char o ch buf w h dpi_x dpi_y m (buf + (y * w + x))
      = min 255 (block_sum (ss_canvas o buf w h dpi_x dpi_y)
          (triangle (ss_canvas o buf w h dpi_x dpi_y) left inverted
            (fill_canvas (ss_canvas o buf w h dpi_x dpi_y) 0
              (fill_canvas (Canvas.init buf w h 1 dpi_x dpi_y) 0 m))).2 x y
          / (o.SUPERSAMPLE_FACTOR * o.SUPERSAMPLE_FACTOR)) := by
  rw [render_supersampled o ch buf w h dpi_x dpi_y m _ hl]
  simp only [run_shapes, run_shape]
  have hc : ∀ m2, downsample (triangle (ss_canvas o buf w h dpi_x dpi_y) left inverted
      (fill_canvas (ss_canvas o buf w h dpi_x dpi_y) 0
        (fill_canvas (Canvas.init buf w h 1 dpi_x dpi_y) 0 m))).1
      (Canvas.init buf w h 1 dpi_x dpi_y) m2
      = downsample (ss_canvas o buf w h dpi_x dpi_y) (Canvas.init buf w h 1 dpi_x dpi_y) m2 :=
    fun m2 => downsample_src_congr _ _ _ _ rfl rfl rfl
  rw [hc]
  have hnull : (ss_canvas o buf w h dpi_x dpi_y).y_limits_null = true := rfl
  have hsw : (ss_canvas o buf w h dpi_x dpi_y).width = w * o.SUPERSAMPLE_FACTOR := rfl
  have hsh : (ss_canvas o buf w h dpi_x dpi_y).height = h * o.SUPERSAMPLE_FACTOR := rfl
  have hsm : (ss_canvas o buf w h dpi_x dpi_y).mask = buf + w * h := rfl
  have hsf : (ss_canvas o buf w h dpi_x dpi_y).supersample_factor = o.SUPERSAMPLE_FACTOR := rfl
  obtain ⟨tA, tB⟩ := triangle_spec (ss_canvas o buf w h dpi_x dpi_y) left inverted
    (fill_canvas (ss_canvas o buf w h dpi_x dpi_y) 0
      (fill_canvas (Canvas.init buf w h 1 dpi_x dpi_y) 0 m)) hnull
  have hdest0 : ∀ a, buf ≤ a → a < buf + w * h →
      (triangle (ss_canvas o buf w h dpi_x dpi_y) left inverted
        (fill_canvas (ss_canvas o buf w h dpi_x dpi_y) 0
          (fill_canvas (Canvas.init buf w h 1 dpi_x dpi_y) 0 m))).2 a = 0 := by
    intro a ha1 ha2
    rw [tB a (by
      intro X Y _ _ heq
      rw [hsm] at heq
      omega)]
    unfold fill_canvas memset
    rw [hsm, if_neg (by omega)]
    simp only [Canvas.init]
    rw [if_pos ⟨ha1, ha2⟩]
  obtain ⟨dA, _⟩ := downsample_spec (ss_canvas o buf w h dpi_x dpi_y)
    (Canvas.init buf w h 1 dpi_x dpi_y)
    (triangle (ss_canvas o buf w h dpi_x dpi_y) left inverted
      (fill_canvas (ss_canvas o buf w h dpi_x dpi_y) 0
        (fill_canvas (Canvas.init buf w h 1 dpi_x dpi_y) 0 m))).2
    (by rw [hsf]; exact hF)
    (by rw [hsw, hsf]; exact Nat.mul_comm _ _)
    (by rw [hsh, hsf]; exact Nat.mul_comm _ _)
    (Or.inl (by rw [hsm]; exact Nat.le_refl _))
    (by
      intro a ha1 ha2
      rw [hdest0 a ha1 ha2]
      decide)
    (by
      intro a ha1 ha2
      obtain ⟨X, Y, hX, hY, rfl⟩ := region_is_pixel _ _ _ a ha1 ha2
      exact triangle_byte _ left inverted _ hnull X Y hX hY)
  have hd := dA x y hx hy
  simp only [Canvas.init] at hd hdest0 ⊢
  rw [show buf + (y * w + x) = buf + (w * y + x) by rw [Nat.mul_comm]]
  rw [hd, hdest0 _ (by omega) (by
    have := dest_addr_row_lt w h x y hx hy
    omega)]
  simp only [Nat.zero_add]
  rfl

theorem lookup_triangle_right : lookup 0xE0B0
    = some (Glyph.supersampled [Shape.triangle true false]) := by rfl
theorem lookup_triangle_right_inv : lookup 0xE0D7
    = some (Glyph.supersampled [Shape.triangle true true]) := by rfl
theorem lookup_triangle_left : lookup 0xE0B2
    = some (Glyph.supersampled [Shape.triangle false false]) := by rfl
theorem lookup_triangle_left_inv : lookup 0xE0D6
    = some (Glyph.supersampled [Shape.triangle false true]) := by rfl

/-- Rendered triangle glyphs with `left = true` and `left = false` mirror each other. -/
theorem render_triangle_mirror (o : Options) (hF : 1 ≤ o.SUPERSAMPLE_FACTOR) (chL chR : Nat)
    (inverted : Bool)
    (hlL : lookup chL = some (Glyph.supersampled [Shape.triangle true inverted]))
    (hlR : lookup chR = some (Glyph.supersampled [Shape.triangle false inverted]))
    (buf w h : Nat) (dpi_x dpi_y : ℚ) (m1 m2 : Mem) (x y : Nat) (hx : x < w) (hy : y < h) :
    render_box_char o chL buf w h dpi_x dpi_y m1 (buf + (y * w + x))
      = render_box_char o chR buf w h dpi_x dpi_y m2 (buf + (y * w + (w - 1 - x))) := by
  rw [render_triangle_pixel o hF chL true inverted hlL buf w h dpi_x dpi_y m1 x y hx hy,
    render_triangle_pixel o hF chR false inverted hlR buf w h dpi_x dpi_y m2 (w - 1 - x) y
      (by omega) hy]
  rw [block_sum_reflect (ss_canvas o buf w h dpi_x dpi_y) _
    (triangle (ss_canvas o buf w h dpi_x dpi_y) false inverted
      (fill_canvas (ss_canvas o buf w h dpi_x dpi_y) 0
        (fill_canvas (Canvas.init buf w h 1 dpi_x dpi_y) 0 m2))).2 w h x y
    (Nat.mul_comm _ _) (Nat.mul_comm _ _) hx hy]
  intro X Y hX hY
  exact triangle_reflect (ss_canvas o buf w h dpi_x dpi_y) inverted _ _ rfl X Y hX hY

/-- C8: for every canvas of width ≥ 2 (a fresh canvas, as `render_box_char` sets it up) and
every value of `inverted`, the masks produced by `triangle(left = true)` and
`triangle(left = false)` are exact horizontal reflections of each other, the boundary lines
being evaluated in exact arithmetic; and the reflection is preserved by downsampling: the
rendered glyphs U+E0B0 / U+E0B2 and U+E0D7 / U+E0D6 are reflections of each other. -/
theorem C8_triangle_mirror (o : Options) (hF : 1 ≤ o.SUPERSAMPLE_FACTOR) :
    (∀ (c : Canvas) (inverted : Bool) (m1 m2 : Mem), 2 ≤ c.width → c.y_limits_null = true →
      ∀ x y, x < c.width → y < c.height →
        c.pixel (triangle c true inverted m1).2 x y
          = c.pixel (triangle c false inverted m2).2 (c.width - 1 - x) y) ∧
    (∀ (buf w h : Nat) (dpi_x dpi_y : ℚ) (m1 m2 : Mem), 2 ≤ w →
      ∀ x y, x < w → y < h →
        (Canvas.init buf w h 1 dpi_x dpi_y).pixel
            (render_box_char o 0xE0B0 buf w h dpi_x dpi_y m1) x y
          = (Canvas.init buf w h 1 dpi_x dpi_y).pixel
            (render_box_char o 0xE0B2 buf w h dpi_x dpi_y m2) (w - 1 - x) y ∧
        (Canvas.init buf w h 1 dpi_x dpi_y).pixel
            (render_box_char o 0xE0D7 buf w h dpi_x dpi_y m1) x y
          = (Canvas.init buf w h 1 dpi_x dpi_y).pixel
            (render_box_char o 0xE0D6 buf w h dpi_x dpi_y m2) (w - 1 - x) y) := by
  constructor
  · intro c inverted m1 m2 _ hnull x y hx hy
    simp only [Canvas.pixel, Canvas.addr, Nat.add_assoc]
    exact triangle_reflect c inverted m1 m2 hnull x y hx hy
  · intro buf w h dpi_x dpi_y m1 m2 _ x y hx hy
    simp only [Canvas.pixel, Canvas.addr, Canvas.init, Nat.add_assoc]
    exact ⟨render_triangle_mirror o hF _ _ false lookup_triangle_right lookup_triangle_left
        buf w h dpi_x dpi_y m1 m2 x y hx hy,
      render_triangle_mirror o hF _ _ true lookup_triangle_right_inv lookup_triangle_left_inv
        buf w h dpi_x dpi_y m1 m2 x y hx hy⟩

/-- Witness for C8: supersampling factor 4, a 3 × 3 cell, pixel `(0, 1)` against `(2, 1)`. -/
theorem C8_triangle_mirror_witness :
    1 ≤ sample_options.SUPERSAMPLE_FACTOR ∧
    (Canvas.init 0 3 3 1 96 96).pixel
        (render_box_char sample_options 0xE0B0 0 3 3 96 96 (fun _ => 0)) 0 1
      = (Canvas.init 0 3 3 1 96 96).pixel
        (render_box_char sample_options 0xE0B2 0 3 3 96 96 (fun _ => 0)) (3 - 1 - 0) 1 :=
  ⟨by decide, ((C8_triangle_mirror sample_options (by decide)).2 0 3 3 96 96 (fun _ => 0)
    (fun _ => 0) (by decide) 0 1 (by decide) (by decide)).1⟩

/-- The routine `get_bezier_limits` only touches the `y_limits` fields of the canvas. -/
theorem get_bezier_limits_loop_geometry (cb : CubicBezier) (start_x : Int) (n : Nat) :
    ∀ (x : Int) (last_t : ℚ) (c : Canvas),
      (get_bezier_limits_loop cb start_x n x last_t c).mask = c.mask ∧
      (get_bezier_limits_loop cb start_x n x last_t c).width = c.width ∧
      (get_bezier_limits_loop cb start_x n x last_t c).height = c.height := by
  induction n with
  | zero =>
    intro x last_t c
    exact ⟨rfl, rfl, rfl⟩
  | succ n ih =>
    intro x last_t c
    unfold get_bezier_limits_loop
    simp only
    split_ifs
    · exact ⟨rfl, rfl, rfl⟩
    · exact ih _ _ _
    · exact ⟨rfl, rfl, rfl⟩
    · exact ih _ _ _

theorem get_bezier_limits_geometry (c : Canvas) (cb : CubicBezier) :
    (get_bezier_limits c cb).mask = c.mask ∧ (get_bezier_limits c cb).width = c.width ∧
    (get_bezier_limits c cb).height = c.height := by
  unfold get_bezier_limits
  exact get_bezier_limits_loop_geometry cb _ _ _ _ c

/-- Pixels after `fill_region(false)` on a canvas of width `w`: columns without a limit
keep their value. -/
theorem fill_region_pixel (c : Canvas) (m : Mem) (x y : Nat) (hx : x < c.width)
    (hy : y < c.height) :
    fill_region c false m (c.mask + (y * c.width + x))
      = if x < c.y_limits_count then
          (if (c.y_limits x).lower ≤ (y : ℚ) ∧ (y : ℚ) ≤ (c.y_limits x).upper then 255 else 0)
        else m (c.mask + (y * c.width + x)) := by
  obtain ⟨hA, hB⟩ := fill_region_spec c false m
  by_cases hc : x < c.y_limits_count
  · rw [if_pos hc, hA x y (lt_min hx hc) hy]
    simp only [Bool.false_eq_true, if_false]
  · rw [if_neg hc]
    apply hB
    intro X Y hX _ heq
    have hXw : X < c.width := lt_of_lt_of_le hX (Nat.min_le_left _ _)
    have hXc : X < c.y_limits_count := lt_of_lt_of_le hX (Nat.min_le_right _ _)
    have e : y * c.width + x = Y * c.width + X := by omega
    have := (pixel_addr_inj c.width x y X Y hx hXw e).2
    omega

/-- Pixels after the `mirror_horizontally` macro: every pixel of the canvas is replaced by
the mirrored pixel of the scratch buffer the expression drew into. -/
theorem mirror_horizontally_pixel (c : Canvas) (expr : Canvas → Mem → Canvas × Mem) (m : Mem)
    (hw : (expr { c with mask := 0 } (fun _ => 0)).1.width = c.width)
    (hh : (expr { c with mask := 0 } (fun _ => 0)).1.height = c.height)
    (x y : Nat) (hx : x < c.width) (hy : y < c.height) :
    (mirror_horizontally c expr m).2 (c.mask + (y * c.width + x))
      = (expr { c with mask := 0 } (fun _ => 0)).2 (y * c.width + (c.width - 1 - x)) := by
  unfold mirror_horizontally
  simp only [hw, hh]
  have h := (grid_store c.mask c.width c.width (fun s => c.width - 1 - s)
    (fun s y => (expr { c with mask := 0 } (fun _ => 0)).2 (y * c.width + s)) m c.height
    (fun s hs => by show c.width - 1 - s < c.width; omega)
    (fun i j hij hj => by show c.width - 1 - i ≠ c.width - 1 - j; omega)).1
    (c.width - 1 - x) y (by omega) hy
  simp only at h
  rw [show c.width - 1 - (c.width - 1 - x) = x by omega] at h
  exact h

/-- C9: for every canvas size, the mask produced by `filled_D(left = false)` is the exact
horizontal reflection of the mask produced by `filled_D(left = true)` on a blank canvas:
pixel `(x, y)` of one equals pixel `(width - 1 - x, y)` of the other. -/
theorem C9_filled_D_mirror (c : Canvas) (m1 m2 : Mem)
    (hblank : ∀ x y, x < c.width → y < c.height → c.pixel m1 x y = 0) :
    ∀ x y, x < c.width → y < c.height →
      c.pixel (filled_D c false m2).2 x y
        = c.pixel (filled_D c true m1).2 (c.width - 1 - x) y := by
  intro x y hx hy
  obtain ⟨gm, gw, gh⟩ := get_bezier_limits_geometry c
    ⟨⟨0, 0⟩, ⟨find_bezier_for_D (c.width : Int) (c.height : Int), 0⟩,
      ⟨find_bezier_for_D (c.width : Int) (c.height : Int), (c.height : Int) - 1⟩,
      ⟨0, (c.height : Int) - 1⟩⟩
  simp only [Canvas.pixel, Canvas.addr, Nat.add_assoc]
  unfold filled_D
  simp only [Bool.false_eq_true, if_false, if_true]
  generalize get_bezier_limits c
    ⟨⟨0, 0⟩, ⟨find_bezier_for_D (c.width : Int) (c.height : Int), 0⟩,
      ⟨find_bezier_for_D (c.width : Int) (c.height : Int), (c.height : Int) - 1⟩,
      ⟨0, (c.height : Int) - 1⟩⟩ = c2 at gm gw gh ⊢
  rw [← gm, ← gw] 
  rw [← gw] at hx
  rw [← gh] at hy
  rw [mirror_horizontally_pixel c2 (fun c mb => (c, fill_region c false mb)) m2 rfl rfl x y hx hy]
  simp only
  have hL := fill_region_pixel c2 m1 (c2.width - 1 - x) y (by omega) hy
  have hR := fill_region_pixel { c2 with mask := 0 } (fun _ => 0) (c2.width - 1 - x) y
    (by show c2.width - 1 - x < c2.width; omega) hy
  simp only [Nat.zero_add] at hR
  rw [hL, hR]
  have hb := hblank (c2.width - 1 - x) y (by omega) (by omega)
  simp only [Canvas.pixel, Canvas.addr, Nat.add_assoc] at hb
  rw [← gm, ← gw] at hb
  rw [hb]

/-- Witness for C9: a blank 8 × 8 canvas, pixel `(1, 3)` against `(6, 3)`. -/
theorem C9_filled_D_mirror_witness :
    (Canvas.init 0 8 8 1 96 96).pixel (filled_D (Canvas.init 0 8 8 1 96 96) false (fun _ => 0)).2 1 3
      = (Canvas.init 0 8 8 1 96 96).pixel
        (filled_D (Canvas.init 0 8 8 1 96 96) true (fun _ => 0)).2 (8 - 1 - 1) 3 :=
  C9_filled_D_mirror (Canvas.init 0 8 8 1 96 96) (fun _ => 0) (fun _ => 0) (fun _ _ _ _ => rfl)
    1 3 (by decide) (by decide)

/-! ## Eighth bars (C7) -/

theorem eight_range_zero (size : Nat) : eight_range size 0 = ⟨0, max 1 (size / 8)⟩ := by
  obtain ⟨t, e, he, rfl⟩ : ∃ t e, e < 8 ∧ size = 8 * t + e :=
    ⟨size / 8, size % 8, Nat.mod_lt _ (by norm_num), (Nat.div_add_mod size 8).symm⟩
  have hdiv : (8 * t + e) / 8 = t := by omega
  unfold eight_range
  simp only [hdiv]
  by_cases h1 : max 1 t * 8 = 8 * t + e
  · simp [h1]
  · by_cases h2 : max 1 t * 8 > 8 * t + e
    · simp [h1, h2]
    · have ht : 1 ≤ t := by
        by_contra hc
        have : t = 0 := by omega
        subst this
        simp at h2
        omega
      have hmax : max 1 t = t := max_eq_right ht
      have hm : minus (8 * t + e) (t * 8) = e := by
        unfold minus
        split_ifs <;> omega
      rw [hmax] at h1 h2
      simp only [hmax, if_neg h1, if_neg h2, hm]
      have he1 : 1 ≤ e := by omega
      interval_cases e <;>
        simp [eight_range_widen, forLoop, loopN, List.replicate, List.set, List.getD]

theorem eight_range_seven (size : Nat) (hs : 1 ≤ size) :
    eight_range size 7 =
      if 8 ≤ size ∧ size % 8 = 7 then ⟨size - (size / 8 + 1), size⟩
      else ⟨size - max 1 (size / 8), size⟩ := by
  obtain ⟨t, e, he, rfl⟩ : ∃ t e, e < 8 ∧ size = 8 * t + e :=
    ⟨size / 8, size % 8, Nat.mod_lt _ (by norm_num), (Nat.div_add_mod size 8).symm⟩
  have hdiv : (8 * t + e) / 8 = t := by omega
  have hmod : (8 * t + e) % 8 = e := by omega
  unfold eight_range
  simp only [hdiv, hmod]
  by_cases h1 : max 1 t * 8 = 8 * t + e
  · have ht : 1 ≤ t := by
      by_contra hc
      have : t = 0 := by omega
      subst this
      simp at h1
      omega
    have hmax : max 1 t = t := max_eq_right ht
    rw [hmax] at h1
    have he0 : e = 0 := by omega
    subst he0
    simp only [hmax, if_pos h1]
    have : ¬ (8 ≤ 8 * t + 0 ∧ 0 = 7) := by omega
    rw [if_neg this]
    simp only [Range.mk.injEq]
    omega
  · by_cases h2 : max 1 t * 8 > 8 * t + e
    · have ht : t = 0 := by
        by_contra hc
        have hmax : max 1 t = t := max_eq_right (by omega)
        rw [hmax] at h2
        omega
      subst ht
      have hm : minus (8 * 0 + e) (max 1 0) = e - 1 := by
        unfold minus
        simp only [Nat.mul_zero, Nat.zero_add, Nat.max_def]
        simp only [Nat.le_zero_eq, one_ne_zero, if_false]
        split_ifs <;> omega
      simp only [if_neg h1, if_pos h2, hm]
      have : ¬ (8 ≤ 8 * 0 + e ∧ e = 7) := by omega
      rw [if_neg this]
      simp only [Nat.max_def]
      simp
      constructor <;> omega
    · have ht : 1 ≤ t := by
        by_contra hc
        have : t = 0 := by omega
        subst this
        simp at h2
        omega
      have hmax : max 1 t = t := max_eq_right ht
      have hm : minus (8 * t + e) (t * 8) = e := by
        unfold minus
        split_ifs <;> omega
      rw [hmax] at h1 h2
      simp only [hmax, if_neg h1, if_neg h2, hm]
      have he1 : 1 ≤ e := by omega
      interval_cases e <;>
        simp [eight_range_widen, forLoop, loopN, List.replicate, List.set, List.getD]
      · omega
      · omega
      · omega
      · omega
      · omega
      · omega
      · rw [if_pos (by omega)]
        simp only [Range.mk.injEq]
        omega

/-- Pixels of a vertical eighth bar drawn on memory `m`. -/
theorem eight_bar_vertical_pixel (c : Canvas) (which : Nat) (m : Mem) (x y : Nat)
    (hx : x < c.width) (hy : y < c.height)
    (hr : (eight_range c.width which).end_ ≤ c.width) :
    eight_bar c which false m (c.mask + (y * c.width + x))
      = if (eight_range c.width which).start ≤ x ∧ x < (eight_range c.width which).end_
        then 255 else m (c.mask + (y * c.width + x)) := by
  unfold eight_bar
  simp only [Bool.false_eq_true, if_false]
  rw [rows_memset_pixel c.mask c.width _ _ 255 0 c.height m x y hx (by unfold minus; split_ifs <;> omega)]
  unfold minus
  by_cases h : (eight_range c.width which).start ≤ x ∧ x < (eight_range c.width which).end_
  · rw [if_pos h, if_pos]
    refine ⟨⟨Nat.zero_le _, hy⟩, h.1, ?_⟩
    split_ifs <;> omega
  · rw [if_neg h, if_neg]
    rintro ⟨_, h1, h2⟩
    apply h
    refine ⟨h1, ?_⟩
    split_ifs at h2 <;> omega

theorem lookup_left_eighth : lookup 0x258F = some (Glyph.direct [Shape.eight_block false [0]]) := by
  rfl

theorem lookup_right_eighth : lookup 0x2595 = some (Glyph.direct [Shape.eight_block false [7]]) := by
  rfl

/-- Pixels of the rendered left (`which = 0`, U+258F) and right (`which = 7`, U+2595)
one-eighth blocks. -/
theorem render_eighth_pixel (o : Options) (ch which buf w h : Nat) (dpi_x dpi_y : ℚ) (m : Mem)
    (hl : lookup ch = some (Glyph.direct [Shape.eight_block false [which]]))
    (x y : Nat) (hx : x < w) (hy : y < h) (hr : (eight_range w which).end_ ≤ w) :
    render_box_char o ch buf w h dpi_x dpi_y m (buf + (y * w + x))
      = if (eight_range w which).start ≤ x ∧ x < (eight_range w which).end_ then 255 else 0 := by
  unfold render_box_char
  simp only [hl, run_shapes, run_shape, eight_block, List.foldl]
  have h1 := eight_bar_vertical_pixel (Canvas.init buf w h 1 dpi_x dpi_y) which
    (fill_canvas (Canvas.init buf w h 1 dpi_x dpi_y) 0 m) x y hx hy hr
  have h2 := fill_canvas_pixel (Canvas.init buf w h 1 dpi_x dpi_y) 0 m x y hx hy
  simp only [Canvas.init] at h1 h2 ⊢
  rw [h1, h2]

/-- C7 (as stated) fails: on a 15 pixel wide cell the left one-eighth block is one pixel
wide (`[0, 1)`) while the right one-eighth block is two pixels wide (`[13, 15)`), so pixel
`(1, 0)` of the left block is 0 although its mirror pixel `(13, 0)` of the right block is 255. -/
theorem C7_counterexample :
    (Canvas.init 0 15 1 1 96 96).pixel
        (render_box_char sample_options 0x258F 0 15 1 96 96 (fun _ => 0)) 1 0 = 0 ∧
    (Canvas.init 0 15 1 1 96 96).pixel
        (render_box_char sample_options 0x2595 0 15 1 96 96 (fun _ => 0)) (15 - 1 - 1) 0 = 255 ∧
    eight_range 15 0 = ⟨0, 1⟩ ∧ eight_range 15 7 = ⟨13, 15⟩ ∧
    eight_range 15 7 ≠ ⟨15 - (eight_range 15 0).end_, 15 - (eight_range 15 0).start⟩ := by
  decide!

/-- C7 (amended): for every cell width `w` with `w < 8` or `w mod 8 ≠ 7`, and every height,
the rendered left one-eighth block (U+258F, bar 0) and right one-eighth block (U+2595,
bar 7) are horizontal reflections of each other, pixel `(x, y)` of one being pixel
`(w - 1 - x, y)` of the other; and for `w ≥ 1` the range of bar 7 is
`[w - end, w - start)` where `[start, end)` is the range of bar 0. -/
theorem C7_eighth_bars_mirror (o : Options) (buf w h : Nat) (dpi_x dpi_y : ℚ) (m1 m2 : Mem)
    (hw : w < 8 ∨ w % 8 ≠ 7) :
    (∀ x y, x < w → y < h →
      (Canvas.init buf w h 1 dpi_x dpi_y).pixel
          (render_box_char o 0x258F buf w h dpi_x dpi_y m1) x y
        = (Canvas.init buf w h 1 dpi_x dpi_y).pixel
          (render_box_char o 0x2595 buf w h dpi_x dpi_y m2) (w - 1 - x) y) ∧
    (1 ≤ w →
      eight_range w 7 = ⟨w - (eight_range w 0).end_, w - (eight_range w 0).start⟩) := by
  have h0 := eight_range_zero w
  have hcond : ¬ (8 ≤ w ∧ w % 8 = 7) := by omega
  have hmax : max 1 (w / 8) ≤ w ∨ w = 0 := by
    rcases Nat.eq_zero_or_pos w with h | h
    · exact Or.inr h
    · left
      apply max_le h
      exact Nat.div_le_self w 8
  constructor
  · intro x y hx hy
    have hw1 : 1 ≤ w := by omega
    have h7 := eight_range_seven w hw1
    rw [if_neg hcond] at h7
    have hle : max 1 (w / 8) ≤ w := by
      rcases hmax with h | h
      · exact h
      · omega
    simp only [Canvas.pixel, Canvas.addr, Canvas.init]
    rw [Nat.add_assoc, Nat.add_assoc]
    rw [render_eighth_pixel o _ 0 buf w h dpi_x dpi_y m1 lookup_left_eighth x y hx hy
      (by rw [h0]; exact hle)]
    rw [render_eighth_pixel o _ 7 buf w h dpi_x dpi_y m2 lookup_right_eighth (w - 1 - x) y
      (by omega) hy (by rw [h7])]
    rw [h0, h7]
    simp only
    by_cases hc : x < max 1 (w / 8)
    · rw [if_pos ⟨Nat.zero_le _, hc⟩, if_pos]
      constructor <;> omega
    · rw [if_neg (fun hh => hc hh.2), if_neg]
      rintro ⟨h1, _⟩
      omega
  · intro hw1
    have h7 := eight_range_seven w hw1
    rw [if_neg hcond] at h7
    rw [h7, h0]
    simp

/-- Witness for C7 at a 12 × 2 cell: pixel `(0, 1)` of the left block against pixel
`(11, 1)` of the right block. -/
theorem C7_eighth_bars_mirror_witness :
    (12 < 8 ∨ 12 % 8 ≠ 7) ∧
    (Canvas.init 0 12 2 1 96 96).pixel
        (render_box_char sample_options 0x258F 0 12 2 96 96 (fun _ => 0)) 0 1
      = (Canvas.init 0 12 2 1 96 96).pixel
        (render_box_char sample_options 0x2595 0 12 2 96 96 (fun _ => 0)) (12 - 1 - 0) 1 :=
  ⟨by decide, (C7_eighth_bars_mirror sample_options 0 12 2 96 96 (fun _ => 0) (fun _ => 0)
    (by decide)).1 0 1 (by decide) (by decide)⟩

/-! ## Write-only memory transformers -/

theorem paint_paint (S1 S2 : Nat → Bool) (v1 v2 : Nat → Nat) (m : Mem) :
    paint S2 v2 (paint S1 v1 m)
      = paint (fun a => S2 a || S1 a) (fun a => if S2 a then v2 a else v1 a) m := by
  funext a
  unfold paint
  by_cases h2 : S2 a
  · simp [h2]
  · simp [h2]

theorem wo_id : WriteOnly (fun m => m) :=
  ⟨fun _ => false, fun _ => 0, fun m => by funext a; simp [paint]⟩

theorem wo_comp {f g : Mem → Mem} (hf : WriteOnly f) (hg : WriteOnly g) :
    WriteOnly (fun m => f (g m)) := by
  obtain ⟨S2, v2, h2⟩ := hf
  obtain ⟨S1, v1, h1⟩ := hg
  exact ⟨_, _, fun m => by beta_reduce; rw [h1, h2, paint_paint]⟩

theorem wo_memset_id (off byte n : Nat) : WriteOnly (fun m => memset m off byte n) :=
  ⟨fun a => decide (off ≤ a ∧ a < off + n), fun _ => byte, fun m => by
    funext a
    simp [paint, memset]⟩

theorem wo_store_id (a v : Nat) : WriteOnly (fun m => store m a v) :=
  ⟨fun i => decide (i = a), fun _ => v, fun m => by
    funext i
    simp [paint, store]⟩

theorem wo_memset {g : Mem → Mem} (off byte n : Nat) (hg : WriteOnly g) :
    WriteOnly (fun m => memset (g m) off byte n) :=
  wo_comp (wo_memset_id off byte n) hg

theorem wo_store {g : Mem → Mem} (a v : Nat) (hg : WriteOnly g) :
    WriteOnly (fun m => store (g m) a v) :=
  wo_comp (wo_store_id a v) hg

theorem wo_ite (c : Prop) [Decidable c] {f g : Mem → Mem} (hf : WriteOnly f)
    (hg : WriteOnly g) : WriteOnly (fun m => if c then f m else g m) := by
  by_cases h : c
  · simp only [h, if_true]
    exact hf
  · simp only [h, if_false]
    exact hg

theorem wo_loopN (body : Nat → Mem → Mem) (hb : ∀ i, WriteOnly (body i)) (lo n : Nat) :
    WriteOnly (fun m => loopN body lo n m) := by
  induction n with
  | zero => exact wo_id
  | succ n ih =>
    have h := wo_comp (hb (lo + n)) ih
    exact h

theorem wo_forLoop {g : Mem → Mem} (lo hi : Nat) (body : Nat → Mem → Mem)
    (hb : ∀ i, WriteOnly (fun m => body i m)) (hg : WriteOnly g) :
    WriteOnly (fun m => forLoop lo hi body (g m)) :=
  wo_comp (wo_loopN body hb lo (hi - lo)) hg

theorem wo_foldl {α : Type} (l : List α) (f : Mem → α → Mem)
    (hf : ∀ x, WriteOnly (fun m => f m x)) {g : Mem → Mem} (hg : WriteOnly g) :
    WriteOnly (fun m => l.foldl f (g m)) := by
  induction l generalizing g with
  | nil => exact hg
  | cons x rest ih =>
    simp only [List.foldl]
    exact ih (wo_comp (hf x) hg)

theorem wos_snd {σ : Type} {f : Mem → σ × Mem} (hf : WriteOnlyS f) :
    WriteOnly (fun m => (f m).2) := by
  obtain ⟨s, S, v, h⟩ := hf
  exact ⟨S, v, fun m => by beta_reduce; rw [h]⟩

theorem wos_pair {σ : Type} (s : σ) {g : Mem → Mem} (hg : WriteOnly g) :
    WriteOnlyS (fun m => (s, g m)) := by
  obtain ⟨S, v, h⟩ := hg
  exact ⟨s, S, v, fun m => by beta_reduce; rw [h]⟩

/-- Sequencing: the second step gets the value and the memory of the first. -/
theorem wos_bind {σ τ : Type} {f : Mem → σ × Mem} {g : σ → Mem → τ × Mem}
    (hf : WriteOnlyS f) (hg : ∀ s, WriteOnlyS (fun m => g s m)) :
    WriteOnlyS (fun m => g (f m).1 (f m).2) := by
  obtain ⟨s, S1, v1, h1⟩ := hf
  obtain ⟨t, S2, v2, h2⟩ := hg s
  beta_reduce at h2
  exact ⟨t, _, _, fun m => by beta_reduce; rw [h1]; show g s (paint S1 v1 m) = _; rw [h2, paint_paint]⟩

/-- A loop that carries a state next to the memory. -/
theorem wos_loopN {σ : Type} (body : Nat → σ × Mem → σ × Mem)
    (hb : ∀ i s, WriteOnlyS (fun m => body i (s, m))) (lo n : Nat) (s : σ) :
    WriteOnlyS (fun m => loopN body lo n (s, m)) := by
  induction n with
  | zero => exact ⟨s, fun _ => false, fun _ => 0, fun m => by
      show (s, m) = _
      have : paint (fun _ => false) (fun _ => 0) m = m := by funext a; simp [paint]
      rw [this]⟩
  | succ n ih =>
    obtain ⟨s1, S1, v1, h1⟩ := ih
    obtain ⟨s2, S2, v2, h2⟩ := hb (lo + n) s1
    beta_reduce at h1 h2
    exact ⟨s2, _, _, fun m => by beta_reduce; rw [loopN_succ, h1, h2, paint_paint]⟩

/-- Write-only transformers preserve agreement of two memories on any set of addresses. -/
theorem wo_agree {f : Mem → Mem} (hf : WriteOnly f) (m1 m2 : Mem) (a : Nat)
    (h : m1 a = m2 a) : f m1 a = f m2 a := by
  obtain ⟨S, v, hS⟩ := hf
  rw [hS, hS]
  unfold paint
  rw [h]

theorem wos_comp {σ : Type} {f : Mem → σ × Mem} {g : Mem → Mem} (hf : WriteOnlyS f)
    (hg : WriteOnly g) : WriteOnlyS (fun m => f (g m)) := by
  obtain ⟨s, S2, v2, h2⟩ := hf
  obtain ⟨S1, v1, h1⟩ := hg
  exact ⟨s, _, _, fun m => by beta_reduce; rw [h1, h2, paint_paint]⟩

theorem wos_ite {σ : Type} (c : Prop) [Decidable c] {f g : Mem → σ × Mem}
    (hf : WriteOnlyS f) (hg : WriteOnlyS g) : WriteOnlyS (fun m => if c then f m else g m) := by
  by_cases h : c
  · simp only [h, if_true]
    exact hf
  · simp only [h, if_false]
    exact hg

theorem wos_forLoop {σ : Type} (body : Nat → σ × Mem → σ × Mem)
    (hb : ∀ i s, WriteOnlyS (fun m => body i (s, m))) (lo hi : Nat) (s : σ) :
    WriteOnlyS (fun m => forLoop lo hi body (s, m)) :=
  wos_loopN body hb lo (hi - lo) s

/-! ## The drawing primitives are write-only -/

theorem draw_hline_wo (o : Options) (c : Canvas) (x1 x2 y l : Nat) {g : Mem → Mem}
    (hg : WriteOnly g) : WriteOnly (fun m => draw_hline o c x1 x2 y l (g m)) := by
  unfold draw_hline
  with_reducible repeat (first | exact hg | exact wo_id | intro _ | apply wo_forLoop | apply wo_memset)

theorem draw_vline_wo (o : Options) (c : Canvas) (y1 y2 x l : Nat) {g : Mem → Mem}
    (hg : WriteOnly g) : WriteOnly (fun m => draw_vline o c y1 y2 x l (g m)) := by
  unfold draw_vline
  with_reducible repeat (first | exact hg | exact wo_id | intro _ | apply wo_forLoop | apply wo_memset)

theorem half_hline_wo (o : Options) (c : Canvas) (l : Nat) (r : Bool) (e : Nat) {g : Mem → Mem}
    (hg : WriteOnly g) : WriteOnly (fun m => half_hline o c l r e (g m)) := by
  unfold half_hline
  with_reducible repeat (first | exact hg | apply draw_hline_wo)

theorem half_vline_wo (o : Options) (c : Canvas) (l : Nat) (b : Bool) (e : Nat) {g : Mem → Mem}
    (hg : WriteOnly g) : WriteOnly (fun m => half_vline o c l b e (g m)) := by
  unfold half_vline
  with_reducible repeat (first | exact hg | apply draw_vline_wo)

theorem hline_wo (o : Options) (c : Canvas) (l : Nat) {g : Mem → Mem}
    (hg : WriteOnly g) : WriteOnly (fun m => hline o c l (g m)) := by
  unfold hline
  with_reducible repeat (first | exact hg | apply half_hline_wo)

theorem vline_wo (o : Options) (c : Canvas) (l : Nat) {g : Mem → Mem}
    (hg : WriteOnly g) : WriteOnly (fun m => vline o c l (g m)) := by
  unfold vline
  with_reducible repeat (first | exact hg | apply half_vline_wo)

theorem half_dhline_wo (o : Options) (c : Canvas) (l : Nat) (r : Bool) (w : Edge) {g : Mem → Mem}
    (hg : WriteOnly g) : WriteOnlyS (fun m => half_dhline o c l r w (g m)) := by
  unfold half_dhline
  apply wos_pair
  with_reducible repeat (first | exact hg | exact wo_id | intro _ | apply wo_ite | apply draw_hline_wo)

theorem half_dvline_wo (o : Options) (c : Canvas) (l : Nat) (b : Bool) (w : Edge) {g : Mem → Mem}
    (hg : WriteOnly g) : WriteOnlyS (fun m => half_dvline o c l b w (g m)) := by
  unfold half_dvline
  apply wos_pair
  with_reducible repeat (first | exact hg | exact wo_id | intro _ | apply wo_ite | apply draw_vline_wo)

theorem dhline_wo (o : Options) (c : Canvas) (l : Nat) (w : Edge) {g : Mem → Mem}
    (hg : WriteOnly g) : WriteOnlyS (fun m => dhline o c l w (g m)) := by
  unfold dhline
  exact half_dhline_wo o c l true w (wos_snd (half_dhline_wo o c l false w hg))

theorem dvline_wo (o : Options) (c : Canvas) (l : Nat) (w : Edge) {g : Mem → Mem}
    (hg : WriteOnly g) : WriteOnlyS (fun m => dvline o c l w (g m)) := by
  unfold dvline
  exact half_dvline_wo o c l true w (wos_snd (half_dvline_wo o c l false w hg))

theorem add_hholes_wo (o : Options) (c : Canvas) (l n : Nat) {g : Mem → Mem}
    (hg : WriteOnly g) : WriteOnlyS (fun m => add_hholes o c l n (g m)) := by
  unfold add_hholes
  apply wos_pair
  with_reducible repeat (first | exact hg | exact wo_id | intro _ | apply wo_forLoop | apply wo_memset)

theorem add_vholes_wo (o : Options) (c : Canvas) (l n : Nat) {g : Mem → Mem}
    (hg : WriteOnly g) : WriteOnlyS (fun m => add_vholes o c l n (g m)) := by
  unfold add_vholes
  apply wos_pair
  with_reducible repeat (first | exact hg | exact wo_id | intro _ | apply wo_forLoop | apply wo_memset)

theorem hholes_wo (o : Options) (c : Canvas) (l n : Nat) {g : Mem → Mem}
    (hg : WriteOnly g) : WriteOnlyS (fun m => hholes o c l n (g m)) := by
  unfold hholes
  exact add_hholes_wo o c l n (hline_wo o c l hg)

theorem vholes_wo (o : Options) (c : Canvas) (l n : Nat) {g : Mem → Mem}
    (hg : WriteOnly g) : WriteOnlyS (fun m => vholes o c l n (g m)) := by
  unfold vholes
  exact add_vholes_wo o c l n (vline_wo o c l hg)

theorem fill_region_wo (c : Canvas) (inv : Bool) {g : Mem → Mem}
    (hg : WriteOnly g) : WriteOnly (fun m => fill_region c inv (g m)) := by
  unfold fill_region
  with_reducible repeat (first | exact hg | exact wo_id | intro _ | apply wo_forLoop | apply wo_store)

theorem triangle_wo (c : Canvas) (left inv : Bool) {g : Mem → Mem}
    (hg : WriteOnly g) : WriteOnlyS (fun m => triangle c left inv (g m)) := by
  unfold triangle
  apply wos_pair
  exact fill_region_wo _ _ hg

theorem thick_line_wo (c : Canvas) (t : Nat) (p1 p2 : Point) {g : Mem → Mem}
    (hg : WriteOnly g) : WriteOnly (fun m => thick_line c t p1 p2 (g m)) := by
  unfold thick_line
  with_reducible repeat (first | exact hg | exact wo_id | intro _ | apply wo_forLoop | apply wo_store)

theorem frame_line_wo (c : Canvas) (x1 x2 y1 y2 : Nat) {g : Mem → Mem}
    (hg : WriteOnly g) : WriteOnly (fun m => frame_line c x1 x2 y1 y2 (g m)) := by
  unfold frame_line
  with_reducible repeat (first | exact hg | exact wo_id | intro _ | apply wo_forLoop | apply wo_memset)

theorem frame_wo (o : Options) (c : Canvas) (l : Nat) (e : Edge) {g : Mem → Mem}
    (hg : WriteOnly g) : WriteOnly (fun m => frame o c l e (g m)) := by
  unfold frame
  with_reducible repeat (first | exact hg | apply wo_ite | apply frame_line_wo)

theorem progress_bar_wo (o : Options) (c : Canvas) (which : Segment) (filled : Bool)
    {g : Mem → Mem} (hg : WriteOnly g) :
    WriteOnly (fun m => progress_bar o c which filled (g m)) := by
  unfold progress_bar
  cases which <;>
  with_reducible repeat (first | exact hg | exact wo_id | intro _ | apply wo_ite | apply wo_forLoop | apply wo_memset | apply frame_wo)

theorem half_cross_line_wo (o : Options) (c : Canvas) (l : Nat) (e : Edge) {g : Mem → Mem}
    (hg : WriteOnly g) : WriteOnly (fun m => half_cross_line o c l e (g m)) := by
  unfold half_cross_line
  exact thick_line_wo _ _ _ _ hg

theorem cross_line_wo (o : Options) (c : Canvas) (l : Nat) (left : Bool) {g : Mem → Mem}
    (hg : WriteOnly g) : WriteOnly (fun m => cross_line o c l left (g m)) := by
  unfold cross_line
  exact thick_line_wo _ _ _ _ hg

theorem mirror_horizontally_wo (c : Canvas) (expr : Canvas → Mem → Canvas × Mem) {g : Mem → Mem}
    (hg : WriteOnly g) : WriteOnlyS (fun m => mirror_horizontally c expr (g m)) := by
  unfold mirror_horizontally
  apply wos_pair
  with_reducible repeat (first | exact hg | exact wo_id | intro _ | apply wo_forLoop | apply wo_store)

theorem filled_D_wo (c : Canvas) (left : Bool) {g : Mem → Mem}
    (hg : WriteOnly g) : WriteOnlyS (fun m => filled_D c left (g m)) := by
  unfold filled_D
  apply wos_ite
  · exact wos_pair _ (fill_region_wo _ _ hg)
  · exact mirror_horizontally_wo _ _ hg

theorem draw_parametrized_curve_wo (o : Options) (c : Canvas) (l : Nat) (xf yf : ℚ → ℚ)
    {g : Mem → Mem} (hg : WriteOnly g) :
    WriteOnly (fun m => draw_parametrized_curve o c l xf yf (g m)) := by
  unfold draw_parametrized_curve
  refine wos_snd (wos_comp (wos_forLoop _ ?_ 0 _ []) hg)
  intro i s
  dsimp only
  apply wos_ite
  · exact wos_pair _ wo_id
  · apply wos_pair
    with_reducible repeat (first | exact wo_id | intro _ | apply wo_forLoop | apply wo_memset)

theorem rounded_separator_wo (o : Options) (c : Canvas) (l : Nat) (left : Bool) {g : Mem → Mem}
    (hg : WriteOnly g) : WriteOnlyS (fun m => rounded_separator o c l left (g m)) := by
  unfold rounded_separator
  apply wos_ite
  · exact wos_pair _ (draw_parametrized_curve_wo _ _ _ _ _ hg)
  · exact mirror_horizontally_wo _ _ hg

theorem corner_triangle_wo (c : Canvas) (corner : Edge) {g : Mem → Mem}
    (hg : WriteOnly g) : WriteOnlyS (fun m => corner_triangle c corner (g m)) := by
  unfold corner_triangle
  exact wos_pair _ (fill_region_wo _ _ hg)

theorem spinner_wo (o : Options) (c : Canvas) (l : Nat) (s e : ℚ) {g : Mem → Mem}
    (hg : WriteOnly g) : WriteOnly (fun m => spinner o c l s e (g m)) := by
  unfold spinner
  exact draw_parametrized_curve_wo _ _ _ _ _ hg

theorem draw_circle_wo (c : Canvas) (scale gap : ℚ) (invert : Bool) {g : Mem → Mem}
    (hg : WriteOnly g) : WriteOnly (fun m => draw_circle c scale gap invert (g m)) := by
  unfold draw_circle
  with_reducible repeat (first | exact hg | exact wo_id | intro _ | apply wo_ite | apply wo_forLoop | apply wo_store)

theorem draw_fish_eye_wo (o : Options) (c : Canvas) (l : Nat) {g : Mem → Mem}
    (hg : WriteOnly g) : WriteOnly (fun m => draw_fish_eye o c l (g m)) := by
  unfold draw_fish_eye
  exact draw_circle_wo _ _ _ _ (draw_parametrized_curve_wo _ _ _ _ _ hg)

theorem inner_corner_wo (o : Options) (c : Canvas) (l : Nat) (corner : Edge) {g : Mem → Mem}
    (hg : WriteOnly g) : WriteOnly (fun m => inner_corner o c l corner (g m)) := by
  unfold inner_corner
  exact draw_vline_wo _ _ _ _ _ _ (draw_hline_wo _ _ _ _ _ _ hg)

theorem eight_bar_wo (c : Canvas) (which : Nat) (horizontal : Bool) {g : Mem → Mem}
    (hg : WriteOnly g) : WriteOnly (fun m => eight_bar c which horizontal (g m)) := by
  unfold eight_bar
  with_reducible repeat (first | exact hg | exact wo_id | intro _ | apply wo_forLoop | apply wo_memset)

theorem eight_block_wo (c : Canvas) (horizontal : Bool) (bars : List Nat) {g : Mem → Mem}
    (hg : WriteOnly g) : WriteOnly (fun m => eight_block c horizontal bars (g m)) := by
  unfold eight_block
  exact wo_foldl _ _ (fun x => eight_bar_wo _ _ _ wo_id) hg

theorem shade_cell_wo (self : Canvas) (s : Shade) (sw sh : Nat) (swe : ℚ) (r old_ey ey : Nat)
    (extra_row : Bool) (c : Nat) (st : Nat × Nat) :
    WriteOnlyS (fun m => shade_cell self s sw sh swe r old_ey ey extra_row c (st, m)) := by
  unfold shade_cell
  dsimp only
  apply wos_pair
  with_reducible repeat (first | exact wo_id | intro _ | apply wo_ite | apply wo_forLoop | apply wo_store)

theorem shade_wo (c : Canvas) (s : Shade) {g : Mem → Mem}
    (hg : WriteOnly g) : WriteOnly (fun m => shade c s (g m)) := by
  unfold shade
  dsimp only
  have hrows : ∀ (lo hi : Nat) (clo chi sw sh : Nat) (swe she : ℚ),
      WriteOnly (fun m => (forLoop lo hi (fun r (st : (Nat × Nat) × Mem) =>
        ((Int.toNat ⌈(st.1.2 : ℚ) * she⌉, st.1.2 + 1),
          (forLoop clo chi (shade_cell c s sw sh swe r st.1.1 (Int.toNat ⌈(st.1.2 : ℚ) * she⌉)
            (decide (Int.toNat ⌈(st.1.2 : ℚ) * she⌉ ≠ st.1.1))) ((0, 0), st.2)).2))
        ((0, 0), g m)).2) := by
    intro lo hi clo chi sw sh swe she
    refine wos_snd (wos_comp (wos_forLoop _ ?_ lo hi (0, 0)) hg)
    intro r st
    dsimp only
    apply wos_pair
    exact wos_snd (wos_forLoop _ (fun i st2 => shade_cell_wo _ _ _ _ _ _ _ _ _ _ _) _ _ _)
  apply wo_ite
  · exact hrows _ _ _ _ _ _ _ _
  · apply wo_forLoop
    · intro i
      exact wo_memset_id _ _ _
    · exact hrows _ _ _ _ _ _ _ _

theorem cross_shade_wo (c : Canvas) (rotate : Bool) {g : Mem → Mem}
    (hg : WriteOnly g) : WriteOnly (fun m => cross_shade c rotate (g m)) := by
  unfold cross_shade
  with_reducible repeat (first | exact hg | exact wo_id | intro _ | apply wo_forLoop | apply thick_line_wo)

theorem quad_wo (c : Canvas) (which : Edge) {g : Mem → Mem}
    (hg : WriteOnly g) : WriteOnly (fun m => quad c which (g m)) := by
  unfold quad
  with_reducible repeat (first | exact hg | exact wo_id | intro _ | apply wo_forLoop | apply wo_memset)

theorem quads_wo (c : Canvas) (corners : List Edge) {g : Mem → Mem}
    (hg : WriteOnly g) : WriteOnly (fun m => quads c corners (g m)) := by
  unfold quads
  exact wo_foldl _ _ (fun x => quad_wo _ _ wo_id) hg

theorem smooth_mosaic_wo (c : Canvas) (lower : Bool) (ax ay bx by_ : ℚ) {g : Mem → Mem}
    (hg : WriteOnly g) : WriteOnly (fun m => smooth_mosaic c lower ax ay bx by_ (g m)) := by
  unfold smooth_mosaic
  with_reducible repeat (first | exact hg | exact wo_id | intro _ | apply wo_ite | apply wo_forLoop | apply wo_store)

theorem half_triangle_wo (c : Canvas) (which : Edge) (inv : Bool) {g : Mem → Mem}
    (hg : WriteOnly g) : WriteOnlyS (fun m => half_triangle c which inv (g m)) := by
  unfold half_triangle
  exact wos_pair _ (fill_region_wo _ _ hg)

theorem mid_lines_wo (o : Options) (c : Canvas) (l : Nat) (corners : List Edge) {g : Mem → Mem}
    (hg : WriteOnly g) : WriteOnly (fun m => mid_lines o c l corners (g m)) := by
  unfold mid_lines
  exact wo_foldl _ _ (fun x => thick_line_wo _ _ _ _ wo_id) hg

theorem fading_hline_wo (o : Options) (c : Canvas) (l n : Nat) (fade : Edge) {g : Mem → Mem}
    (hg : WriteOnly g) : WriteOnly (fun m => fading_hline o c l n fade (g m)) := by
  unfold fading_hline
  with_reducible repeat (first | exact hg | exact wo_id | intro _ | apply wo_forLoop | apply draw_hline_wo)

theorem fading_vline_wo (o : Options) (c : Canvas) (l n : Nat) (fade : Edge) {g : Mem → Mem}
    (hg : WriteOnly g) : WriteOnly (fun m => fading_vline o c l n fade (g m)) := by
  unfold fading_vline
  with_reducible repeat (first | exact hg | exact wo_id | intro _ | apply wo_forLoop | apply draw_vline_wo)

theorem rounded_corner_wo (o : Options) (c : Canvas) (l : Nat) (which : Edge) {g : Mem → Mem}
    (hg : WriteOnly g) : WriteOnly (fun m => rounded_corner o c l which (g m)) := by
  unfold rounded_corner
  exact draw_parametrized_curve_wo _ _ _ _ _ hg

theorem commit_wo (o : Options) (c : Canvas) (lines : Edge) (solid : Bool) {g : Mem → Mem}
    (hg : WriteOnly g) : WriteOnly (fun m => commit o c lines solid (g m)) := by
  unfold commit
  with_reducible repeat (first | exact hg | apply wo_ite | apply draw_hline_wo | apply draw_vline_wo | apply draw_circle_wo)

theorem corner_wo (o : Options) (c : Canvas) (hl vl : Nat) (which : Edge) {g : Mem → Mem}
    (hg : WriteOnly g) : WriteOnly (fun m => corner o c hl vl which (g m)) := by
  unfold corner
  exact half_vline_wo _ _ _ _ _ (half_hline_wo _ _ _ _ _ hg)

theorem cross_wo (o : Options) (c : Canvas) (which : Nat) {g : Mem → Mem}
    (hg : WriteOnly g) : WriteOnly (fun m => cross o c which (g m)) := by
  unfold cross
  exact half_vline_wo _ _ _ _ _ (half_vline_wo _ _ _ _ _ (half_hline_wo _ _ _ _ _
    (half_hline_wo _ _ _ _ _ hg)))

theorem fill_canvas_wo (c : Canvas) (byte : Nat) {g : Mem → Mem}
    (hg : WriteOnly g) : WriteOnly (fun m => fill_canvas c byte (g m)) := by
  unfold fill_canvas
  exact wo_memset _ _ _ hg

/-! ## Every call of a `case` body is write-only -/

theorem run_shape_wo (o : Options) (c : Canvas) (s : Shape) {g : Mem → Mem}
    (hg : WriteOnly g) : WriteOnlyS (fun m => run_shape o c (g m) s) := by
  cases s with
  | fill_canvas byte => exact wos_pair _ (fill_canvas_wo _ _ hg)
  | hline level => exact wos_pair _ (hline_wo _ _ _ hg)
  | vline level => exact wos_pair _ (vline_wo _ _ _ hg)
  | hholes level num => exact hholes_wo _ _ _ _ hg
  | vholes level num => exact vholes_wo _ _ _ _ hg
  | half_hline level right_half extend_by => exact wos_pair _ (half_hline_wo _ _ _ _ _ hg)
  | half_vline level bottom_half extend_by => exact wos_pair _ (half_vline_wo _ _ _ _ _ hg)
  | triangle left inverted => exact triangle_wo _ _ _ hg
  | half_cross_line level corner => exact wos_pair _ (half_cross_line_wo _ _ _ _ hg)
  | filled_D left => exact filled_D_wo _ _ hg
  | rounded_separator level left => exact rounded_separator_wo _ _ _ _ hg
  | cross_line level left => exact wos_pair _ (cross_line_wo _ _ _ _ hg)
  | corner_triangle corner => exact corner_triangle_wo _ _ hg
  | progress_bar which filled => exact wos_pair _ (progress_bar_wo _ _ _ _ hg)
  | spinner level s e => exact wos_pair _ (spinner_wo _ _ _ _ _ hg)
  | draw_circle scale gap invert => exact wos_pair _ (draw_circle_wo _ _ _ _ hg)
  | draw_fish_eye level => exact wos_pair _ (draw_fish_eye_wo _ _ _ hg)
  | dhline level which => exact wos_pair _ (wos_snd (dhline_wo _ _ _ _ hg))
  | dvline level which => exact wos_pair _ (wos_snd (dvline_wo _ _ _ _ hg))
  | half_dhline level right_half which => exact wos_pair _ (wos_snd (half_dhline_wo _ _ _ _ _ hg))
  | half_dvline level bottom_half which => exact wos_pair _ (wos_snd (half_dvline_wo _ _ _ _ _ hg))
  | inner_corner level corner => exact wos_pair _ (inner_corner_wo _ _ _ _ hg)
  | eight_bar which horizontal => exact wos_pair _ (eight_bar_wo _ _ _ hg)
  | eight_block horizontal bars => exact wos_pair _ (eight_block_wo _ _ _ hg)
  | shade s => exact wos_pair _ (shade_wo _ _ hg)
  | cross_shade rotate => exact wos_pair _ (cross_shade_wo _ _ hg)
  | quad which => exact wos_pair _ (quad_wo _ _ hg)
  | quads corners => exact wos_pair _ (quads_wo _ _ hg)
  | smooth_mosaic lower ax ay bx by_ => exact wos_pair _ (smooth_mosaic_wo _ _ _ _ _ _ hg)
  | half_triangle which inverted => exact half_triangle_wo _ _ _ hg
  | mid_lines level corners => exact wos_pair _ (mid_lines_wo _ _ _ _ hg)
  | fading_hline level num fade => exact wos_pair _ (fading_hline_wo _ _ _ _ _ hg)
  | fading_vline level num fade => exact wos_pair _ (fading_vline_wo _ _ _ _ _ hg)
  | rounded_corner level which => exact wos_pair _ (rounded_corner_wo _ _ _ _ hg)
  | commit lines solid => exact wos_pair _ (commit_wo _ _ _ _ hg)
  | corner hlevel vlevel which => exact wos_pair _ (corner_wo _ _ _ _ _ hg)
  | cross which => exact wos_pair _ (cross_wo _ _ _ hg)

theorem run_shapes_wo (o : Options) (calls : List Shape) (c : Canvas) {g : Mem → Mem}
    (hg : WriteOnly g) : WriteOnlyS (fun m => run_shapes o calls c (g m)) := by
  induction calls generalizing c g with
  | nil => exact wos_pair _ hg
  | cons s rest ih =>
    obtain ⟨c1, S, v, h⟩ := run_shape_wo o c s hg
    beta_reduce at h
    have h2 := ih c1 (g := fun m => paint S v m) ⟨S, v, fun _ => rfl⟩
    obtain ⟨c2, S2, v2, h3⟩ := h2
    beta_reduce at h3
    refine ⟨c2, S2, v2, fun m => ?_⟩
    show run_shapes o rest (run_shape o c (g m) s).1 (run_shape o c (g m) s).2 = _
    rw [h]
    exact h3 m

/-! ## Drawing never changes the geometry of a canvas -/

theorem same_geometry_refl (c : Canvas) : same_geometry c c := ⟨rfl, rfl, rfl, rfl⟩

theorem same_geometry_trans {a b c : Canvas} (h1 : same_geometry a b) (h2 : same_geometry b c) :
    same_geometry a c :=
  ⟨h1.1.trans h2.1, h1.2.1.trans h2.2.1, h1.2.2.1.trans h2.2.2.1, h1.2.2.2.trans h2.2.2.2⟩

theorem append_hole_geom (c : Canvas) (r : Range) : same_geometry (append_hole c r) c :=
  ⟨rfl, rfl, rfl, rfl⟩

theorem append_limit_geom (c : Canvas) (u l : ℚ) : same_geometry (append_limit c u l) c :=
  ⟨rfl, rfl, rfl, rfl⟩

theorem set_limits_geom (c : Canvas) (s e : Nat) (a b : Nat → ℚ) :
    same_geometry (set_limits c s e a b) c :=
  ⟨rfl, rfl, rfl, rfl⟩

theorem calc_limits_geom (c : Canvas) (lo up : Nat → ℚ) : same_geometry (calc_limits c lo up) c := by
  unfold calc_limits
  by_cases h : c.y_limits_null = true
  · simp only [h, if_true]
    exact ⟨rfl, rfl, rfl, rfl⟩
  · simp only [h, if_false]
    exact ⟨rfl, rfl, rfl, rfl⟩

theorem get_holes_loop_geom (sz hole_sz ibs : Nat) (fuel : Nat) :
    ∀ (pos : Int) (c : Canvas), same_geometry (get_holes_loop sz hole_sz ibs fuel pos c) c := by
  induction fuel with
  | zero =>
    intro pos c
    exact same_geometry_refl c
  | succ n ih =>
    intro pos c
    unfold get_holes_loop
    by_cases hp : pos < to_int sz
    · simp only [hp, if_true]
      refine same_geometry_trans (ih _ _) ?_
      split_ifs <;> first | exact append_hole_geom _ _ | exact same_geometry_refl c
    · simp only [hp, if_false]
      exact same_geometry_refl c

theorem get_holes_geom (c : Canvas) (sz hole_sz num : Nat) :
    same_geometry (get_holes c sz hole_sz num) c := by
  unfold get_holes
  exact get_holes_loop_geom _ _ _ _ _ c

theorem get_bezier_limits_loop_geom (cb : CubicBezier) (start_x : Int) (n : Nat) :
    ∀ (x : Int) (last_t : ℚ) (c : Canvas),
      same_geometry (get_bezier_limits_loop cb start_x n x last_t c) c := by
  induction n with
  | zero =>
    intro x last_t c
    exact same_geometry_refl c
  | succ n ih =>
    intro x last_t c
    unfold get_bezier_limits_loop
    simp only
    split_ifs
    · exact same_geometry_refl c
    · exact same_geometry_trans (ih _ _ _) (append_limit_geom _ _ _)
    · exact same_geometry_refl c
    · exact same_geometry_trans (ih _ _ _) (append_limit_geom _ _ _)

theorem get_bezier_limits_geom (c : Canvas) (cb : CubicBezier) :
    same_geometry (get_bezier_limits c cb) c := by
  unfold get_bezier_limits
  exact get_bezier_limits_loop_geom cb _ _ _ _ c

theorem loopN_geom (body : Nat → Canvas → Canvas) (hb : ∀ i c, same_geometry (body i c) c)
    (lo n : Nat) (c : Canvas) : same_geometry (loopN body lo n c) c := by
  induction n with
  | zero => exact same_geometry_refl c
  | succ n ih => exact same_geometry_trans (hb _ _) ih

theorem corner_triangle_geom (c : Canvas) (corner : Edge) (m : Mem) :
    same_geometry (corner_triangle c corner m).1 c := by
  unfold corner_triangle forLoop
  apply loopN_geom
  intro i c2
  dsimp only
  split_ifs <;> exact append_limit_geom _ _ _

theorem half_triangle_geom (c : Canvas) (which : Edge) (inv : Bool) (m : Mem) :
    same_geometry (half_triangle c which inv m).1 c := by
  unfold half_triangle
  dsimp only
  split_ifs <;> exact ⟨rfl, rfl, rfl, rfl⟩

theorem filled_D_geom (c : Canvas) (left : Bool) (m : Mem) :
    same_geometry (filled_D c left m).1 c := by
  unfold filled_D
  dsimp only
  split_ifs
  · exact get_bezier_limits_geom c _
  · exact same_geometry_trans ⟨rfl, rfl, rfl, rfl⟩ (get_bezier_limits_geom c _)

theorem rounded_separator_geom (o : Options) (c : Canvas) (l : Nat) (left : Bool) (m : Mem) :
    same_geometry (rounded_separator o c l left m).1 c := by
  unfold rounded_separator
  dsimp only
  split_ifs
  · exact same_geometry_refl c
  · exact ⟨rfl, rfl, rfl, rfl⟩

theorem run_shape_geom (o : Options) (c : Canvas) (m : Mem) (s : Shape) :
    same_geometry (run_shape o c m s).1 c := by
  cases s with
  | hholes level num => exact get_holes_geom c _ _ _
  | vholes level num => exact get_holes_geom c _ _ _
  | triangle left inverted => exact calc_limits_geom c _ _
  | filled_D left => exact filled_D_geom c left m
  | rounded_separator level left => exact rounded_separator_geom o c level left m
  | corner_triangle corner => exact corner_triangle_geom c corner m
  | half_triangle which inverted => exact half_triangle_geom c which inverted m
  | _ => exact same_geometry_refl c

theorem run_shapes_geom (o : Options) (calls : List Shape) :
    ∀ (c : Canvas) (m : Mem), same_geometry (run_shapes o calls c m).1 c := by
  induction calls with
  | nil =>
    intro c m
    exact same_geometry_refl c
  | cons s rest ih =>
    intro c m
    exact same_geometry_trans (ih _ _) (run_shape_geom o c m s)

/-! ## Steps that read memory: agreement of two memories on a set of addresses -/

theorem loopN_agree (R : Nat → Prop) (body : Nat → Mem → Mem) (lo n : Nat)
    (hb : ∀ i, lo ≤ i → i < lo + n → ∀ m1 m2 : Mem, (∀ a, R a → m1 a = m2 a) →
      ∀ a, R a → body i m1 a = body i m2 a)
    (m1 m2 : Mem) (h : ∀ a, R a → m1 a = m2 a) :
    ∀ a, R a → loopN body lo n m1 a = loopN body lo n m2 a := by
  induction n with
  | zero => exact h
  | succ n ih =>
    intro a ha
    rw [loopN_succ, loopN_succ]
    exact hb (lo + n) (Nat.le_add_right lo n) (by omega) _ _
      (ih (fun i h1 h2 => hb i h1 (by omega))) a ha

theorem forLoop_agree (R : Nat → Prop) (body : Nat → Mem → Mem) (lo hi : Nat)
    (hb : ∀ i, lo ≤ i → i < hi → ∀ m1 m2 : Mem, (∀ a, R a → m1 a = m2 a) →
      ∀ a, R a → body i m1 a = body i m2 a)
    (m1 m2 : Mem) (h : ∀ a, R a → m1 a = m2 a) :
    ∀ a, R a → forLoop lo hi body m1 a = forLoop lo hi body m2 a := by
  unfold forLoop
  exact loopN_agree R body lo (hi - lo) (fun i h1 h2 => hb i h1 (by omega)) m1 m2 h

theorem store_agree (R : Nat → Prop) (m1 m2 : Mem) (a v1 v2 : Nat)
    (h : ∀ b, R b → m1 b = m2 b) (hv : v1 = v2) :
    ∀ b, R b → store m1 a v1 b = store m2 a v2 b := by
  intro b hb
  unfold store
  rw [hv, h b hb]

theorem loopN_congr {σ : Type} (b1 b2 : Nat → σ → σ) (lo n : Nat)
    (h : ∀ i, lo ≤ i → i < lo + n → ∀ s, b1 i s = b2 i s) (s : σ) :
    loopN b1 lo n s = loopN b2 lo n s := by
  induction n with
  | zero => rfl
  | succ n ih =>
    rw [loopN_succ, loopN_succ, ih (fun i h1 h2 => h i h1 (by omega))]
    exact h (lo + n) (Nat.le_add_right lo n) (by omega) _

theorem forLoop_congr {σ : Type} (b1 b2 : Nat → σ → σ) (lo hi : Nat)
    (h : ∀ i, lo ≤ i → i < hi → ∀ s, b1 i s = b2 i s) (s : σ) :
    forLoop lo hi b1 s = forLoop lo hi b2 s := by
  unfold forLoop
  exact loopN_congr b1 b2 lo (hi - lo) (fun i h1 h2 => h i h1 (by omega)) s

/-- The average over a block only reads the bytes of the block. -/
theorem average_intensity_agree (src : Canvas) (m1 m2 : Mem) (x y : Nat)
    (h : ∀ yy xx, y * src.supersample_factor ≤ yy →
      yy < y * src.supersample_factor + src.supersample_factor →
      x * src.supersample_factor ≤ xx →
      xx < x * src.supersample_factor + src.supersample_factor →
      m1 (src.mask + (src.width * yy + xx)) = m2 (src.mask + (src.width * yy + xx))) :
    average_intensity src m1 x y = average_intensity src m2 x y := by
  unfold average_intensity
  dsimp only
  have key : ∀ t0 : Nat,
      forLoop (y * src.supersample_factor) (y * src.supersample_factor + src.supersample_factor)
        (fun yy total => forLoop (x * src.supersample_factor)
          (x * src.supersample_factor + src.supersample_factor)
          (fun xx total => total + m1 (src.mask + (src.width * yy + xx))) total) t0
      = forLoop (y * src.supersample_factor) (y * src.supersample_factor + src.supersample_factor)
        (fun yy total => forLoop (x * src.supersample_factor)
          (x * src.supersample_factor + src.supersample_factor)
          (fun xx total => total + m2 (src.mask + (src.width * yy + xx))) total) t0 := by
    intro t0
    apply forLoop_congr
    intro yy h1 h2 t
    apply forLoop_congr
    intro xx h3 h4 t2
    show t2 + m1 _ = t2 + m2 _
    rw [h yy xx h1 h2 h3 h4]
  rw [key 0]

/-- The source `downsample` reads the destination pixels and the source blocks only. -/
theorem downsample_agree (R : Nat → Prop) (src dest : Canvas)
    (hd : ∀ x y, x < dest.width → y < dest.height → R (dest.mask + (dest.width * y + x)))
    (hs : ∀ x y, x < dest.width → y < dest.height → ∀ yy xx,
      y * src.supersample_factor ≤ yy →
      yy < y * src.supersample_factor + src.supersample_factor →
      x * src.supersample_factor ≤ xx →
      xx < x * src.supersample_factor + src.supersample_factor →
      R (src.mask + (src.width * yy + xx)))
    (m1 m2 : Mem) (h : ∀ a, R a → m1 a = m2 a) :
    ∀ a, R a → downsample src dest m1 a = downsample src dest m2 a := by
  unfold downsample
  refine forLoop_agree R _ _ _ ?_ m1 m2 h
  intro y _ hy m1 m2 h
  refine forLoop_agree R _ _ _ ?_ m1 m2 h
  intro x _ hx m1 m2 h
  refine store_agree R _ _ _ _ _ h ?_
  rw [h _ (hd x y hx hy), average_intensity_agree src m1 m2 x y
    (fun yy xx a b c d => h _ (hs x y hx hy yy xx a b c d))]

/-- The source `apply_mask` reads the canvas pixels and the mask bytes only. -/
theorem apply_mask_agree (R : Nat → Prop) (c : Canvas) (mask : Nat)
    (hd : ∀ x y, x < c.width → y < c.height → R (c.mask + (y * c.width + x)))
    (hm : ∀ x y, x < c.width → y < c.height → R (mask + (y * c.width + x)))
    (m1 m2 : Mem) (h : ∀ a, R a → m1 a = m2 a) :
    ∀ a, R a → apply_mask c mask m1 a = apply_mask c mask m2 a := by
  unfold apply_mask
  refine forLoop_agree R _ _ _ ?_ m1 m2 h
  intro y _ hy m1 m2 h
  refine forLoop_agree R _ _ _ ?_ m1 m2 h
  intro x _ hx m1 m2 h
  refine store_agree R _ _ _ _ _ h ?_
  rw [h _ (hd x y hx hy), h _ (hm x y hx hy)]

theorem memcpy_agree (R1 R2 : Nat → Prop) (dst src n : Nat)
    (hR : ∀ a, R2 a → (dst ≤ a ∧ a < dst + n → R1 (src + (a - dst))) ∧
      (¬ (dst ≤ a ∧ a < dst + n) → R1 a))
    (m1 m2 : Mem) (h : ∀ a, R1 a → m1 a = m2 a) :
    ∀ a, R2 a → memcpy m1 dst src n a = memcpy m2 dst src n a := by
  intro a ha
  unfold memcpy
  by_cases hc : dst ≤ a ∧ a < dst + n
  · rw [if_pos hc, if_pos hc]
    exact h _ ((hR a ha).1 hc)
  · rw [if_neg hc, if_neg hc]
    exact h _ ((hR a ha).2 hc)

/-- Pixel offsets of a `w × h` canvas stay inside its `w * h` bytes. -/
theorem pixel_offset_lt (w h x y : Nat) (hx : x < w) (hy : y < h) : y * w + x < w * h := by
  have h1 : (y + 1) * w ≤ h * w := Nat.mul_le_mul_right w hy
  have h2 : (y + 1) * w = y * w + w := by ring
  have h3 : h * w = w * h := Nat.mul_comm h w
  omega

/-! ## C2: the rendered cell does not depend on the prior contents of the buffer -/

theorem fill_canvas_agree (c : Canvas) (byte : Nat) (m1 m2 : Mem) (a : Nat)
    (h : (c.mask ≤ a ∧ a < c.mask + c.width * c.height) ∨ m1 a = m2 a) :
    fill_canvas c byte m1 a = fill_canvas c byte m2 a := by
  unfold fill_canvas memset
  by_cases hc : c.mask ≤ a ∧ a < c.mask + c.width * c.height
  · rw [if_pos hc, if_pos hc]
  · rw [if_neg hc, if_neg hc]
    rcases h with h | h
    · exact absurd h hc
    · exact h

theorem paint_agree (S : Nat → Bool) (v : Nat → Nat) (m1 m2 : Mem) (a : Nat) (h : m1 a = m2 a) :
    paint S v m1 a = paint S v m2 a := by
  unfold paint
  rw [h]

/-- After the two initial `fill_canvas` calls the whole buffer is known. -/
theorem fill_both_agree (o : Options) (buf w h : Nat) (dpi_x dpi_y : ℚ) (m1 m2 : Mem) (a : Nat)
    (h1 : buf ≤ a)
    (h2 : a < buf + w * h + (w * o.SUPERSAMPLE_FACTOR) * (h * o.SUPERSAMPLE_FACTOR)) :
    fill_canvas (ss_canvas o buf w h dpi_x dpi_y) 0
        (fill_canvas (Canvas.init buf w h 1 dpi_x dpi_y) 0 m1) a
      = fill_canvas (ss_canvas o buf w h dpi_x dpi_y) 0
        (fill_canvas (Canvas.init buf w h 1 dpi_x dpi_y) 0 m2) a := by
  apply fill_canvas_agree
  by_cases hc : a < buf + w * h
  · right
    apply fill_canvas_agree
    left
    exact ⟨h1, hc⟩
  · left
    show buf + w * h ≤ a ∧ a < buf + w * h + (w * o.SUPERSAMPLE_FACTOR) * (h * o.SUPERSAMPLE_FACTOR)
    exact ⟨Nat.le_of_not_lt hc, h2⟩

/-- Downsampling in the buffer layout of `render_box_char`: if two memories agree on the
whole buffer before, they agree on it after. -/
theorem downsample_render_agree (buf w h F : Nat) (src dest : Canvas)
    (hdm : dest.mask = buf) (hdw : dest.width = w) (hdh : dest.height = h)
    (hsm : src.mask = buf + w * h) (hsw : src.width = w * F)
    (hsf : src.supersample_factor = F) (m1 m2 : Mem)
    (hag : ∀ a, buf ≤ a → a < buf + w * h + (w * F) * (h * F) → m1 a = m2 a) :
    ∀ a, buf ≤ a → a < buf + w * h + (w * F) * (h * F) →
      downsample src dest m1 a = downsample src dest m2 a := by
  intro a ha1 ha2
  refine downsample_agree (fun a => buf ≤ a ∧ a < buf + w * h + (w * F) * (h * F)) src dest
    ?_ ?_ m1 m2 (fun a ha => hag a ha.1 ha.2) a ⟨ha1, ha2⟩
  · intro x y hx hy
    rw [hdw] at hx
    rw [hdh] at hy
    rw [hdm, hdw]
    have h3 := pixel_offset_lt w h x y hx hy
    have h4 : w * y = y * w := Nat.mul_comm w y
    exact ⟨by omega, by omega⟩
  · intro x y hx hy yy xx a1 a2 a3 a4
    rw [hdw] at hx
    rw [hdh] at hy
    rw [hsf] at a1 a2 a3 a4
    rw [hsm, hsw]
    have hyy : (y + 1) * F ≤ h * F := Nat.mul_le_mul_right F hy
    have hxx : (x + 1) * F ≤ w * F := Nat.mul_le_mul_right F hx
    have e1 : (y + 1) * F = y * F + F := by ring
    have e2 : (x + 1) * F = x * F + F := by ring
    have h3 := pixel_offset_lt (w * F) (h * F) xx yy (by omega) (by omega)
    have h4 : w * F * yy = yy * (w * F) := Nat.mul_comm _ _
    exact ⟨by omega, by omega⟩

/-- Two runs of `render_box_char` that differ only in the initial memory agree on the
normal-resolution region. -/
theorem render_agree (o : Options) (ch buf w h : Nat) (dpi_x dpi_y : ℚ) (m1 m2 : Mem)
    (a : Nat) (h1 : buf ≤ a) (h2 : a < buf + w * h) :
    render_box_char o ch buf w h dpi_x dpi_y m1 a
      = render_box_char o ch buf w h dpi_x dpi_y m2 a := by
  have hc0 : fill_canvas (Canvas.init buf w h 1 dpi_x dpi_y) 0 m1 a
      = fill_canvas (Canvas.init buf w h 1 dpi_x dpi_y) 0 m2 a :=
    fill_canvas_agree _ _ _ _ _ (Or.inl ⟨h1, h2⟩)
  have hR : a < buf + w * h + (w * o.SUPERSAMPLE_FACTOR) * (h * o.SUPERSAMPLE_FACTOR) := by
    omega
  unfold render_box_char
  dsimp only
  cases hl : lookup ch with
  | none => exact hc0
  | some g =>
    cases g with
    | direct calls =>
      obtain ⟨c1, S, v, hS⟩ := run_shapes_wo o calls (Canvas.init buf w h 1 dpi_x dpi_y)
        wo_id
      beta_reduce at hS
      dsimp only
      rw [hS, hS]
      exact paint_agree S v _ _ a hc0
    | supersampled calls =>
      obtain ⟨c1, S, v, hS⟩ := run_shapes_wo o calls (ss_canvas o buf w h dpi_x dpi_y)
        wo_id
      beta_reduce at hS
      have hg := run_shapes_geom o calls (ss_canvas o buf w h dpi_x dpi_y) m1
      rw [hS] at hg
      show downsample (run_shapes o calls (ss_canvas o buf w h dpi_x dpi_y) _).1 _
        (run_shapes o calls (ss_canvas o buf w h dpi_x dpi_y) _).2 a
        = downsample (run_shapes o calls (ss_canvas o buf w h dpi_x dpi_y) _).1 _
        (run_shapes o calls (ss_canvas o buf w h dpi_x dpi_y) _).2 a
      rw [hS, hS]
      refine downsample_render_agree buf w h o.SUPERSAMPLE_FACTOR c1 _ rfl rfl rfl
        hg.1 hg.2.1 hg.2.2.2 _ _ ?_ a h1 hR
      intro b hb1 hb2
      exact paint_agree S v _ _ b (fill_both_agree o buf w h dpi_x dpi_y m1 m2 b hb1 hb2)
    | masked corner =>
      obtain ⟨c1, S, v, hS⟩ := corner_triangle_wo (ss_canvas o buf w h dpi_x dpi_y) corner
        wo_id
      beta_reduce at hS
      have hg := corner_triangle_geom (ss_canvas o buf w h dpi_x dpi_y) corner m1
      rw [hS] at hg
      have hshade := shade_wo (Canvas.init buf w h 1 dpi_x dpi_y) { xnum := 12 } wo_id
      show apply_mask (Canvas.init buf w h 1 dpi_x dpi_y) (buf + w * h)
          (shade (Canvas.init buf w h 1 dpi_x dpi_y) { xnum := 12 }
            (fill_canvas (Canvas.init buf w h 1 dpi_x dpi_y) 0
              (memcpy (downsample (corner_triangle (ss_canvas o buf w h dpi_x dpi_y) corner _).1
                (Canvas.init buf w h 1 dpi_x dpi_y)
                (corner_triangle (ss_canvas o buf w h dpi_x dpi_y) corner _).2)
                (buf + w * h) buf (w * h)))) a
        = apply_mask (Canvas.init buf w h 1 dpi_x dpi_y) (buf + w * h)
          (shade (Canvas.init buf w h 1 dpi_x dpi_y) { xnum := 12 }
            (fill_canvas (Canvas.init buf w h 1 dpi_x dpi_y) 0
              (memcpy (downsample (corner_triangle (ss_canvas o buf w h dpi_x dpi_y) corner _).1
                (Canvas.init buf w h 1 dpi_x dpi_y)
                (corner_triangle (ss_canvas o buf w h dpi_x dpi_y) corner _).2)
                (buf + w * h) buf (w * h)))) a
      rw [hS, hS]
      refine apply_mask_agree (fun a => buf ≤ a ∧ a < buf + w * h + w * h) _ _ ?_ ?_ _ _ ?_
        a ⟨h1, by omega⟩
      · intro x y hx hy
        have h3 := pixel_offset_lt w h x y hx hy
        show buf ≤ buf + (y * w + x) ∧ buf + (y * w + x) < buf + w * h + w * h
        exact ⟨by omega, by omega⟩
      · intro x y hx hy
        have h3 := pixel_offset_lt w h x y hx hy
        show buf ≤ buf + w * h + (y * w + x) ∧ buf + w * h + (y * w + x) < buf + w * h + w * h
        exact ⟨by omega, by omega⟩
      · intro b hb
        apply wo_agree hshade
        apply fill_canvas_agree
        right
        refine memcpy_agree
          (fun a => buf ≤ a ∧
            a < buf + w * h + (w * o.SUPERSAMPLE_FACTOR) * (h * o.SUPERSAMPLE_FACTOR))
          (fun a => buf ≤ a ∧ a < buf + w * h + w * h) _ _ _ ?_ _ _ ?_ b hb
        · intro d hd
          constructor
          · intro hin
            exact ⟨by omega, by omega⟩
          · intro hout
            exact ⟨hd.1, by omega⟩
        · intro d hd
          refine downsample_render_agree buf w h o.SUPERSAMPLE_FACTOR c1 _ rfl rfl rfl
            hg.1 hg.2.1 hg.2.2.2 _ _ ?_ d hd.1 hd.2
          intro e he1 he2
          exact paint_agree S v _ _ e (fill_both_agree o buf w h dpi_x dpi_y m1 m2 e he1 he2)

/-- C2: for every code point, cell size and DPI, `render_box_char` leaves the same bytes in
the normal-resolution region `[buf, buf + width * height)` whatever the buffer held before
(first part); in particular rendering again over the result of a first rendering reproduces
that result byte for byte (second part). -/
theorem C2_render_independent_of_buffer (o : Options) (ch buf w h : Nat) (dpi_x dpi_y : ℚ)
    (i : Nat) (hi : i < w * h) :
    (∀ m1 m2 : Mem, render_box_char o ch buf w h dpi_x dpi_y m1 (buf + i)
      = render_box_char o ch buf w h dpi_x dpi_y m2 (buf + i)) ∧
    (∀ m : Mem, render_box_char o ch buf w h dpi_x dpi_y
        (render_box_char o ch buf w h dpi_x dpi_y m) (buf + i)
      = render_box_char o ch buf w h dpi_x dpi_y m (buf + i)) :=
  ⟨fun m1 m2 => render_agree o ch buf w h dpi_x dpi_y m1 m2 (buf + i) (Nat.le_add_right buf i)
      (Nat.add_lt_add_left hi buf),
    fun m => render_agree o ch buf w h dpi_x dpi_y _ m (buf + i) (Nat.le_add_right buf i)
      (Nat.add_lt_add_left hi buf)⟩

theorem C2_render_independent_of_buffer_witness :
    (3 : Nat) < 2 * 2 ∧
    ((∀ m1 m2 : Mem, render_box_char sample_options 0xE0B0 0 2 2 96 96 m1 (0 + 3)
      = render_box_char sample_options 0xE0B0 0 2 2 96 96 m2 (0 + 3)) ∧
    (∀ m : Mem, render_box_char sample_options 0xE0B0 0 2 2 96 96
        (render_box_char sample_options 0xE0B0 0 2 2 96 96 m) (0 + 3)
      = render_box_char sample_options 0xE0B0 0 2 2 96 96 m (0 + 3))) :=
  ⟨by decide, C2_render_independent_of_buffer sample_options 0xE0B0 0 2 2 96 96 3 (by decide)⟩

/-! ## Decorations: the straight underline loop -/

theorem loopN_cons {σ : Type} (body : Nat → σ → σ) (lo n : Nat) (s : σ) :
    loopN body lo (n + 1) s = loopN body (lo + 1) n (body lo s) := by
  induction n with
  | zero => rfl
  | succ n ih =>
    rw [loopN_succ, ih, loopN_succ]
    have e : lo + (n + 1) = lo + 1 + n := by omega
    rw [e]

/-- The loop of `STRAIGHT_UNDERLINE_LOOP` runs `min(thickness, cell_height - y)` rounds,
on consecutive rows. -/
theorem straight_underline_loop_eq (ch : Nat) (body : Nat → Mem → Mem) (t : Nat) :
    ∀ (y h : Nat) (m : Mem), straight_underline_loop ch body t y h m
      = (h + min t (ch - y), loopN body y (min t (ch - y)) m) := by
  induction t with
  | zero =>
    intro y h m
    simp [straight_underline_loop, loopN]
  | succ t ih =>
    intro y h m
    unfold straight_underline_loop
    by_cases hy : y < ch
    · rw [if_pos hy, ih]
      have e : min (t + 1) (ch - y) = min t (ch - (y + 1)) + 1 := by omega
      rw [e, loopN_cons]
      congr 1
      omega
    · rw [if_neg hy]
      have e : min (t + 1) (ch - y) = 0 := by omega
      rw [e]
      rfl

/-- An address lies in one of the rows `top .. top + n - 1` of width `W` exactly when it lies
in the band they form. -/
theorem band_rows_iff (W top n k : Nat) :
    (∃ i, i < n ∧ W * (top + i) ≤ k ∧ k < W * (top + i) + W)
      ↔ (W * top ≤ k ∧ k < W * (top + n)) := by
  constructor
  · rintro ⟨i, hi, h1, h2⟩
    have e1 : W * (top + i) = W * top + W * i := Nat.mul_add _ _ _
    have e2 : W * (top + n) = W * top + W * n := Nat.mul_add _ _ _
    have e3 : W * (i + 1) ≤ W * n := Nat.mul_le_mul_left W hi
    have e4 : W * (i + 1) = W * i + W := Nat.mul_succ _ _
    omega
  · rintro ⟨h1, h2⟩
    have hW : 0 < W := by
      rcases Nat.eq_zero_or_pos W with h | h
      · rw [h] at h1 h2
        simp at h2
      · exact h
    refine ⟨k / W - top, ?_, ?_, ?_⟩
    · have : k / W < top + n := (Nat.div_lt_iff_lt_mul hW).2 (by rw [Nat.mul_comm]; exact h2)
      have : top ≤ k / W := (Nat.le_div_iff_mul_le hW).2 (by rw [Nat.mul_comm]; exact h1)
      omega
    · have h3 : top ≤ k / W := (Nat.le_div_iff_mul_le hW).2 (by rw [Nat.mul_comm]; exact h1)
      have e : top + (k / W - top) = k / W := by omega
      rw [e]
      exact Nat.mul_div_le k W
    · have h3 : top ≤ k / W := (Nat.le_div_iff_mul_le hW).2 (by rw [Nat.mul_comm]; exact h1)
      have e : top + (k / W - top) = k / W := by omega
      rw [e]
      have := Nat.lt_mul_div_succ k hW
      have e2 : W * (k / W + 1) = W * (k / W) + W := Nat.mul_succ _ _
      omega

/-- A run of full-width `memset`s over the rows `top .. top + n - 1` paints the band. -/
theorem loopN_full_rows (buf W v top n : Nat) (m : Mem) (a : Nat) :
    loopN (fun y m => memset m (buf + W * y) v W) top n m a
      = if buf + W * top ≤ a ∧ a < buf + W * (top + n) then v else m a := by
  have h := loopN_memset (fun y => buf + W * y) (fun _ => W) v m top n a
  have key : (∃ i, i < n ∧ buf + W * (top + i) ≤ a ∧ a < buf + W * (top + i) + W)
      ↔ (buf + W * top ≤ a ∧ a < buf + W * (top + n)) := by
    by_cases hb : buf ≤ a
    · have := band_rows_iff W top n (a - buf)
      constructor
      · rintro ⟨i, hi, h1, h2⟩
        have := this.1 ⟨i, hi, by omega, by omega⟩
        omega
      · rintro ⟨h1, h2⟩
        obtain ⟨i, hi, h3, h4⟩ := this.2 ⟨by omega, by omega⟩
        exact ⟨i, hi, by omega, by omega⟩
    · constructor
      · rintro ⟨i, _, h1, _⟩
        omega
      · rintro ⟨h1, _⟩
        omega
  by_cases hc : buf + W * top ≤ a ∧ a < buf + W * (top + n)
  · rw [if_pos hc]
    exact h.1 (key.2 hc)
  · rw [if_neg hc]
    exact h.2 (fun hex => hc (key.1 hex))

/-- The macro `STRAIGHT_UNDERLINE_LOOP` in closed form. -/
theorem STRAIGHT_UNDERLINE_LOOP_eq (fcm : FontCellMetrics) (body : Nat → Mem → Mem) (m : Mem) :
    STRAIGHT_UNDERLINE_LOOP fcm body m
      = (⟨fcm.underline_position - fcm.underline_thickness / 2,
          min fcm.underline_thickness
            (fcm.cell_height - (fcm.underline_position - fcm.underline_thickness / 2))⟩,
        loopN body (fcm.underline_position - fcm.underline_thickness / 2)
          (min fcm.underline_thickness
            (fcm.cell_height - (fcm.underline_position - fcm.underline_thickness / 2))) m) := by
  unfold STRAIGHT_UNDERLINE_LOOP
  have e : (if fcm.underline_thickness / 2 > fcm.underline_position then 0
      else fcm.underline_position - fcm.underline_thickness / 2)
      = fcm.underline_position - fcm.underline_thickness / 2 := by
    split_ifs <;> omega
  simp only [e, straight_underline_loop_eq, Nat.zero_add]

/-- Row `y`, column `x < W` lies in the band of rows `top .. top + n - 1`. -/
theorem pixel_in_band_iff (buf W top n x y : Nat) (hx : x < W) :
    (buf + W * top ≤ buf + W * y + x ∧ buf + W * y + x < buf + W * (top + n))
      ↔ (top ≤ y ∧ y < top + n) := by
  have key : ∀ p q : Nat, p ≤ q → W * p ≤ W * q := fun p q h => Nat.mul_le_mul_left W h
  have e : ∀ p : Nat, W * (p + 1) = W * p + W := fun p => Nat.mul_succ W p
  constructor
  · rintro ⟨h1, h2⟩
    constructor
    · by_contra hc
      have := key (y + 1) top (by omega)
      have := e y
      omega
    · by_contra hc
      have := key (top + n) y (by omega)
      omega
  · rintro ⟨h1, h2⟩
    have := key top y h1
    have := key (y + 1) (top + n) (by omega)
    have := e y
    constructor <;> omega

/-- C11: for every `FontCellMetrics`, `add_straight_underline` returns
`top = max(0, underline_position - floor(underline_thickness / 2))` and
`height = min(underline_thickness, cell_height - top)` (`0` when `top ≥ cell_height`, the
subtraction being that of natural numbers), sets exactly the rows `top .. top + height - 1`
to 255 across all `cell_width` columns and leaves every other byte unchanged. -/
theorem C11_straight_underline (buf : Nat) (fcm : FontCellMetrics) (m : Mem) :
    (((add_straight_underline buf fcm m).1.top : Nat) : Int)
        = max 0 ((fcm.underline_position : Int) - ((fcm.underline_thickness / 2 : Nat) : Int)) ∧
    (add_straight_underline buf fcm m).1.height
        = min fcm.underline_thickness
            (fcm.cell_height - (add_straight_underline buf fcm m).1.top) ∧
    (∀ x y, x < fcm.cell_width →
      (add_straight_underline buf fcm m).2 (buf + fcm.cell_width * y + x)
        = if (add_straight_underline buf fcm m).1.top ≤ y ∧
            y < (add_straight_underline buf fcm m).1.top
              + (add_straight_underline buf fcm m).1.height
          then 255 else m (buf + fcm.cell_width * y + x)) ∧
    (∀ a, (a < buf ∨ buf + fcm.cell_width * fcm.cell_height ≤ a) →
      (add_straight_underline buf fcm m).2 a = m a) := by
  unfold add_straight_underline
  rw [STRAIGHT_UNDERLINE_LOOP_eq]
  dsimp only
  refine ⟨by omega, rfl, ?_, ?_⟩
  · intro x y hx
    rw [loopN_full_rows]
    by_cases hc : fcm.underline_position - fcm.underline_thickness / 2 ≤ y ∧
        y < fcm.underline_position - fcm.underline_thickness / 2
          + min fcm.underline_thickness
            (fcm.cell_height - (fcm.underline_position - fcm.underline_thickness / 2))
    · rw [if_pos hc, if_pos ((pixel_in_band_iff buf _ _ _ x y hx).2 hc)]
    · rw [if_neg hc, if_neg (fun h => hc ((pixel_in_band_iff buf _ _ _ x y hx).1 h))]
  · intro a ha
    rw [loopN_full_rows, if_neg]
    rintro ⟨h1, h2⟩
    have h3 : fcm.cell_width * (fcm.underline_position - fcm.underline_thickness / 2
        + min fcm.underline_thickness
          (fcm.cell_height - (fcm.underline_position - fcm.underline_thickness / 2)))
        ≤ fcm.cell_width * fcm.cell_height := by
      by_cases hz : min fcm.underline_thickness
          (fcm.cell_height - (fcm.underline_position - fcm.underline_thickness / 2)) = 0
      · rw [hz, Nat.add_zero] at h2
        omega
      · exact Nat.mul_le_mul_left _ (by omega)
    omega

/-! ## Dotted underline -/

/-- A loop that sets entry `i` of an array to `f i`. -/
theorem loopN_array_set (f : Nat → Nat) (A0 : Nat → Nat) (n : Nat) :
    loopN (fun i (A : Nat → Nat) k => if k = i then f i else A k) 0 n A0
      = fun k => if k < n then f k else A0 k := by
  induction n with
  | zero =>
    funext k
    simp [loopN]
  | succ n ih =>
    rw [loopN_succ, ih]
    funext k
    simp only [Nat.zero_add]
    by_cases h1 : k = n
    · rw [if_pos h1, if_pos (by omega), h1]
    · rw [if_neg h1]
      by_cases h2 : k < n
      · rw [if_pos h2, if_pos (by omega)]
      · rw [if_neg h2, if_neg (by omega)]

/-- Adding one to an entry below `n` adds one to the sum of the first `n` entries. -/
theorem sum_bump (n idx : Nat) (g : Nat → Nat) (h : idx < n) :
    ∑ k in Finset.range n, (if k = idx then g k + 1 else g k)
      = (∑ k in Finset.range n, g k) + 1 := by
  have e : ∀ k, (if k = idx then g k + 1 else g k) = g k + (if k = idx then 1 else 0) := by
    intro k
    split_ifs <;> rfl
  simp only [e, Finset.sum_add_distrib]
  congr 1
  rw [Finset.sum_ite_eq']
  simp [h]

/-- The loop handing out the extra pixels never shrinks a gap and hands out exactly
`extra` pixels to the first `n` gaps. -/
theorem distribute_extra_spec (n : Nat) (hn : 0 < n) (extra : Nat) :
    ∀ (idx : Nat) (g : Nat → Nat), idx < n →
      (∀ k, g k ≤ distribute_extra n extra idx g k) ∧
      ∑ k in Finset.range n, distribute_extra n extra idx g k
        = (∑ k in Finset.range n, g k) + extra := by
  induction extra with
  | zero =>
    intro idx g _
    exact ⟨fun k => Nat.le_refl _, rfl⟩
  | succ e ih =>
    intro idx g hidx
    unfold distribute_extra
    obtain ⟨h1, h2⟩ := ih ((idx + 1) % n) (fun i => if i = idx then g i + 1 else g i)
      (Nat.mod_lt _ hn)
    constructor
    · intro k
      refine Nat.le_trans ?_ (h1 k)
      show g k ≤ if k = idx then g k + 1 else g k
      split_ifs <;> omega
    · rw [h2, sum_bump n idx g hidx]
      omega

theorem forLoop_sum_zero (g : Nat → Nat) (n : Nat) :
    forLoop 0 n (fun x total => total + g x) 0 = ∑ i in Finset.range n, g i := by
  have h := forLoop_sum g 0 n 0
  simp only [Nat.zero_add] at h
  exact h

/-- What `distribute_dots` returns for at least one dot: the dot size, the final gaps and
their running sums.  The gap before the first dot is half (rounded down) of a gap `g0`
that is at least a dot wide; the other half is what remains after the last dot. -/
theorem distribute_dots_spec (W n : Nat) (hn : 1 ≤ n) :
    ∃ (gaps : Nat → Nat) (g0 : Nat),
      distribute_dots W n = some (max 1 (W / (2 * n)),
        (fun k => if k < n then ∑ g in Finset.range (k + 1), gaps g else 0), gaps) ∧
      max 1 (W / (2 * n)) ≤ g0 ∧ gaps 0 = g0 / 2 ∧
      (∀ k, 1 ≤ k → k < n → max 1 (W / (2 * n)) ≤ gaps k) ∧
      (∑ k in Finset.range n, gaps k) + (g0 - g0 / 2)
        = n * max 1 (W / (2 * n)) + (W - 2 * n * max 1 (W / (2 * n))) := by
  obtain ⟨s, hs⟩ : ∃ s, s = max 1 (W / (2 * n)) := ⟨_, rfl⟩
  obtain ⟨extra, hextra⟩ : ∃ e, e = W - 2 * n * s := ⟨_, rfl⟩
  have hex : (if W > 2 * n * s then W - 2 * n * s else 0) = extra := by
    rw [hextra]
    split_ifs <;> omega
  have hG0 : forLoop 0 n (fun i (gaps : Nat → Nat) k => if k = i then s else gaps k) (fun _ => 0)
      = fun k => if k < n then s else 0 := by
    unfold forLoop
    rw [Nat.sub_zero]
    exact loopN_array_set (fun _ => s) (fun _ => 0) n
  have hsum0 : ∑ k in Finset.range n, (if k < n then s else 0) = n * s := by
    rw [Finset.sum_congr rfl (fun k hk => if_pos (Finset.mem_range.1 hk))]
    simp
  obtain ⟨G1, hG1, hmono, hsum⟩ : ∃ G1 : Nat → Nat,
      (if extra > 0 then distribute_extra n extra 0 (fun k => if k < n then s else 0)
        else (fun k => if k < n then s else 0)) = G1 ∧
      (∀ k, (if k < n then s else 0) ≤ G1 k) ∧
      ∑ k in Finset.range n, G1 k = n * s + extra := by
    by_cases he : extra > 0
    · obtain ⟨h1, h2⟩ := distribute_extra_spec n hn extra 0 (fun k => if k < n then s else 0) hn
      exact ⟨_, if_pos he, h1, by rw [h2, hsum0]⟩
    · refine ⟨_, if_neg he, fun k => Nat.le_refl _, ?_⟩
      rw [hsum0]
      omega
  refine ⟨fun k => if k = 0 then G1 0 / 2 else G1 k, G1 0, ?_, ?_, ?_, ?_, ?_⟩
  · unfold distribute_dots
    rw [if_neg (by omega)]
    simp only [← hs, hex, hG0, hG1]
    congr 2
    unfold forLoop
    rw [Nat.sub_zero]
    rw [loopN_array_set (fun i => loopN (fun g acc => acc +
      (fun k => if k = 0 then G1 0 / 2 else G1 k) g) 0 (i + 1 - 0) 0) (fun _ => 0) n]
    congr 1
    funext k
    by_cases hk : k < n
    · rw [if_pos hk, if_pos hk]
      exact forLoop_sum_zero (fun k => if k = 0 then G1 0 / 2 else G1 k) (k + 1)
    · rw [if_neg hk, if_neg hk]
  · rw [← hs]
    have := hmono 0
    rw [if_pos (by omega)] at this
    exact this
  · simp
  · intro k hk1 hkn
    rw [← hs]
    have := hmono k
    rw [if_pos hkn] at this
    show s ≤ if k = 0 then G1 0 / 2 else G1 k
    rw [if_neg (by omega)]
    exact this
  · rw [← hs, ← hextra, ← hsum]
    obtain ⟨n', rfl⟩ : ∃ n', n = n' + 1 := ⟨n - 1, by omega⟩
    rw [Finset.sum_range_succ', Finset.sum_range_succ']
    simp only [Nat.add_one_ne_zero, if_false, if_true]
    have := Nat.div_le_self (G1 0) 2
    omega

/-- A loop whose round `y` overwrites with `v` exactly the addresses in `P y` overwrites
the union of the `P y`. -/
theorem loopN_paint (body : Nat → Mem → Mem) (P : Nat → Nat → Prop) (v : Nat)
    (hb : ∀ y m a, (P y a → body y m a = v) ∧ (¬ P y a → body y m a = m a))
    (m : Mem) (lo n a : Nat) :
    ((∃ i, i < n ∧ P (lo + i) a) → loopN body lo n m a = v) ∧
    ((¬ ∃ i, i < n ∧ P (lo + i) a) → loopN body lo n m a = m a) := by
  induction n with
  | zero =>
    constructor
    · rintro ⟨i, hi, _⟩
      exact absurd hi (Nat.not_lt_zero i)
    · intro _
      rfl
  | succ n ih =>
    rw [loopN_succ]
    by_cases hp : P (lo + n) a
    · constructor
      · intro _
        exact (hb (lo + n) _ a).1 hp
      · intro hne
        exact absurd ⟨n, Nat.lt_succ_self n, hp⟩ hne
    · rw [(hb (lo + n) _ a).2 hp]
      constructor
      · rintro ⟨i, hi, hpi⟩
        apply ih.1
        rcases Nat.lt_succ_iff_lt_or_eq.1 hi with h | h
        · exact ⟨i, h, hpi⟩
        · rw [h] at hpi
          exact absurd hpi hp
      · intro hne
        apply ih.2
        rintro ⟨i, hi, hpi⟩
        exact hne ⟨i, Nat.lt_succ_of_lt hi, hpi⟩

/-- Where the dots of a row start: spacing of consecutive dots, first and last dot. -/
theorem dot_start_spec (W n : Nat) (hn : 1 ≤ n) (hW : 2 * n * max 1 (W / (2 * n)) ≤ W) :
    ∃ g0, max 1 (W / (2 * n)) ≤ g0 ∧ dot_start W n 0 = g0 / 2 ∧
      (∀ j, j + 1 < n →
        dot_start W n j + max 1 (W / (2 * n)) + max 1 (W / (2 * n)) ≤ dot_start W n (j + 1)) ∧
      dot_start W n (n - 1) + max 1 (W / (2 * n)) + (g0 - g0 / 2) = W := by
  obtain ⟨gaps, g0, hd, hg0, hgap0, hgaps, hsum⟩ := distribute_dots_spec W n hn
  have hstart : ∀ j, j < n → dot_start W n j
      = j * max 1 (W / (2 * n)) + ∑ g in Finset.range (j + 1), gaps g := by
    intro j hj
    unfold dot_start
    rw [hd]
    simp only [if_pos hj]
  refine ⟨g0, hg0, ?_, ?_, ?_⟩
  · rw [hstart 0 (by omega)]
    simp [hgap0]
  · intro j hj
    rw [hstart j (by omega), hstart (j + 1) hj, Finset.sum_range_succ _ (j + 1)]
    have := hgaps (j + 1) (by omega) hj
    have e : (j + 1) * max 1 (W / (2 * n)) = j * max 1 (W / (2 * n)) + max 1 (W / (2 * n)) :=
      Nat.succ_mul _ _
    omega
  · rw [hstart (n - 1) (by omega)]
    have e1 : n - 1 + 1 = n := by omega
    rw [e1]
    have e2 : n * max 1 (W / (2 * n)) = (n - 1) * max 1 (W / (2 * n)) + max 1 (W / (2 * n)) := by
      have := Nat.succ_mul (n - 1) (max 1 (W / (2 * n)))
      rw [Nat.succ_eq_add_one, e1] at this
      exact this
    have e3 : 2 * n * max 1 (W / (2 * n)) = n * max 1 (W / (2 * n)) + n * max 1 (W / (2 * n)) := by
      rw [Nat.mul_assoc, Nat.two_mul]
    omega

theorem dot_start_mono (W n : Nat) (hn : 1 ≤ n) (hW : 2 * n * max 1 (W / (2 * n)) ≤ W)
    (j k : Nat) (hjk : j ≤ k) (hk : k < n) : dot_start W n j ≤ dot_start W n k := by
  obtain ⟨g0, _, _, hstep, _⟩ := dot_start_spec W n hn hW
  induction k with
  | zero =>
    have : j = 0 := by omega
    rw [this]
  | succ k ih =>
    rcases Nat.lt_or_ge j (k + 1) with h | h
    · have h1 := ih (by omega) (by omega)
      have h2 := hstep k hk
      omega
    · have : j = k + 1 := by omega
      rw [this]

/-- The dots of a row drawn by `add_dotted_underline`, pixel by pixel. -/
theorem dotted_row_pixel (buf W n s top h : Nat) (spacing : Nat → Nat) (m : Mem)
    (hin : ∀ j, j < n → j * s + spacing j + s ≤ W) (x y : Nat) (hx : x < W) :
    ((top ≤ y ∧ y < top + h ∧ ∃ j, j < n ∧ j * s + spacing j ≤ x ∧ x < j * s + spacing j + s) →
      loopN (fun y m => forLoop 0 n (fun j m =>
        memset m (buf + W * y + j * s + spacing j) 255 s) m) top h m (buf + W * y + x) = 255) ∧
    ((¬ (top ≤ y ∧ y < top + h ∧
        ∃ j, j < n ∧ j * s + spacing j ≤ x ∧ x < j * s + spacing j + s)) →
      loopN (fun y m => forLoop 0 n (fun j m =>
        memset m (buf + W * y + j * s + spacing j) 255 s) m) top h m (buf + W * y + x)
        = m (buf + W * y + x)) := by
  have hp := loopN_paint
    (fun y m => forLoop 0 n (fun j m => memset m (buf + W * y + j * s + spacing j) 255 s) m)
    (fun y a => ∃ j, 0 ≤ j ∧ j < n ∧ buf + W * y + j * s + spacing j ≤ a ∧
      a < buf + W * y + j * s + spacing j + s) 255
    (fun y m a => forLoop_memset (fun j => buf + W * y + j * s + spacing j) (fun _ => s) 255 m 0 n a)
    m top h (buf + W * y + x)
  have key : (∃ i, i < h ∧ ∃ j, 0 ≤ j ∧ j < n ∧
        buf + W * (top + i) + j * s + spacing j ≤ buf + W * y + x ∧
        buf + W * y + x < buf + W * (top + i) + j * s + spacing j + s)
      ↔ (top ≤ y ∧ y < top + h ∧
        ∃ j, j < n ∧ j * s + spacing j ≤ x ∧ x < j * s + spacing j + s) := by
    constructor
    · rintro ⟨i, hi, j, _, hj, h1, h2⟩
      have h3 := hin j hj
      have h4 := (pixel_in_band_iff buf W (top + i) 1 x y hx).1
        ⟨by omega, by rw [Nat.mul_add, Nat.mul_one]; omega⟩
      have hy : y = top + i := by omega
      subst hy
      exact ⟨by omega, by omega, j, hj, by omega, by omega⟩
    · rintro ⟨h1, h2, j, hj, h3, h4⟩
      refine ⟨y - top, by omega, j, Nat.zero_le j, hj, ?_⟩
      have e : top + (y - top) = y := by omega
      rw [e]
      exact ⟨by omega, by omega⟩
  exact ⟨fun hc => hp.1 (key.2 hc), fun hc => hp.2 (fun hex => hc (key.1 hex))⟩

/-- The rows of dots lie inside the cell: bytes outside the cell are not written. -/
theorem dotted_rows_outside (buf W H n s top h : Nat) (spacing : Nat → Nat) (m : Mem)
    (hin : ∀ j, j < n → j * s + spacing j + s ≤ W) (hband : ∀ i, i < h → top + i < H)
    (a : Nat) (ha : a < buf ∨ buf + W * H ≤ a) :
    loopN (fun y m => forLoop 0 n (fun j m =>
      memset m (buf + W * y + j * s + spacing j) 255 s) m) top h m a = m a := by
  have hp := loopN_paint
    (fun y m => forLoop 0 n (fun j m => memset m (buf + W * y + j * s + spacing j) 255 s) m)
    (fun y a => ∃ j, 0 ≤ j ∧ j < n ∧ buf + W * y + j * s + spacing j ≤ a ∧
      a < buf + W * y + j * s + spacing j + s) 255
    (fun y m a => forLoop_memset (fun j => buf + W * y + j * s + spacing j) (fun _ => s) 255 m 0 n a)
    m top h a
  apply hp.2
  rintro ⟨i, hi, j, _, hj, h1, h2⟩
  have h3 := hin j hj
  have h4 : W * (top + i + 1) ≤ W * H := Nat.mul_le_mul_left W (hband i hi)
  have h5 : W * (top + i + 1) = W * (top + i) + W := Nat.mul_succ W (top + i)
  omega

/-- C12: for every `cell_width` and `underline_thickness ≥ 1` with
`cell_width ≥ 2 × underline_thickness`, `add_dotted_underline` returns, its rows are the
underline band — `top = underline_position − floor(underline_thickness / 2)` (0 when
negative), `height = min(underline_thickness, cell_height − top)` — and each of these rows
contains exactly `n = floor(cell_width / (2 × underline_thickness))` dots: `n` runs of 255,
all of width `floor(cell_width / (2 n))`, starting at the columns `dot_start`; every other
pixel of the cell and every byte outside the cell is left unchanged; consecutive dots are
separated by at least one untouched pixel and all dots lie within the columns
`[0, cell_width)`. -/
theorem C12_dotted_underline (buf : Nat) (fcm : FontCellMetrics) (m : Mem)
    (ht : 1 ≤ fcm.underline_thickness) (hw : 2 * fcm.underline_thickness ≤ fcm.cell_width) :
    ∃ r, add_dotted_underline buf fcm m = some r ∧
      r.1.top = fcm.underline_position - fcm.underline_thickness / 2 ∧
      r.1.height = min fcm.underline_thickness
        (fcm.cell_height - (fcm.underline_position - fcm.underline_thickness / 2)) ∧
      1 ≤ spec_num_of_dots fcm ∧ 1 ≤ spec_dot_size fcm ∧
      (∀ x y, x < fcm.cell_width →
        (((fcm.underline_position - fcm.underline_thickness / 2 ≤ y ∧
            y < fcm.underline_position - fcm.underline_thickness / 2
              + min fcm.underline_thickness
                (fcm.cell_height - (fcm.underline_position - fcm.underline_thickness / 2))) ∧
          ∃ j, j < spec_num_of_dots fcm ∧
            dot_start fcm.cell_width (spec_num_of_dots fcm) j ≤ x ∧
            x < dot_start fcm.cell_width (spec_num_of_dots fcm) j + spec_dot_size fcm) →
          r.2 (buf + fcm.cell_width * y + x) = 255) ∧
        ((¬ ((fcm.underline_position - fcm.underline_thickness / 2 ≤ y ∧
            y < fcm.underline_position - fcm.underline_thickness / 2
              + min fcm.underline_thickness
                (fcm.cell_height - (fcm.underline_position - fcm.underline_thickness / 2))) ∧
          ∃ j, j < spec_num_of_dots fcm ∧
            dot_start fcm.cell_width (spec_num_of_dots fcm) j ≤ x ∧
            x < dot_start fcm.cell_width (spec_num_of_dots fcm) j + spec_dot_size fcm)) →
          r.2 (buf + fcm.cell_width * y + x) = m (buf + fcm.cell_width * y + x))) ∧
      (∀ a, (a < buf ∨ buf + fcm.cell_width * fcm.cell_height ≤ a) → r.2 a = m a) ∧
      (∀ j, j + 1 < spec_num_of_dots fcm →
        dot_start fcm.cell_width (spec_num_of_dots fcm) j + spec_dot_size fcm + 1
          ≤ dot_start fcm.cell_width (spec_num_of_dots fcm) (j + 1)) ∧
      (∀ j, j < spec_num_of_dots fcm →
        dot_start fcm.cell_width (spec_num_of_dots fcm) j + spec_dot_size fcm
          ≤ fcm.cell_width) := by
  obtain ⟨n, hn_def⟩ : ∃ n, n = spec_num_of_dots fcm := ⟨_, rfl⟩
  obtain ⟨s, hs_def⟩ : ∃ s, s = spec_dot_size fcm := ⟨_, rfl⟩
  have hn_eq : fcm.cell_width / (2 * fcm.underline_thickness) = n := hn_def.symm
  have hs_eq : fcm.cell_width / (2 * n) = s := by
    rw [hs_def, hn_def]
    rfl
  have hn : 1 ≤ n := by
    rw [← hn_eq]
    exact (Nat.le_div_iff_mul_le (by omega)).2 (by omega)
  have h2n : 2 * n ≤ fcm.cell_width := by
    have h1 : n * (2 * fcm.underline_thickness) ≤ fcm.cell_width := by
      rw [← hn_eq]
      exact Nat.div_mul_le_self _ _
    have h2 : n * 2 ≤ n * (2 * fcm.underline_thickness) := Nat.mul_le_mul_left n (by omega)
    omega
  have hs : 1 ≤ s := by
    rw [← hs_eq]
    exact (Nat.le_div_iff_mul_le (by omega)).2 (by omega)
  have hmax : max 1 (fcm.cell_width / (2 * n)) = s := by
    rw [hs_eq]
    exact max_eq_right hs
  have hW : 2 * n * max 1 (fcm.cell_width / (2 * n)) ≤ fcm.cell_width := by
    rw [hmax, ← hs_eq]
    exact Nat.mul_div_le _ _
  obtain ⟨gaps, g0, hd, _, _, _, _⟩ := distribute_dots_spec fcm.cell_width n hn
  rw [hmax] at hd
  obtain ⟨sp, hsp⟩ : ∃ sp : Nat → Nat,
    sp = (fun k => if k < n then ∑ g in Finset.range (k + 1), gaps g else 0) := ⟨_, rfl⟩
  rw [← hsp] at hd
  have hds : ∀ j, dot_start fcm.cell_width n j = j * s + sp j := by
    intro j
    unfold dot_start
    rw [hd]
  obtain ⟨g1, _, _, hstep, hlast⟩ := dot_start_spec fcm.cell_width n hn hW
  rw [hmax] at hstep hlast
  have hin : ∀ j, j < n → dot_start fcm.cell_width n j + s ≤ fcm.cell_width := by
    intro j hj
    have := dot_start_mono fcm.cell_width n hn hW j (n - 1) (by omega) (by omega)
    omega
  have hres : add_dotted_underline buf fcm m
      = some (⟨fcm.underline_position - fcm.underline_thickness / 2,
          min fcm.underline_thickness
            (fcm.cell_height - (fcm.underline_position - fcm.underline_thickness / 2))⟩,
        loopN (fun y m => forLoop 0 n (fun j m =>
          memset m (buf + fcm.cell_width * y + j * s + sp j) 255 s) m)
          (fcm.underline_position - fcm.underline_thickness / 2)
          (min fcm.underline_thickness
            (fcm.cell_height - (fcm.underline_position - fcm.underline_thickness / 2))) m) := by
    unfold add_dotted_underline
    rw [if_neg (by omega)]
    simp only [hn_eq, hd]
    rw [STRAIGHT_UNDERLINE_LOOP_eq]
  rw [← hn_def, ← hs_def]
  refine ⟨_, hres, rfl, rfl, hn, hs, ?_, ?_, ?_, hin⟩
  · intro x y hx
    have hp := dotted_row_pixel buf fcm.cell_width n s
      (fcm.underline_position - fcm.underline_thickness / 2)
      (min fcm.underline_thickness
        (fcm.cell_height - (fcm.underline_position - fcm.underline_thickness / 2))) sp m
      (fun j hj => by rw [← hds]; exact hin j hj) x y hx
    simp only [hds]
    exact ⟨fun hc => hp.1 ⟨hc.1.1, hc.1.2, hc.2⟩,
      fun hne => hp.2 (fun hc => hne ⟨⟨hc.1, hc.2.1⟩, hc.2.2⟩)⟩
  · intro a ha
    exact dotted_rows_outside buf fcm.cell_width fcm.cell_height n s _ _ sp m
      (fun j hj => by rw [← hds]; exact hin j hj) (fun i hi => by omega) a ha
  · intro j hj
    have := hstep j hj
    omega

theorem C12_dotted_underline_witness :
    ∃ r, add_dotted_underline 0 ⟨20, 10, 8, 7, 2, 4, 2⟩ (fun _ => 0) = some r ∧
      r.1.top = 7 - 2 / 2 ∧
      r.1.height = min 2 (10 - (7 - 2 / 2)) ∧
      1 ≤ spec_num_of_dots ⟨20, 10, 8, 7, 2, 4, 2⟩ ∧ 1 ≤ spec_dot_size ⟨20, 10, 8, 7, 2, 4, 2⟩ ∧
      (∀ x y, x < 20 →
        (((7 - 2 / 2 ≤ y ∧ y < 7 - 2 / 2 + min 2 (10 - (7 - 2 / 2))) ∧
          ∃ j, j < spec_num_of_dots ⟨20, 10, 8, 7, 2, 4, 2⟩ ∧
            dot_start 20 (spec_num_of_dots ⟨20, 10, 8, 7, 2, 4, 2⟩) j ≤ x ∧
            x < dot_start 20 (spec_num_of_dots ⟨20, 10, 8, 7, 2, 4, 2⟩) j
              + spec_dot_size ⟨20, 10, 8, 7, 2, 4, 2⟩) →
          r.2 (0 + 20 * y + x) = 255) ∧
        ((¬ ((7 - 2 / 2 ≤ y ∧ y < 7 - 2 / 2 + min 2 (10 - (7 - 2 / 2))) ∧
          ∃ j, j < spec_num_of_dots ⟨20, 10, 8, 7, 2, 4, 2⟩ ∧
            dot_start 20 (spec_num_of_dots ⟨20, 10, 8, 7, 2, 4, 2⟩) j ≤ x ∧
            x < dot_start 20 (spec_num_of_dots ⟨20, 10, 8, 7, 2, 4, 2⟩) j
              + spec_dot_size ⟨20, 10, 8, 7, 2, 4, 2⟩)) →
          r.2 (0 + 20 * y + x) = (fun _ => 0) (0 + 20 * y + x))) ∧
      (∀ a, (a < 0 ∨ 0 + 20 * 10 ≤ a) → r.2 a = (fun _ => 0) a) ∧
      (∀ j, j + 1 < spec_num_of_dots ⟨20, 10, 8, 7, 2, 4, 2⟩ →
        dot_start 20 (spec_num_of_dots ⟨20, 10, 8, 7, 2, 4, 2⟩) j
            + spec_dot_size ⟨20, 10, 8, 7, 2, 4, 2⟩ + 1
          ≤ dot_start 20 (spec_num_of_dots ⟨20, 10, 8, 7, 2, 4, 2⟩) (j + 1)) ∧
      (∀ j, j < spec_num_of_dots ⟨20, 10, 8, 7, 2, 4, 2⟩ →
        dot_start 20 (spec_num_of_dots ⟨20, 10, 8, 7, 2, 4, 2⟩) j
            + spec_dot_size ⟨20, 10, 8, 7, 2, 4, 2⟩
          ≤ 20) :=
  C12_dotted_underline 0 ⟨20, 10, 8, 7, 2, 4, 2⟩ (fun _ => 0) (by decide) (by decide)

/-- The example of the specification: a cell 20 pixels wide with thickness 2 gets 5 dots
of width 2. -/
theorem dotted_underline_example :
    spec_num_of_dots ⟨20, 10, 8, 7, 2, 4, 2⟩ = 5 ∧ spec_dot_size ⟨20, 10, 8, 7, 2, 4, 2⟩ = 2 := by
  decide

/-- The same example pixel by pixel: the rows 6 and 7 are drawn, the first dot covers the
columns 1 and 2 and the last one the columns 17 and 18; the rows 5 and 8 are untouched. -/
theorem dotted_underline_pixels_example :
    (add_dotted_underline 0 ⟨20, 10, 8, 7, 2, 4, 2⟩ (fun _ => 0)).map
      (fun r => (r.1, [r.2 (0 + 20 * 6 + 0), r.2 (0 + 20 * 6 + 1), r.2 (0 + 20 * 6 + 2),
        r.2 (0 + 20 * 6 + 3), r.2 (0 + 20 * 7 + 17), r.2 (0 + 20 * 7 + 18),
        r.2 (0 + 20 * 7 + 19), r.2 (0 + 20 * 5 + 1), r.2 (0 + 20 * 8 + 1)]))
      = some (⟨6, 2⟩, [0, 255, 255, 0, 255, 255, 0, 0, 0]) := by
  decide

/-! ## Double underline -/

theorem wsub_of_le (a b : Nat) (ha : a < 4294967296) (hb : b ≤ a) : wsub a b = a - b := by
  unfold wsub
  omega

/-- The sign and size of `deficit = 2 - (bottom - top)` computed in `unsigned` and read as
`int`. -/
theorem deficit_facts (d : Nat) (h : d < 2147483648) :
    (0 < to_int (wsub 2 d) ↔ d < 2) ∧ (1 < to_int (wsub 2 d) ↔ d = 0) ∧
    (d < 2 → to_uint (to_int (wsub 2 d)) = 2 - d) ∧
    (d < 2 → to_uint (to_int (wsub 2 d) - 1) = 1 - d) := by
  unfold to_int wsub to_uint
  split_ifs <;> omega

/-- The adjustment of `top` and `bottom` in `add_double_underline`, from rows
`T ≤ B` inside the cell: the result is ordered, inside the cell, and two rows apart when
the cell has at least three rows. -/
theorem double_underline_adjust_spec (T B ch : Nat) (hTB : T ≤ B) (hB : B < ch)
    (hlt : ch < 2147483648) :
    (double_underline_adjust T B ch).1 ≤ (double_underline_adjust T B ch).2 ∧
    (double_underline_adjust T B ch).2 < ch ∧
    (3 ≤ ch → (double_underline_adjust T B ch).1 + 2 ≤ (double_underline_adjust T B ch).2) := by
  unfold double_underline_adjust
  dsimp only
  have hw1 : wsub ch 1 = ch - 1 := wsub_of_le ch 1 (by omega) (by omega)
  have hwd : wsub B T = B - T := wsub_of_le B T (by omega) hTB
  obtain ⟨f1, f2, f3, f4⟩ := deficit_facts (B - T) (by omega)
  rw [hw1, hwd]
  by_cases hd : B - T < 2
  · rw [if_pos (f1.2 hd), f3 hd, f4 hd]
    by_cases h0 : B - T = 0
    · rw [if_pos (f2.2 h0)]
      unfold wsub
      split_ifs <;> dsimp only <;> omega
    · rw [if_neg (fun h => h0 (f2.1 h))]
      unfold wsub
      split_ifs <;> dsimp only <;> omega
  · rw [if_neg (fun h => hd (f1.1 h))]
    dsimp only
    omega

/-- The two rows of the double underline lie in the cell, in order, and two rows apart when
the cell has room for that. -/
theorem double_underline_rows_spec (fcm : FontCellMetrics) (hch : 1 ≤ fcm.cell_height)
    (hlt : fcm.cell_height < 2147483648) :
    (double_underline_rows fcm).1 ≤ (double_underline_rows fcm).2 ∧
    (double_underline_rows fcm).2 < fcm.cell_height ∧
    (3 ≤ fcm.cell_height → (double_underline_rows fcm).1 + 2 ≤ (double_underline_rows fcm).2) := by
  unfold double_underline_rows
  dsimp only
  have hw1 : wsub fcm.cell_height 1 = fcm.cell_height - 1 :=
    wsub_of_le _ 1 (by omega) (by omega)
  rw [hw1]
  exact double_underline_adjust_spec _ _ _ (by omega) (by omega) hlt

/-- A full-width `memset` on row `r`, read at pixel `(x, y)`. -/
theorem row_memset_pixel (buf W r v : Nat) (m : Mem) (x y : Nat) (hx : x < W) :
    memset m (buf + W * r) v W (buf + W * y + x)
      = if y = r then v else m (buf + W * y + x) := by
  unfold memset
  have h := pixel_in_band_iff buf W r 1 x y hx
  rw [Nat.mul_add, Nat.mul_one, ← Nat.add_assoc] at h
  by_cases hy : y = r
  · rw [if_pos hy, if_pos (h.2 ⟨by omega, by omega⟩)]
  · rw [if_neg hy, if_neg (fun hc => hy (by have := h.1 hc; omega))]

/-- A full-width `memset` on a row of the cell leaves the bytes outside the cell alone. -/
theorem row_memset_outside (buf W H r v : Nat) (m : Mem) (a : Nat) (hr : r < H)
    (ha : a < buf ∨ buf + W * H ≤ a) :
    memset m (buf + W * r) v W a = m a := by
  unfold memset
  rw [if_neg]
  rintro ⟨h1, h2⟩
  have h3 : W * (r + 1) ≤ W * H := Nat.mul_le_mul_left W hr
  have h4 : W * (r + 1) = W * r + W := Nat.mul_succ W r
  omega

/-- The result of `add_double_underline` in terms of its two rows. -/
theorem add_double_underline_eq (buf : Nat) (fcm : FontCellMetrics) (m : Mem)
    (hch : 1 ≤ fcm.cell_height) (hlt : fcm.cell_height < 2147483648) :
    add_double_underline buf fcm m
      = (⟨(double_underline_rows fcm).1,
          (double_underline_rows fcm).2 - (double_underline_rows fcm).1 + 1⟩,
        memset (memset m (buf + fcm.cell_width * (double_underline_rows fcm).1) 255
          fcm.cell_width) (buf + fcm.cell_width * (double_underline_rows fcm).2) 255
          fcm.cell_width) := by
  obtain ⟨h1, h2, _⟩ := double_underline_rows_spec fcm hch hlt
  unfold add_double_underline
  dsimp only
  have e : wsub ((double_underline_rows fcm).2 + 1) (double_underline_rows fcm).1
      = (double_underline_rows fcm).2 - (double_underline_rows fcm).1 + 1 := by
    rw [wsub_of_le _ _ (by omega) (by omega)]
    omega
  rw [e]

/-- C14: for every `FontCellMetrics` with `cell_height ≥ 1` (and below `2^31`),
`add_double_underline` sets exactly two full-width rows `top` and `bottom` (possibly the same
row) to 255 with `top ≤ bottom < cell_height`, leaves every other byte unchanged, and returns
`DecorationGeometry{top, height = bottom - top + 1}`: the returned band lies inside the cell
and its first and last rows are the two drawn lines. -/
theorem C14_double_underline (buf : Nat) (fcm : FontCellMetrics) (m : Mem)
    (hch : 1 ≤ fcm.cell_height) (hlt : fcm.cell_height < 2147483648) :
    ∃ top bottom, top ≤ bottom ∧ bottom < fcm.cell_height ∧
      (add_double_underline buf fcm m).1 = ⟨top, bottom - top + 1⟩ ∧
      (∀ x y, x < fcm.cell_width →
        (add_double_underline buf fcm m).2 (buf + fcm.cell_width * y + x)
          = if y = top ∨ y = bottom then 255 else m (buf + fcm.cell_width * y + x)) ∧
      (∀ a, (a < buf ∨ buf + fcm.cell_width * fcm.cell_height ≤ a) →
        (add_double_underline buf fcm m).2 a = m a) := by
  obtain ⟨h1, h2, _⟩ := double_underline_rows_spec fcm hch hlt
  refine ⟨(double_underline_rows fcm).1, (double_underline_rows fcm).2, h1, h2, ?_, ?_, ?_⟩
  · rw [add_double_underline_eq buf fcm m hch hlt]
  · intro x y hx
    rw [add_double_underline_eq buf fcm m hch hlt]
    dsimp only
    rw [row_memset_pixel _ _ _ _ _ x y hx, row_memset_pixel _ _ _ _ _ x y hx]
    by_cases hb : y = (double_underline_rows fcm).2
    · rw [if_pos hb, if_pos (Or.inr hb)]
    · rw [if_neg hb]
      by_cases ht : y = (double_underline_rows fcm).1
      · rw [if_pos ht, if_pos (Or.inl ht)]
      · rw [if_neg ht, if_neg (fun hc => hc.elim ht hb)]
  · intro a ha
    rw [add_double_underline_eq buf fcm m hch hlt]
    dsimp only
    rw [row_memset_outside buf _ fcm.cell_height _ _ _ a h2 ha,
      row_memset_outside buf _ fcm.cell_height _ _ _ a (by omega) ha]

theorem C14_double_underline_witness :
    ∃ top bottom, top ≤ bottom ∧ bottom < 10 ∧
      (add_double_underline 0 ⟨20, 10, 8, 7, 2, 4, 2⟩ (fun _ => 0)).1
        = ⟨top, bottom - top + 1⟩ ∧
      (∀ x y, x < 20 →
        (add_double_underline 0 ⟨20, 10, 8, 7, 2, 4, 2⟩ (fun _ => 0)).2 (0 + 20 * y + x)
          = if y = top ∨ y = bottom then 255 else (fun _ => 0) (0 + 20 * y + x)) ∧
      (∀ a, (a < 0 ∨ 0 + 20 * 10 ≤ a) →
        (add_double_underline 0 ⟨20, 10, 8, 7, 2, 4, 2⟩ (fun _ => 0)).2 a = (fun _ => 0) a) :=
  C14_double_underline 0 ⟨20, 10, 8, 7, 2, 4, 2⟩ (fun _ => 0) (by decide) (by decide)

/-- C20: for every `FontCellMetrics` with `cell_height ≥ 3` (and below `2^31`), the two rows
drawn by `add_double_underline` are distinct and separated by at least one row that the
function does not touch: `bottom - top ≥ 2`, and every row strictly between `top` and
`bottom` is left as it was. -/
theorem C20_double_underline_gap (buf : Nat) (fcm : FontCellMetrics) (m : Mem)
    (hch : 3 ≤ fcm.cell_height) (hlt : fcm.cell_height < 2147483648) :
    ∃ top bottom, top + 2 ≤ bottom ∧ bottom < fcm.cell_height ∧
      (add_double_underline buf fcm m).1 = ⟨top, bottom - top + 1⟩ ∧
      (∀ x, x < fcm.cell_width →
        (add_double_underline buf fcm m).2 (buf + fcm.cell_width * top + x) = 255 ∧
        (add_double_underline buf fcm m).2 (buf + fcm.cell_width * bottom + x) = 255) ∧
      (∀ x y, x < fcm.cell_width → top < y → y < bottom →
        (add_double_underline buf fcm m).2 (buf + fcm.cell_width * y + x)
          = m (buf + fcm.cell_width * y + x)) := by
  obtain ⟨h1, h2, h3⟩ := double_underline_rows_spec fcm (by omega) hlt
  refine ⟨(double_underline_rows fcm).1, (double_underline_rows fcm).2, h3 hch, h2, ?_, ?_, ?_⟩
  · rw [add_double_underline_eq buf fcm m (by omega) hlt]
  · intro x hx
    rw [add_double_underline_eq buf fcm m (by omega) hlt]
    dsimp only
    rw [row_memset_pixel _ _ _ _ _ x _ hx, row_memset_pixel _ _ _ _ _ x _ hx,
      row_memset_pixel _ _ _ _ _ x _ hx]
    refine ⟨?_, by rw [if_pos rfl]⟩
    rw [if_pos rfl]
    split_ifs <;> rfl
  · intro x y hx hy1 hy2
    rw [add_double_underline_eq buf fcm m (by omega) hlt]
    dsimp only
    rw [row_memset_pixel _ _ _ _ _ x y hx, row_memset_pixel _ _ _ _ _ x y hx,
      if_neg (by omega), if_neg (by omega)]

theorem C20_double_underline_gap_witness :
    ∃ top bottom, top + 2 ≤ bottom ∧ bottom < 3 ∧
      (add_double_underline 0 ⟨4, 3, 2, 0, 1, 1, 1⟩ (fun _ => 0)).1 = ⟨top, bottom - top + 1⟩ ∧
      (∀ x, x < 4 →
        (add_double_underline 0 ⟨4, 3, 2, 0, 1, 1, 1⟩ (fun _ => 0)).2 (0 + 4 * top + x) = 255 ∧
        (add_double_underline 0 ⟨4, 3, 2, 0, 1, 1, 1⟩ (fun _ => 0)).2 (0 + 4 * bottom + x)
          = 255) ∧
      (∀ x y, x < 4 → top < y → y < bottom →
        (add_double_underline 0 ⟨4, 3, 2, 0, 1, 1, 1⟩ (fun _ => 0)).2 (0 + 4 * y + x)
          = (fun _ => 0) (0 + 4 * y + x)) :=
  C20_double_underline_gap 0 ⟨4, 3, 2, 0, 1, 1, 1⟩ (fun _ => 0) (by decide) (by decide)

/-! ## Dotted underline: division by zero -/

/-- When `add_dotted_underline` divides by zero: exactly for thickness `0` or a cell
narrower than two thicknesses. -/
theorem add_dotted_underline_none_iff (buf : Nat) (fcm : FontCellMetrics) (m : Mem) :
    add_dotted_underline buf fcm m = none
      ↔ (fcm.underline_thickness = 0 ∨ fcm.cell_width < 2 * fcm.underline_thickness) := by
  unfold add_dotted_underline
  by_cases ht : 2 * fcm.underline_thickness = 0
  · rw [if_pos ht]
    exact ⟨fun _ => Or.inl (by omega), fun _ => rfl⟩
  · rw [if_neg ht]
    by_cases hn : fcm.cell_width / (2 * fcm.underline_thickness) = 0
    · have hlt : fcm.cell_width < 2 * fcm.underline_thickness := by
        rcases Nat.lt_or_ge fcm.cell_width (2 * fcm.underline_thickness) with h | h
        · exact h
        · have := (Nat.le_div_iff_mul_le (by omega : 0 < 2 * fcm.underline_thickness)).2
            (by omega : 1 * (2 * fcm.underline_thickness) ≤ fcm.cell_width)
          omega
      have hd : distribute_dots fcm.cell_width (fcm.cell_width / (2 * fcm.underline_thickness))
          = none := by
        unfold distribute_dots
        rw [if_pos (by omega)]
      simp only [hd]
      exact ⟨fun _ => Or.inr hlt, fun _ => trivial⟩
    · obtain ⟨gaps, g0, hd, _⟩ := distribute_dots_spec fcm.cell_width
        (fcm.cell_width / (2 * fcm.underline_thickness)) (Nat.pos_of_ne_zero hn)
      simp only [hd]
      constructor
      · intro h
        exact absurd h (by simp)
      · rintro (h | h)
        · omega
        · exact absurd (Nat.div_eq_of_lt h) hn

/-- C13: the claim that `add_dotted_underline` never divides by zero fails on the code.
For a cell 3 pixels wide with `underline_thickness = 2` the dot count
`cell_width / (2 * underline_thickness)` is `0` and `distribute_dots` divides
`available_space` by `2 * num_of_dots = 0`; for `underline_thickness = 0` the first
division `cell_width / (2 * underline_thickness)` is itself a division by zero.  Neither
value is clamped. -/
theorem C13_dotted_underline_divides_by_zero :
    add_dotted_underline 0 ⟨3, 20, 15, 17, 2, 8, 1⟩ (fun _ => 0) = none ∧
    add_dotted_underline 0 ⟨10, 20, 15, 17, 0, 8, 1⟩ (fun _ => 0) = none :=
  ⟨(add_dotted_underline_none_iff 0 ⟨3, 20, 15, 17, 2, 8, 1⟩ (fun _ => 0)).2
      (Or.inr (by decide)),
    (add_dotted_underline_none_iff 0 ⟨10, 20, 15, 17, 0, 8, 1⟩ (fun _ => 0)).2
      (Or.inl rfl)⟩

/-! ## Underline cursor -/

/-- A loop of single stores of one value. -/
theorem forLoop_store_const (f : Nat → Nat) (v : Nat) (m : Mem) (lo hi a : Nat) :
    ((∃ x, lo ≤ x ∧ x < hi ∧ a = f x) → forLoop lo hi (fun x m => store m (f x) v) m a = v) ∧
    ((¬ ∃ x, lo ≤ x ∧ x < hi ∧ a = f x) →
      forLoop lo hi (fun x m => store m (f x) v) m a = m a) := by
  unfold forLoop
  have hp := loopN_paint (fun x m => store m (f x) v) (fun x a => a = f x) v
    (fun x m a => by
      show (a = f x → store m (f x) v a = v) ∧ (¬ a = f x → store m (f x) v a = m a)
      unfold store
      exact ⟨fun h => by rw [if_pos h], fun h => by rw [if_neg h]⟩)
    m lo (hi - lo) a
  have key : (∃ i, i < hi - lo ∧ a = f (lo + i)) ↔ (∃ x, lo ≤ x ∧ x < hi ∧ a = f x) := by
    constructor
    · rintro ⟨i, hi, h⟩
      exact ⟨lo + i, by omega, by omega, h⟩
    · rintro ⟨x, h1, h2, h⟩
      refine ⟨x - lo, by omega, ?_⟩
      have e : lo + (x - lo) = x := by omega
      rw [e]
      exact h
  exact ⟨fun h => hp.1 (key.2 h), fun h => hp.2 (fun hc => h (key.1 hc))⟩

theorem lookup_full_block : lookup 0x2588 = some (Glyph.direct [Shape.fill_canvas 255]) := by rfl
theorem lookup_quad_bottom_left : lookup 0x2596 = some (Glyph.direct [Shape.quad BOTTOM_LEFT]) := by
  rfl
theorem lookup_quad_bottom_right :
    lookup 0x2597 = some (Glyph.direct [Shape.quad BOTTOM_RIGHT]) := by rfl
theorem lookup_quad_top_left : lookup 0x2598 = some (Glyph.direct [Shape.quad TOP_LEFT]) := by rfl
theorem lookup_quad_top_right : lookup 0x259D = some (Glyph.direct [Shape.quad TOP_RIGHT]) := by
  rfl

/-- Pixels of the rendered full block U+2588. -/
theorem render_full_block_pixel (o : Options) (buf w h : Nat) (dpi_x dpi_y : ℚ) (m : Mem)
    (x y : Nat) (hx : x < w) (hy : y < h) :
    render_box_char o 0x2588 buf w h dpi_x dpi_y m (buf + (y * w + x)) = 255 := by
  rw [render_direct o _ buf w h dpi_x dpi_y m _ lookup_full_block]
  simp only [run_shapes, run_shape]
  exact fill_canvas_pixel (Canvas.init buf w h 1 dpi_x dpi_y) 255 _ x y hx hy

/-- C16: rendering the full block U+2588 sets every pixel of the `width × height`
normal-resolution region to 255, for every cell width, height and DPI. -/
theorem C16_full_block (o : Options) (buf w h : Nat) (dpi_x dpi_y : ℚ) (m : Mem)
    (x y : Nat) (hx : x < w) (hy : y < h) :
    (Canvas.init buf w h 1 dpi_x dpi_y).pixel
      (render_box_char o 0x2588 buf w h dpi_x dpi_y m) x y = 255 := by
  simp only [Canvas.pixel, Canvas.addr, Canvas.init, Nat.add_assoc]
  exact render_full_block_pixel o buf w h dpi_x dpi_y m x y hx hy

theorem C16_full_block_witness :
    (1 : Nat) < 3 ∧ (2 : Nat) < 4 ∧
      (Canvas.init 0 3 4 1 96 96).pixel
        (render_box_char sample_options 0x2588 0 3 4 96 96 (fun _ => 7)) 1 2 = 255 :=
  ⟨by decide, by decide,
    C16_full_block sample_options 0 3 4 96 96 (fun _ => 7) 1 2 (by decide) (by decide)⟩

/-- Pixels of a quadrant drawn on memory `m`: the quadrant is the left or right half of the
columns (split at `width / 2`) and the upper or lower half of the rows (split at
`height / 2`). -/
theorem quad_pixel (c : Canvas) (which : Edge) (m : Mem) (x y : Nat)
    (hx : x < c.width) (hy : y < c.height) :
    quad c which m (c.mask + (y * c.width + x))
      = if (if which.left then x < c.width / 2 else c.width / 2 ≤ x) ∧
            (if which.top then y < c.height / 2 else c.height / 2 ≤ y)
        then 255 else m (c.mask + (y * c.width + x)) := by
  unfold quad
  dsimp only
  rw [rows_memset_pixel c.mask c.width _ _ 255 _ _ m x y hx (by split_ifs <;> omega)]
  cases hl : which.left <;> cases ht : which.top <;>
    simp only [Bool.false_eq_true, if_false, if_true, Nat.one_mul, Nat.zero_mul, ne_eq,
      one_ne_zero, not_false_eq_true, not_true_eq_false] <;>
    (by_cases h1 : x < c.width / 2 <;> by_cases h2 : y < c.height / 2 <;>
      first
        | (rw [if_pos (by omega), if_pos (by omega)])
        | (rw [if_neg (by omega), if_neg (by omega)]))

/-- Pixels of a rendered quadrant glyph. -/
theorem render_quad_pixel (o : Options) (ch : Nat) (which : Edge)
    (hl : lookup ch = some (Glyph.direct [Shape.quad which]))
    (buf w h : Nat) (dpi_x dpi_y : ℚ) (m : Mem) (x y : Nat) (hx : x < w) (hy : y < h) :
    render_box_char o ch buf w h dpi_x dpi_y m (buf + (y * w + x))
      = if (if which.left then x < w / 2 else w / 2 ≤ x) ∧
            (if which.top then y < h / 2 else h / 2 ≤ y)
        then 255 else 0 := by
  rw [render_direct o _ buf w h dpi_x dpi_y m _ hl]
  simp only [run_shapes, run_shape]
  have h1 := quad_pixel (Canvas.init buf w h 1 dpi_x dpi_y) which
    (fill_canvas (Canvas.init buf w h 1 dpi_x dpi_y) 0 m) x y hx hy
  have h2 := fill_canvas_pixel (Canvas.init buf w h 1 dpi_x dpi_y) 0 m x y hx hy
  rw [h2] at h1
  exact h1

/-- C19: for every cell width and height the four quadrant glyphs U+2598, U+259D, U+2596,
U+2597 (`quad` with `TOP_LEFT`, `TOP_RIGHT`, `BOTTOM_LEFT`, `BOTTOM_RIGHT`) fill pairwise
disjoint sets of pixels whose union is the whole cell: every pixel is 255 in exactly one of
the four masks and 0 in the other three; and drawing all four on a blank canvas gives the
mask of the full block U+2588. -/
theorem C19_quadrants_partition (o : Options) (buf w h : Nat) (dpi_x dpi_y : ℚ) (m : Mem)
    (x y : Nat) (hx : x < w) (hy : y < h) :
    ((render_box_char o 0x2598 buf w h dpi_x dpi_y m (buf + (y * w + x)) = 255 ∧
        render_box_char o 0x259D buf w h dpi_x dpi_y m (buf + (y * w + x)) = 0 ∧
        render_box_char o 0x2596 buf w h dpi_x dpi_y m (buf + (y * w + x)) = 0 ∧
        render_box_char o 0x2597 buf w h dpi_x dpi_y m (buf + (y * w + x)) = 0) ∨
      (render_box_char o 0x2598 buf w h dpi_x dpi_y m (buf + (y * w + x)) = 0 ∧
        render_box_char o 0x259D buf w h dpi_x dpi_y m (buf + (y * w + x)) = 255 ∧
        render_box_char o 0x2596 buf w h dpi_x dpi_y m (buf + (y * w + x)) = 0 ∧
        render_box_char o 0x2597 buf w h dpi_x dpi_y m (buf + (y * w + x)) = 0) ∨
      (render_box_char o 0x2598 buf w h dpi_x dpi_y m (buf + (y * w + x)) = 0 ∧
        render_box_char o 0x259D buf w h dpi_x dpi_y m (buf + (y * w + x)) = 0 ∧
        render_box_char o 0x2596 buf w h dpi_x dpi_y m (buf + (y * w + x)) = 255 ∧
        render_box_char o 0x2597 buf w h dpi_x dpi_y m (buf + (y * w + x)) = 0) ∨
      (render_box_char o 0x2598 buf w h dpi_x dpi_y m (buf + (y * w + x)) = 0 ∧
        render_box_char o 0x259D buf w h dpi_x dpi_y m (buf + (y * w + x)) = 0 ∧
        render_box_char o 0x2596 buf w h dpi_x dpi_y m (buf + (y * w + x)) = 0 ∧
        render_box_char o 0x2597 buf w h dpi_x dpi_y m (buf + (y * w + x)) = 255)) ∧
    quads (Canvas.init buf w h 1 dpi_x dpi_y) [TOP_LEFT, TOP_RIGHT, BOTTOM_LEFT, BOTTOM_RIGHT]
        (fill_canvas (Canvas.init buf w h 1 dpi_x dpi_y) 0 m) (buf + (y * w + x))
      = render_box_char o 0x2588 buf w h dpi_x dpi_y m (buf + (y * w + x)) := by
  rw [render_quad_pixel o _ _ lookup_quad_top_left buf w h dpi_x dpi_y m x y hx hy,
    render_quad_pixel o _ _ lookup_quad_top_right buf w h dpi_x dpi_y m x y hx hy,
    render_quad_pixel o _ _ lookup_quad_bottom_left buf w h dpi_x dpi_y m x y hx hy,
    render_quad_pixel o _ _ lookup_quad_bottom_right buf w h dpi_x dpi_y m x y hx hy,
    render_full_block_pixel o buf w h dpi_x dpi_y m x y hx hy]
  have q := fun which m => quad_pixel (Canvas.init buf w h 1 dpi_x dpi_y) which m x y hx hy
  simp only [Canvas.init] at q
  constructor
  · simp only [TOP_LEFT, TOP_RIGHT, BOTTOM_LEFT, BOTTOM_RIGHT, LEFT_EDGE, TOP_EDGE, RIGHT_EDGE,
      BOTTOM_EDGE, Edge.or, Bool.or_false, Bool.or_true, Bool.false_or, Bool.true_or,
      Bool.false_eq_true, if_false, if_true]
    by_cases h1 : x < w / 2 <;> by_cases h2 : y < h / 2 <;>
      simp [h1, h2, Nat.not_le.2, Nat.le_of_not_lt]
  · simp only [quads, List.foldl]
    simp only [Canvas.init, q]
    simp only [TOP_LEFT, TOP_RIGHT, BOTTOM_LEFT, BOTTOM_RIGHT, LEFT_EDGE, TOP_EDGE, RIGHT_EDGE,
      BOTTOM_EDGE, Edge.or, Bool.or_false, Bool.or_true, Bool.false_or, Bool.true_or,
      Bool.false_eq_true, if_false, if_true]
    by_cases h1 : x < w / 2 <;> by_cases h2 : y < h / 2 <;>
      simp [h1, h2, Nat.not_le.2, Nat.le_of_not_lt]

theorem C19_quadrants_partition_witness :
    (1 : Nat) < 3 ∧ (2 : Nat) < 5 ∧
    (((render_box_char sample_options 0x2598 0 3 5 96 96 (fun _ => 9) (0 + (2 * 3 + 1)) = 255 ∧
        render_box_char sample_options 0x259D 0 3 5 96 96 (fun _ => 9) (0 + (2 * 3 + 1)) = 0 ∧
        render_box_char sample_options 0x2596 0 3 5 96 96 (fun _ => 9) (0 + (2 * 3 + 1)) = 0 ∧
        render_box_char sample_options 0x2597 0 3 5 96 96 (fun _ => 9) (0 + (2 * 3 + 1)) = 0) ∨
      (render_box_char sample_options 0x2598 0 3 5 96 96 (fun _ => 9) (0 + (2 * 3 + 1)) = 0 ∧
        render_box_char sample_options 0x259D 0 3 5 96 96 (fun _ => 9) (0 + (2 * 3 + 1)) = 255 ∧
        render_box_char sample_options 0x2596 0 3 5 96 96 (fun _ => 9) (0 + (2 * 3 + 1)) = 0 ∧
        render_box_char sample_options 0x2597 0 3 5 96 96 (fun _ => 9) (0 + (2 * 3 + 1)) = 0) ∨
      (render_box_char sample_options 0x2598 0 3 5 96 96 (fun _ => 9) (0 + (2 * 3 + 1)) = 0 ∧
        render_box_char sample_options 0x259D 0 3 5 96 96 (fun _ => 9) (0 + (2 * 3 + 1)) = 0 ∧
        render_box_char sample_options 0x2596 0 3 5 96 96 (fun _ => 9) (0 + (2 * 3 + 1)) = 255 ∧
        render_box_char sample_options 0x2597 0 3 5 96 96 (fun _ => 9) (0 + (2 * 3 + 1)) = 0) ∨
      (render_box_char sample_options 0x2598 0 3 5 96 96 (fun _ => 9) (0 + (2 * 3 + 1)) = 0 ∧
        render_box_char sample_options 0x259D 0 3 5 96 96 (fun _ => 9) (0 + (2 * 3 + 1)) = 0 ∧
        render_box_char sample_options 0x2596 0 3 5 96 96 (fun _ => 9) (0 + (2 * 3 + 1)) = 0 ∧
        render_box_char sample_options 0x2597 0 3 5 96 96 (fun _ => 9) (0 + (2 * 3 + 1))
          = 255)) ∧
    quads (Canvas.init 0 3 5 1 96 96) [TOP_LEFT, TOP_RIGHT, BOTTOM_LEFT, BOTTOM_RIGHT]
        (fill_canvas (Canvas.init 0 3 5 1 96 96) 0 (fun _ => 9)) (0 + (2 * 3 + 1))
      = render_box_char sample_options 0x2588 0 3 5 96 96 (fun _ => 9) (0 + (2 * 3 + 1))) :=
  ⟨by decide, by decide,
    C19_quadrants_partition sample_options 0 3 5 96 96 (fun _ => 9) 1 2 (by decide) (by decide)⟩

/-! ## Eighth bars for sizes of at least 8 -/

/-- The ranges of `eight_range` for a size `8 t + e` with `t ≥ 1`: bar `which` starts after
`which` bars of width `t` plus the widened ones among them. -/
theorem eight_range_ge8 (t e which : Nat) (ht : 1 ≤ t) (he : e < 8) (hw : which < 8) :
    eight_range (8 * t + e) which
      = ⟨t * which + widened_before e which, t * (which + 1) + widened_before e (which + 1)⟩ := by
  have hdiv : (8 * t + e) / 8 = t := by omega
  have hmax : max 1 t = t := max_eq_right ht
  unfold eight_range
  simp only [hdiv, hmax]
  by_cases h1 : t * 8 = 8 * t + e
  · have he0 : e = 0 := by omega
    subst he0
    rw [if_pos h1]
    simp [widened_before]
  · have h2 : ¬ t * 8 > 8 * t + e := by omega
    have hm : minus (8 * t + e) (t * 8) = e := by
      unfold minus
      split_ifs <;> omega
    simp only [if_neg h1, if_neg h2, hm]
    have he1 : 1 ≤ e := by omega
    interval_cases e <;> interval_cases which <;>
      simp [eight_range_widen, forLoop, loopN, List.replicate, List.set, List.getD,
        widened_before] <;> omega

theorem eight_range_end_le (size k : Nat) (h8 : 8 ≤ size) (hk : k < 8) :
    (eight_range size k).end_ ≤ size := by
  obtain ⟨t, e, he, rfl⟩ : ∃ t e, e < 8 ∧ size = 8 * t + e :=
    ⟨size / 8, size % 8, Nat.mod_lt _ (by norm_num), (Nat.div_add_mod size 8).symm⟩
  rw [eight_range_ge8 t e k (by omega) he hk]
  dsimp only
  interval_cases e <;> interval_cases k <;> simp [widened_before] <;> omega

/-- Pixels of a horizontal eighth bar drawn on memory `m`. -/
theorem eight_bar_horizontal_pixel (c : Canvas) (which : Nat) (m : Mem) (x y : Nat)
    (hx : x < c.width) :
    eight_bar c which true m (c.mask + (y * c.width + x))
      = if (eight_range c.height which).start ≤ y ∧ y < (eight_range c.height which).end_
        then 255 else m (c.mask + (y * c.width + x)) := by
  unfold eight_bar
  simp only [if_true]
  rw [rows_memset_pixel c.mask c.width _ _ 255 _ _ m x y hx
    (by unfold minus; split_ifs <;> omega)]
  unfold minus
  by_cases h : (eight_range c.height which).start ≤ y ∧ y < (eight_range c.height which).end_
  · rw [if_pos h, if_pos]
    refine ⟨h, Nat.zero_le x, ?_⟩
    split_ifs <;> omega
  · rw [if_neg h, if_neg]
    exact fun hc => h hc.1

/-- Pixels of a block of eighth bars: the union of the bars. -/
theorem eight_block_pixel (c : Canvas) (horizontal : Bool) (bars : List Nat) (x y : Nat)
    (hx : x < c.width) (hy : y < c.height)
    (hr : horizontal = false → ∀ k, k ∈ bars → (eight_range c.width k).end_ ≤ c.width) :
    ∀ m : Mem,
    ((∃ k, k ∈ bars ∧
        (eight_range (if horizontal then c.height else c.width) k).start
          ≤ (if horizontal then y else x) ∧
        (if horizontal then y else x)
          < (eight_range (if horizontal then c.height else c.width) k).end_) →
      eight_block c horizontal bars m (c.mask + (y * c.width + x)) = 255) ∧
    ((¬ ∃ k, k ∈ bars ∧
        (eight_range (if horizontal then c.height else c.width) k).start
          ≤ (if horizontal then y else x) ∧
        (if horizontal then y else x)
          < (eight_range (if horizontal then c.height else c.width) k).end_) →
      eight_block c horizontal bars m (c.mask + (y * c.width + x))
        = m (c.mask + (y * c.width + x))) := by
  have hbar : ∀ (k : Nat) (m : Mem), (horizontal = false → (eight_range c.width k).end_ ≤ c.width) →
      eight_bar c k horizontal m (c.mask + (y * c.width + x))
        = if (eight_range (if horizontal then c.height else c.width) k).start
              ≤ (if horizontal then y else x) ∧
            (if horizontal then y else x)
              < (eight_range (if horizontal then c.height else c.width) k).end_
          then 255 else m (c.mask + (y * c.width + x)) := by
    intro k m hk
    cases horizontal with
    | true => exact eight_bar_horizontal_pixel c k m x y hx
    | false => exact eight_bar_vertical_pixel c k m x y hx hy (hk rfl)
  induction bars with
  | nil =>
    intro m
    constructor
    · rintro ⟨k, hk, _⟩
      exact absurd hk (List.not_mem_nil k)
    · intro _
      rfl
  | cons k rest ih =>
    intro m
    have ih2 := ih (fun hh j hj => hr hh j (List.mem_cons_of_mem k hj)) (eight_bar c k horizontal m)
    have hk := hbar k m (fun hh => hr hh k (List.mem_cons_self k rest))
    have hunf : eight_block c horizontal (k :: rest) m
        = eight_block c horizontal rest (eight_bar c k horizontal m) := rfl
    rw [hunf]
    by_cases hin : ∃ j, j ∈ rest ∧
        (eight_range (if horizontal then c.height else c.width) j).start
          ≤ (if horizontal then y else x) ∧
        (if horizontal then y else x)
          < (eight_range (if horizontal then c.height else c.width) j).end_
    · constructor
      · intro _
        exact ih2.1 hin
      · intro hne
        obtain ⟨j, hj, hjr⟩ := hin
        exact absurd ⟨j, List.mem_cons_of_mem k hj, hjr⟩ hne
    · rw [ih2.2 hin, hk]
      constructor
      · rintro ⟨j, hj, hjr⟩
        rcases List.mem_cons.1 hj with h | h
        · rw [h] at hjr
          rw [if_pos hjr]
        · exact absurd ⟨j, h, hjr⟩ hin
      · intro hne
        rw [if_neg (fun hc => hne ⟨k, List.mem_cons_self k rest, hc⟩)]

/-- The first four eighth bars of a size of at least 8 together cover the positions below
`4 (size / 8)` plus the number of widened bars among them. -/
theorem first_four_bars (size p : Nat) (h8 : 8 ≤ size) :
    (∃ k, k ∈ [0, 1, 2, 3] ∧ (eight_range size k).start ≤ p ∧ p < (eight_range size k).end_)
      ↔ p < 4 * (size / 8) + widened_before (size % 8) 4 := by
  obtain ⟨t, e, he, rfl⟩ : ∃ t e, e < 8 ∧ size = 8 * t + e :=
    ⟨size / 8, size % 8, Nat.mod_lt _ (by norm_num), (Nat.div_add_mod size 8).symm⟩
  have hdiv : (8 * t + e) / 8 = t := by omega
  have hmod : (8 * t + e) % 8 = e := by omega
  have ht : 1 ≤ t := by omega
  rw [hdiv, hmod]
  simp only [List.mem_cons, List.mem_singleton, List.not_mem_nil, or_false]
  constructor
  · rintro ⟨k, hk, h1, h2⟩
    rcases hk with rfl | rfl | rfl | rfl <;>
      rw [eight_range_ge8 t e _ ht he (by norm_num)] at h1 h2 <;>
      dsimp only at h1 h2 <;>
      interval_cases e <;> simp [widened_before] at h1 h2 ⊢ <;> omega
  · intro hp
    have r0 := eight_range_ge8 t e 0 ht he (by norm_num)
    have r1 := eight_range_ge8 t e 1 ht he (by norm_num)
    have r2 := eight_range_ge8 t e 2 ht he (by norm_num)
    have r3 := eight_range_ge8 t e 3 ht he (by norm_num)
    have w0 : widened_before e 0 = 0 := by simp [widened_before]
    simp only [Nat.zero_add, Nat.reduceAdd, Nat.mul_zero, w0] at r0 r1 r2 r3
    by_cases c0 : p < (eight_range (8 * t + e) 0).end_
    · refine ⟨0, Or.inl rfl, ?_, c0⟩
      rw [r0]
      exact Nat.zero_le p
    · by_cases c1 : p < (eight_range (8 * t + e) 1).end_
      · refine ⟨1, Or.inr (Or.inl rfl), ?_, c1⟩
        rw [r0] at c0
        rw [r1]
        dsimp only at c0 ⊢
        omega
      · by_cases c2 : p < (eight_range (8 * t + e) 2).end_
        · refine ⟨2, Or.inr (Or.inr (Or.inl rfl)), ?_, c2⟩
          rw [r1] at c1
          rw [r2]
          dsimp only at c1 ⊢
          omega
        · refine ⟨3, Or.inr (Or.inr (Or.inr rfl)), ?_, ?_⟩
          · rw [r2] at c2
            rw [r3]
            dsimp only at c2 ⊢
            omega
          · rw [r3]
            dsimp only
            omega

/-- Where the first four eighth bars end is the half-cell boundary of `quad`, unless the
remainder `size % 8` is 1 or 3. -/
theorem half_boundary (size : Nat) :
    4 * (size / 8) + widened_before (size % 8) 4 = size / 2
      ↔ (size % 8 ≠ 1 ∧ size % 8 ≠ 3) := by
  obtain ⟨t, e, he, rfl⟩ : ∃ t e, e < 8 ∧ size = 8 * t + e :=
    ⟨size / 8, size % 8, Nat.mod_lt _ (by norm_num), (Nat.div_add_mod size 8).symm⟩
  have hdiv : (8 * t + e) / 8 = t := by omega
  have hmod : (8 * t + e) % 8 = e := by omega
  rw [hdiv, hmod]
  interval_cases e <;> simp [widened_before] <;> omega

/-! ## Half blocks against quadrants (C18) -/

theorem lookup_left_half_block :
    lookup 0x258C = some (Glyph.direct [Shape.eight_block false [0, 1, 2, 3]]) := by rfl
theorem lookup_upper_half_block :
    lookup 0x2580 = some (Glyph.direct [Shape.eight_block true [0, 1, 2, 3]]) := by rfl

/-- Pixels of the rendered left half block U+258C in a cell at least 8 pixels wide. -/
theorem render_left_half_block_pixel (o : Options) (buf w h : Nat) (dpi_x dpi_y : ℚ) (m : Mem)
    (x y : Nat) (hx : x < w) (hy : y < h) (h8 : 8 ≤ w) :
    render_box_char o 0x258C buf w h dpi_x dpi_y m (buf + (y * w + x))
      = if x < 4 * (w / 8) + widened_before (w % 8) 4 then 255 else 0 := by
  rw [render_direct o _ buf w h dpi_x dpi_y m _ lookup_left_half_block]
  simp only [run_shapes, run_shape]
  have hb := eight_block_pixel (Canvas.init buf w h 1 dpi_x dpi_y) false [0, 1, 2, 3] x y hx hy
    (fun _ k hk => eight_range_end_le w k h8 (by
      simp only [List.mem_cons, List.mem_singleton, List.not_mem_nil, or_false] at hk
      omega))
    (fill_canvas (Canvas.init buf w h 1 dpi_x dpi_y) 0 m)
  have hf := fill_canvas_pixel (Canvas.init buf w h 1 dpi_x dpi_y) 0 m x y hx hy
  simp only [Canvas.init, Bool.false_eq_true, if_false] at hb hf ⊢
  have hff := first_four_bars w x h8
  by_cases hc : x < 4 * (w / 8) + widened_before (w % 8) 4
  · rw [if_pos hc]
    exact hb.1 (hff.2 hc)
  · rw [if_neg hc, hb.2 (fun hex => hc (hff.1 hex))]
    exact hf

/-- Pixels of the rendered upper half block U+2580 in a cell at least 8 pixels high. -/
theorem render_upper_half_block_pixel (o : Options) (buf w h : Nat) (dpi_x dpi_y : ℚ) (m : Mem)
    (x y : Nat) (hx : x < w) (hy : y < h) (h8 : 8 ≤ h) :
    render_box_char o 0x2580 buf w h dpi_x dpi_y m (buf + (y * w + x))
      = if y < 4 * (h / 8) + widened_before (h % 8) 4 then 255 else 0 := by
  rw [render_direct o _ buf w h dpi_x dpi_y m _ lookup_upper_half_block]
  simp only [run_shapes, run_shape]
  have hb := eight_block_pixel (Canvas.init buf w h 1 dpi_x dpi_y) true [0, 1, 2, 3] x y hx hy
    (fun hh => absurd hh (by decide))
    (fill_canvas (Canvas.init buf w h 1 dpi_x dpi_y) 0 m)
  have hf := fill_canvas_pixel (Canvas.init buf w h 1 dpi_x dpi_y) 0 m x y hx hy
  simp only [Canvas.init, if_true] at hb hf ⊢
  have hff := first_four_bars h y h8
  by_cases hc : y < 4 * (h / 8) + widened_before (h % 8) 4
  · rw [if_pos hc]
    exact hb.1 (hff.2 hc)
  · rw [if_neg hc, hb.2 (fun hex => hc (hff.1 hex))]
    exact hf

/-- In a cell 9 pixels wide the left half block U+258C fills column 4, which neither of the
quadrants U+2598 and U+2596 fills; the same happens in column 5 of a cell 11 pixels wide, in
column 2 of a cell 4 pixels wide, and in row 4 of the upper half block U+2580 in a cell
9 pixels high. -/
theorem C18_counterexample :
    ¬ (render_box_char sample_options 0x258C 0 9 1 96 96 (fun _ => 0) (0 + (0 * 9 + 4)) ≠ 0
        ↔ (render_box_char sample_options 0x2598 0 9 1 96 96 (fun _ => 0) (0 + (0 * 9 + 4)) ≠ 0 ∨
          render_box_char sample_options 0x2596 0 9 1 96 96 (fun _ => 0) (0 + (0 * 9 + 4)) ≠ 0)) ∧
    ¬ (render_box_char sample_options 0x258C 0 11 1 96 96 (fun _ => 0) (0 + (0 * 11 + 5)) ≠ 0
        ↔ (render_box_char sample_options 0x2598 0 11 1 96 96 (fun _ => 0) (0 + (0 * 11 + 5)) ≠ 0 ∨
          render_box_char sample_options 0x2596 0 11 1 96 96 (fun _ => 0)
            (0 + (0 * 11 + 5)) ≠ 0)) ∧
    ¬ (render_box_char sample_options 0x258C 0 4 1 96 96 (fun _ => 0) (0 + (0 * 4 + 2)) ≠ 0
        ↔ (render_box_char sample_options 0x2598 0 4 1 96 96 (fun _ => 0) (0 + (0 * 4 + 2)) ≠ 0 ∨
          render_box_char sample_options 0x2596 0 4 1 96 96 (fun _ => 0) (0 + (0 * 4 + 2)) ≠ 0)) ∧
    ¬ (render_box_char sample_options 0x2580 0 1 9 96 96 (fun _ => 0) (0 + (4 * 1 + 0)) ≠ 0
        ↔ (render_box_char sample_options 0x2598 0 1 9 96 96 (fun _ => 0) (0 + (4 * 1 + 0)) ≠ 0 ∨
          render_box_char sample_options 0x259D 0 1 9 96 96 (fun _ => 0) (0 + (4 * 1 + 0)) ≠ 0)) := by
  decide!

/-- C18 (amended): for every cell width `w ≥ 8` whose remainder modulo 8 is neither 1 nor 3,
and every height, the left half block U+258C (vertical eighth bars 0–3) fills exactly the
same pixels as the union of the quadrants U+2598 and U+2596; for every cell height `h ≥ 8`
whose remainder modulo 8 is neither 1 nor 3, and every width, the upper half block U+2580
(horizontal eighth bars 0–3) fills exactly the same pixels as the union of U+2598 and
U+259D. -/
theorem C18_half_blocks_are_quadrants (o : Options) (buf w h : Nat) (dpi_x dpi_y : ℚ)
    (m : Mem) (x y : Nat) (hx : x < w) (hy : y < h) :
    (8 ≤ w → w % 8 ≠ 1 → w % 8 ≠ 3 →
      render_box_char o 0x258C buf w h dpi_x dpi_y m (buf + (y * w + x))
        = max (render_box_char o 0x2598 buf w h dpi_x dpi_y m (buf + (y * w + x)))
            (render_box_char o 0x2596 buf w h dpi_x dpi_y m (buf + (y * w + x)))) ∧
    (8 ≤ h → h % 8 ≠ 1 → h % 8 ≠ 3 →
      render_box_char o 0x2580 buf w h dpi_x dpi_y m (buf + (y * w + x))
        = max (render_box_char o 0x2598 buf w h dpi_x dpi_y m (buf + (y * w + x)))
            (render_box_char o 0x259D buf w h dpi_x dpi_y m (buf + (y * w + x)))) := by
  rw [render_quad_pixel o _ _ lookup_quad_top_left buf w h dpi_x dpi_y m x y hx hy,
    render_quad_pixel o _ _ lookup_quad_top_right buf w h dpi_x dpi_y m x y hx hy,
    render_quad_pixel o _ _ lookup_quad_bottom_left buf w h dpi_x dpi_y m x y hx hy]
  simp only [TOP_LEFT, TOP_RIGHT, BOTTOM_LEFT, LEFT_EDGE, TOP_EDGE, RIGHT_EDGE,
    BOTTOM_EDGE, Edge.or, Bool.or_false, Bool.or_true, Bool.false_or, Bool.true_or,
    Bool.false_eq_true, if_false, if_true]
  constructor
  · intro h8 h1 h3
    rw [render_left_half_block_pixel o buf w h dpi_x dpi_y m x y hx hy h8,
      (half_boundary w).2 ⟨h1, h3⟩]
    by_cases c1 : x < w / 2 <;> by_cases c2 : y < h / 2 <;>
      simp [c1, c2, Nat.not_le.2, Nat.le_of_not_lt]
  · intro h8 h1 h3
    rw [render_upper_half_block_pixel o buf w h dpi_x dpi_y m x y hx hy h8,
      (half_boundary h).2 ⟨h1, h3⟩]
    by_cases c1 : x < w / 2 <;> by_cases c2 : y < h / 2 <;>
      simp [c1, c2, Nat.not_le.2, Nat.le_of_not_lt]

theorem C18_half_blocks_are_quadrants_witness :
    (4 : Nat) < 10 ∧ (5 : Nat) < 12 ∧
    render_box_char sample_options 0x258C 0 10 12 96 96 (fun _ => 0) (0 + (5 * 10 + 4))
        = max (render_box_char sample_options 0x2598 0 10 12 96 96 (fun _ => 0) (0 + (5 * 10 + 4)))
            (render_box_char sample_options 0x2596 0 10 12 96 96 (fun _ => 0)
              (0 + (5 * 10 + 4))) ∧
    render_box_char sample_options 0x2580 0 10 12 96 96 (fun _ => 0) (0 + (5 * 10 + 4))
        = max (render_box_char sample_options 0x2598 0 10 12 96 96 (fun _ => 0) (0 + (5 * 10 + 4)))
            (render_box_char sample_options 0x259D 0 10 12 96 96 (fun _ => 0)
              (0 + (5 * 10 + 4))) :=
  ⟨by decide, by decide,
    (C18_half_blocks_are_quadrants sample_options 0 10 12 96 96 (fun _ => 0) 4 5
      (by decide) (by decide)).1 (by decide) (by decide) (by decide),
    (C18_half_blocks_are_quadrants sample_options 0 10 12 96 96 (fun _ => 0) 4 5
      (by decide) (by decide)).2 (by decide) (by decide) (by decide)⟩

/-! ## Two half triangles in one cell (C17) -/

theorem half_triangle_count (c : Canvas) (which : Edge) (inv : Bool) (m : Mem) :
    (half_triangle c which inv m).1.y_limits_count = c.width := by
  unfold half_triangle
  dsimp only
  split_ifs <;> rfl

/-- What `half_triangle` leaves in memory: every pixel of the canvas is rewritten from the
limits of its column, nothing else is touched. -/
theorem half_triangle_spec (c : Canvas) (which : Edge) (inv : Bool) (m : Mem) :
    (∀ x y, x < c.width → y < c.height →
      (half_triangle c which inv m).2 (c.mask + (y * c.width + x))
        = if ((half_triangle c which inv m).1.y_limits x).lower ≤ (y : ℚ) ∧
              (y : ℚ) ≤ ((half_triangle c which inv m).1.y_limits x).upper
          then (if inv then 0 else 255) else (if inv then 255 else 0)) ∧
    (∀ a, (∀ x y, x < c.width → y < c.height → a ≠ c.mask + (y * c.width + x)) →
      (half_triangle c which inv m).2 a = m a) := by
  obtain ⟨g1, g2, g3, _⟩ := half_triangle_geom c which inv m
  have hcount := half_triangle_count c which inv m
  have hsnd : (half_triangle c which inv m).2
      = fill_region (half_triangle c which inv m).1 inv m := by
    unfold half_triangle
    rfl
  obtain ⟨hA, hB⟩ := fill_region_spec (half_triangle c which inv m).1 inv m
  rw [g1, g2, g3, hcount, Nat.min_self] at hA hB
  rw [hsnd]
  exact ⟨hA, hB⟩

/-- The limits `half_triangle` sets for the right edge depend on the size of the canvas
only: whatever limits the canvas held before are overwritten in every column. -/
theorem half_triangle_right_limits (c1 c2 : Canvas) (inv : Bool) (m1 m2 : Mem)
    (hw : c1.width = c2.width) (hh : c1.height = c2.height) (x : Nat) (hx : x < c1.width) :
    (half_triangle c1 RIGHT_EDGE inv m1).1.y_limits x
      = (half_triangle c2 RIGHT_EDGE inv m2).1.y_limits x := by
  unfold half_triangle
  dsimp only
  rw [if_neg (by decide), if_neg (by decide), if_pos rfl,
    if_neg (by decide), if_neg (by decide), if_pos rfl]
  simp only [set_limits, append_limit]
  rw [if_pos ⟨Nat.zero_le x, hx⟩, if_pos ⟨Nat.zero_le x, by rw [← hw]; exact hx⟩, hw, hh]

theorem lookup_half_triangle_left :
    lookup 0x1FB6C = some (Glyph.supersampled [Shape.half_triangle LEFT_EDGE false]) := by rfl
theorem lookup_half_triangle_right :
    lookup 0x1FB6E = some (Glyph.supersampled [Shape.half_triangle RIGHT_EDGE false]) := by rfl
theorem lookup_half_triangle_both :
    lookup 0x1FB9B = some (Glyph.supersampled
      [Shape.half_triangle LEFT_EDGE false, Shape.half_triangle RIGHT_EDGE false]) := by rfl

/-- The right half triangle drawn over anything drawn before on the supersampled canvas
leaves the same buffer as the right half triangle drawn alone. -/
theorem half_triangle_right_overwrites (o : Options) (buf w h : Nat) (dpi_x dpi_y : ℚ)
    (c1 : Canvas) (hg : same_geometry c1 (ss_canvas o buf w h dpi_x dpi_y)) (m0 m1 : Mem)
    (hlow : ∀ a, a < buf + w * h → m1 a = m0 a) (inv : Bool) (a : Nat)
    (ha : a < buf + w * h + (w * o.SUPERSAMPLE_FACTOR) * (h * o.SUPERSAMPLE_FACTOR)) :
    (half_triangle c1 RIGHT_EDGE inv m1).2 a
      = (half_triangle (ss_canvas o buf w h dpi_x dpi_y) RIGHT_EDGE inv m0).2 a := by
  obtain ⟨g1, g2, g3, _⟩ := hg
  have hsm : (ss_canvas o buf w h dpi_x dpi_y).mask = buf + w * h := rfl
  have hsw : (ss_canvas o buf w h dpi_x dpi_y).width = w * o.SUPERSAMPLE_FACTOR := rfl
  have hsh : (ss_canvas o buf w h dpi_x dpi_y).height = h * o.SUPERSAMPLE_FACTOR := rfl
  obtain ⟨hA1, hB1⟩ := half_triangle_spec c1 RIGHT_EDGE inv m1
  obtain ⟨hA2, hB2⟩ := half_triangle_spec (ss_canvas o buf w h dpi_x dpi_y) RIGHT_EDGE inv m0
  rw [g1, g2, g3] at hA1 hB1
  by_cases hlo : a < buf + w * h
  · rw [hB1 a (by intro x y _ _ heq; rw [hsm] at heq; omega),
      hB2 a (by intro x y _ _ heq; rw [hsm] at heq; omega)]
    exact hlow a hlo
  · obtain ⟨X, Y, hX, hY, rfl⟩ := region_is_pixel (buf + w * h) (w * o.SUPERSAMPLE_FACTOR)
      (h * o.SUPERSAMPLE_FACTOR) a (by omega) ha
    have e1 := hA1 X Y (by rw [hsw]; exact hX) (by rw [hsh]; exact hY)
    have e2 := hA2 X Y (by rw [hsw]; exact hX) (by rw [hsh]; exact hY)
    rw [hsm, hsw] at e1 e2
    rw [e1, e2, half_triangle_right_limits c1 (ss_canvas o buf w h dpi_x dpi_y) inv m1 m0 g2 g3 X
      (by rw [g2, hsw]; exact hX)]

/-- The mask rendered for U+1FB9B is the mask rendered for the right half triangle U+1FB6E:
nothing of the left half triangle drawn first survives. -/
theorem render_both_half_triangles (o : Options) (buf w h : Nat) (dpi_x dpi_y : ℚ) (m : Mem)
    (a : Nat) (h1 : buf ≤ a) (h2 : a < buf + w * h) :
    render_box_char o 0x1FB9B buf w h dpi_x dpi_y m a
      = render_box_char o 0x1FB6E buf w h dpi_x dpi_y m a := by
  rw [render_supersampled o _ buf w h dpi_x dpi_y m _ lookup_half_triangle_both,
    render_supersampled o _ buf w h dpi_x dpi_y m _ lookup_half_triangle_right]
  simp only [run_shapes, run_shape]
  obtain ⟨M0, hM0⟩ : ∃ M0, M0 = fill_canvas (ss_canvas o buf w h dpi_x dpi_y) 0
    (fill_canvas (Canvas.init buf w h 1 dpi_x dpi_y) 0 m) := ⟨_, rfl⟩
  rw [← hM0]
  have gL := half_triangle_geom (ss_canvas o buf w h dpi_x dpi_y) LEFT_EDGE false M0
  have gLR := same_geometry_trans (half_triangle_geom
    (half_triangle (ss_canvas o buf w h dpi_x dpi_y) LEFT_EDGE false M0).1 RIGHT_EDGE false
    (half_triangle (ss_canvas o buf w h dpi_x dpi_y) LEFT_EDGE false M0).2) gL
  have gR := half_triangle_geom (ss_canvas o buf w h dpi_x dpi_y) RIGHT_EDGE false M0
  rw [downsample_src_congr (ss_canvas o buf w h dpi_x dpi_y) _ _ _ gLR.1 gLR.2.1 gLR.2.2.2,
    downsample_src_congr (ss_canvas o buf w h dpi_x dpi_y) _ _ _ gR.1 gR.2.1 gR.2.2.2]
  refine downsample_render_agree buf w h o.SUPERSAMPLE_FACTOR (ss_canvas o buf w h dpi_x dpi_y)
    (Canvas.init buf w h 1 dpi_x dpi_y) rfl rfl rfl rfl rfl rfl _ _ ?_ a h1 (by omega)
  intro b _ hb
  refine half_triangle_right_overwrites o buf w h dpi_x dpi_y _ gL M0 _ ?_ false b hb
  intro d hd
  exact (half_triangle_spec (ss_canvas o buf w h dpi_x dpi_y) LEFT_EDGE false M0).2 d
    (by
      intro x y _ _ heq
      have hsm : (ss_canvas o buf w h dpi_x dpi_y).mask = buf + w * h := rfl
      rw [hsm] at heq
      omega)

theorem half_triangle_right_limit_at (c : Canvas) (inv : Bool) (m : Mem) (x : Nat)
    (hx : x < c.width) :
    (half_triangle c RIGHT_EDGE inv m).1.y_limits x
      = ⟨line_y (line_from_points ((c.width / 2 : Nat) : ℚ) ((c.height / 2 : Nat) : ℚ)
            ((minus c.width 1 : Nat) : ℚ) ((minus c.height 1 : Nat) : ℚ)) ((x : Nat) : Int),
         line_y (line_from_points ((c.width / 2 : Nat) : ℚ) ((c.height / 2 : Nat) : ℚ)
            ((minus c.width 1 : Nat) : ℚ) 0) ((x : Nat) : Int)⟩ := by
  unfold half_triangle
  dsimp only
  rw [if_neg (by decide), if_neg (by decide), if_pos rfl]
  simp only [set_limits, append_limit]
  rw [if_pos ⟨Nat.zero_le x, hx⟩]

theorem half_triangle_left_limit_at (c : Canvas) (inv : Bool) (m : Mem) (x : Nat)
    (hx : x < c.width) :
    (half_triangle c LEFT_EDGE inv m).1.y_limits x
      = ⟨line_y (line_from_points 0 ((minus c.height 1 : Nat) : ℚ)
            ((c.width / 2 : Nat) : ℚ) ((c.height / 2 : Nat) : ℚ)) ((x : Nat) : Int),
         line_y (line_from_points 0 0
            ((c.width / 2 : Nat) : ℚ) ((c.height / 2 : Nat) : ℚ)) ((x : Nat) : Int)⟩ := by
  unfold half_triangle
  dsimp only
  rw [if_pos rfl]
  simp only [set_limits, append_limit]
  rw [if_pos ⟨Nat.zero_le x, hx⟩]

/-- Pixels of a rendered half triangle glyph: the floor of the block average of the
supersampled half triangle. -/
theorem render_half_triangle_pixel (o : Options) (hF : 1 ≤ o.SUPERSAMPLE_FACTOR) (ch : Nat)
    (which : Edge) (inv : Bool)
    (hl : lookup ch = some (Glyph.supersampled [Shape.half_triangle which inv]))
    (buf w h : Nat) (dpi_x dpi_y : ℚ) (m : Mem) (x y : Nat) (hx : x < w) (hy : y < h) :
    render_box_char o ch buf w h dpi_x dpi_y m (buf + (y * w + x))
      = min 255 (block_sum (ss_canvas o buf w h dpi_x dpi_y)
          (half_triangle (ss_canvas o buf w h dpi_x dpi_y) which inv
            (fill_canvas (ss_canvas o buf w h dpi_x dpi_y) 0
              (fill_canvas (Canvas.init buf w h 1 dpi_x dpi_y) 0 m))).2 x y
          / (o.SUPERSAMPLE_FACTOR * o.SUPERSAMPLE_FACTOR)) := by
  rw [render_supersampled o ch buf w h dpi_x dpi_y m _ hl]
  simp only [run_shapes, run_shape]
  obtain ⟨M0, hM0⟩ : ∃ M0, M0 = fill_canvas (ss_canvas o buf w h dpi_x dpi_y) 0
    (fill_canvas (Canvas.init buf w h 1 dpi_x dpi_y) 0 m) := ⟨_, rfl⟩
  rw [← hM0]
  have g := half_triangle_geom (ss_canvas o buf w h dpi_x dpi_y) which inv M0
  rw [downsample_src_congr (ss_canvas o buf w h dpi_x dpi_y) _ _ _ g.1 g.2.1 g.2.2.2]
  have hsw : (ss_canvas o buf w h dpi_x dpi_y).width = w * o.SUPERSAMPLE_FACTOR := rfl
  have hsh : (ss_canvas o buf w h dpi_x dpi_y).height = h * o.SUPERSAMPLE_FACTOR := rfl
  have hsm : (ss_canvas o buf w h dpi_x dpi_y).mask = buf + w * h := rfl
  have hsf : (ss_canvas o buf w h dpi_x dpi_y).supersample_factor = o.SUPERSAMPLE_FACTOR := rfl
  obtain ⟨tA, tB⟩ := half_triangle_spec (ss_canvas o buf w h dpi_x dpi_y) which inv M0
  have hdest0 : ∀ a, buf ≤ a → a < buf + w * h →
      (half_triangle (ss_canvas o buf w h dpi_x dpi_y) which inv M0).2 a = 0 := by
    intro a ha1 ha2
    rw [tB a (by
      intro X Y _ _ heq
      rw [hsm] at heq
      omega), hM0]
    unfold fill_canvas memset
    rw [hsm, if_neg (by omega)]
    simp only [Canvas.init]
    rw [if_pos ⟨ha1, ha2⟩]
  obtain ⟨dA, _⟩ := downsample_spec (ss_canvas o buf w h dpi_x dpi_y)
    (Canvas.init buf w h 1 dpi_x dpi_y)
    (half_triangle (ss_canvas o buf w h dpi_x dpi_y) which inv M0).2
    (by rw [hsf]; exact hF)
    (by rw [hsw, hsf]; exact Nat.mul_comm _ _)
    (by rw [hsh, hsf]; exact Nat.mul_comm _ _)
    (Or.inl (by rw [hsm]; exact Nat.le_refl _))
    (by
      intro a ha1 ha2
      rw [hdest0 a ha1 ha2]
      decide)
    (by
      intro a ha1 ha2
      obtain ⟨X, Y, hX, hY, rfl⟩ := region_is_pixel _ _ _ a ha1 ha2
      rw [tA X Y hX hY]
      split_ifs <;> decide)
  have hd := dA x y hx hy
  simp only [Canvas.init] at hd hdest0 ⊢
  rw [show buf + (y * w + x) = buf + (w * y + x) by rw [Nat.mul_comm]]
  rw [hd, hdest0 _ (by omega) (by
    have := dest_addr_row_lt w h x y hx hy
    omega)]
  simp only [Nat.zero_add]
  rfl

/-- In a 2 × 2 cell the left half triangle U+1FB6C covers the top left pixel. -/
theorem left_half_triangle_top_left :
    render_box_char sample_options 0x1FB6C 0 2 2 96 96 (fun _ => 0) 0 ≠ 0 := by
  have hp := render_half_triangle_pixel sample_options (by decide) 0x1FB6C LEFT_EDGE false
    lookup_half_triangle_left 0 2 2 96 96 (fun _ => 0) 0 0 (by decide) (by decide)
  simp only [Nat.zero_mul, Nat.add_zero] at hp
  rw [hp]
  obtain ⟨M0, hM0⟩ : ∃ M0, M0 = fill_canvas (ss_canvas sample_options 0 2 2 96 96) 0
    (fill_canvas (Canvas.init 0 2 2 1 96 96) 0 (fun _ => 0)) := ⟨_, rfl⟩
  rw [← hM0]
  obtain ⟨tA, _⟩ := half_triangle_spec (ss_canvas sample_options 0 2 2 96 96) LEFT_EDGE false M0
  have h00 := tA 0 0 (by decide) (by decide)
  rw [half_triangle_left_limit_at _ _ _ 0 (by decide)] at h00
  have hcond : line_y (line_from_points 0 0
        (((ss_canvas sample_options 0 2 2 96 96).width / 2 : Nat) : ℚ)
        (((ss_canvas sample_options 0 2 2 96 96).height / 2 : Nat) : ℚ)) ((0 : Nat) : Int)
        ≤ ((0 : Nat) : ℚ) ∧
      ((0 : Nat) : ℚ) ≤ line_y (line_from_points 0
        ((minus (ss_canvas sample_options 0 2 2 96 96).height 1 : Nat) : ℚ)
        (((ss_canvas sample_options 0 2 2 96 96).width / 2 : Nat) : ℚ)
        (((ss_canvas sample_options 0 2 2 96 96).height / 2 : Nat) : ℚ)) ((0 : Nat) : Int) := by
    simp only [line_y, line_from_points]
    norm_num
  rw [if_pos hcond] at h00
  simp only [Bool.false_eq_true, if_false, Nat.zero_mul, Nat.add_zero] at h00
  have hge : 255 ≤ block_sum (ss_canvas sample_options 0 2 2 96 96)
      (half_triangle (ss_canvas sample_options 0 2 2 96 96) LEFT_EDGE false M0).2 0 0 := by
    unfold block_sum
    have hF : (ss_canvas sample_options 0 2 2 96 96).supersample_factor = 4 := rfl
    rw [hF]
    have s1 := Finset.single_le_sum (s := Finset.range 4)
      (f := fun j => ∑ i in Finset.range 4,
        (half_triangle (ss_canvas sample_options 0 2 2 96 96) LEFT_EDGE false M0).2
          ((ss_canvas sample_options 0 2 2 96 96).addr (4 * 0 + i) (4 * 0 + j)))
      (fun _ _ => Nat.zero_le _) (Finset.mem_range.2 (by decide : 0 < 4))
    have s2 := Finset.single_le_sum (s := Finset.range 4)
      (f := fun i =>
        (half_triangle (ss_canvas sample_options 0 2 2 96 96) LEFT_EDGE false M0).2
          ((ss_canvas sample_options 0 2 2 96 96).addr (4 * 0 + i) (4 * 0 + 0)))
      (fun _ _ => Nat.zero_le _) (Finset.mem_range.2 (by decide : 0 < 4))
    have e : (half_triangle (ss_canvas sample_options 0 2 2 96 96) LEFT_EDGE false M0).2
        ((ss_canvas sample_options 0 2 2 96 96).addr (4 * 0 + 0) (4 * 0 + 0)) = 255 := by
      simp only [Canvas.addr, Nat.mul_zero, Nat.add_zero, Nat.zero_mul]
      exact h00
    dsimp only at s1 s2
    omega
  have hF2 : sample_options.SUPERSAMPLE_FACTOR * sample_options.SUPERSAMPLE_FACTOR = 16 := rfl
  rw [hF2]
  have := Nat.div_le_div_right (c := 16) hge
  omega

/-- In a 2 × 2 cell the right half triangle U+1FB6E leaves the top left pixel empty. -/
theorem right_half_triangle_top_left :
    render_box_char sample_options 0x1FB6E 0 2 2 96 96 (fun _ => 0) 0 = 0 := by
  have hp := render_half_triangle_pixel sample_options (by decide) 0x1FB6E RIGHT_EDGE false
    lookup_half_triangle_right 0 2 2 96 96 (fun _ => 0) 0 0 (by decide) (by decide)
  simp only [Nat.zero_mul, Nat.add_zero] at hp
  rw [hp]
  obtain ⟨M0, hM0⟩ : ∃ M0, M0 = fill_canvas (ss_canvas sample_options 0 2 2 96 96) 0
    (fill_canvas (Canvas.init 0 2 2 1 96 96) 0 (fun _ => 0)) := ⟨_, rfl⟩
  rw [← hM0]
  obtain ⟨tA, _⟩ := half_triangle_spec (ss_canvas sample_options 0 2 2 96 96) RIGHT_EDGE false M0
  have hw : (ss_canvas sample_options 0 2 2 96 96).width = 8 := rfl
  have hh : (ss_canvas sample_options 0 2 2 96 96).height = 8 := rfl
  have hzero : block_sum (ss_canvas sample_options 0 2 2 96 96)
      (half_triangle (ss_canvas sample_options 0 2 2 96 96) RIGHT_EDGE false M0).2 0 0 = 0 := by
    unfold block_sum
    have hF : (ss_canvas sample_options 0 2 2 96 96).supersample_factor = 4 := rfl
    rw [hF]
    apply Finset.sum_eq_zero
    intro j hj
    apply Finset.sum_eq_zero
    intro i hi
    rw [Finset.mem_range] at hi hj
    have e := tA (4 * 0 + i) (4 * 0 + j) (by rw [hw]; omega) (by rw [hh]; omega)
    rw [half_triangle_right_limit_at _ _ _ _ (by rw [hw]; omega)] at e
    simp only [Canvas.addr, ← Nat.add_assoc] at e ⊢
    simp only [Nat.add_assoc] at e ⊢
    rw [e, if_neg]
    · rfl
    · rw [hw, hh]
      have m7 : minus 8 1 = 7 := by decide
      rw [m7]
      simp only [line_y, line_from_points]
      interval_cases i <;> interval_cases j <;> norm_num
  rw [hzero]
  rfl

/-- C17: the claim that the mask of U+1FB9B covers the masks of both of its halves fails
on the code.  In a 2 × 2 cell the top left pixel is non-zero in the mask of the left half
triangle U+1FB6C and zero in the mask of U+1FB9B: the second `half_triangle` call rewrites
every pixel of the canvas and so erases what the first call drew. -/
theorem C17_second_half_triangle_erases_first :
    render_box_char sample_options 0x1FB6C 0 2 2 96 96 (fun _ => 0) 0 ≠ 0 ∧
    render_box_char sample_options 0x1FB9B 0 2 2 96 96 (fun _ => 0) 0 = 0 :=
  ⟨left_half_triangle_top_left, by
    rw [render_both_half_triangles sample_options 0 2 2 96 96 (fun _ => 0) 0 (by decide)
      (by decide)]
    exact right_half_triangle_top_left⟩

/-! ## Region fill (C24) -/

/-- C24: `fill_region` sets every pixel `(x, y)` with `x < min(width, y_limits_count)` and
`y < height` to 255 when the truth of `lower ≤ y ≤ upper` for column `x` differs from
`inverted` and to 0 otherwise, whatever the pixel held before; every pixel in a column
`x ≥ y_limits_count` is left unchanged. -/
theorem C24_fill_region (c : Canvas) (inverted : Bool) (m : Mem) :
    (∀ x y, x < min c.width c.y_limits_count → y < c.height →
      c.pixel (fill_region c inverted m) x y
        = if decide ((c.y_limits x).lower ≤ (y : ℚ) ∧ (y : ℚ) ≤ (c.y_limits x).upper) ≠ inverted
          then 255 else 0) ∧
    (∀ x y, x < c.width → y < c.height → c.y_limits_count ≤ x →
      c.pixel (fill_region c inverted m) x y = c.pixel m x y) := by
  obtain ⟨hA, hB⟩ := fill_region_spec c inverted m
  simp only [Canvas.pixel, Canvas.addr, Nat.add_assoc]
  constructor
  · intro x y hx hy
    rw [hA x y hx hy]
    by_cases hc : (c.y_limits x).lower ≤ (y : ℚ) ∧ (y : ℚ) ≤ (c.y_limits x).upper <;>
      cases inverted <;> simp [hc]
  · intro x y hx hy hge
    apply hB
    intro x2 y2 hx2 hy2 heq
    have h1 : y * c.width + x = y2 * c.width + x2 := by omega
    have h2 := pixel_addr_inj c.width x y x2 y2 hx (lt_of_lt_of_le hx2 (Nat.min_le_left _ _)) h1
    have h3 : x2 < c.y_limits_count := lt_of_lt_of_le hx2 (Nat.min_le_right _ _)
    omega

/-! ## Distribution of the extra pixels among the eighth bars (C26) -/

/-- C26: for every `size ≥ 8` with `r = size mod 8`, the bar `which` returned by `eight_range`
has width `floor(size / 8) + 1` exactly when `which` is among the first `r` positions of the
order 3, 4, 2, 5, 6, 1, 7 and width `floor(size / 8)` otherwise; consequently bar 0 is never
widened and bar 7 is widened only when `r = 7`. -/
theorem C26_eight_range_widths (size which : Nat) (h8 : 8 ≤ size) (hw : which < 8) :
    (eight_range size which).end_
        = (eight_range size which).start + size / 8
          + (if which ∈ [3, 4, 2, 5, 6, 1, 7].take (size % 8) then 1 else 0) ∧
    (eight_range size 0).end_ = (eight_range size 0).start + size / 8 ∧
    ((eight_range size 7).end_ = (eight_range size 7).start + size / 8 + 1 ↔ size % 8 = 7) := by
  obtain ⟨t, e, he, rfl⟩ : ∃ t e, e < 8 ∧ size = 8 * t + e :=
    ⟨size / 8, size % 8, Nat.mod_lt _ (by norm_num), (Nat.div_add_mod size 8).symm⟩
  have ht : 1 ≤ t := by omega
  have hdiv : (8 * t + e) / 8 = t := by omega
  have hmod : (8 * t + e) % 8 = e := by omega
  rw [eight_range_ge8 t e which ht he hw, eight_range_ge8 t e 0 ht he (by norm_num),
    eight_range_ge8 t e 7 ht he (by norm_num), hdiv, hmod]
  dsimp only
  refine ⟨?_, ?_, ?_⟩
  · interval_cases e <;> interval_cases which <;> simp [widened_before] <;> ring
  · interval_cases e <;> simp [widened_before]
  · interval_cases e <;> simp [widened_before] <;> omega

theorem C26_eight_range_widths_witness :
    (8 : Nat) ≤ 19 ∧ (4 : Nat) < 8 ∧
    ((eight_range 19 4).end_
        = (eight_range 19 4).start + 19 / 8
          + (if 4 ∈ [3, 4, 2, 5, 6, 1, 7].take (19 % 8) then 1 else 0) ∧
    (eight_range 19 0).end_ = (eight_range 19 0).start + 19 / 8 ∧
    ((eight_range 19 7).end_ = (eight_range 19 7).start + 19 / 8 + 1 ↔ 19 % 8 = 7)) :=
  ⟨by decide, by decide, C26_eight_range_widths 19 4 (by decide) (by decide)⟩

/-! ## The control point of the filled D (C30) -/

/-- The curve of `find_bezier_for_D` at `t = 1/2` is at `x = 3/4 · cx`, whatever the
height. -/
theorem bezier_x_half (cx height : Int) :
    bezier_x ⟨⟨0, 0⟩, ⟨cx, 0⟩, ⟨cx, height - 1⟩, ⟨0, height - 1⟩⟩ (1 / 2) = 3 / 4 * (cx : ℚ) := by
  unfold bezier_x
  simp only [Int.cast_zero]
  ring

/-- The exit test of `find_bezier_for_D` in integer arithmetic. -/
theorem find_bezier_test (width height cx : Int) :
    bezier_x ⟨⟨0, 0⟩, ⟨cx, 0⟩, ⟨cx, height - 1⟩, ⟨0, height - 1⟩⟩ (1 / 2) > (width : ℚ) - 1
      ↔ 4 * (width - 1) < 3 * cx := by
  rw [bezier_x_half]
  constructor
  · intro h
    have h2 : ((4 * (width - 1) : Int) : ℚ) < ((3 * cx : Int) : ℚ) := by
      push_cast
      linarith
    exact_mod_cast h2
  · intro h
    have h2 : ((4 * (width - 1) : Int) : ℚ) < ((3 * cx : Int) : ℚ) := by exact_mod_cast h
    push_cast at h2
    show (width : ℚ) - 1 < 3 / 4 * (cx : ℚ)
    linarith

/-- The loop of `find_bezier_for_D` started `n` steps below the first failing control point
returns the last passing one, provided the iteration bound is at least `n + 1`. -/
theorem find_bezier_for_D_loop_eq (width height : Int) :
    ∀ (n fuel : Nat) (cx last_cx : Int), cx + n = 4 * (width - 1) / 3 + 1 → n + 1 ≤ fuel →
      (n = 0 → last_cx = 4 * (width - 1) / 3) →
      find_bezier_for_D_loop width height fuel cx last_cx = 4 * (width - 1) / 3 := by
  intro n
  induction n with
  | zero =>
    intro fuel cx last_cx hcx hfuel hlast
    obtain ⟨f, rfl⟩ : ∃ f, fuel = f + 1 := ⟨fuel - 1, by omega⟩
    unfold find_bezier_for_D_loop
    dsimp only
    rw [if_pos ((find_bezier_test width height cx).2 (by omega))]
    exact hlast rfl
  | succ n ih =>
    intro fuel cx last_cx hcx hfuel _
    obtain ⟨f, rfl⟩ : ∃ f, fuel = f + 1 := ⟨fuel - 1, by omega⟩
    unfold find_bezier_for_D_loop
    dsimp only
    rw [if_neg (fun h => by have := (find_bezier_test width height cx).1 h; omega)]
    exact ih f (cx + 1) cx (by push_cast at hcx; omega) (by omega) (by intro h; subst h; omega)

/-- C30: for every width of at least 1 and every height, `find_bezier_for_D` leaves its loop
through the `return` (any iteration bound of at least `width + 2` gives the same value) and
returns `floor(4 (width - 1) / 3)`, which is the largest integer `cx ≥ width - 1` whose curve
satisfies `bezier_x(0.5) = 0.75 · cx ≤ width - 1`; the value does not depend on the height.
(`int` is taken as unbounded: the counter stops at `floor(4 (width - 1) / 3) + 1`.) -/
theorem C30_find_bezier_for_D (width height : Int) (hw : 1 ≤ width) :
    find_bezier_for_D width height = 4 * (width - 1) / 3 ∧
    (∀ fuel, width.toNat + 2 ≤ fuel →
      find_bezier_for_D_loop width height fuel (width - 1) (width - 1) = 4 * (width - 1) / 3) ∧
    width - 1 ≤ find_bezier_for_D width height ∧
    bezier_x ⟨⟨0, 0⟩, ⟨find_bezier_for_D width height, 0⟩,
        ⟨find_bezier_for_D width height, height - 1⟩, ⟨0, height - 1⟩⟩ (1 / 2)
      = 3 / 4 * (find_bezier_for_D width height : ℚ) ∧
    3 / 4 * (find_bezier_for_D width height : ℚ) ≤ (width : ℚ) - 1 ∧
    (∀ cx : Int, width - 1 ≤ cx →
      bezier_x ⟨⟨0, 0⟩, ⟨cx, 0⟩, ⟨cx, height - 1⟩, ⟨0, height - 1⟩⟩ (1 / 2) ≤ (width : ℚ) - 1 →
      cx ≤ find_bezier_for_D width height) ∧
    (∀ height2 : Int, find_bezier_for_D width height2 = find_bezier_for_D width height) := by
  have key : ∀ h2 fuel, width.toNat + 2 ≤ fuel →
      find_bezier_for_D_loop width h2 fuel (width - 1) (width - 1) = 4 * (width - 1) / 3 := by
    intro h2 fuel hf
    apply find_bezier_for_D_loop_eq width h2 (4 * (width - 1) / 3 + 1 - (width - 1)).toNat
    · omega
    · omega
    · omega
  have hres : ∀ h2, find_bezier_for_D width h2 = 4 * (width - 1) / 3 :=
    fun h2 => key h2 _ (le_refl _)
  refine ⟨hres height, key height, ?_, bezier_x_half _ _, ?_, ?_, ?_⟩
  · rw [hres]
    omega
  · by_contra hc
    have h1 := (find_bezier_test width height (find_bezier_for_D width height)).2
    rw [bezier_x_half] at h1
    have h2 : ¬ 4 * (width - 1) < 3 * find_bezier_for_D width height := by
      rw [hres]
      omega
    exact hc (le_of_not_lt (fun h => h2 ((find_bezier_test width height _).1
      (by rw [bezier_x_half]; exact h))))
  · intro cx _ hle
    rw [hres]
    have h2 : ¬ 4 * (width - 1) < 3 * cx := fun h =>
      absurd ((find_bezier_test width height cx).2 h) (not_lt.2 hle)
    omega
  · intro h2
    rw [hres, hres]

theorem C30_find_bezier_for_D_witness :
    (1 : Int) ≤ 9 ∧
    (find_bezier_for_D 9 5 = 4 * (9 - 1) / 3 ∧
    (∀ fuel, (9 : Int).toNat + 2 ≤ fuel →
      find_bezier_for_D_loop 9 5 fuel (9 - 1) (9 - 1) = 4 * (9 - 1) / 3) ∧
    9 - 1 ≤ find_bezier_for_D 9 5 ∧
    bezier_x ⟨⟨0, 0⟩, ⟨find_bezier_for_D 9 5, 0⟩,
        ⟨find_bezier_for_D 9 5, 5 - 1⟩, ⟨0, 5 - 1⟩⟩ (1 / 2)
      = 3 / 4 * (find_bezier_for_D 9 5 : ℚ) ∧
    3 / 4 * (find_bezier_for_D 9 5 : ℚ) ≤ ((9 : Int) : ℚ) - 1 ∧
    (∀ cx : Int, 9 - 1 ≤ cx →
      bezier_x ⟨⟨0, 0⟩, ⟨cx, 0⟩, ⟨cx, 5 - 1⟩, ⟨0, 5 - 1⟩⟩ (1 / 2) ≤ ((9 : Int) : ℚ) - 1 →
      cx ≤ find_bezier_for_D 9 5) ∧
    (∀ height2 : Int, find_bezier_for_D 9 height2 = find_bezier_for_D 9 5)) :=
  ⟨by decide, C30_find_bezier_for_D 9 5 (by decide)⟩

/-! ## The missing-glyph box (C21) -/

/-- One row of `add_missing_glyph`: the bytes of row `y` that the round writes. -/
theorem missing_glyph_row (buf W t H2 y : Nat) (ht : t ≤ W) (m : Mem) (a : Nat) :
    (if y < t ∨ y ≥ H2 then memset m (buf + W * y) 255 W
      else memset (memset m (buf + W * y) 255 t) (buf + W * y + W - t) 255 t) a
      = if (buf + W * y ≤ a ∧ a < buf + W * y + W) ∧
            (y < t ∨ y ≥ H2 ∨ a < buf + W * y + t ∨ a ≥ buf + W * y + W - t)
        then 255 else m a := by
  by_cases hc : y < t ∨ y ≥ H2
  · rw [if_pos hc]
    unfold memset
    by_cases h : buf + W * y ≤ a ∧ a < buf + W * y + W
    · rw [if_pos h, if_pos ⟨h, by omega⟩]
    · rw [if_neg h, if_neg (fun h2 => h h2.1)]
  · rw [if_neg hc]
    unfold memset
    split_ifs <;> first | rfl | omega

/-- C21: with `t = min(underline_thickness, strikethrough_thickness, cell_width)`,
`add_missing_glyph` sets pixel `(x, y)` of the cell to 255 exactly when `y < t` or
`y ≥ cell_height − t` or `x < t` or `x ≥ cell_width − t`, leaves every other pixel of the cell
unchanged, writes nothing outside the `cell_width × cell_height` buffer and returns
`top = 0`, `height = cell_height` (all quantities being 32-bit unsigned values). -/
theorem C21_missing_glyph (buf : Nat) (fcm : FontCellMetrics) (m : Mem)
    (hH : fcm.cell_height < 4294967296) :
    (∀ x y, x < fcm.cell_width → y < fcm.cell_height →
      (add_missing_glyph buf fcm m).2 (buf + fcm.cell_width * y + x)
        = if y < min (min fcm.underline_thickness fcm.strikethrough_thickness) fcm.cell_width ∨
            y ≥ fcm.cell_height
              - min (min fcm.underline_thickness fcm.strikethrough_thickness) fcm.cell_width ∨
            x < min (min fcm.underline_thickness fcm.strikethrough_thickness) fcm.cell_width ∨
            x ≥ fcm.cell_width
              - min (min fcm.underline_thickness fcm.strikethrough_thickness) fcm.cell_width
          then 255 else m (buf + fcm.cell_width * y + x)) ∧
    (∀ a, (a < buf ∨ buf + fcm.cell_width * fcm.cell_height ≤ a) →
      (add_missing_glyph buf fcm m).2 a = m a) ∧
    (add_missing_glyph buf fcm m).1 = ⟨0, fcm.cell_height⟩ := by
  obtain ⟨t, ht⟩ : ∃ t, t = min (min fcm.underline_thickness fcm.strikethrough_thickness)
      fcm.cell_width := ⟨_, rfl⟩
  have htW : t ≤ fcm.cell_width := by omega
  have hw : ∀ y, y < fcm.cell_height →
      (y < t ∨ y ≥ wsub fcm.cell_height t ↔ y < t ∨ y ≥ fcm.cell_height - t) := by
    intro y hy
    by_cases h : t ≤ fcm.cell_height
    · rw [wsub_of_le _ _ hH h]
    · unfold wsub
      omega
  have hP := loopN_paint (fun y m =>
      if y < t ∨ y ≥ wsub fcm.cell_height t then memset m (buf + fcm.cell_width * y) 255
        fcm.cell_width
      else memset (memset m (buf + fcm.cell_width * y) 255 t)
        (buf + fcm.cell_width * y + fcm.cell_width - t) 255 t)
    (fun y a => (buf + fcm.cell_width * y ≤ a ∧ a < buf + fcm.cell_width * y + fcm.cell_width) ∧
      (y < t ∨ y ≥ wsub fcm.cell_height t ∨ a < buf + fcm.cell_width * y + t ∨
        a ≥ buf + fcm.cell_width * y + fcm.cell_width - t)) 255
    (by
      intro y m a
      beta_reduce
      rw [missing_glyph_row buf fcm.cell_width t _ y htW m a]
      constructor
      · intro h
        rw [if_pos h]
      · intro h
        rw [if_neg h]) m 0 fcm.cell_height
  have hdef : (add_missing_glyph buf fcm m).2 = loopN (fun y m =>
      if y < t ∨ y ≥ wsub fcm.cell_height t then memset m (buf + fcm.cell_width * y) 255
        fcm.cell_width
      else memset (memset m (buf + fcm.cell_width * y) 255 t)
        (buf + fcm.cell_width * y + fcm.cell_width - t) 255 t) 0 fcm.cell_height m := by
    subst ht
    rfl
  rw [hdef, ← ht]
  refine ⟨?_, ?_, rfl⟩
  · intro x y hx hy
    have hrow : ∀ i, (buf + fcm.cell_width * i ≤ buf + fcm.cell_width * y + x ∧
        buf + fcm.cell_width * y + x < buf + fcm.cell_width * i + fcm.cell_width) ↔ i = y := by
      intro i
      have h := pixel_in_band_iff buf fcm.cell_width i 1 x y hx
      rw [Nat.mul_add, Nat.mul_one, ← Nat.add_assoc] at h
      rw [h]
      omega
    by_cases hc : y < t ∨ y ≥ fcm.cell_height - t ∨ x < t ∨ x ≥ fcm.cell_width - t
    · rw [if_pos hc]
      apply (hP _).1
      refine ⟨y, hy, ?_⟩
      rw [Nat.zero_add]
      refine ⟨(hrow y).2 rfl, ?_⟩
      have h2 := hw y hy
      omega
    · rw [if_neg hc]
      apply (hP _).2
      rintro ⟨i, hi, h1, h2⟩
      rw [Nat.zero_add] at h1 h2
      have hiy := (hrow i).1 h1
      subst hiy
      have h3 := hw i hy
      omega
  · intro a ha
    apply (hP _).2
    rintro ⟨i, hi, h1, _⟩
    rw [Nat.zero_add] at h1
    have h3 : fcm.cell_width * (i + 1) ≤ fcm.cell_width * fcm.cell_height :=
      Nat.mul_le_mul_left _ hi
    have h4 : fcm.cell_width * (i + 1) = fcm.cell_width * i + fcm.cell_width := Nat.mul_succ _ _
    omega

theorem C21_missing_glyph_witness :
    (5 : Nat) < 4294967296 ∧
    ((∀ x y, x < 4 → y < 5 →
      (add_missing_glyph 0 ⟨4, 5, 3, 3, 1, 2, 2⟩ (fun _ => 7)).2 (0 + 4 * y + x)
        = if y < min (min 1 2) 4 ∨ y ≥ 5 - min (min 1 2) 4 ∨
            x < min (min 1 2) 4 ∨ x ≥ 4 - min (min 1 2) 4
          then 255 else (fun _ => 7) (0 + 4 * y + x)) ∧
    (∀ a, (a < 0 ∨ 0 + 4 * 5 ≤ a) →
      (add_missing_glyph 0 ⟨4, 5, 3, 3, 1, 2, 2⟩ (fun _ => 7)).2 a = (fun _ => 7) a) ∧
    (add_missing_glyph 0 ⟨4, 5, 3, 3, 1, 2, 2⟩ (fun _ => 7)).1 = ⟨0, 5⟩) :=
  ⟨by decide, C21_missing_glyph 0 ⟨4, 5, 3, 3, 1, 2, 2⟩ (fun _ => 7) (by decide)⟩

/-! ## The dashed underline (C22) -/

/-- C22: `add_dashed_underline` draws the rows of the underline band —
`top = underline_position − floor(underline_thickness / 2)` (0 when negative),
`height = min(underline_thickness, cell_height − top)`, which it returns — and, with
`d = cell_width − 3·floor(cell_width / 4)`, each of these rows holds two dashes of width `d`:
the first on the columns `[0, d)`, the second on `[cell_width − d, cell_width)`, which starts
at `3·floor(cell_width / 4)` and ends exactly at `cell_width`.  Every other pixel of the cell
and every byte outside the cell is left unchanged.  For `cell_width ≥ 8` the dashes are
disjoint with at least one untouched column between them: column `d` of every drawn row is
unchanged, while its neighbours `d − 1` and `cell_width − d` further right are set. -/
theorem C22_dashed_underline (buf : Nat) (fcm : FontCellMetrics) (m : Mem) :
    (add_dashed_underline buf fcm m).1.top
        = fcm.underline_position - fcm.underline_thickness / 2 ∧
    (add_dashed_underline buf fcm m).1.height
        = min fcm.underline_thickness
            (fcm.cell_height - (fcm.underline_position - fcm.underline_thickness / 2)) ∧
    (∀ x y, x < fcm.cell_width →
      (add_dashed_underline buf fcm m).2 (buf + fcm.cell_width * y + x)
        = if (fcm.underline_position - fcm.underline_thickness / 2 ≤ y ∧
              y < fcm.underline_position - fcm.underline_thickness / 2
                + min fcm.underline_thickness
                  (fcm.cell_height - (fcm.underline_position - fcm.underline_thickness / 2))) ∧
            (x < fcm.cell_width - 3 * (fcm.cell_width / 4) ∨
              fcm.cell_width - (fcm.cell_width - 3 * (fcm.cell_width / 4)) ≤ x)
          then 255 else m (buf + fcm.cell_width * y + x)) ∧
    (∀ a, (a < buf ∨ buf + fcm.cell_width * fcm.cell_height ≤ a) →
      (add_dashed_underline buf fcm m).2 a = m a) ∧
    fcm.cell_width - (fcm.cell_width - 3 * (fcm.cell_width / 4)) = 3 * (fcm.cell_width / 4) ∧
    (8 ≤ fcm.cell_width →
      fcm.cell_width - 3 * (fcm.cell_width / 4) + 1
        ≤ fcm.cell_width - (fcm.cell_width - 3 * (fcm.cell_width / 4)) ∧
      ∀ y, fcm.underline_position - fcm.underline_thickness / 2 ≤ y →
        y < fcm.underline_position - fcm.underline_thickness / 2
          + min fcm.underline_thickness
            (fcm.cell_height - (fcm.underline_position - fcm.underline_thickness / 2)) →
        (add_dashed_underline buf fcm m).2
            (buf + fcm.cell_width * y + (fcm.cell_width - 3 * (fcm.cell_width / 4) - 1)) = 255 ∧
        (add_dashed_underline buf fcm m).2
            (buf + fcm.cell_width * y + (fcm.cell_width - 3 * (fcm.cell_width / 4)))
          = m (buf + fcm.cell_width * y + (fcm.cell_width - 3 * (fcm.cell_width / 4))) ∧
        (add_dashed_underline buf fcm m).2
            (buf + fcm.cell_width * y
              + (fcm.cell_width - (fcm.cell_width - 3 * (fcm.cell_width / 4)))) = 255) := by
  obtain ⟨top, htop⟩ : ∃ top, top = fcm.underline_position - fcm.underline_thickness / 2 :=
    ⟨_, rfl⟩
  obtain ⟨q, hq⟩ : ∃ q, q = fcm.cell_width / 4 := ⟨_, rfl⟩
  obtain ⟨h, hh⟩ : ∃ h, h = min fcm.underline_thickness (fcm.cell_height - top) := ⟨_, rfl⟩
  have hq4 : 3 * q ≤ fcm.cell_width := by omega
  have hdef : add_dashed_underline buf fcm m
      = (⟨top, h⟩, loopN (fun y m =>
          memset (memset m (buf + fcm.cell_width * y) 255 (fcm.cell_width - 3 * q))
            (buf + fcm.cell_width * y + 3 * q) 255 (fcm.cell_width - 3 * q)) top h m) := by
    unfold add_dashed_underline
    dsimp only
    rw [STRAIGHT_UNDERLINE_LOOP_eq, ← htop, ← hh, ← hq]
  have hP := fun a => loopN_paint (fun y m =>
      memset (memset m (buf + fcm.cell_width * y) 255 (fcm.cell_width - 3 * q))
        (buf + fcm.cell_width * y + 3 * q) 255 (fcm.cell_width - 3 * q))
    (fun y a => (buf + fcm.cell_width * y ≤ a ∧ a < buf + fcm.cell_width * y + fcm.cell_width) ∧
      (a < buf + fcm.cell_width * y + (fcm.cell_width - 3 * q) ∨
        buf + fcm.cell_width * y + 3 * q ≤ a)) 255
    (by
      intro y m a
      beta_reduce
      unfold memset
      constructor
      · intro h
        split_ifs <;> first | rfl | omega
      · intro h
        split_ifs <;> first | rfl | omega) m top h a
  have hpix : ∀ x y, x < fcm.cell_width →
      loopN (fun y m =>
          memset (memset m (buf + fcm.cell_width * y) 255 (fcm.cell_width - 3 * q))
            (buf + fcm.cell_width * y + 3 * q) 255 (fcm.cell_width - 3 * q)) top h m
        (buf + fcm.cell_width * y + x)
        = if (top ≤ y ∧ y < top + h) ∧
            (x < fcm.cell_width - 3 * q ∨ fcm.cell_width - (fcm.cell_width - 3 * q) ≤ x)
          then 255 else m (buf + fcm.cell_width * y + x) := by
    intro x y hx
    have hrow : ∀ i, (buf + fcm.cell_width * i ≤ buf + fcm.cell_width * y + x ∧
        buf + fcm.cell_width * y + x < buf + fcm.cell_width * i + fcm.cell_width) ↔ i = y := by
      intro i
      have h := pixel_in_band_iff buf fcm.cell_width i 1 x y hx
      rw [Nat.mul_add, Nat.mul_one, ← Nat.add_assoc] at h
      rw [h]
      omega
    by_cases hc : (top ≤ y ∧ y < top + h) ∧
        (x < fcm.cell_width - 3 * q ∨ fcm.cell_width - (fcm.cell_width - 3 * q) ≤ x)
    · rw [if_pos hc]
      apply (hP _).1
      refine ⟨y - top, by omega, ?_⟩
      rw [show top + (y - top) = y by omega]
      refine ⟨(hrow y).2 rfl, ?_⟩
      omega
    · rw [if_neg hc]
      apply (hP _).2
      rintro ⟨i, hi, h3, h4⟩
      have hiy := (hrow _).1 h3
      rw [hiy] at h4
      apply hc
      exact ⟨by omega, by omega⟩
  rw [hdef, ← htop, ← hq, ← hh]
  refine ⟨rfl, rfl, hpix, ?_, by omega, ?_⟩
  · intro a ha
    apply (hP _).2
    rintro ⟨i, hi, h3, _⟩
    have h5 : fcm.cell_width * (top + i + 1) ≤ fcm.cell_width * fcm.cell_height :=
      Nat.mul_le_mul_left _ (by omega)
    have h6 : fcm.cell_width * (top + i + 1) = fcm.cell_width * (top + i) + fcm.cell_width :=
      Nat.mul_succ _ _
    omega
  · intro h8
    refine ⟨by omega, ?_⟩
    intro y hy1 hy2
    refine ⟨?_, ?_, ?_⟩
    · exact (hpix _ y (by omega)).trans (if_pos ⟨⟨hy1, hy2⟩, by omega⟩)
    · exact (hpix _ y (by omega)).trans (if_neg (by omega))
    · exact (hpix _ y (by omega)).trans (if_pos ⟨⟨hy1, hy2⟩, by omega⟩)

/-- An example of the dashed underline: on a cell 20 pixels wide and 10 high with the
underline at row 7 and thickness 2, the rows 6 and 7 hold the dashes `[0, 5)` and `[15, 20)`. -/
theorem dashed_underline_example :
    (add_dashed_underline 0 ⟨20, 10, 8, 7, 2, 4, 2⟩ (fun _ => 0)).1 = ⟨6, 2⟩ ∧
    (add_dashed_underline 0 ⟨20, 10, 8, 7, 2, 4, 2⟩ (fun _ => 0)).2 (0 + 20 * 6 + 4) = 255 ∧
    (add_dashed_underline 0 ⟨20, 10, 8, 7, 2, 4, 2⟩ (fun _ => 0)).2 (0 + 20 * 6 + 5) = 0 ∧
    (add_dashed_underline 0 ⟨20, 10, 8, 7, 2, 4, 2⟩ (fun _ => 0)).2 (0 + 20 * 7 + 14) = 0 ∧
    (add_dashed_underline 0 ⟨20, 10, 8, 7, 2, 4, 2⟩ (fun _ => 0)).2 (0 + 20 * 7 + 15) = 255 ∧
    (add_dashed_underline 0 ⟨20, 10, 8, 7, 2, 4, 2⟩ (fun _ => 0)).2 (0 + 20 * 5 + 0) = 0 ∧
    (add_dashed_underline 0 ⟨20, 10, 8, 7, 2, 4, 2⟩ (fun _ => 0)).2 (0 + 20 * 8 + 0) = 0 := by
  decide

/-! ## The medium shade (C28) -/

/-- A stateful loop whose counters stay `(0, d)` runs the memory part on its own. -/
theorem loopN_counter (body : Nat → (Nat × Nat) × Mem → (Nat × Nat) × Mem)
    (g : Nat → Mem → Mem)
    (hb : ∀ i d m, body i ((0, d), m) = ((0, d + 1), g i m)) :
    ∀ (n lo d : Nat) (m : Mem), loopN body lo n ((0, d), m) = ((0, d + n), loopN g lo n m) := by
  intro n
  induction n with
  | zero =>
    intro lo d m
    rfl
  | succ n ih =>
    intro lo d m
    rw [loopN_succ, ih, hb, loopN_succ]
    rfl

/-- The square of side `s` at grid position `(r, col)` filled by `shade`. -/
theorem shade_cell_medium (c : Canvas) (s r col d : Nat) (m : Mem) :
    shade_cell c { xnum := 12 } s s 0 r 0 0 false col ((0, d), m)
      = ((0, d + 1), if is_odd r = is_odd col then
          forLoop 0 s (fun yr m => forLoop 0 s (fun xc m =>
            store m (c.mask + (c.width * (r * s + yr + 0) + (col * s + xc + 0))) 255) m) m
        else m) := by
  unfold shade_cell
  cases h1 : is_odd r <;> cases h2 : is_odd col <;> simp

/-- A `for` loop whose round `i` overwrites with `v` exactly the addresses in `P i`. -/
theorem forLoop_paint (body : Nat → Mem → Mem) (P : Nat → Nat → Prop) (v : Nat)
    (hb : ∀ y m a, (P y a → body y m a = v) ∧ (¬ P y a → body y m a = m a))
    (m : Mem) (lo hi a : Nat) :
    ((∃ i, lo ≤ i ∧ i < hi ∧ P i a) → forLoop lo hi body m a = v) ∧
    ((¬ ∃ i, lo ≤ i ∧ i < hi ∧ P i a) → forLoop lo hi body m a = m a) := by
  unfold forLoop
  have hp := loopN_paint body P v hb m lo (hi - lo) a
  have key : (∃ i, i < hi - lo ∧ P (lo + i) a) ↔ (∃ i, lo ≤ i ∧ i < hi ∧ P i a) := by
    constructor
    · rintro ⟨i, hi, h⟩
      exact ⟨lo + i, by omega, by omega, h⟩
    · rintro ⟨i, h1, h2, h⟩
      exact ⟨i - lo, by omega, by rw [show lo + (i - lo) = i by omega]; exact h⟩
  exact ⟨fun h => hp.1 (key.2 h), fun h => hp.2 (fun hc => h (key.1 hc))⟩

/-- The medium shade on a cell of `12 s × 2 k s` pixels is a plain double loop over the
`2 k × 12` grid of squares of side `s`: no seam rows or columns arise. -/
theorem shade_medium_eq (c : Canvas) (s k : Nat) (hs : 1 ≤ s) (hw : c.width = 12 * s)
    (hh : c.height = 2 * k * s) (m : Mem) :
    shade c { xnum := 12 } m
      = forLoop 0 (2 * k) (fun r m => forLoop 0 12 (fun col m =>
          if is_odd r = is_odd col then
            forLoop 0 s (fun yr m => forLoop 0 s (fun xc m =>
              store m (c.mask + (c.width * (r * s + yr + 0) + (col * s + xc + 0))) 255) m) m
          else m) m) m := by
  have f1 : 12 * s / 12 = s := by omega
  have f2 : max 1 s = s := max_eq_right hs
  have f3 : 2 * k * s / s = 2 * k := Nat.mul_div_cancel _ (by omega)
  have f4 : 12 * s / s = 12 := Nat.mul_div_cancel _ (by omega)
  have f5 : is_odd (2 * k) = false := by
    unfold is_odd
    simp
  have f6 : minus (12 * s) (s * 12) = 0 := by
    unfold minus
    split_ifs <;> omega
  have f7 : minus (2 * k * s) (s * (2 * k)) = 0 := by
    have : s * (2 * k) = 2 * k * s := Nat.mul_comm _ _
    unfold minus
    split_ifs <;> omega
  have f8 : is_odd 0 = false := by decide
  have e1 : ¬ (NO_EDGE = TOP_EDGE) := by decide
  have e2 : ¬ (NO_EDGE = BOTTOM_EDGE) := by decide
  have e3 : ¬ (NO_EDGE = LEFT_EDGE) := by decide
  have e4 : ¬ (NO_EDGE = RIGHT_EDGE) := by decide
  unfold shade
  simp only [hw, hh, f1, f2, f3, f4, f5, f6, f7, f8, not_true_eq_false, e1, e2, e3, e4, if_false,
    ne_eq, not_true_eq_false, not_false_eq_true, if_true, and_false, false_and, or_self,
    Nat.cast_zero, zero_div, mul_zero, Int.ceil_zero, Int.toNat_zero, Bool.not_false]
  have inner : ∀ r d (m : Mem), forLoop 0 12 (shade_cell c { xnum := 12 } s s 0 r 0 0 false)
      ((0, d), m) = ((0, d + 12), forLoop 0 12 (fun col m =>
        if is_odd r = is_odd col then
          forLoop 0 s (fun yr m => forLoop 0 s (fun xc m =>
            store m (c.mask + (c.width * (r * s + yr + 0) + (col * s + xc + 0))) 255) m) m
        else m) m) := by
    intro r d m
    unfold forLoop
    exact loopN_counter _ _ (fun col d m => shade_cell_medium c s r col d m) _ _ _ _
  unfold forLoop
  rw [loopN_counter _ (fun r m => loopN (fun col m =>
        if is_odd r = is_odd col then
          loopN (fun yr m => loopN (fun xc m =>
            store m (c.mask + (12 * s * (r * s + yr + 0) + (col * s + xc + 0))) 255) 0 (s - 0) m)
            0 (s - 0) m
        else m) 0 (12 - 0) m)]
  intro r d m
  have h := inner r 0 m
  unfold forLoop at h
  rw [hw] at h
  simp only [decide_not, decide_True, Bool.not_true, h]

/-- Parity of two indices as compared by `is_odd`. -/
theorem is_odd_eq_iff (a b : Nat) : is_odd a = is_odd b ↔ a % 2 = b % 2 := by
  unfold is_odd
  rcases Nat.mod_two_eq_zero_or_one a with ha | ha <;>
    rcases Nat.mod_two_eq_zero_or_one b with hb | hb <;> simp [ha, hb]

/-- Row and column of the grid square that holds pixel `(x, y)`. -/
theorem square_of_pixel (s r yr y : Nat) (hyr : yr < s) (h : y = r * s + yr) : y / s = r := by
  subst h
  apply Nat.div_eq_of_lt_le
  · exact Nat.le_add_right _ _
  · rw [Nat.succ_mul]
    omega

/-- Pixels of the medium shade drawn on memory `m`, on a cell of `12 s × 2 k s` pixels. -/
theorem shade_medium_pixel (c : Canvas) (s k : Nat) (hs : 1 ≤ s) (hw : c.width = 12 * s)
    (hh : c.height = 2 * k * s) (m : Mem) (x y : Nat) (hx : x < c.width) (hy : y < c.height) :
    shade c { xnum := 12 } m (c.mask + (y * c.width + x))
      = if (x / s) % 2 = (y / s) % 2 then 255 else m (c.mask + (y * c.width + x)) := by
  rw [shade_medium_eq c s k hs hw hh m]
  have hsq := fun (r col : Nat) (m : Mem) (a : Nat) => forLoop_paint
    (fun yr m => forLoop 0 s (fun xc m =>
      store m (c.mask + (c.width * (r * s + yr + 0) + (col * s + xc + 0))) 255) m)
    (fun yr a => ∃ xc, 0 ≤ xc ∧ xc < s ∧
      a = c.mask + (c.width * (r * s + yr + 0) + (col * s + xc + 0))) 255
    (fun yr m a => forLoop_store_const
      (fun xc => c.mask + (c.width * (r * s + yr + 0) + (col * s + xc + 0))) 255 m 0 s a) m 0 s a
  have hrow := fun (r : Nat) (m : Mem) (a : Nat) => forLoop_paint
    (fun col m => if is_odd r = is_odd col then
        forLoop 0 s (fun yr m => forLoop 0 s (fun xc m =>
          store m (c.mask + (c.width * (r * s + yr + 0) + (col * s + xc + 0))) 255) m) m
      else m)
    (fun col a => is_odd r = is_odd col ∧ ∃ yr, 0 ≤ yr ∧ yr < s ∧ ∃ xc, 0 ≤ xc ∧ xc < s ∧
      a = c.mask + (c.width * (r * s + yr + 0) + (col * s + xc + 0))) 255
    (fun col m a => by
      beta_reduce
      by_cases hp : is_odd r = is_odd col
      · rw [if_pos hp]
        exact ⟨fun h => (hsq r col m a).1 h.2, fun h => (hsq r col m a).2 (fun hc => h ⟨hp, hc⟩)⟩
      · rw [if_neg hp]
        exact ⟨fun h => absurd h.1 hp, fun _ => rfl⟩) m 0 12 a
  have hall := forLoop_paint
    (fun r m => forLoop 0 12 (fun col m => if is_odd r = is_odd col then
        forLoop 0 s (fun yr m => forLoop 0 s (fun xc m =>
          store m (c.mask + (c.width * (r * s + yr + 0) + (col * s + xc + 0))) 255) m) m
      else m) m)
    (fun r a => ∃ col, 0 ≤ col ∧ col < 12 ∧ is_odd r = is_odd col ∧
      ∃ yr, 0 ≤ yr ∧ yr < s ∧ ∃ xc, 0 ≤ xc ∧ xc < s ∧
      a = c.mask + (c.width * (r * s + yr + 0) + (col * s + xc + 0))) 255
    (fun r m a => hrow r m a) m 0 (2 * k) (c.mask + (y * c.width + x))
  by_cases hp : (x / s) % 2 = (y / s) % 2
  · rw [if_pos hp]
    apply hall.1
    refine ⟨y / s, Nat.zero_le _, ?_, x / s, Nat.zero_le _, ?_, ?_, y % s, Nat.zero_le _,
      Nat.mod_lt _ hs, x % s, Nat.zero_le _, Nat.mod_lt _ hs, ?_⟩
    · rw [Nat.div_lt_iff_lt_mul hs]
      omega
    · rw [Nat.div_lt_iff_lt_mul hs]
      omega
    · exact (is_odd_eq_iff _ _).2 hp.symm
    · rw [Nat.add_zero, Nat.add_zero, Nat.div_add_mod', Nat.div_add_mod', Nat.mul_comm]
  · rw [if_neg hp]
    apply hall.2
    rintro ⟨r, _, hr, col, _, hcol, hpar, yr, _, hyr, xc, _, hxc, ha⟩
    rw [Nat.add_zero, Nat.add_zero, Nat.mul_comm c.width] at ha
    have hlt : col * s + xc < c.width := by
      have : (col + 1) * s ≤ 12 * s := Nat.mul_le_mul_right s hcol
      rw [Nat.succ_mul] at this
      omega
    have h2 := pixel_addr_inj c.width x y (col * s + xc) (r * s + yr) hx hlt (by omega)
    have hr2 := square_of_pixel s r yr y hyr h2.1
    have hc2 := square_of_pixel s col xc x hxc h2.2
    rw [hr2, hc2] at hp
    exact hp ((is_odd_eq_iff _ _).1 hpar).symm

theorem lookup_medium_shade :
    lookup 0x2592 = some (Glyph.direct [Shape.shade { xnum := 12 }]) := by rfl

/-- C28: the medium shade U+2592 rendered on a cell of width `12 s` (`s ≥ 1`) and height
`2 k s` (an even multiple of `s`) sets pixel `(x, y)` to 255 exactly when `floor(x / s)` and
`floor(y / s)` have the same parity and to 0 otherwise, whatever the buffer held. -/
theorem C28_medium_shade (o : Options) (buf s k : Nat) (dpi_x dpi_y : ℚ) (m : Mem)
    (x y : Nat) (hs : 1 ≤ s) (hx : x < 12 * s) (hy : y < 2 * k * s) :
    (Canvas.init buf (12 * s) (2 * k * s) 1 dpi_x dpi_y).pixel
      (render_box_char o 0x2592 buf (12 * s) (2 * k * s) dpi_x dpi_y m) x y
      = if (x / s) % 2 = (y / s) % 2 then 255 else 0 := by
  rw [render_direct o _ buf _ _ dpi_x dpi_y m _ lookup_medium_shade]
  simp only [run_shapes, run_shape, Canvas.pixel, Canvas.addr, Nat.add_assoc]
  have h := shade_medium_pixel (Canvas.init buf (12 * s) (2 * k * s) 1 dpi_x dpi_y) s k hs rfl rfl
    (fill_canvas (Canvas.init buf (12 * s) (2 * k * s) 1 dpi_x dpi_y) 0 m) x y hx hy
  have h0 := fill_canvas_pixel (Canvas.init buf (12 * s) (2 * k * s) 1 dpi_x dpi_y) 0 m x y hx hy
  rw [h0] at h
  exact h

theorem C28_medium_shade_witness :
    (1 : Nat) ≤ 2 ∧ (5 : Nat) < 12 * 2 ∧ (3 : Nat) < 2 * 1 * 2 ∧
    (Canvas.init 0 (12 * 2) (2 * 1 * 2) 1 96 96).pixel
      (render_box_char sample_options 0x2592 0 (12 * 2) (2 * 1 * 2) 96 96 (fun _ => 7)) 5 3
      = if (5 / 2) % 2 = (3 / 2) % 2 then 255 else 0 :=
  ⟨by decide, by decide, by decide,
    C28_medium_shade sample_options 0 2 1 96 96 (fun _ => 7) 5 3 (by decide) (by decide)
      (by decide)⟩

/-! ## Division by zero in `shade` (C27) -/

/-- C29 fails for the `calc_limits` step of `triangle`: on a fresh 4 × 4 canvas (both lists
empty, within capacity) it leaves `y_limits_count = 4` with `y_limits_capacity = 0`. -/
theorem C29_counterexample :
    scratch_within_capacity (Canvas.init 0 4 4 1 96 96) ∧
    (triangle (Canvas.init 0 4 4 1 96 96) true false (fun _ => 0)).1.y_limits_count = 4 ∧
    (triangle (Canvas.init 0 4 4 1 96 96) true false (fun _ => 0)).1.y_limits_capacity = 0 ∧
    ¬ scratch_within_capacity (triangle (Canvas.init 0 4 4 1 96 96) true false (fun _ => 0)).1 :=
  ⟨by decide, rfl, rfl, by decide⟩

/-- The capacity of the limits list after `half_triangle`. -/
theorem half_triangle_capacity (c : Canvas) (which : Edge) (inv : Bool) (m : Mem) :
    (half_triangle c which inv m).1.y_limits_capacity
        = ensure_space_for c.y_limits_capacity (c.y_limits_count + 1) c.width ∧
    (half_triangle c which inv m).1.holes_count = c.holes_count ∧
    (half_triangle c which inv m).1.holes_capacity = c.holes_capacity := by
  unfold half_triangle
  dsimp only
  split_ifs <;> exact ⟨rfl, rfl, rfl⟩

/-- C29 (amended): after `append_hole` the holes list, and after `append_limit` the limits
list, holds no more entries than its capacity, the other list being untouched; when the append
grows the list the new capacity is `max(width, 2 × old capacity, count + 1)` and otherwise the
capacity is unchanged; `half_triangle`, which appends before it sets `y_limits_count = width`,
leaves `y_limits_count ≤ y_limits_capacity` on every canvas whose limits capacity is 0 or at
least the width (every capacity an append produces is); `calc_limits` (the step of `triangle`)
never changes `y_limits_capacity` and sets `y_limits_count = width` when the limits array was
still null. -/
theorem C29_scratch_capacity (c : Canvas) :
    (∀ hole, (append_hole c hole).holes_count ≤ (append_hole c hole).holes_capacity ∧
      (append_hole c hole).holes_count = c.holes_count + 1 ∧
      (append_hole c hole).y_limits_count = c.y_limits_count ∧
      (append_hole c hole).y_limits_capacity = c.y_limits_capacity) ∧
    (∀ upper lower,
      (append_limit c upper lower).y_limits_count ≤ (append_limit c upper lower).y_limits_capacity ∧
      (append_limit c upper lower).y_limits_count = c.y_limits_count + 1 ∧
      (append_limit c upper lower).holes_count = c.holes_count ∧
      (append_limit c upper lower).holes_capacity = c.holes_capacity) ∧
    (∀ hole, (append_hole c hole).holes_capacity
      = if c.holes_capacity < c.holes_count + 1
        then max c.width (max (2 * c.holes_capacity) (c.holes_count + 1))
        else c.holes_capacity) ∧
    (∀ upper lower, (append_limit c upper lower).y_limits_capacity
      = if c.y_limits_capacity < c.y_limits_count + 1
        then max c.width (max (2 * c.y_limits_capacity) (c.y_limits_count + 1))
        else c.y_limits_capacity) ∧
    (∀ which inverted m, (c.y_limits_capacity = 0 ∨ c.width ≤ c.y_limits_capacity) →
      (half_triangle c which inverted m).1.y_limits_count = c.width ∧
      (half_triangle c which inverted m).1.y_limits_count
        ≤ (half_triangle c which inverted m).1.y_limits_capacity ∧
      (half_triangle c which inverted m).1.holes_count = c.holes_count ∧
      (half_triangle c which inverted m).1.holes_capacity = c.holes_capacity) ∧
    (∀ lower_y upper_y,
      (calc_limits c lower_y upper_y).y_limits_capacity = c.y_limits_capacity ∧
      (calc_limits c lower_y upper_y).y_limits_count
        = (if c.y_limits_null then c.width else c.y_limits_count) ∧
      (calc_limits c lower_y upper_y).holes_count = c.holes_count ∧
      (calc_limits c lower_y upper_y).holes_capacity = c.holes_capacity) := by
  refine ⟨?_, ?_, ?_, ?_, ?_, ?_⟩
  · intro hole
    refine ⟨?_, rfl, rfl, rfl⟩
    show c.holes_count + 1 ≤ ensure_space_for c.holes_capacity (c.holes_count + 1) c.width
    unfold ensure_space_for
    split_ifs <;> omega
  · intro upper lower
    refine ⟨?_, rfl, rfl, rfl⟩
    show c.y_limits_count + 1
      ≤ ensure_space_for c.y_limits_capacity (c.y_limits_count + 1) c.width
    unfold ensure_space_for
    split_ifs <;> omega
  · intro hole
    rfl
  · intro upper lower
    rfl
  · intro which inverted m hcap
    obtain ⟨h1, h2, h3⟩ := half_triangle_capacity c which inverted m
    refine ⟨half_triangle_count c which inverted m, ?_, h2, h3⟩
    rw [half_triangle_count, h1]
    unfold ensure_space_for
    split_ifs <;> omega
  · intro lower_y upper_y
    unfold calc_limits
    cases c.y_limits_null <;> exact ⟨rfl, rfl, rfl, rfl⟩

/-! ## The left half line of the corners runs past the row (C23) -/

/-- The left half of `half_hline` writes the columns `[0, half_width + extend_by)` of each row
of its band without clamping them to the width: when `half_width + extend_by` exceeds the
width, the byte that follows the row is overwritten too. -/
theorem half_hline_overrun (o : Options) (c : Canvas) (level extend_by : Nat) (m : Mem) (y : Nat)
    (hext : c.width < half_width c + extend_by)
    (h1 : minus (half_height c) (thickness o c level false / 2) ≤ y)
    (h2 : y < min (minus (half_height c) (thickness o c level false / 2)
      + thickness o c level false) c.height) :
    half_hline o c level false extend_by m (c.mask + (y * c.width + c.width)) = 255 := by
  unfold half_hline draw_hline
  simp only [Bool.false_eq_true, if_false]
  apply (forLoop_paint
    (fun y m => memset m (c.mask + (y * c.width + 0)) 255 (minus (half_width c + extend_by) 0))
    (fun y a => c.mask + (y * c.width + 0) ≤ a ∧
      a < c.mask + (y * c.width + 0) + minus (half_width c + extend_by) 0) 255
    (fun y m a => by
      beta_reduce
      unfold memset
      exact ⟨fun h => by rw [if_pos h], fun h => by rw [if_neg h]⟩) m _ _ _).1
  refine ⟨y, h1, h2, ?_⟩
  unfold minus
  split_ifs <;> omega

/-- Where the half line stays inside the canvas: for the right half, and for the left half
when `half_width + extend_by ≤ width`, `half_hline` changes no byte that is not a pixel of the
canvas. -/
theorem half_hline_within (o : Options) (c : Canvas) (level : Nat) (right_half : Bool)
    (extend_by : Nat) (m : Mem) (a : Nat)
    (hext : right_half = false → half_width c + extend_by ≤ c.width)
    (ha : ¬ ∃ x y, x < c.width ∧ y < c.height ∧ a = c.mask + (y * c.width + x)) :
    half_hline o c level right_half extend_by m a = m a := by
  unfold half_hline draw_hline
  apply (forLoop_paint
    (fun y m => memset m (c.mask + (y * c.width
        + (if right_half = true then minus (half_width c) extend_by else 0))) 255
      (minus (if right_half = true then c.width else half_width c + extend_by)
        (if right_half = true then minus (half_width c) extend_by else 0)))
    (fun y a => c.mask + (y * c.width
        + (if right_half = true then minus (half_width c) extend_by else 0)) ≤ a ∧
      a < c.mask + (y * c.width
        + (if right_half = true then minus (half_width c) extend_by else 0))
        + minus (if right_half = true then c.width else half_width c + extend_by)
          (if right_half = true then minus (half_width c) extend_by else 0)) 255
    (fun y m a => by
      beta_reduce
      unfold memset
      exact ⟨fun h => by rw [if_pos h], fun h => by rw [if_neg h]⟩) m _ _ _).2
  rintro ⟨y, _, hy, h3, h4⟩
  apply ha
  have hw := half_width_le c
  refine ⟨a - (c.mask + y * c.width), y, ?_, by omega, ?_⟩
  · cases right_half with
    | false =>
      have := hext rfl
      simp only [Bool.false_eq_true, if_false] at h3 h4
      unfold minus at h4
      split_ifs at h4 <;> omega
    | true =>
      simp only [if_true] at h3 h4
      unfold minus at h3 h4
      split_ifs at h3 h4 <;> omega
  · cases right_half <;> simp only [Bool.false_eq_true, if_false, if_true] at h3 <;> omega

/-- C23 at a failing input: the corner U+2518 on a blank cell of 2 × 8 pixels at 288 dpi.
Lines are 4 pixels thick, the horizontal arm is the band of rows 2 to 5 and the vertical arm
covers rows 0 to 3, yet pixel `(0, 6)` is set: the arm is written on the columns `[0, 3)` of a
row of width 2, so the write in row 5 ends on the first pixel of row 6.  The neighbouring
pixels `(1, 6)` and `(0, 7)` stay blank. -/
theorem C23_corner_writes_past_row_end :
    thickness sample_options (Canvas.init 0 2 8 1 288 288) 1 true = 4 ∧
    half_width (Canvas.init 0 2 8 1 288 288)
      + thickness sample_options (Canvas.init 0 2 8 1 288 288) 1 true / 2 = 3 ∧
    (Canvas.init 0 2 8 1 288 288).pixel
      (render_box_char sample_options 0x2518 0 2 8 288 288 (fun _ => 0)) 0 6 = 255 ∧
    (Canvas.init 0 2 8 1 288 288).pixel
      (render_box_char sample_options 0x2518 0 2 8 288 288 (fun _ => 0)) 1 6 = 0 ∧
    (Canvas.init 0 2 8 1 288 288).pixel
      (render_box_char sample_options 0x2518 0 2 8 288 288 (fun _ => 0)) 0 7 = 0 := by
  refine ⟨?_, ?_, ?_, ?_, ?_⟩ <;> decide!

/-! ## The holes of the dashed lines (C25) -/

theorem to_int_of_lt (n : Nat) (h : n < 2147483648) : to_int n = (n : Int) := by
  unfold to_int
  have h1 : n % 4294967296 = n := Nat.mod_eq_of_lt (by omega)
  rw [h1, if_pos h]

theorem to_uint_of_nat (n : Nat) (h : n < 4294967296) : to_uint (n : Int) = n := by
  unfold to_uint
  omega

/-- The loop of `get_holes` stops at once when `pos` has reached the end of the line. -/
theorem get_holes_loop_done (sz hole_sz blk fuel : Nat) (pos : Int) (c : Canvas)
    (h : ¬ pos < to_int sz) : get_holes_loop sz hole_sz blk fuel pos c = c := by
  cases fuel with
  | zero => rfl
  | succ f =>
    unfold get_holes_loop
    rw [if_neg h]

/-- One round of the loop of `get_holes` at a position `p ≥ 0` inside the line. -/
theorem get_holes_loop_step (sz hole_sz blk f p : Nat) (c : Canvas)
    (hsz : sz + blk < 2147483648) (hhs : 1 ≤ hole_sz) (hp : p < sz) (hh : hole_sz ≤ sz) :
    get_holes_loop sz hole_sz blk (f + 1) (p : Int) c
      = get_holes_loop sz hole_sz blk f ((min sz (p + hole_sz) + blk : Nat) : Int)
          (append_hole c ⟨p, min sz (p + hole_sz)⟩) := by
  have h1 : (p : Int) < to_int sz := by
    rw [to_int_of_lt sz (by omega)]
    exact_mod_cast hp
  have h2 : (if (p : Int) > 0 then to_uint (p : Int) else 0) = p := by
    rw [to_uint_of_nat p (by omega)]
    split_ifs with h
    · rfl
    · omega
  have h3 : to_uint ((p : Int) + (hole_sz : Int)) = p + hole_sz := by
    have := to_uint_of_nat (p + hole_sz) (by omega)
    rw [← this]
    push_cast
    rfl
  conv_lhs => unfold get_holes_loop
  rw [if_pos h1]
  simp only [h2, h3]
  rw [if_pos (show min sz (p + hole_sz) > p by omega),
    to_int_of_lt (min sz (p + hole_sz) + blk) (by omega)]

/-- The loop of `get_holes` started at a position `p ≥ 0` from which `j` full holes fit
before a last hole that reaches the end of the line: it appends the `j` full holes, each
followed by a block of `blk` pixels, and the last hole, and then stops. -/
theorem get_holes_loop_tail (sz hole_sz blk : Nat) (hsz : sz + blk < 2147483648)
    (hhs : 1 ≤ hole_sz) (hh : hole_sz ≤ sz) :
    ∀ (j fuel p : Nat) (c : Canvas), j + 1 ≤ fuel → p + j * (hole_sz + blk) < sz →
      sz ≤ p + j * (hole_sz + blk) + hole_sz →
      (get_holes_loop sz hole_sz blk fuel (p : Int) c).holes_count = c.holes_count + j + 1 ∧
      (∀ i, i < j → (get_holes_loop sz hole_sz blk fuel (p : Int) c).holes (c.holes_count + i)
        = ⟨p + i * (hole_sz + blk), p + i * (hole_sz + blk) + hole_sz⟩) ∧
      (get_holes_loop sz hole_sz blk fuel (p : Int) c).holes (c.holes_count + j)
        = ⟨p + j * (hole_sz + blk), sz⟩ ∧
      (∀ i, i < c.holes_count →
        (get_holes_loop sz hole_sz blk fuel (p : Int) c).holes i = c.holes i) := by
  intro j
  induction j with
  | zero =>
    intro fuel p c hf h1 h2
    obtain ⟨f, rfl⟩ : ∃ f, fuel = f + 1 := ⟨fuel - 1, by omega⟩
    rw [Nat.zero_mul, Nat.add_zero] at h1 h2
    rw [get_holes_loop_step sz hole_sz blk f p c hsz hhs h1 hh,
      show min sz (p + hole_sz) = sz by omega,
      get_holes_loop_done _ _ _ _ _ _ (by rw [to_int_of_lt sz (by omega)]; push_cast; omega)]
    refine ⟨rfl, fun i hi => absurd hi (Nat.not_lt_zero i), ?_, ?_⟩
    · show (if c.holes_count + 0 = c.holes_count then (⟨p, sz⟩ : Range)
        else c.holes (c.holes_count + 0)) = ⟨p + 0 * (hole_sz + blk), sz⟩
      rw [if_pos (Nat.add_zero _), Nat.zero_mul, Nat.add_zero]
    · intro i hi
      show (if i = c.holes_count then (⟨p, sz⟩ : Range) else c.holes i) = c.holes i
      rw [if_neg (by omega)]
  | succ j ih =>
    intro fuel p c hf h1 h2
    obtain ⟨f, rfl⟩ : ∃ f, fuel = f + 1 := ⟨fuel - 1, by omega⟩
    rw [Nat.succ_mul] at h1 h2
    rw [get_holes_loop_step sz hole_sz blk f p c hsz hhs (by omega) hh,
      show min sz (p + hole_sz) = p + hole_sz by omega]
    obtain ⟨r1, r2, r3, r4⟩ := ih f (p + hole_sz + blk) (append_hole c ⟨p, p + hole_sz⟩)
      (by omega) (by omega) (by omega)
    have hc : (append_hole c ⟨p, p + hole_sz⟩).holes_count = c.holes_count + 1 := rfl
    have hold : ∀ i, (append_hole c ⟨p, p + hole_sz⟩).holes i
        = if i = c.holes_count then (⟨p, p + hole_sz⟩ : Range) else c.holes i := fun i => rfl
    rw [hc] at r1 r2 r3 r4
    refine ⟨by rw [r1]; omega, ?_, ?_, ?_⟩
    · intro i hi
      cases i with
      | zero =>
        rw [Nat.add_zero, r4 _ (by omega), hold, if_pos rfl, Nat.zero_mul, Nat.add_zero]
      | succ i =>
        rw [show c.holes_count + (i + 1) = c.holes_count + 1 + i by omega, r2 i (by omega),
          Nat.succ_mul]
        congr 1 <;> omega
    · rw [show c.holes_count + (j + 1) = c.holes_count + 1 + j by omega, r3, Nat.succ_mul]
      congr 1
      omega
    · intro i hi
      rw [r4 i (by omega), hold, if_neg (by omega)]

/-- The first round of the loop of `get_holes`: `pos` starts half a hole before the line, so
the first hole is the half hole `[0, hole_sz − ⌊hole_sz / 2⌋)`. -/
theorem get_holes_loop_first (sz hole_sz blk f : Nat) (c : Canvas)
    (hsz : sz + blk < 2147483648) (hhs : 2 ≤ hole_sz) (hh : hole_sz ≤ sz) :
    get_holes_loop sz hole_sz blk (f + 1) (to_int (wsub 0 (hole_sz / 2))) c
      = get_holes_loop sz hole_sz blk f ((hole_sz - hole_sz / 2 + blk : Nat) : Int)
          (append_hole c ⟨0, hole_sz - hole_sz / 2⟩) := by
  have hpos : to_int (wsub 0 (hole_sz / 2)) = - ((hole_sz / 2 : Nat) : Int) := by
    unfold to_int wsub
    split_ifs <;> omega
  have h1 : - ((hole_sz / 2 : Nat) : Int) < to_int sz := by
    rw [to_int_of_lt sz (by omega)]
    omega
  have h2 : ¬ (- ((hole_sz / 2 : Nat) : Int) > 0) := by omega
  have h3 : to_uint (- ((hole_sz / 2 : Nat) : Int) + (hole_sz : Int))
      = hole_sz - hole_sz / 2 := by
    unfold to_uint
    omega
  rw [hpos]
  conv_lhs => unfold get_holes_loop
  rw [if_pos h1]
  simp only [if_neg h2, h3]
  rw [show min sz (hole_sz - hole_sz / 2) = hole_sz - hole_sz / 2 by omega,
    if_pos (show hole_sz - hole_sz / 2 > 0 by omega),
    to_int_of_lt (hole_sz - hole_sz / 2 + blk) (by omega)]

/-- The block between two holes when the line is `(num + 1) (hole_sz + b) + r` pixels long
with `r ≤ num`. -/
theorem individual_block_size_eq (sz hole_sz num b r : Nat)
    (hsz : sz = (num + 1) * (hole_sz + b) + r) (hb : 1 ≤ b) (hr : r < num + 1) :
    max 1 (minus sz ((num + 1) * hole_sz) / (num + 1)) = b := by
  have h1 : (num + 1) * (hole_sz + b) = (num + 1) * hole_sz + (num + 1) * b := Nat.mul_add _ _ _
  have h2 : minus sz ((num + 1) * hole_sz) = r + (num + 1) * b := by
    unfold minus
    split_ifs <;> omega
  rw [h2, Nat.add_mul_div_left _ _ (Nat.succ_pos num), Nat.div_eq_of_lt hr, Nat.zero_add]
  exact max_eq_right hb

/-- The holes of `get_holes` on a line of `sz = (num + 1) (hole_sz + b) + r` pixels, with
`hole_sz ≥ 2`, blocks of `b ≥ 1` pixels and a remainder `r ≤ num` of at most half a hole: a
half hole at the start, `num` full holes, and a last hole that reaches the end of the line. -/
theorem get_holes_exact (c : Canvas) (sz hole_sz num b r : Nat)
    (hsz : sz = (num + 1) * (hole_sz + b) + r) (hb : 1 ≤ b) (hr : r < num + 1)
    (hhs : 2 ≤ hole_sz) (hfit : r + hole_sz / 2 ≤ hole_sz) (hlt : sz < 1073741824) :
    (get_holes c sz hole_sz num).holes_count = c.holes_count + num + 2 ∧
    (get_holes c sz hole_sz num).holes c.holes_count = ⟨0, hole_sz - hole_sz / 2⟩ ∧
    (∀ k, 1 ≤ k → k ≤ num → (get_holes c sz hole_sz num).holes (c.holes_count + k)
      = ⟨k * (hole_sz + b) - hole_sz / 2, k * (hole_sz + b) - hole_sz / 2 + hole_sz⟩) ∧
    (get_holes c sz hole_sz num).holes (c.holes_count + num + 1)
      = ⟨(num + 1) * (hole_sz + b) - hole_sz / 2, sz⟩ ∧
    (∀ i, i < c.holes_count → (get_holes c sz hole_sz num).holes i = c.holes i) := by
  have hsm : (num + 1) * (hole_sz + b) = num * (hole_sz + b) + (hole_sz + b) := Nat.succ_mul _ _
  have hbs : b ≤ sz := by omega
  unfold get_holes
  dsimp only
  rw [individual_block_size_eq sz hole_sz num b r hsz hb hr,
    get_holes_loop_first sz hole_sz b sz c (by omega) hhs (by omega)]
  have hnum : num + 1 ≤ sz := by
    have : (num + 1) * 1 ≤ (num + 1) * (hole_sz + b) := Nat.mul_le_mul_left _ (by omega)
    omega
  obtain ⟨r1, r2, r3, r4⟩ := get_holes_loop_tail sz hole_sz b (by omega) (by omega) (by omega)
    num sz (hole_sz - hole_sz / 2 + b) (append_hole c ⟨0, hole_sz - hole_sz / 2⟩)
    hnum (by omega) (by omega)
  have hc : (append_hole c ⟨0, hole_sz - hole_sz / 2⟩).holes_count = c.holes_count + 1 := rfl
  have hold : ∀ i, (append_hole c ⟨0, hole_sz - hole_sz / 2⟩).holes i
      = if i = c.holes_count then (⟨0, hole_sz - hole_sz / 2⟩ : Range) else c.holes i :=
    fun i => rfl
  rw [hc] at r1 r2 r3 r4
  refine ⟨by rw [r1]; omega, ?_, ?_, ?_, ?_⟩
  · rw [r4 _ (by omega), hold, if_pos rfl]
  · intro k hk1 hk2
    obtain ⟨i, rfl⟩ : ∃ i, k = i + 1 := ⟨k - 1, by omega⟩
    rw [show c.holes_count + (i + 1) = c.holes_count + 1 + i by omega, r2 i (by omega),
      Nat.succ_mul]
    congr 1 <;> omega
  · rw [show c.holes_count + num + 1 = c.holes_count + 1 + num by omega, r3, hsm]
    congr 1
    omega
  · intro i hi
    rw [r4 i (by omega), hold, if_neg (by omega)]

/-- C25 fails on a line of 16 pixels with holes of `16 / 8 = 2` pixels and `num = 1` (the
dashed line U+254C): `get_holes` yields the three holes `[0, 1)`, `[7, 9)`, `[15, 16)`, which
leave the two filled segments `[1, 7)` and `[9, 15)`, not `num + 1 = 2` gaps and `num = 1`
filled segment. -/
theorem C25_counterexample :
    (get_holes (Canvas.init 0 16 16 1 96 96) 16 (16 / hole_factor) 1).holes_count = 3 ∧
    (get_holes (Canvas.init 0 16 16 1 96 96) 16 (16 / hole_factor) 1).holes 0 = ⟨0, 1⟩ ∧
    (get_holes (Canvas.init 0 16 16 1 96 96) 16 (16 / hole_factor) 1).holes 1 = ⟨7, 9⟩ ∧
    (get_holes (Canvas.init 0 16 16 1 96 96) 16 (16 / hole_factor) 1).holes 2 = ⟨15, 16⟩ ∧
    filled_segments (get_holes (Canvas.init 0 16 16 1 96 96) 16 (16 / hole_factor) 1) 16 = 2 ∧
    ¬ spec_holes_partition
      (get_holes (Canvas.init 0 16 16 1 96 96) 16 (16 / hole_factor) 1) 16 1 := by
  refine ⟨?_, ?_, ?_, ?_, ?_, ?_⟩ <;> decide

/-- C25 (amended): on a canvas with an empty holes list and a line of
`sz = (num + 1) (hole_sz + b) + r` pixels, with holes of `hole_sz ≥ 2` pixels, `b ≥ 1` and a
remainder `r ≤ num` of at most half a hole, `get_holes` yields `num + 2` holes: the half hole
`[0, hole_sz − ⌊hole_sz / 2⌋)` at the start, `num` full holes of `hole_sz` pixels and a last
hole that ends at `sz`.  Consecutive holes are separated by a filled segment of exactly `b`
pixels, so the line is partitioned into `num + 1` filled segments and `num + 2` gaps. -/
theorem C25_holes_partition (c : Canvas) (sz hole_sz num b r : Nat) (h0 : c.holes_count = 0)
    (hsz : sz = (num + 1) * (hole_sz + b) + r) (hb : 1 ≤ b) (hr : r < num + 1)
    (hhs : 2 ≤ hole_sz) (hfit : r + hole_sz / 2 ≤ hole_sz) (hlt : sz < 1073741824) :
    (get_holes c sz hole_sz num).holes_count = num + 2 ∧
    (get_holes c sz hole_sz num).holes 0 = ⟨0, hole_sz - hole_sz / 2⟩ ∧
    (∀ k, 1 ≤ k → k ≤ num → (get_holes c sz hole_sz num).holes k
      = ⟨k * (hole_sz + b) - hole_sz / 2, k * (hole_sz + b) - hole_sz / 2 + hole_sz⟩) ∧
    (get_holes c sz hole_sz num).holes (num + 1)
      = ⟨(num + 1) * (hole_sz + b) - hole_sz / 2, sz⟩ ∧
    (∀ k, k ≤ num → ((get_holes c sz hole_sz num).holes (k + 1)).start
      = ((get_holes c sz hole_sz num).holes k).end_ + b) ∧
    filled_segments (get_holes c sz hole_sz num) sz = num + 1 := by
  obtain ⟨r1, r2, r3, r4, _⟩ := get_holes_exact c sz hole_sz num b r hsz hb hr hhs hfit hlt
  rw [h0] at r1 r2 r3 r4
  simp only [Nat.zero_add] at r1 r2 r3 r4
  have hstart : ∀ k, k ≤ num → ((get_holes c sz hole_sz num).holes (k + 1)).start
      = (k + 1) * (hole_sz + b) - hole_sz / 2 := by
    intro k hk
    by_cases hkn : k + 1 ≤ num
    · rw [r3 (k + 1) (by omega) hkn]
    · have : k = num := by omega
      subst this
      rw [r4]
  have hend : ∀ k, k ≤ num → ((get_holes c sz hole_sz num).holes k).end_ + b
      = (k + 1) * (hole_sz + b) - hole_sz / 2 := by
    intro k hk
    rw [Nat.succ_mul]
    cases k with
    | zero =>
      rw [r2]
      show hole_sz - hole_sz / 2 + b = 0 * (hole_sz + b) + (hole_sz + b) - hole_sz / 2
      omega
    | succ k =>
      rw [r3 (k + 1) (by omega) hk]
      have : hole_sz + b ≤ (k + 1) * (hole_sz + b) := Nat.le_mul_of_pos_left _ (Nat.succ_pos k)
      show (k + 1) * (hole_sz + b) - hole_sz / 2 + hole_sz + b
        = (k + 1) * (hole_sz + b) + (hole_sz + b) - hole_sz / 2
      omega
  have hgap : ∀ k, k ≤ num → ((get_holes c sz hole_sz num).holes (k + 1)).start
      = ((get_holes c sz hole_sz num).holes k).end_ + b := by
    intro k hk
    rw [hstart k hk, hend k hk]
  refine ⟨r1, r2, r3, r4, hgap, ?_⟩
  unfold filled_segments
  rw [r1, if_neg (by omega), r2, show num + 2 - 1 = num + 1 by omega, r4]
  have hall : (List.range (num + 1)).filter (fun i =>
      decide (((get_holes c sz hole_sz num).holes i).end_
        < ((get_holes c sz hole_sz num).holes (i + 1)).start)) = List.range (num + 1) := by
    rw [List.filter_eq_self]
    intro i hi
    have hi2 : i ≤ num := by
      have := List.mem_range.1 hi
      omega
    rw [decide_eq_true_eq, hgap i hi2]
    omega
  rw [hall, List.length_range]
  simp

theorem C25_holes_partition_witness :
    (Canvas.init 0 16 16 1 96 96).holes_count = 0 ∧ 16 = (1 + 1) * (2 + 6) + 0 ∧
    (get_holes (Canvas.init 0 16 16 1 96 96) 16 2 1).holes_count = 1 + 2 ∧
    (get_holes (Canvas.init 0 16 16 1 96 96) 16 2 1).holes 0 = ⟨0, 2 - 2 / 2⟩ ∧
    (∀ k, 1 ≤ k → k ≤ 1 → (get_holes (Canvas.init 0 16 16 1 96 96) 16 2 1).holes k
      = ⟨k * (2 + 6) - 2 / 2, k * (2 + 6) - 2 / 2 + 2⟩) ∧
    (get_holes (Canvas.init 0 16 16 1 96 96) 16 2 1).holes (1 + 1)
      = ⟨(1 + 1) * (2 + 6) - 2 / 2, 16⟩ ∧
    (∀ k, k ≤ 1 → ((get_holes (Canvas.init 0 16 16 1 96 96) 16 2 1).holes (k + 1)).start
      = ((get_holes (Canvas.init 0 16 16 1 96 96) 16 2 1).holes k).end_ + 6) ∧
    filled_segments (get_holes (Canvas.init 0 16 16 1 96 96) 16 2 1) 16 = 1 + 1 :=
  ⟨rfl, by decide,
    C25_holes_partition (Canvas.init 0 16 16 1 96 96) 16 2 1 6 0 rfl (by decide) (by decide)
      (by decide) (by decide) (by decide) (by decide)⟩

/-! ## The branch-free `minus` (C39) and the scale table index (C37) -/

/-- C39: for all 32-bit unsigned `a` and `b`, the branch-free body of `minus` (subtraction
modulo `2^32`, then `res &= -(res <= a)`) returns `a − b` when `a > b` and 0 otherwise; it is
the saturating subtraction `minus` used throughout. -/
theorem C39_minus_saturates (a b : Nat) (ha : a < 4294967296) (hb : b < 4294967296) :
    minus_wrapping a b = (if a > b then a - b else 0) ∧ minus_wrapping a b = minus a b := by
  have key : minus_wrapping a b = (if a > b then a - b else 0) := by
    unfold minus_wrapping
    dsimp only
    by_cases h : b ≤ a
    · have hres : (a + (4294967296 - b % 4294967296)) % 4294967296 = a - b := by omega
      rw [hres, if_pos (Nat.sub_le a b)]
      have hm : (4294967296 - 1) % 4294967296 = 2 ^ 32 - 1 := by norm_num
      rw [hm, Nat.and_pow_two_sub_one_eq_mod]
      split_ifs <;> omega
    · have hres : ¬ (a + (4294967296 - b % 4294967296)) % 4294967296 ≤ a := by omega
      rw [if_neg hres]
      have hm : (4294967296 - 0) % 4294967296 = 0 := by norm_num
      rw [hm, Nat.and_zero, if_neg (by omega)]
  exact ⟨key, key⟩

theorem C39_minus_saturates_witness :
    (3 : Nat) < 4294967296 ∧ (5 : Nat) < 4294967296 ∧
    (minus_wrapping 3 5 = (if 3 > 5 then 3 - 5 else 0) ∧ minus_wrapping 3 5 = minus 3 5) :=
  ⟨by decide, by decide, C39_minus_saturates 3 5 (by decide) (by decide)⟩

/-- The read of the scale table in `thickness` is inside the table exactly for the levels
below the number of entries. -/
theorem thickness_checked_eq (o : Options) (c : Canvas) (level : Nat) (horizontal : Bool) :
    (level < o.box_drawing_scale_size →
      thickness_checked o c level horizontal = some (thickness o c level horizontal)) ∧
    (o.box_drawing_scale_size ≤ level → thickness_checked o c level horizontal = none) := by
  unfold thickness_checked thickness
  dsimp only
  constructor
  · intro h
    rw [if_pos (by omega)]
  · intro h
    rw [if_neg (by omega)]

/-- A strictly increasing sequence of boundaries `s 0 < s 1 < … < s n` splits `[s 0, s n)`
into cells: every `y` lies in exactly one of them. -/
theorem exists_unique_cell (s : Nat → Nat) :
    ∀ (n : Nat), (∀ k, k < n → s k < s (k + 1)) → ∀ y, s 0 ≤ y → y < s n →
      ∃ k, k < n ∧ s k ≤ y ∧ y < s (k + 1) ∧
        ∀ j, j < n → s j ≤ y → y < s (j + 1) → j = k := by
  have mono : ∀ (n : Nat), (∀ k, k < n → s k < s (k + 1)) → ∀ i j, i ≤ j → j ≤ n →
      s i ≤ s j := by
    intro n hm i j hij hjn
    induction j with
    | zero =>
      have : i = 0 := by omega
      rw [this]
    | succ j ih =>
      rcases Nat.eq_or_lt_of_le hij with h | h
      · rw [h]
      · have h1 := ih (by omega) (by omega)
        have h2 := hm j (by omega)
        omega
  intro n hm y h0 hn
  have hex : ∀ (m : Nat), m ≤ n → y < s m → ∃ k, k < m ∧ s k ≤ y ∧ y < s (k + 1) := by
    intro m
    induction m with
    | zero =>
      intro _ h
      omega
    | succ m ih =>
      intro hmn h
      by_cases hy : y < s m
      · obtain ⟨k, hk, h1, h2⟩ := ih (by omega) hy
        exact ⟨k, by omega, h1, h2⟩
      · exact ⟨m, by omega, by omega, h⟩
  obtain ⟨k, hk, h1, h2⟩ := hex n (le_refl n) hn
  refine ⟨k, hk, h1, h2, ?_⟩
  intro j hj hj1 hj2
  rcases Nat.lt_trichotomy j k with h | h | h
  · have := mono n hm (j + 1) k (by omega) (by omega)
    omega
  · exact h
  · have := mono n hm (k + 1) j (by omega) (by omega)
    omega

/-- C34: for every `size ≥ 8` the eight ranges of `eight_range` are non-empty and
consecutive and cover `[0, size)` exactly: range 0 starts at 0, each range ends where the next
starts and range 7 ends at `size`; every position below `size` lies in exactly one range. -/
theorem C34_eight_ranges_tile (size : Nat) (h8 : 8 ≤ size) :
    (eight_range size 0).start = 0 ∧
    (eight_range size 7).end_ = size ∧
    (∀ k, k < 8 → (eight_range size k).start < (eight_range size k).end_) ∧
    (∀ k, k < 7 → (eight_range size k).end_ = (eight_range size (k + 1)).start) ∧
    (∀ y, y < size → ∃ k, k < 8 ∧
      (eight_range size k).start ≤ y ∧ y < (eight_range size k).end_ ∧
      ∀ j, j < 8 → (eight_range size j).start ≤ y → y < (eight_range size j).end_ → j = k) := by
  obtain ⟨t, e, he, rfl⟩ : ∃ t e, e < 8 ∧ size = 8 * t + e :=
    ⟨size / 8, size % 8, Nat.mod_lt _ (by norm_num), (Nat.div_add_mod size 8).symm⟩
  have ht : 1 ≤ t := by omega
  have key := fun k hk => eight_range_ge8 t e k ht he hk
  have p1 : (eight_range (8 * t + e) 0).start = 0 := by
    rw [key 0 (by norm_num)]
    simp [widened_before]
  have p2 : (eight_range (8 * t + e) 7).end_ = 8 * t + e := by
    rw [key 7 (by norm_num)]
    dsimp only
    interval_cases e <;> simp [widened_before] <;> omega
  have p3 : ∀ k, k < 8 → (eight_range (8 * t + e) k).start < (eight_range (8 * t + e) k).end_ := by
    intro k hk
    rw [key k hk]
    dsimp only
    interval_cases e <;> interval_cases k <;> simp [widened_before] <;> omega
  have p4 : ∀ k, k < 7 →
      (eight_range (8 * t + e) k).end_ = (eight_range (8 * t + e) (k + 1)).start := by
    intro k hk
    rw [key k (by omega), key (k + 1) (by omega)]
  refine ⟨p1, p2, p3, p4, ?_⟩
  intro y hy
  obtain ⟨s, hs⟩ : ∃ s : Nat → Nat, s = fun k =>
      if k < 8 then (eight_range (8 * t + e) k).start else 8 * t + e := ⟨_, rfl⟩
  have hsk : ∀ k, k < 8 → s k = (eight_range (8 * t + e) k).start := by
    intro k hk
    rw [hs]
    exact if_pos hk
  have hse : ∀ k, k < 8 → s (k + 1) = (eight_range (8 * t + e) k).end_ := by
    intro k hk
    by_cases h7 : k < 7
    · rw [hsk (k + 1) (by omega), p4 k h7]
    · have : k = 7 := by omega
      subst this
      rw [hs, p2]
      exact if_neg (by norm_num)
  obtain ⟨k, hk, h1, h2, h3⟩ := exists_unique_cell s 8
    (fun k hk => by rw [hsk k hk, hse k hk]; exact p3 k hk) y
    (by rw [hsk 0 (by norm_num), p1]; exact Nat.zero_le y)
    (by rw [hse 7 (by norm_num), p2]; exact hy)
  refine ⟨k, hk, by rw [← hsk k hk]; exact h1, by rw [← hse k hk]; exact h2, ?_⟩
  intro j hj hj1 hj2
  exact h3 j hj (by rw [hsk j hj]; exact hj1) (by rw [hse j hj]; exact hj2)

theorem C34_eight_ranges_tile_witness :
    (8 : Nat) ≤ 19 ∧
    ((eight_range 19 0).start = 0 ∧
    (eight_range 19 7).end_ = 19 ∧
    (∀ k, k < 8 → (eight_range 19 k).start < (eight_range 19 k).end_) ∧
    (∀ k, k < 7 → (eight_range 19 k).end_ = (eight_range 19 (k + 1)).start) ∧
    (∀ y, y < 19 → ∃ k, k < 8 ∧
      (eight_range 19 k).start ≤ y ∧ y < (eight_range 19 k).end_ ∧
      ∀ j, j < 8 → (eight_range 19 j).start ≤ y → y < (eight_range 19 j).end_ → j = k)) :=
  ⟨by decide, C34_eight_ranges_tile 19 (by decide)⟩

/-! ## Fading lines (C38) -/

/-- Length of segment `i` of a fading line: the value of `sz` in `get_fading_lines`. -/
theorem fading_sz_le (step num i : Nat) :
    (if step > 2 ∧ step * (num - i) / (num + 1) ≥ step - 1 then step - 2
      else step * (num - i) / (num + 1)) ≤ step := by
  have h1 : step * (num - i) / (num + 1) ≤ step := by
    apply Nat.div_le_of_le_mul
    rw [Nat.mul_comm (num + 1) step]
    exact Nat.mul_le_mul_left _ (by omega)
  split_ifs <;> omega

/-- The loop of `get_fading_lines` for a line fading to the right or bottom (`dir = 1`):
segment `j` of the remaining ones starts `j` steps after `d1`. -/
theorem get_fading_lines_loop_right (step num : Nat) :
    ∀ (n i d1 : Nat), d1 + n * step < 2147483648 →
      (get_fading_lines_loop step num 1 n i d1).length = n ∧
      ∀ j, j < n → (get_fading_lines_loop step num 1 n i d1).getD j ⟨0, 0⟩
        = ⟨((d1 + j * step : Nat) : Int),
            ((d1 + j * step
              + (if step > 2 ∧ step * (num - (i + j)) / (num + 1) ≥ step - 1 then step - 2
                  else step * (num - (i + j)) / (num + 1)) : Nat) : Int)⟩ := by
  intro n
  induction n with
  | zero =>
    intro i d1 _
    exact ⟨rfl, fun j hj => absurd hj (Nat.not_lt_zero j)⟩
  | succ n ih =>
    intro i d1 hb
    rw [Nat.succ_mul] at hb
    have hsz := fading_sz_le step num i
    obtain ⟨sz, hszdef⟩ : ∃ sz, sz = (if step > 2 ∧ step * (num - i) / (num + 1) ≥ step - 1
        then step - 2 else step * (num - i) / (num + 1)) := ⟨_, rfl⟩
    rw [← hszdef] at hsz
    have hnext : to_uint ((d1 : Int) + (step : Int) * 1) = d1 + step := by
      unfold to_uint
      omega
    have hd2 : ¬ ((d1 : Int) + 1 * (sz : Int) < 0) := by omega
    have hle : d1 ≤ to_uint ((d1 : Int) + 1 * (sz : Int)) := by
      unfold to_uint
      omega
    obtain ⟨l1, l2⟩ := ih (i + 1) (d1 + step) (by omega)
    unfold get_fading_lines_loop
    simp only [← hszdef, if_neg hd2, if_pos hle, hnext]
    refine ⟨by rw [List.length_cons, l1], ?_⟩
    intro j hj
    cases j with
    | zero =>
      rw [List.getD_cons_zero, Nat.zero_mul, Nat.add_zero, Nat.add_zero, ← hszdef]
      congr 1
      push_cast
      ring
    | succ j =>
      rw [List.getD_cons_succ, l2 j (by omega), Nat.succ_mul]
      rw [show i + 1 + j = i + (j + 1) by omega, show d1 + step + j * step = d1 + (j * step + step) by omega]

/-- The loop of `get_fading_lines` for a line fading to the left or top (`dir = -1`):
segment `j` of the remaining ones ends `j` steps before `d1`. -/
theorem get_fading_lines_loop_left (step num : Nat) :
    ∀ (n i d1 : Nat), n * step ≤ d1 → d1 < 2147483648 →
      (get_fading_lines_loop step num (-1) n i d1).length = n ∧
      ∀ j, j < n → (get_fading_lines_loop step num (-1) n i d1).getD j ⟨0, 0⟩
        = ⟨((d1 - j * step
              - (if step > 2 ∧ step * (num - (i + j)) / (num + 1) ≥ step - 1 then step - 2
                  else step * (num - (i + j)) / (num + 1)) : Nat) : Int),
            ((d1 - j * step : Nat) : Int)⟩ := by
  intro n
  induction n with
  | zero =>
    intro i d1 _ _
    exact ⟨rfl, fun j hj => absurd hj (Nat.not_lt_zero j)⟩
  | succ n ih =>
    intro i d1 hb hlt
    rw [Nat.succ_mul] at hb
    have hsz := fading_sz_le step num i
    obtain ⟨sz, hszdef⟩ : ∃ sz, sz = (if step > 2 ∧ step * (num - i) / (num + 1) ≥ step - 1
        then step - 2 else step * (num - i) / (num + 1)) := ⟨_, rfl⟩
    rw [← hszdef] at hsz
    have hnext : to_uint ((d1 : Int) + (step : Int) * (-1)) = d1 - step := by
      unfold to_uint
      omega
    have hd2 : ¬ ((d1 : Int) + (-1) * (sz : Int) < 0) := by omega
    have hu : to_uint ((d1 : Int) + (-1) * (sz : Int)) = d1 - sz := by
      unfold to_uint
      omega
    obtain ⟨l1, l2⟩ := ih (i + 1) (d1 - step) (by omega) (by omega)
    unfold get_fading_lines_loop
    simp only [← hszdef, if_neg hd2, hu, hnext]
    refine ⟨by rw [List.length_cons, l1], ?_⟩
    intro j hj
    cases j with
    | zero =>
      rw [List.getD_cons_zero, Nat.zero_mul, Nat.sub_zero, Nat.add_zero, ← hszdef]
      by_cases h0 : d1 ≤ d1 - sz
      · rw [if_pos h0]
        have : sz = 0 := by omega
        subst this
        congr 1
      · rw [if_neg h0]
        congr 1
        omega
    | succ j =>
      rw [List.getD_cons_succ, l2 j (by omega), Nat.succ_mul]
      rw [show i + 1 + j = i + (j + 1) by omega,
        show d1 - step - j * step = d1 - (j * step + step) by omega]

/-- C38: for every total length (below `2^31`, the range of the `int` positions) and every
`num ≥ 1`, segment `i < num` of `get_fading_lines(total, num, LEFT_EDGE)` is the mirror image of
segment `i` of `get_fading_lines(total, num, RIGHT_EDGE)`: if the latter is `[a, b)` the former
is `[total − b, total − a)`; both lists hold `num` segments and every segment lies within
`[0, total]`. -/
theorem C38_fading_lines_mirror (total num i : Nat) (ht : total < 2147483648)
    (hi : i < num) :
    ((get_fading_lines total num LEFT_EDGE).getD i ⟨0, 0⟩).x
      = (total : Int) - ((get_fading_lines total num RIGHT_EDGE).getD i ⟨0, 0⟩).y ∧
    ((get_fading_lines total num LEFT_EDGE).getD i ⟨0, 0⟩).y
      = (total : Int) - ((get_fading_lines total num RIGHT_EDGE).getD i ⟨0, 0⟩).x ∧
    0 ≤ ((get_fading_lines total num RIGHT_EDGE).getD i ⟨0, 0⟩).x ∧
    ((get_fading_lines total num RIGHT_EDGE).getD i ⟨0, 0⟩).x
      ≤ ((get_fading_lines total num RIGHT_EDGE).getD i ⟨0, 0⟩).y ∧
    ((get_fading_lines total num RIGHT_EDGE).getD i ⟨0, 0⟩).y ≤ (total : Int) ∧
    0 ≤ ((get_fading_lines total num LEFT_EDGE).getD i ⟨0, 0⟩).x ∧
    ((get_fading_lines total num LEFT_EDGE).getD i ⟨0, 0⟩).x
      ≤ ((get_fading_lines total num LEFT_EDGE).getD i ⟨0, 0⟩).y ∧
    ((get_fading_lines total num LEFT_EDGE).getD i ⟨0, 0⟩).y ≤ (total : Int) ∧
    (get_fading_lines total num LEFT_EDGE).length = num ∧
    (get_fading_lines total num RIGHT_EDGE).length = num := by
  have hstep : num * (total / num) ≤ total := Nat.mul_div_le total num
  have hR : get_fading_lines total num RIGHT_EDGE
      = get_fading_lines_loop (total / num) num 1 num 0 0 := by
    unfold get_fading_lines
    have : (decide (RIGHT_EDGE = LEFT_EDGE) || decide (RIGHT_EDGE = TOP_EDGE)) = false := by
      decide
    simp only [this, Bool.false_eq_true, if_false]
  have hL : get_fading_lines total num LEFT_EDGE
      = get_fading_lines_loop (total / num) num (-1) num 0 total := by
    unfold get_fading_lines
    simp only [decide_True, Bool.true_or, if_true]
  obtain ⟨r1, r2⟩ := get_fading_lines_loop_right (total / num) num num 0 0 (by omega)
  obtain ⟨l1, l2⟩ := get_fading_lines_loop_left (total / num) num num 0 total hstep ht
  have hsz := fading_sz_le (total / num) num (0 + i)
  have hi1 : (i + 1) * (total / num) ≤ num * (total / num) := Nat.mul_le_mul_right _ hi
  rw [Nat.succ_mul] at hi1
  rw [hR, hL, r2 i hi, l2 i hi]
  dsimp only
  refine ⟨?_, ?_, ?_, ?_, ?_, ?_, ?_, ?_, l1, r1⟩ <;> omega

theorem C38_fading_lines_mirror_witness :
    (20 : Nat) < 2147483648 ∧ (1 : Nat) < 3 ∧
    (((get_fading_lines 20 3 LEFT_EDGE).getD 1 ⟨0, 0⟩).x
      = ((20 : Nat) : Int) - ((get_fading_lines 20 3 RIGHT_EDGE).getD 1 ⟨0, 0⟩).y ∧
    ((get_fading_lines 20 3 LEFT_EDGE).getD 1 ⟨0, 0⟩).y
      = ((20 : Nat) : Int) - ((get_fading_lines 20 3 RIGHT_EDGE).getD 1 ⟨0, 0⟩).x ∧
    0 ≤ ((get_fading_lines 20 3 RIGHT_EDGE).getD 1 ⟨0, 0⟩).x ∧
    ((get_fading_lines 20 3 RIGHT_EDGE).getD 1 ⟨0, 0⟩).x
      ≤ ((get_fading_lines 20 3 RIGHT_EDGE).getD 1 ⟨0, 0⟩).y ∧
    ((get_fading_lines 20 3 RIGHT_EDGE).getD 1 ⟨0, 0⟩).y ≤ ((20 : Nat) : Int) ∧
    0 ≤ ((get_fading_lines 20 3 LEFT_EDGE).getD 1 ⟨0, 0⟩).x ∧
    ((get_fading_lines 20 3 LEFT_EDGE).getD 1 ⟨0, 0⟩).x
      ≤ ((get_fading_lines 20 3 LEFT_EDGE).getD 1 ⟨0, 0⟩).y ∧
    ((get_fading_lines 20 3 LEFT_EDGE).getD 1 ⟨0, 0⟩).y ≤ ((20 : Nat) : Int) ∧
    (get_fading_lines 20 3 LEFT_EDGE).length = 3 ∧
    (get_fading_lines 20 3 RIGHT_EDGE).length = 3) :=
  ⟨by decide, by decide, C38_fading_lines_mirror 20 3 1 (by decide) (by decide)⟩

/-! ## Holes of the dashed horizontal line (C36) -/

/-- C36 at two failing inputs.  First the dashed line U+254C on a blank cell of 16 × 20 pixels
at 96 × 192 dpi: `hline` draws a band of `thickness(1, false) = 3` rows (rows 9 to 11), while
`add_hholes` clears the holes on the rows below `start + thickness(1, true) = 9 + 2`, so in row
11 the hole `[7, 9)` is still filled.  Second the same glyph on a cell of 16 × 2 pixels at 288
dpi: `add_hholes` clears the rows 0 to 3 of a canvas of 2 rows, so the byte of row 2, column 0,
which lies behind the canvas, is overwritten with 0. -/
theorem C36_holes_do_not_match_line :
    thickness sample_options (Canvas.init 0 16 20 1 96 192) 1 false = 3 ∧
    thickness sample_options (Canvas.init 0 16 20 1 96 192) 1 true = 2 ∧
    (hholes sample_options (Canvas.init 0 16 20 1 96 192) 1 1 (fun _ => 0)).1.holes 1 = ⟨7, 9⟩ ∧
    (Canvas.init 0 16 20 1 96 192).pixel
      (render_box_char sample_options 0x254C 0 16 20 96 192 (fun _ => 0)) 7 11 = 255 ∧
    (Canvas.init 0 16 20 1 96 192).pixel
      (render_box_char sample_options 0x254C 0 16 20 96 192 (fun _ => 0)) 7 10 = 0 ∧
    (hholes sample_options (Canvas.init 0 16 2 1 288 288) 1 1 (fun _ => 7)).1.holes 0 = ⟨0, 1⟩ ∧
    render_box_char sample_options 0x254C 0 16 2 288 288 (fun _ => 7) (0 + 16 * 2 + 0) = 0 := by
  refine ⟨?_, ?_, ?_, ?_, ?_, ?_, ?_⟩ <;> decide!

/-! ## Termination and order of the holes (C35) -/

/-- One round of the loop of `get_holes` at a position `p ≥ 0` inside the line, for any hole
size. -/
theorem get_holes_loop_step_any (sz hole_sz blk f p : Nat) (c : Canvas)
    (hsz : sz + blk < 2147483648) (hh : sz + hole_sz ≤ 4294967296) (hp : p < sz) :
    get_holes_loop sz hole_sz blk (f + 1) (p : Int) c
      = get_holes_loop sz hole_sz blk f ((min sz (p + hole_sz) + blk : Nat) : Int)
          (if min sz (p + hole_sz) > p then append_hole c ⟨p, min sz (p + hole_sz)⟩ else c) := by
  have h1 : (p : Int) < to_int sz := by
    rw [to_int_of_lt sz (by omega)]
    exact_mod_cast hp
  have h2 : (if (p : Int) > 0 then to_uint (p : Int) else 0) = p := by
    rw [to_uint_of_nat p (by omega)]
    split_ifs with h
    · rfl
    · omega
  have h3 : to_uint ((p : Int) + (hole_sz : Int)) = p + hole_sz := by
    have := to_uint_of_nat (p + hole_sz) (by omega)
    rw [← this]
    push_cast
    rfl
  conv_lhs => unfold get_holes_loop
  rw [if_pos h1]
  simp only [h2, h3]
  rw [to_int_of_lt (min sz (p + hole_sz) + blk) (by omega)]

/-- The first round of the loop of `get_holes` when half a hole is at least one pixel. -/
theorem get_holes_loop_first_any (sz hole_sz blk f : Nat) (c : Canvas)
    (hsz : sz + blk < 2147483648) (hhs : 2 ≤ hole_sz) (hh : hole_sz < 4294967296) :
    get_holes_loop sz hole_sz blk (f + 1) (to_int (wsub 0 (hole_sz / 2))) c
      = get_holes_loop sz hole_sz blk f ((min sz (hole_sz - hole_sz / 2) + blk : Nat) : Int)
          (if min sz (hole_sz - hole_sz / 2) > 0
            then append_hole c ⟨0, min sz (hole_sz - hole_sz / 2)⟩ else c) := by
  have hpos : to_int (wsub 0 (hole_sz / 2)) = - ((hole_sz / 2 : Nat) : Int) := by
    unfold to_int wsub
    split_ifs <;> omega
  have h1 : - ((hole_sz / 2 : Nat) : Int) < to_int sz := by
    rw [to_int_of_lt sz (by omega)]
    omega
  have h2 : ¬ (- ((hole_sz / 2 : Nat) : Int) > 0) := by omega
  have h3 : to_uint (- ((hole_sz / 2 : Nat) : Int) + (hole_sz : Int))
      = hole_sz - hole_sz / 2 := by
    unfold to_uint
    omega
  rw [hpos]
  conv_lhs => unfold get_holes_loop
  rw [if_pos h1]
  simp only [if_neg h2, h3]
  rw [to_int_of_lt (min sz (hole_sz - hole_sz / 2) + blk) (by omega)]

/-- Appending a hole that starts at `p` and is not empty keeps the holes ordered. -/
theorem holes_ordered_append (c : Canvas) (n0 sz p e q : Nat)
    (h : holes_ordered c n0 sz p) (hpe : p < e) (hes : e ≤ sz) (heq : e + 1 ≤ q) :
    holes_ordered (append_hole c ⟨p, e⟩) n0 sz q := by
  obtain ⟨h1, h2⟩ := h
  have hc : (append_hole c ⟨p, e⟩).holes_count = c.holes_count + 1 := rfl
  have hold : ∀ i, (append_hole c ⟨p, e⟩).holes i
      = if i = c.holes_count then (⟨p, e⟩ : Range) else c.holes i := fun i => rfl
  constructor
  · intro i hi1 hi2
    rw [hc] at hi2
    rw [hold]
    by_cases hi : i = c.holes_count
    · rw [if_pos hi]
      exact ⟨hpe, hes, heq⟩
    · rw [if_neg hi]
      obtain ⟨a1, a2, a3⟩ := h1 i hi1 (by omega)
      exact ⟨a1, a2, by omega⟩
  · intro i hi1 hi2
    rw [hc] at hi2
    rw [hold, hold, if_neg (by omega)]
    by_cases hi : i + 1 = c.holes_count
    · rw [if_pos hi]
      exact (h1 i hi1 (by omega)).2.2
    · rw [if_neg hi]
      exact h2 i hi1 (by omega)

theorem holes_ordered_mono (c : Canvas) (n0 sz p q : Nat) (h : holes_ordered c n0 sz p)
    (hpq : p ≤ q) : holes_ordered c n0 sz q := by
  obtain ⟨h1, h2⟩ := h
  refine ⟨fun i hi1 hi2 => ?_, h2⟩
  obtain ⟨a1, a2, a3⟩ := h1 i hi1 hi2
  exact ⟨a1, a2, by omega⟩

/-- The loop of `get_holes` keeps the holes ordered, whatever the iteration bound. -/
theorem get_holes_loop_ordered (sz hole_sz blk n0 : Nat) (hsz : sz + blk < 2147483648)
    (hh : sz + hole_sz ≤ 4294967296) (hb : 1 ≤ blk) :
    ∀ (fuel p : Nat) (c : Canvas), n0 ≤ c.holes_count → holes_ordered c n0 sz p →
      c.holes_count ≤ (get_holes_loop sz hole_sz blk fuel (p : Int) c).holes_count ∧
      (∀ i, i < c.holes_count →
        (get_holes_loop sz hole_sz blk fuel (p : Int) c).holes i = c.holes i) ∧
      ∃ q, holes_ordered (get_holes_loop sz hole_sz blk fuel (p : Int) c) n0 sz q := by
  intro fuel
  induction fuel with
  | zero =>
    intro p c _ h
    exact ⟨le_refl _, fun i _ => rfl, p, h⟩
  | succ f ih =>
    intro p c hn h
    by_cases hp : p < sz
    · rw [get_holes_loop_step_any sz hole_sz blk f p c hsz hh hp]
      by_cases ha : min sz (p + hole_sz) > p
      · rw [if_pos ha]
        obtain ⟨r1, r2, r3⟩ := ih (min sz (p + hole_sz) + blk)
          (append_hole c ⟨p, min sz (p + hole_sz)⟩)
          (show n0 ≤ c.holes_count + 1 by omega)
          (holes_ordered_append c n0 sz p _ _ h ha (Nat.min_le_left _ _) (by omega))
        have hc : (append_hole c ⟨p, min sz (p + hole_sz)⟩).holes_count
            = c.holes_count + 1 := rfl
        rw [hc] at r1 r2
        refine ⟨by omega, ?_, r3⟩
        intro i hi
        rw [r2 i (by omega)]
        show (if i = c.holes_count then _ else c.holes i) = c.holes i
        rw [if_neg (by omega)]
      · rw [if_neg ha]
        exact ih _ c hn (holes_ordered_mono c n0 sz p _ h (by omega))
    · rw [get_holes_loop_done _ _ _ _ _ _ (by rw [to_int_of_lt sz (by omega)]; omega)]
      exact ⟨le_refl _, fun i _ => rfl, p, h⟩

/-- The loop of `get_holes` leaves through its test within `sz − p` rounds: every larger
iteration bound gives the same canvas. -/
theorem get_holes_loop_fuel (sz hole_sz blk : Nat) (hsz : sz + blk < 2147483648)
    (hh : sz + hole_sz ≤ 4294967296) (hb : 1 ≤ blk) :
    ∀ (n p f : Nat) (c : Canvas), sz ≤ p + n → n ≤ f →
      get_holes_loop sz hole_sz blk f (p : Int) c
        = get_holes_loop sz hole_sz blk n (p : Int) c := by
  intro n
  induction n with
  | zero =>
    intro p f c hp _
    have hd : ¬ (p : Int) < to_int sz := by
      rw [to_int_of_lt sz (by omega)]
      omega
    rw [get_holes_loop_done _ _ _ _ _ _ hd, get_holes_loop_done _ _ _ _ _ _ hd]
  | succ n ih =>
    intro p f c hp hf
    by_cases hps : p < sz
    · obtain ⟨g, rfl⟩ : ∃ g, f = g + 1 := ⟨f - 1, by omega⟩
      rw [get_holes_loop_step_any sz hole_sz blk g p c hsz hh hps,
        get_holes_loop_step_any sz hole_sz blk n p c hsz hh hps]
      exact ih _ g _ (by omega) (by omega)
    · have hd : ¬ (p : Int) < to_int sz := by
        rw [to_int_of_lt sz (by omega)]
        omega
      rw [get_holes_loop_done _ _ _ _ _ _ hd, get_holes_loop_done _ _ _ _ _ _ hd]

/-- Ordered holes are pairwise disjoint and increasing. -/
theorem holes_ordered_pairwise (c : Canvas) (n0 sz q : Nat) (h : holes_ordered c n0 sz q) :
    ∀ j i, n0 ≤ i → i < j → j < c.holes_count →
      (c.holes i).end_ + 1 ≤ (c.holes j).start := by
  obtain ⟨h1, h2⟩ := h
  intro j
  induction j with
  | zero =>
    intro i _ hij _
    omega
  | succ j ih =>
    intro i hi hij hj
    by_cases he : i = j
    · subst he
      exact h2 i hi hj
    · have a := ih i hi (by omega) (by omega)
      have b := (h1 j (by omega) (by omega)).1
      have d := h2 j (by omega) hj
      omega

/-- The block between two holes is at least one pixel and at most the line. -/
theorem individual_block_size_bounds (sz all num : Nat) :
    1 ≤ max 1 (minus sz all / (num + 1)) ∧ max 1 (minus sz all / (num + 1)) ≤ max 1 sz := by
  have h1 : minus sz all ≤ sz := by
    unfold minus
    split_ifs <;> omega
  have h2 : minus sz all / (num + 1) ≤ minus sz all := Nat.div_le_self _ _
  omega

/-- C35 (amended): for every `sz`, hole size and `num` such that `sz` plus the block
`max(1, floor((sz − (num+1)·hole_sz) / (num+1)))` stays below `2^31` (true whenever
`sz < 2^30`), `sz + hole_sz ≤ 2^32` and `(num+1)·hole_sz` does not overflow, `get_holes`
terminates (within `sz + 1` rounds: every larger iteration bound gives the same result), it
only appends holes, and the holes it appends are non-empty, lie within `[0, sz)` and are
pairwise disjoint and increasing, each starting at least one pixel after the end of every
earlier one. -/
theorem C35_get_holes_ordered (c : Canvas) (sz hole_sz num : Nat)
    (hsz : sz + max 1 (minus sz ((num + 1) * hole_sz) / (num + 1)) < 2147483648)
    (hh : sz + hole_sz ≤ 4294967296) (hov : (num + 1) * hole_sz < 4294967296) :
    (∀ fuel, sz + 1 ≤ fuel →
      get_holes_loop sz hole_sz (max 1 (minus sz ((num + 1) * hole_sz) / (num + 1))) fuel
        (to_int (wsub 0 (hole_sz / 2))) c = get_holes c sz hole_sz num) ∧
    c.holes_count ≤ (get_holes c sz hole_sz num).holes_count ∧
    (∀ i, i < c.holes_count → (get_holes c sz hole_sz num).holes i = c.holes i) ∧
    (∀ i, c.holes_count ≤ i → i < (get_holes c sz hole_sz num).holes_count →
      ((get_holes c sz hole_sz num).holes i).start < ((get_holes c sz hole_sz num).holes i).end_ ∧
      ((get_holes c sz hole_sz num).holes i).end_ ≤ sz) ∧
    (∀ i j, c.holes_count ≤ i → i < j → j < (get_holes c sz hole_sz num).holes_count →
      ((get_holes c sz hole_sz num).holes i).end_ + 1
        ≤ ((get_holes c sz hole_sz num).holes j).start) := by
  obtain ⟨blk, hblk⟩ : ∃ blk, blk = max 1 (minus sz ((num + 1) * hole_sz) / (num + 1)) :=
    ⟨_, rfl⟩
  have hb := (individual_block_size_bounds sz ((num + 1) * hole_sz) num).1
  have hhs32 : hole_sz < 4294967296 :=
    lt_of_le_of_lt (Nat.le_mul_of_pos_left hole_sz (Nat.succ_pos num)) hov
  rw [← hblk] at hsz hb
  have hdef : get_holes c sz hole_sz num
      = get_holes_loop sz hole_sz blk (sz + 1) (to_int (wsub 0 (hole_sz / 2))) c := by
    rw [hblk]
    rfl
  rw [← hblk, hdef]
  have h0 : holes_ordered c c.holes_count sz 0 :=
    ⟨fun i hi1 hi2 => absurd hi2 (by omega), fun i hi1 hi2 => absurd hi2 (by omega)⟩
  -- the loop from the first position, for every bound of at least `sz + 1`
  have key : ∃ (p : Nat) (c2 : Canvas), c.holes_count ≤ c2.holes_count ∧
      (∀ i, i < c.holes_count → c2.holes i = c.holes i) ∧
      holes_ordered c2 c.holes_count sz p ∧
      ∀ fuel, sz + 1 ≤ fuel →
        get_holes_loop sz hole_sz blk fuel (to_int (wsub 0 (hole_sz / 2))) c
          = get_holes_loop sz hole_sz blk sz (p : Int) c2 := by
    by_cases hhalf : 2 ≤ hole_sz
    · by_cases ha : min sz (hole_sz - hole_sz / 2) > 0
      · refine ⟨min sz (hole_sz - hole_sz / 2) + blk,
          append_hole c ⟨0, min sz (hole_sz - hole_sz / 2)⟩, Nat.le_succ _, ?_, ?_, ?_⟩
        · intro i hi
          show (if i = c.holes_count then _ else c.holes i) = c.holes i
          rw [if_neg (by omega)]
        · exact holes_ordered_append c _ sz 0 _ _ h0 ha (Nat.min_le_left _ _) (by omega)
        · intro fuel hf
          obtain ⟨g, rfl⟩ : ∃ g, fuel = g + 1 := ⟨fuel - 1, by omega⟩
          rw [get_holes_loop_first_any sz hole_sz blk g c hsz hhalf hhs32, if_pos ha]
          exact get_holes_loop_fuel sz hole_sz blk hsz hh hb sz _ g _ (by omega) (by omega)
      · refine ⟨min sz (hole_sz - hole_sz / 2) + blk, c, le_refl _, fun i _ => rfl, ?_, ?_⟩
        · exact holes_ordered_mono c _ sz 0 _ h0 (Nat.zero_le _)
        · intro fuel hf
          obtain ⟨g, rfl⟩ : ∃ g, fuel = g + 1 := ⟨fuel - 1, by omega⟩
          rw [get_holes_loop_first_any sz hole_sz blk g c hsz hhalf hhs32, if_neg ha]
          exact get_holes_loop_fuel sz hole_sz blk hsz hh hb sz _ g _ (by omega) (by omega)
    · refine ⟨0, c, le_refl _, fun i _ => rfl, h0, ?_⟩
      intro fuel hf
      have hz : hole_sz / 2 = 0 := by omega
      have hpos : to_int (wsub 0 (hole_sz / 2)) = ((0 : Nat) : Int) := by
        rw [hz]
        rfl
      rw [hpos]
      exact get_holes_loop_fuel sz hole_sz blk hsz hh hb sz 0 fuel c (by omega) (by omega)
  obtain ⟨p, c2, k1, k2, k3, k4⟩ := key
  obtain ⟨r1, r2, q, r3⟩ := get_holes_loop_ordered sz hole_sz blk c.holes_count hsz hh hb
    sz p c2 k1 k3
  rw [k4 (sz + 1) (le_refl _)]
  refine ⟨fun fuel hf => k4 fuel hf, by omega, ?_, ?_, ?_⟩
  · intro i hi
    rw [r2 i (by omega), k2 i hi]
  · intro i hi1 hi2
    obtain ⟨a1, a2, _⟩ := r3.1 i hi1 hi2
    exact ⟨a1, a2⟩
  · intro i j hi hij hj
    exact holes_ordered_pairwise _ _ sz q r3 j i hi hij hj

theorem C35_get_holes_ordered_witness :
    16 + max 1 (minus 16 ((1 + 1) * 2) / (1 + 1)) < 2147483648 ∧
    ((∀ fuel, 16 + 1 ≤ fuel →
      get_holes_loop 16 2 (max 1 (minus 16 ((1 + 1) * 2) / (1 + 1))) fuel
        (to_int (wsub 0 (2 / 2))) (Canvas.init 0 16 16 1 96 96)
        = get_holes (Canvas.init 0 16 16 1 96 96) 16 2 1) ∧
    (Canvas.init 0 16 16 1 96 96).holes_count
      ≤ (get_holes (Canvas.init 0 16 16 1 96 96) 16 2 1).holes_count ∧
    (∀ i, i < (Canvas.init 0 16 16 1 96 96).holes_count →
      (get_holes (Canvas.init 0 16 16 1 96 96) 16 2 1).holes i
        = (Canvas.init 0 16 16 1 96 96).holes i) ∧
    (∀ i, (Canvas.init 0 16 16 1 96 96).holes_count ≤ i →
      i < (get_holes (Canvas.init 0 16 16 1 96 96) 16 2 1).holes_count →
      ((get_holes (Canvas.init 0 16 16 1 96 96) 16 2 1).holes i).start
        < ((get_holes (Canvas.init 0 16 16 1 96 96) 16 2 1).holes i).end_ ∧
      ((get_holes (Canvas.init 0 16 16 1 96 96) 16 2 1).holes i).end_ ≤ 16) ∧
    (∀ i j, (Canvas.init 0 16 16 1 96 96).holes_count ≤ i → i < j →
      j < (get_holes (Canvas.init 0 16 16 1 96 96) 16 2 1).holes_count →
      ((get_holes (Canvas.init 0 16 16 1 96 96) 16 2 1).holes i).end_ + 1
        ≤ ((get_holes (Canvas.init 0 16 16 1 96 96) 16 2 1).holes j).start)) :=
  ⟨by decide,
    C35_get_holes_ordered (Canvas.init 0 16 16 1 96 96) 16 2 1 (by decide) (by decide)
      (by decide)⟩

/-- On a line of `2^31 − 1` pixels with holes of 2 pixels and `num = 0` the position of
`get_holes` comes back to `−4` after every round (`right + individual_block_size = 2^32 − 4`
read as an `int`): the round appends the hole `[0, sz)` and the loop never leaves. -/
theorem get_holes_loop_wraps (f : Nat) (c : Canvas) :
    get_holes_loop 2147483647 2 2147483645 (f + 1) (-4) c
      = get_holes_loop 2147483647 2 2147483645 f (-4) (append_hole c ⟨0, 2147483647⟩) := by
  have h1 : (-4 : Int) < to_int 2147483647 := by decide
  have h2 : ¬ ((-4 : Int) > 0) := by decide
  have h3 : min 2147483647 (to_uint (-4 + ((2 : Nat) : Int))) = 2147483647 := by decide
  have h4 : to_int (2147483647 + 2147483645) = -4 := by decide
  conv_lhs => unfold get_holes_loop
  rw [if_pos h1]
  simp only [if_neg h2, h3, h4]
  rw [if_pos (by decide)]

/-- With that position the loop uses up every iteration bound, appending a hole per round. -/
theorem get_holes_loop_forever :
    ∀ (fuel : Nat) (c : Canvas),
      (get_holes_loop 2147483647 2 2147483645 fuel (-4) c).holes_count = c.holes_count + fuel ∧
      (∀ i, i < c.holes_count →
        (get_holes_loop 2147483647 2 2147483645 fuel (-4) c).holes i = c.holes i) ∧
      (1 ≤ fuel → (get_holes_loop 2147483647 2 2147483645 fuel (-4) c).holes c.holes_count
        = ⟨0, 2147483647⟩) := by
  intro fuel
  induction fuel with
  | zero =>
    intro c
    exact ⟨rfl, fun i _ => rfl, fun h => absurd h (by omega)⟩
  | succ f ih =>
    intro c
    rw [get_holes_loop_wraps]
    obtain ⟨r1, r2, _⟩ := ih (append_hole c ⟨0, 2147483647⟩)
    have hc : (append_hole c ⟨0, 2147483647⟩).holes_count = c.holes_count + 1 := rfl
    have hold : ∀ i, (append_hole c ⟨0, 2147483647⟩).holes i
        = if i = c.holes_count then (⟨0, 2147483647⟩ : Range) else c.holes i := fun i => rfl
    rw [hc] at r1 r2
    refine ⟨by rw [r1]; omega, ?_, ?_⟩
    · intro i hi
      rw [r2 i (by omega), hold, if_neg (by omega)]
    · intro _
      rw [r2 _ (by omega), hold, if_pos rfl]

/-- The first two rounds of `get_holes` on that line. -/
theorem get_holes_wrap_start (f : Nat) (c : Canvas) :
    get_holes_loop 2147483647 2 2147483645 (f + 1 + 1) (-1) c
      = get_holes_loop 2147483647 2 2147483645 f (-4)
          (append_hole (append_hole c ⟨0, 1⟩) ⟨2147483646, 2147483647⟩) := by
  have h1 : (-1 : Int) < to_int 2147483647 := by decide
  have h2 : ¬ ((-1 : Int) > 0) := by decide
  have h3 : min 2147483647 (to_uint (-1 + ((2 : Nat) : Int))) = 1 := by decide
  have h4 : to_int (1 + 2147483645) = 2147483646 := by decide
  have g1 : (2147483646 : Int) < to_int 2147483647 := by decide
  have g2 : (2147483646 : Int) > 0 := by decide
  have g3 : to_uint (2147483646 : Int) = 2147483646 := by decide
  have g4 : min 2147483647 (to_uint (2147483646 + ((2 : Nat) : Int))) = 2147483647 := by decide
  have g5 : to_int (2147483647 + 2147483645) = -4 := by decide
  conv_lhs => unfold get_holes_loop
  rw [if_pos h1]
  simp only [if_neg h2, h3, h4]
  rw [if_pos (by decide)]
  conv_lhs => unfold get_holes_loop
  rw [if_pos g1]
  simp only [if_pos g2, g3, g4, g5]
  rw [if_pos (by decide)]

/-- C35 fails on a line of `sz = 2^31 − 1` pixels with holes of 2 pixels and `num = 0`, which
is within the stated range (`sz < 2^31`, `(num+1)·hole_sz = 2`): after the holes `[0, 1)` and
`[2^31 − 2, 2^31 − 1)` the position wraps to `−4`, the third hole is `[0, 2^31 − 1)`, which
starts before the second one ends and covers the first, and the loop does not terminate — it
uses up the whole iteration bound `sz + 1`, appending a hole in every round. -/
theorem C35_counterexample :
    (2147483647 : Nat) < 2147483648 ∧ (0 + 1) * 2 < 4294967296 ∧
    (get_holes (Canvas.init 0 2147483647 1 1 96 96) 2147483647 2 0).holes 0 = ⟨0, 1⟩ ∧
    (get_holes (Canvas.init 0 2147483647 1 1 96 96) 2147483647 2 0).holes 1
      = ⟨2147483646, 2147483647⟩ ∧
    (get_holes (Canvas.init 0 2147483647 1 1 96 96) 2147483647 2 0).holes 2
      = ⟨0, 2147483647⟩ ∧
    ¬ (((get_holes (Canvas.init 0 2147483647 1 1 96 96) 2147483647 2 0).holes 1).end_ + 1
      ≤ ((get_holes (Canvas.init 0 2147483647 1 1 96 96) 2147483647 2 0).holes 2).start) ∧
    (get_holes (Canvas.init 0 2147483647 1 1 96 96) 2147483647 2 0).holes_count
      = 2147483647 + 1 := by
  have hdef : get_holes (Canvas.init 0 2147483647 1 1 96 96) 2147483647 2 0
      = get_holes_loop 2147483647 2 2147483645 (2147483645 + 1 + 1 + 1) (-1)
          (Canvas.init 0 2147483647 1 1 96 96) := by
    unfold get_holes
    have b : max 1 (minus 2147483647 ((0 + 1) * 2) / (0 + 1)) = 2147483645 := by decide
    have p : to_int (wsub 0 (2 / 2)) = -1 := by decide
    simp only [b, p]
  obtain ⟨r1, r2, r3⟩ := get_holes_loop_forever (2147483645 + 1)
    (append_hole (append_hole (Canvas.init 0 2147483647 1 1 96 96) ⟨0, 1⟩)
      ⟨2147483646, 2147483647⟩)
  rw [hdef, get_holes_wrap_start]
  have e0 : (append_hole (append_hole (Canvas.init 0 2147483647 1 1 96 96) ⟨0, 1⟩)
      ⟨2147483646, 2147483647⟩).holes_count = 2 := rfl
  rw [e0] at r1 r2 r3
  refine ⟨by decide, by decide, ?_, ?_, ?_, ?_, ?_⟩
  · rw [r2 0 (by omega)]
    rfl
  · rw [r2 1 (by omega)]
    rfl
  · rw [r3 (by omega)]
  · rw [r2 1 (by omega), r3 (by omega)]
    decide
  · rw [r1]

/-! ## Stamps of a sampled curve (C32, C33) -/

/-- The macro `draw_parametrized_curve` returns the memory of its loop state. -/
theorem draw_parametrized_curve_eq_state (o : Options) (c : Canvas) (level : Nat)
    (xfunc yfunc : ℚ → ℚ) (m : Mem) :
    draw_parametrized_curve o c level xfunc yfunc m
      = (draw_parametrized_curve_state o c level xfunc yfunc m).2 := rfl

/-- A stamp writes 255 on its region and nothing else. -/
theorem stamp_point_paint (c : Canvas) (delta extra : Int) (p : Point) (m : Mem) (a : Nat) :
    (stamp_region c delta extra p a → stamp_point c delta extra p m a = 255) ∧
    (¬ stamp_region c delta extra p a → stamp_point c delta extra p m a = m a) := by
  unfold stamp_point stamp_region
  exact forLoop_paint
    (fun y m => memset m (c.mask + (y * c.width + to_uint (max 0 (p.x - delta)))) 255
      (minus (to_uint (min (p.x + delta + extra) ((c.width : Int))))
        (to_uint (max 0 (p.x - delta)))))
    (fun y a => c.mask + (y * c.width + to_uint (max 0 (p.x - delta))) ≤ a ∧
      a < c.mask + (y * c.width + to_uint (max 0 (p.x - delta)))
        + minus (to_uint (min (p.x + delta + extra) ((c.width : Int))))
            (to_uint (max 0 (p.x - delta)))) 255
    (fun y m a => by
      beta_reduce
      unfold memset
      exact ⟨fun h => by rw [if_pos h], fun h => by rw [if_neg h]⟩) m _ _ a

/-- A stamp on a memory that already holds 255 on the region changes nothing. -/
theorem stamp_point_idem (c : Canvas) (delta extra : Int) (p : Point) (m : Mem)
    (h : ∀ a, stamp_region c delta extra p a → m a = 255) :
    stamp_point c delta extra p m = m := by
  funext a
  by_cases hr : stamp_region c delta extra p a
  · rw [(stamp_point_paint c delta extra p m a).1 hr, h a hr]
  · exact (stamp_point_paint c delta extra p m a).2 hr

/-- The loop with the set of seen points, round by round: the points seen are the samples so
far, without repetition, and the memory is that of the loop that stamps every sample. -/
theorem curve_loop_invariant (c : Canvas) (delta extra : Int) (pt : Nat → Point) (m : Mem) :
    ∀ k, (∀ q, q ∈ (loopN (fun i (s : List Point × Mem) =>
          if pt i ∈ s.1 then s else (pt i :: s.1, stamp_point c delta extra (pt i) s.2))
          0 k ([], m)).1 ↔ ∃ i, i < k ∧ q = pt i) ∧
      (loopN (fun i (s : List Point × Mem) =>
          if pt i ∈ s.1 then s else (pt i :: s.1, stamp_point c delta extra (pt i) s.2))
          0 k ([], m)).1.Nodup ∧
      (loopN (fun i (s : List Point × Mem) =>
          if pt i ∈ s.1 then s else (pt i :: s.1, stamp_point c delta extra (pt i) s.2))
          0 k ([], m)).2
        = loopN (fun i m => stamp_point c delta extra (pt i) m) 0 k m := by
  intro k
  induction k with
  | zero =>
    refine ⟨fun q => ?_, List.nodup_nil, rfl⟩
    constructor
    · intro h
      exact absurd h (List.not_mem_nil q)
    · rintro ⟨i, hi, _⟩
      omega
  | succ k ih =>
    obtain ⟨h1, h2, h3⟩ := ih
    rw [loopN_succ, loopN_succ, Nat.zero_add]
    by_cases hm : pt k ∈ (loopN (fun i (s : List Point × Mem) =>
        if pt i ∈ s.1 then s else (pt i :: s.1, stamp_point c delta extra (pt i) s.2))
        0 k ([], m)).1
    · rw [if_pos hm]
      refine ⟨fun q => ?_, h2, ?_⟩
      · rw [h1 q]
        constructor
        · rintro ⟨i, hi, e⟩
          exact ⟨i, by omega, e⟩
        · rintro ⟨i, hi, e⟩
          by_cases hik : i = k
          · rw [e, hik]
            exact (h1 (pt k)).1 hm
          · exact ⟨i, by omega, e⟩
      · rw [h3]
        symm
        apply stamp_point_idem
        intro a ha
        obtain ⟨j, hj, e⟩ := (h1 (pt k)).1 hm
        apply (loopN_paint (fun i m => stamp_point c delta extra (pt i) m)
          (fun i a => stamp_region c delta extra (pt i) a) 255
          (fun i m a => stamp_point_paint c delta extra (pt i) m a) m 0 k a).1
        refine ⟨j, hj, ?_⟩
        rw [Nat.zero_add, ← e]
        exact ha
    · rw [if_neg hm]
      refine ⟨fun q => ?_, List.nodup_cons.2 ⟨hm, h2⟩, by rw [h3]⟩
      rw [List.mem_cons, h1 q]
      constructor
      · rintro (e | ⟨i, hi, e⟩)
        · exact ⟨k, by omega, e⟩
        · exact ⟨i, by omega, e⟩
      · rintro ⟨i, hi, e⟩
        by_cases hik : i = k
        · left
          rw [e, hik]
        · right
          exact ⟨i, by omega, e⟩

/-- C32: for every canvas, thickness and sequence of `8·height + 1` sample points, the set of
seen points of `draw_parametrized_curve` holds every sample point exactly once, so each
distinct point is stamped at most once, and the resulting memory equals the one obtained by
stamping every sample without the set: a stamp only writes 255, so leaving out repeated
stamps never changes the output. -/
theorem C32_dedup_is_invisible (o : Options) (c : Canvas) (level : Nat) (xfunc yfunc : ℚ → ℚ)
    (m : Mem) :
    draw_parametrized_curve o c level xfunc yfunc m
      = spec_curve_without_dedup o c level xfunc yfunc m ∧
    (draw_parametrized_curve_state o c level xfunc yfunc m).1.Nodup ∧
    (∀ q, q ∈ (draw_parametrized_curve_state o c level xfunc yfunc m).1
      ↔ ∃ i, i < c.height * 8 + 1 ∧ q = sample_point c xfunc yfunc i) ∧
    (draw_parametrized_curve_state o c level xfunc yfunc m).2
      = draw_parametrized_curve o c level xfunc yfunc m := by
  obtain ⟨h1, h2, h3⟩ := curve_loop_invariant c
    (((thickness o c level true : Nat) : Int) / 2) (((thickness o c level true : Nat) : Int) % 2)
    (sample_point c xfunc yfunc) m (c.height * 8 + 1)
  refine ⟨?_, h2, h1, rfl⟩
  rw [draw_parametrized_curve_eq_state]
  exact h3

/-- Where the stamp stays inside the canvas: when the right edge `p.x + delta + extra` of the
square is not negative (with `delta ≥ 0` and 32-bit coordinates), every byte a stamp
overwrites is a pixel of the canvas, in a row and column of the square; in particular nothing
is written when the square lies above, below or to the right of the canvas. -/
theorem stamp_point_within (c : Canvas) (delta extra : Int) (p : Point) (a : Nat)
    (hd : 0 ≤ delta) (hw : c.width < 2147483648) (hpx : p.x < 2147483648)
    (hx : 0 ≤ p.x + delta + extra) (hr : stamp_region c delta extra p a) :
    ∃ x y : Nat, x < c.width ∧ y < c.height ∧ a = c.mask + (y * c.width + x) ∧
      p.x - delta ≤ (x : Int) ∧ (x : Int) < p.x + delta + extra ∧
      p.y - delta ≤ (y : Int) ∧ (y : Int) < p.y + delta + extra := by
  obtain ⟨y, h1, h2, h3, h4⟩ := hr
  obtain ⟨s, hs⟩ : ∃ s, s = to_uint (max 0 (p.x - delta)) := ⟨_, rfl⟩
  obtain ⟨e, hedef⟩ : ∃ e, e = to_uint (min (p.x + delta + extra) ((c.width : Int))) :=
    ⟨_, rfl⟩
  rw [← hs] at h3 h4
  rw [← hedef] at h4
  have hs2 : (s : Int) = max 0 (p.x - delta) := by
    rw [hs]
    unfold to_uint
    omega
  have he2 : (e : Int) = min (p.x + delta + extra) ((c.width : Int)) := by
    rw [hedef]
    unfold to_uint
    omega
  have hlen : minus e s = e - s := by
    unfold minus
    split_ifs <;> omega
  rw [hlen] at h4
  have hxa : ((a - (c.mask + y * c.width) : Nat) : Int)
      = (a : Int) - ((c.mask : Int) + ((y * c.width : Nat) : Int)) := by omega
  refine ⟨a - (c.mask + y * c.width), y, by omega, by omega, by omega, by omega, by omega,
    by omega, by omega⟩

theorem log_floor_le (v : ℚ) (hv : v ≤ 500000) : Nat.log 2 ⌊v⌋₊ ≤ 18 := by
  have h1 : ⌊v⌋₊ ≤ 500000 := by
    have := Nat.floor_le_floor hv
    simpa using this
  have h2 : Nat.log 2 ⌊v⌋₊ ≤ Nat.log 2 500000 := Nat.log_mono_right h1
  have h3 : Nat.log 2 500000 < 19 := Nat.log_lt_of_lt_pow (by norm_num) (by norm_num)
  omega

/-- Halving a step that stays at least `1e-6` uses up one round of the bound. -/
theorem find_t_rounds_halve (s inc : ℚ) (h : ¬ inc / 2 < 1 / 1000000) :
    find_t_rounds s (inc / 2) + 1 ≤ find_t_rounds s inc := by
  unfold find_t_rounds
  have hv : (2 : ℚ) ≤ 1000000 * inc := by
    have := not_lt.1 h
    linarith
  have e : (1000000 : ℚ) * (inc / 2) = (1000000 * inc) / ((2 : Nat) : ℚ) := by
    push_cast
    ring
  rw [e, Nat.floor_div_nat, Nat.log_div_base]
  have h2 : 2 ≤ ⌊1000000 * inc⌋₊ := Nat.le_floor (by exact_mod_cast hv)
  have h3 : 0 < Nat.log 2 ⌊1000000 * inc⌋₊ := Nat.log_pos (by norm_num) h2
  omega

/-- Moving `start_t` forward by a step of at least `1e-6` uses up at least one round of the
bound. -/
theorem find_t_rounds_move (s inc : ℚ) (hs : 0 ≤ s) (hinc : 1 ≤ 1000000 * inc)
    (hlt : 0 < 1 / 2 - (s + inc)) :
    find_t_rounds (s + inc) (1 / 2 - (s + inc)) + 1 ≤ find_t_rounds s inc := by
  unfold find_t_rounds
  have hu : 0 ≤ (1000000 : ℚ) * (1 / 2 - (s + inc)) := by linarith
  have h1 : ⌊(1000000 : ℚ) * (1 / 2 - (s + inc))⌋₊ + 1 ≤ ⌊(1000000 : ℚ) * (1 / 2 - s)⌋₊ := by
    rw [← Nat.floor_add_one hu]
    apply Nat.floor_le_floor
    linarith
  have h2 := log_floor_le ((1000000 : ℚ) * (1 / 2 - (s + inc))) (by linarith)
  omega

/-- The loop of `find_t_for_x` from a state with `start_t + increment ≤ 1/2` whose step is
either the whole remaining distance or at least `1e-6`: it leaves through a `return` within
the rounds counted by `find_t_rounds` (every larger iteration bound gives the same value) and
what it returns is an outcome of the search. -/
theorem find_t_for_x_loop_spec (cb : CubicBezier) (x : Int) (s0 : ℚ) :
    ∀ (n : Nat) (s inc : ℚ), s0 ≤ s → 0 ≤ s → 0 < inc → s + inc ≤ 1 / 2 →
      (s + inc = 1 / 2 ∨ 1 ≤ 1000000 * inc) → find_t_rounds s inc < n →
      (∀ fuel, n ≤ fuel → find_t_for_x_loop cb x fuel s inc = find_t_for_x_loop cb x n s inc) ∧
      find_t_outcome cb x s0 (find_t_for_x_loop cb x n s inc) := by
  intro n
  induction n with
  | zero =>
    intro s inc _ _ _ _ _ h
    omega
  | succ n ih =>
    intro s inc h0 hs hinc hle hfresh hr
    have hstep : ∀ f, find_t_for_x_loop cb x (f + 1) s inc
        = if fabs (bezier_x cb (s + inc) - x) < 1 / 10 then s + inc
          else if bezier_x cb (s + inc) > x then
            (if inc / 2 < 1 / 1000000 then s else find_t_for_x_loop cb x f s (inc / 2))
          else (if 1 / 2 - (s + inc) ≤ 0 then s + inc
            else find_t_for_x_loop cb x f (s + inc) (1 / 2 - (s + inc))) := by
      intro f
      conv_lhs => unfold find_t_for_x_loop
    by_cases hclose : fabs (bezier_x cb (s + inc) - x) < 1 / 10
    · constructor
      · intro fuel hf
        obtain ⟨f, rfl⟩ : ∃ f, fuel = f + 1 := ⟨fuel - 1, by omega⟩
        rw [hstep, hstep, if_pos hclose, if_pos hclose]
      · rw [hstep, if_pos hclose]
        exact ⟨by linarith, hle, Or.inl hclose⟩
    · by_cases hq : bezier_x cb (s + inc) > x
      · by_cases hsmall : inc / 2 < 1 / 1000000
        · constructor
          · intro fuel hf
            obtain ⟨f, rfl⟩ : ∃ f, fuel = f + 1 := ⟨fuel - 1, by omega⟩
            rw [hstep, hstep, if_neg hclose, if_neg hclose, if_pos hq, if_pos hq,
              if_pos hsmall, if_pos hsmall]
          · rw [hstep, if_neg hclose, if_pos hq, if_pos hsmall]
            exact ⟨h0, by linarith, Or.inr (Or.inr ⟨inc, hinc, hsmall, hq, hclose⟩)⟩
        · have hdec := find_t_rounds_halve s inc hsmall
          have hge : (1 : ℚ) ≤ 1000000 * (inc / 2) := by
            have := not_lt.1 hsmall
            linarith
          obtain ⟨i1, i2⟩ := ih s (inc / 2) h0 hs (by linarith) (by linarith) (Or.inr hge)
            (by omega)
          constructor
          · intro fuel hf
            obtain ⟨f, rfl⟩ : ∃ f, fuel = f + 1 := ⟨fuel - 1, by omega⟩
            rw [hstep, hstep, if_neg hclose, if_neg hclose, if_pos hq, if_pos hq,
              if_neg hsmall, if_neg hsmall]
            exact i1 f (by omega)
          · rw [hstep, if_neg hclose, if_pos hq, if_neg hsmall]
            exact i2
      · by_cases hend : 1 / 2 - (s + inc) ≤ 0
        · constructor
          · intro fuel hf
            obtain ⟨f, rfl⟩ : ∃ f, fuel = f + 1 := ⟨fuel - 1, by omega⟩
            rw [hstep, hstep, if_neg hclose, if_neg hclose, if_neg hq, if_neg hq,
              if_pos hend, if_pos hend]
          · rw [hstep, if_neg hclose, if_neg hq, if_pos hend]
            exact ⟨by linarith, hle, Or.inr (Or.inl (by linarith))⟩
        · have hlt : 0 < 1 / 2 - (s + inc) := not_le.1 hend
          have hbig : 1 ≤ 1000000 * inc := by
            rcases hfresh with h | h
            · linarith
            · exact h
          have hdec := find_t_rounds_move s inc hs hbig hlt
          obtain ⟨i1, i2⟩ := ih (s + inc) (1 / 2 - (s + inc)) (by linarith) (by linarith) hlt
            (by linarith) (Or.inl (by ring)) (by omega)
          constructor
          · intro fuel hf
            obtain ⟨f, rfl⟩ : ∃ f, fuel = f + 1 := ⟨fuel - 1, by omega⟩
            rw [hstep, hstep, if_neg hclose, if_neg hclose, if_neg hq, if_neg hq,
              if_neg hend, if_neg hend]
            exact i1 f (by omega)
          · rw [hstep, if_neg hclose, if_neg hq, if_neg hend]
            exact i2
/-- C31: for every cubic Bézier, every integer target `x` and every `start_t` with
`0 ≤ start_t ≤ 1/2`, in exact arithmetic, `find_t_for_x` terminates — its loop leaves through
a `return` within the iteration bound, every larger bound giving the same value — and returns
a parameter `t` with `start_t ≤ t ≤ 1/2`; unless it gave up because the step fell below `1e-6`
or the search reached `t = 1/2`, the returned `t` satisfies `|bezier_x(t) − x| < 0.1`. -/
theorem C31_find_t_for_x (cb : CubicBezier) (x : Int) (start_t : ℚ) (h0 : 0 ≤ start_t)
    (h1 : start_t ≤ 1 / 2) :
    start_t ≤ find_t_for_x cb x start_t ∧ find_t_for_x cb x start_t ≤ 1 / 2 ∧
    (fabs (bezier_x cb (find_t_for_x cb x start_t) - x) < 1 / 10 ∨
      find_t_for_x cb x start_t = 1 / 2 ∨
      ∃ increment : ℚ, 0 < increment ∧ increment / 2 < 1 / 1000000 ∧
        bezier_x cb (find_t_for_x cb x start_t + increment) > x ∧
        ¬ fabs (bezier_x cb (find_t_for_x cb x start_t + increment) - x) < 1 / 10) ∧
    (∀ fuel, find_t_fuel ≤ fuel →
      find_t_for_x_loop cb x fuel start_t (1 / 2 - start_t)
        = find_t_for_x_loop cb x find_t_fuel start_t (1 / 2 - start_t)) := by
  have hloop : 0 < 1 / 2 - start_t →
      (∀ fuel, find_t_fuel ≤ fuel →
        find_t_for_x_loop cb x fuel start_t (1 / 2 - start_t)
          = find_t_for_x_loop cb x find_t_fuel start_t (1 / 2 - start_t)) ∧
      find_t_outcome cb x start_t
        (find_t_for_x_loop cb x find_t_fuel start_t (1 / 2 - start_t)) := by
    intro hpos
    apply find_t_for_x_loop_spec cb x start_t find_t_fuel start_t (1 / 2 - start_t)
      (le_refl _) h0 hpos (by linarith) (Or.inl (by ring))
    have a1 : ⌊(1000000 : ℚ) * (1 / 2 - start_t)⌋₊ ≤ 500000 := by
      have := Nat.floor_le_floor (show (1000000 : ℚ) * (1 / 2 - start_t) ≤ 500000 by linarith)
      simpa using this
    have a2 := log_floor_le ((1000000 : ℚ) * (1 / 2 - start_t)) (by linarith)
    unfold find_t_rounds find_t_fuel
    omega
  have hout : find_t_outcome cb x start_t (find_t_for_x cb x start_t) := by
    unfold find_t_for_x
    by_cases hc : fabs (bezier_x cb start_t - x) < 1 / 10
    · rw [if_pos hc]
      exact ⟨le_refl _, h1, Or.inl hc⟩
    · rw [if_neg hc]
      by_cases hi : 1 / 2 - start_t ≤ 0
      · simp only [if_pos hi]
        exact ⟨le_refl _, h1, Or.inr (Or.inl (by linarith))⟩
      · simp only [if_neg hi]
        exact (hloop (not_le.1 hi)).2
  refine ⟨hout.1, hout.2.1, hout.2.2, ?_⟩
  intro fuel hf
  by_cases hi : 0 < 1 / 2 - start_t
  · exact (hloop hi).1 fuel hf
  · have hs : start_t = 1 / 2 := by linarith
    have hz : (1 : ℚ) / 2 - start_t = 0 := by linarith
    rw [hz]
    have stop : ∀ f, find_t_for_x_loop cb x f start_t 0 = start_t := by
      intro f
      cases f with
      | zero => rfl
      | succ f =>
        conv_lhs => unfold find_t_for_x_loop
        simp only [add_zero, zero_div]
        split_ifs <;> first | rfl | linarith
    rw [stop, stop]

theorem C31_find_t_for_x_witness :
    (0 : ℚ) ≤ 1 / 4 ∧ (1 / 4 : ℚ) ≤ 1 / 2 ∧
    (1 / 4 ≤ find_t_for_x ⟨⟨0, 0⟩, ⟨10, 0⟩, ⟨10, 7⟩, ⟨0, 7⟩⟩ 3 (1 / 4) ∧
    find_t_for_x ⟨⟨0, 0⟩, ⟨10, 0⟩, ⟨10, 7⟩, ⟨0, 7⟩⟩ 3 (1 / 4) ≤ 1 / 2 ∧
    (fabs (bezier_x ⟨⟨0, 0⟩, ⟨10, 0⟩, ⟨10, 7⟩, ⟨0, 7⟩⟩
        (find_t_for_x ⟨⟨0, 0⟩, ⟨10, 0⟩, ⟨10, 7⟩, ⟨0, 7⟩⟩ 3 (1 / 4)) - ((3 : Int) : ℚ)) < 1 / 10 ∨
      find_t_for_x ⟨⟨0, 0⟩, ⟨10, 0⟩, ⟨10, 7⟩, ⟨0, 7⟩⟩ 3 (1 / 4) = 1 / 2 ∨
      ∃ increment : ℚ, 0 < increment ∧ increment / 2 < 1 / 1000000 ∧
        bezier_x ⟨⟨0, 0⟩, ⟨10, 0⟩, ⟨10, 7⟩, ⟨0, 7⟩⟩
          (find_t_for_x ⟨⟨0, 0⟩, ⟨10, 0⟩, ⟨10, 7⟩, ⟨0, 7⟩⟩ 3 (1 / 4) + increment)
            > ((3 : Int) : ℚ) ∧
        ¬ fabs (bezier_x ⟨⟨0, 0⟩, ⟨10, 0⟩, ⟨10, 7⟩, ⟨0, 7⟩⟩
          (find_t_for_x ⟨⟨0, 0⟩, ⟨10, 0⟩, ⟨10, 7⟩, ⟨0, 7⟩⟩ 3 (1 / 4) + increment)
            - ((3 : Int) : ℚ)) < 1 / 10) ∧
    (∀ fuel, find_t_fuel ≤ fuel →
      find_t_for_x_loop ⟨⟨0, 0⟩, ⟨10, 0⟩, ⟨10, 7⟩, ⟨0, 7⟩⟩ 3 fuel (1 / 4) (1 / 2 - 1 / 4)
        = find_t_for_x_loop ⟨⟨0, 0⟩, ⟨10, 0⟩, ⟨10, 7⟩, ⟨0, 7⟩⟩ 3 find_t_fuel (1 / 4)
            (1 / 2 - 1 / 4))) :=
  ⟨by norm_num, by norm_num,
    C31_find_t_for_x ⟨⟨0, 0⟩, ⟨10, 0⟩, ⟨10, 7⟩, ⟨0, 7⟩⟩ 3 (1 / 4) (by norm_num) (by norm_num)⟩

end Kitty
